import Mathlib

/-!
# Nucleus trade repository: extraction and reconstruction pipeline

A shallow embedding of `NucleusTradeRepository.go` (package `power`) and proofs about it.

Conventions of the embedding:

* Go strings are lists of characters (`Str`); `regexp` works on runes and the
  `strings` functions used here cut at ASCII bytes, so both agree on this view.
* `float64` values are only copied by the embedded code and are represented by rationals.
* `time.Time` is a civil UTC time (year, month, day, hour, minute, second, nanosecond).
* A Go `(value, error)` result is an `Except Fault value`; a run-time panic (nil
  dereference, index out of range) is the fault `Fault.panic`.
* A Go `map[int]V` is an association list with at most one entry per key.
* Pointers to header objects are positions in the list of allocated headers.
-/

namespace Nucleus

/-! ## Strings -/

/-- Model of a Go string: the sequence of its characters. -/
abbrev Str := List Char

/-- The call `strings.ReplaceAll(s, string(c), "")`: every occurrence of `c` is removed. -/
def removeAll (c : Char) (s : Str) : Str :=
  s.filter (fun x => decide (x ≠ c))

/-- The call `strings.Split(s, string(sep))`: the pieces between the separators, so a
string with `n` separators gives `n + 1` pieces and the empty string gives one empty piece. -/
def split (sep : Char) : Str → List Str
  | [] => [[]]
  | c :: cs =>
    if c = sep then [] :: split sep cs
    else
      match split sep cs with
      | [] => [[c]]
      | piece :: pieces => (c :: piece) :: pieces

/-! ## The formula pattern -/

/-- Elements of the patterns used by the repository: a literal rune, or `.+`, a greedy
repetition (one or more) of any rune other than newline. -/
inductive Item where
  | lit (c : Char)
  | dotPlus
  deriving DecidableEq, Repr

/-- The constant `formulaPattern = "\\[.+\\|.+\\|.+\\]"`. -/
def formulaPattern : List Item :=
  [Item.lit '[', Item.dotPlus, Item.lit '|', Item.dotPlus, Item.lit '|', Item.dotPlus,
   Item.lit ']']

/-- Match of a pattern anchored at the start of the input, with the preference order of
a backtracking search (`.+` first tries to take one more rune): the number of runes of
the preferred match, if there is one. -/
def matchHere : Str → List Item → Option Nat
  | _, [] => some 0
  | [], _ :: _ => none
  | x :: xs, Item.lit c :: items =>
    if x = c then (matchHere xs items).map (fun n => n + 1) else none
  | x :: xs, Item.dotPlus :: items =>
    if x = '\n' then none
    else
      match matchHere xs (Item.dotPlus :: items) with
      | some n => some (n + 1)
      | none => (matchHere xs items).map (fun n => n + 1)

/-- The method `(*regexp.Regexp).FindString`: the text of the leftmost match (among the
matches that start there, the one a backtracking search finds first), or the empty
string when there is no match. -/
def findString (p : List Item) : Str → Str
  | [] =>
    match matchHere [] p with
    | some n => List.take n []
    | none => []
  | x :: xs =>
    match matchHere (x :: xs) p with
    | some n => List.take n (x :: xs)
    | none => findString p xs

/-! ## Data model -/

/-- Civil UTC time, the model of `time.Time`. -/
structure Time where
  year : Nat
  month : Nat
  day : Nat
  hour : Nat
  minute : Nat
  second : Nat
  nanosecond : Nat
  deriving DecidableEq, Repr

/-- The zero value `time.Time{}`: January 1, year 1, 00:00:00 UTC. -/
def Time.zero : Time :=
  { year := 1, month := 1, day := 1, hour := 0, minute := 0, second := 0, nanosecond := 0 }

/-- Model of `float64` values, which the embedded code only copies. -/
abbrev Float64 := Rat

/-- The struct `nucleus.NucleusTradeIndexModel`. -/
structure NucleusTradeIndexModel where
  VolSeq : Int
  Publication : Str
  PubIndex : Str
  Frequency : Str
  deriving DecidableEq, Repr

/-- The zero value of `nucleus.NucleusTradeIndexModel`. -/
def NucleusTradeIndexModel.zero : NucleusTradeIndexModel :=
  { VolSeq := 0, Publication := [], PubIndex := [], Frequency := [] }

/-- The formula decoding block that the power-option, spread-option and emission
fetchers inline after their `Valid && String != ""` guard: the indexes appended to the
term's index slot (none, or one). -/
def decodeFormula (raw : Str) : List NucleusTradeIndexModel :=
  let formula := findString formulaPattern raw
  let formula := removeAll '[' formula
  let formula := removeAll ']' formula
  let formulaSections := split '|' formula
  match formulaSections with
  | [s0, s1, s2] =>
    [{ NucleusTradeIndexModel.zero with Publication := s0, PubIndex := s1, Frequency := s2 }]
  | _ => []

/-! ## Errors, results and row cursors -/

/-- A Go `error` value. -/
structure Error where
  msg : String
  deriving DecidableEq, Repr

/-- Abnormal ends of a call: an error returned to the caller, or a run-time panic. -/
inductive Fault where
  | error (e : Error)
  | panic
  deriving DecidableEq, Repr

instance instDecidableEqExcept {ε α : Type} [DecidableEq ε] [DecidableEq α] :
    DecidableEq (Except ε α)
  | Except.ok a, Except.ok b =>
    if h : a = b then isTrue (by rw [h]) else isFalse (fun h' => h (Except.ok.inj h'))
  | Except.error a, Except.error b =>
    if h : a = b then isTrue (by rw [h]) else isFalse (fun h' => h (Except.error.inj h'))
  | Except.ok _, Except.error _ => isFalse (fun h => Except.noConfusion h)
  | Except.error _, Except.ok _ => isFalse (fun h => Except.noConfusion h)

/-- A result set `*sql.Rows` of `database/sql`: the outcome of `rows.Scan` for each row
that `rows.Next` yields, the error with which the driver answers when the cursor is
closed, and the error that ended the iteration (`lasterr`; none when the rows ran out). -/
structure Rows (α : Type) where
  scanned : List (Except Error α)
  closeFailure : Option Error
  lastErr : Option Error

/-- The value of the explicit call `rows.Close()` that follows the loop `for rows.Next()`.
The call of `Next` that ends the loop has closed the cursor, and `Close` on a closed cursor
returns nil, whatever the driver answered. -/
def Rows.closeErr {α : Type} (_rows : Rows α) : Option Error :=
  none

/-- The value of `rows.Err()` after the loop: the error that ended the iteration, or else
the error with which the driver answered when the cursor was closed. -/
def Rows.err {α : Type} (rows : Rows α) : Option Error :=
  match rows.lastErr with
  | some e => some e
  | none => rows.closeFailure

/-- The loop `for rows.Next() { if err := rows.Scan(...); err != nil { return nil, err }; body }`. -/
def scanLoop {α σ : Type} (rows : Rows α) (init : σ) (body : σ → α → Except Fault σ) :
    Except Fault σ :=
  rows.scanned.foldlM
    (fun st r =>
      match r with
      | Except.ok a => body st a
      | Except.error e => Except.error (Fault.error e))
    init

/-! ## Maps -/

/-- A Go `map[int]V`: an association list with at most one entry per key. -/
abbrev GoMap (V : Type) := List (Int × V)

/-- Lookup `m[k]` with the `ok` flag: `none` when the key is absent. -/
def mapGet {V : Type} : GoMap V → Int → Option V
  | [], _ => none
  | (k', v) :: m, k => if k' = k then some v else mapGet m k

/-- Assignment `m[k] = v`. -/
def mapSet {V : Type} : GoMap V → Int → V → GoMap V
  | [], k, v => [(k, v)]
  | (k', v') :: m, k, v => if k' = k then (k, v) :: m else (k', v') :: mapSet m k v

/-- The statement `m[k] = append(m[k], v)` on a map of slices. -/
def mapAppend {V : Type} (m : GoMap (List V)) (k : Int) (v : V) : GoMap (List V) :=
  mapSet m k ((mapGet m k).getD [] ++ [v])

/-! ## Parsing of execution timestamps -/

/-- Elements of the `time` layouts used by the repository: literal text, `2006`, `01`,
`02`, `03`, `04`, `05` and `PM`. -/
inductive Chunk where
  | lit (text : Str)
  | stdLongYear
  | stdZeroMonth
  | stdZeroDay
  | stdZeroHour12
  | stdZeroMinute
  | stdZeroSecond
  | stdPM
  deriving DecidableEq, Repr

/-- The layout `"2006-01-02 03:04:05 PM"`. -/
def layoutIsoDateTime : List Chunk :=
  [Chunk.stdLongYear, Chunk.lit ['-'], Chunk.stdZeroMonth, Chunk.lit ['-'], Chunk.stdZeroDay,
   Chunk.lit [' '], Chunk.stdZeroHour12, Chunk.lit [':'], Chunk.stdZeroMinute, Chunk.lit [':'],
   Chunk.stdZeroSecond, Chunk.lit [' '], Chunk.stdPM]

/-- The layout `"01/02/2006 03:04:05 PM"`. -/
def layoutUsDateTime : List Chunk :=
  [Chunk.stdZeroMonth, Chunk.lit ['/'], Chunk.stdZeroDay, Chunk.lit ['/'], Chunk.stdLongYear,
   Chunk.lit [' '], Chunk.stdZeroHour12, Chunk.lit [':'], Chunk.stdZeroMinute, Chunk.lit [':'],
   Chunk.stdZeroSecond, Chunk.lit [' '], Chunk.stdPM]

/-- The layout `"2006-01-02"`. -/
def layoutIsoDate : List Chunk :=
  [Chunk.stdLongYear, Chunk.lit ['-'], Chunk.stdZeroMonth, Chunk.lit ['-'], Chunk.stdZeroDay]

/-- The layout `"01/02/2006"`. -/
def layoutUsDate : List Chunk :=
  [Chunk.stdZeroMonth, Chunk.lit ['/'], Chunk.stdZeroDay, Chunk.lit ['/'], Chunk.stdLongYear]

/-- The error of `time.Parse` for a value that does not fit the layout. -/
def errBad : Error := { msg := "parsing time: cannot parse value as layout" }

/-- The error of `time.Parse` for a field outside its range. -/
def errRange : Error := { msg := "parsing time: field out of range" }

/-- The error of `time.Parse` for text left over after the layout is used up. -/
def errExtraText : Error := { msg := "parsing time: extra text" }

/-- Whether a rune is an ASCII digit. -/
def isDigitChar (c : Char) : Bool := decide ('0'.toNat ≤ c.toNat) && decide (c.toNat ≤ '9'.toNat)

/-- Value of an ASCII digit. -/
def digitVal (c : Char) : Nat := c.toNat - '0'.toNat

/-- The helper `getnum(s, true)` of package `time`: exactly two digits. -/
def getnum2 : Str → Option (Nat × Str)
  | c0 :: c1 :: rest =>
    if isDigitChar c0 && isDigitChar c1 then some (digitVal c0 * 10 + digitVal c1, rest)
    else none
  | _ => none

/-- The four-digit year `2006` of package `time`. -/
def getYear4 : Str → Option (Nat × Str)
  | c0 :: c1 :: c2 :: c3 :: rest =>
    if isDigitChar c0 && isDigitChar c1 && isDigitChar c2 && isDigitChar c3 then
      some (digitVal c0 * 1000 + digitVal c1 * 100 + digitVal c2 * 10 + digitVal c3, rest)
    else none
  | _ => none

/-- The helper `cutspace` of package `time`: leading spaces are dropped. -/
def cutspace (s : Str) : Str := s.dropWhile (fun c => decide (c = ' '))

/-- The helper `skip(value, prefix)` of package `time`: the literal text of the layout is
removed from the value, a run of spaces in the layout standing for any run of spaces in
the value. The flag tells that the layout is inside a run of spaces already cut. -/
def skipFrom : Bool → Str → Str → Option Str
  | _, [], value => some value
  | inSpaces, p :: layoutText, value =>
    if p = ' ' then
      if inSpaces then skipFrom true layoutText value
      else
        match value with
        | [] => skipFrom true layoutText []
        | v :: vs => if v = ' ' then skipFrom true layoutText (cutspace (v :: vs)) else none
    else
      match value with
      | [] => none
      | v :: vs => if v = p then skipFrom false layoutText vs else none

/-- Fractional seconds that `time.Parse` accepts after the seconds although the layout
has none: a period or comma followed by digits; the nanoseconds and the remaining text. -/
def fractionalSecond (value : Str) : Nat × Str :=
  match value with
  | sepChar :: d :: rest =>
    if (sepChar = '.' ∨ sepChar = ',') ∧ isDigitChar d = true then
      let digits := (d :: rest).takeWhile isDigitChar
      let kept := digits.take 9
      let ns := kept.foldl (fun acc c => acc * 10 + digitVal c) 0
      (ns * 10 ^ (9 - kept.length), (d :: rest).dropWhile isDigitChar)
    else (0, value)
  | _ => (0, value)

/-- Days of a month, the helper `daysIn` of package `time`. -/
def daysIn (month year : Nat) : Nat :=
  if month = 2 then
    if year % 4 = 0 ∧ (year % 100 ≠ 0 ∨ year % 400 = 0) then 29 else 28
  else if month = 4 ∨ month = 6 ∨ month = 9 ∨ month = 11 then 30
  else 31

/-- Fields collected by `time.Parse` while it walks the layout. -/
structure ParsedFields where
  year : Nat
  month : Nat
  day : Nat
  hour : Nat
  minute : Nat
  second : Nat
  nanosecond : Nat
  pmSet : Bool
  amSet : Bool
  deriving DecidableEq, Repr

/-- One layout element of `time.Parse` applied to the rest of the value. -/
def parseChunk (f : ParsedFields) (value : Str) : Chunk → Except Error (ParsedFields × Str)
  | Chunk.lit text =>
    match skipFrom false text value with
    | some rest => Except.ok (f, rest)
    | none => Except.error errBad
  | Chunk.stdLongYear =>
    match getYear4 value with
    | some (y, rest) => Except.ok ({ f with year := y }, rest)
    | none => Except.error errBad
  | Chunk.stdZeroMonth =>
    match getnum2 value with
    | some (m, rest) =>
      if m = 0 ∨ 12 < m then Except.error errRange else Except.ok ({ f with month := m }, rest)
    | none => Except.error errBad
  | Chunk.stdZeroDay =>
    match getnum2 value with
    | some (d, rest) => Except.ok ({ f with day := d }, rest)
    | none => Except.error errBad
  | Chunk.stdZeroHour12 =>
    match getnum2 value with
    | some (h, rest) =>
      if 12 < h then Except.error errRange else Except.ok ({ f with hour := h }, rest)
    | none => Except.error errBad
  | Chunk.stdZeroMinute =>
    match getnum2 value with
    | some (m, rest) =>
      if 60 ≤ m then Except.error errRange else Except.ok ({ f with minute := m }, rest)
    | none => Except.error errBad
  | Chunk.stdZeroSecond =>
    match getnum2 value with
    | some (s, rest) =>
      if 60 ≤ s then Except.error errRange
      else
        let frac := fractionalSecond rest
        Except.ok ({ f with second := s, nanosecond := frac.1 }, frac.2)
    | none => Except.error errBad
  | Chunk.stdPM =>
    match value with
    | c0 :: c1 :: rest =>
      if c0 = 'P' ∧ c1 = 'M' then Except.ok ({ f with pmSet := true }, rest)
      else if c0 = 'A' ∧ c1 = 'M' then Except.ok ({ f with amSet := true }, rest)
      else Except.error errBad
    | _ => Except.error errBad

/-- The walk of `time.Parse` over the layout elements. -/
def parseChunks : List Chunk → ParsedFields → Str → Except Error (ParsedFields × Str)
  | [], f, value => Except.ok (f, value)
  | c :: cs, f, value =>
    match parseChunk f value c with
    | Except.ok (f', rest) => parseChunks cs f' rest
    | Except.error e => Except.error e

/-- Model of the standard library's `time.Parse(layout, value)` for the layout elements
above: all of the value must be used, `12 AM` is hour 0 and `PM` adds twelve hours, and
the day must exist in the month. The result is in UTC. -/
def timeParse (layout : List Chunk) (value : Str) : Except Error Time :=
  let start : ParsedFields :=
    { year := 0, month := 1, day := 1, hour := 0, minute := 0, second := 0, nanosecond := 0,
      pmSet := false, amSet := false }
  match parseChunks layout start value with
  | Except.error e => Except.error e
  | Except.ok (f, rest) =>
    if rest ≠ [] then Except.error errExtraText
    else
      let hour :=
        if f.pmSet ∧ f.hour < 12 then f.hour + 12
        else if f.amSet ∧ f.hour = 12 then 0
        else f.hour
      if f.day < 1 ∨ daysIn f.month f.year < f.day then Except.error errRange
      else
        Except.ok
          { year := f.year, month := f.month, day := f.day, hour := hour, minute := f.minute,
            second := f.second, nanosecond := f.nanosecond }

/-- The function `parseExecutionDateTime`. -/
def parseExecutionDateTime (executionDate executionTime : Str) : Except Error Time :=
  let executionDateString := (split ' ' executionDate).headD []
  let executionTimeString := executionDateString ++ [' '] ++ executionTime
  match timeParse layoutIsoDateTime executionTimeString with
  | Except.ok execTime => Except.ok execTime
  | Except.error _ =>
    match timeParse layoutUsDateTime executionTimeString with
    | Except.ok execTime => Except.ok execTime
    | Except.error err => Except.error err

/-- The function `parseExecutionDate`. -/
def parseExecutionDate (executionDate : Str) : Except Error Time :=
  match timeParse layoutIsoDate executionDate with
  | Except.ok execTime => Except.ok execTime
  | Except.error _ =>
    match timeParse layoutUsDate executionDate with
    | Except.ok execTime => Except.ok execTime
    | Except.error err => Except.error err

/-! ## Trade model -/

/-- The struct `nucleus.NucleusTradeTermModel`. -/
structure NucleusTradeTermModel where
  VolSeq : Int
  BegDate : Time
  EndDate : Time
  Pool1 : Str
  Product1 : Str
  PointCode1 : Str
  Pool2 : Str
  Product2 : Str
  HolidaySchedule : Str
  PointCode2 : Str
  Formula1 : Str
  Indexes1 : List NucleusTradeIndexModel
  Formula2 : Str
  Indexes2 : List NucleusTradeIndexModel
  PriceType : Str
  FixedPrice : Float64
  Volume : Float64
  deriving DecidableEq, Repr

/-- The zero value of `nucleus.NucleusTradeTermModel`. -/
def NucleusTradeTermModel.zero : NucleusTradeTermModel :=
  { VolSeq := 0, BegDate := Time.zero, EndDate := Time.zero, Pool1 := [], Product1 := [],
    PointCode1 := [], Pool2 := [], Product2 := [], HolidaySchedule := [], PointCode2 := [],
    Formula1 := [], Indexes1 := [], Formula2 := [], Indexes2 := [], PriceType := [],
    FixedPrice := 0, Volume := 0 }

/-- The struct `nucleus.NucleusTradeHeaderModel`. -/
structure NucleusTradeHeaderModel where
  DealKey : Int
  DealType : Str
  TotalQuantity : Float64
  TransactionDate : Time
  DnDirection : Str
  CyCompanyKey : Int
  CompanyCode : Str
  Company : Str
  CompanyLongName : Str
  HsHedgeKey : Str
  PrtPortfolio : Int
  Portfolio : Str
  UrTrader : Str
  CyBrokerKey : Int
  Broker : Str
  DaRtIndicator : Str
  TzTimeZone : Str
  TzExerciseZone : Str
  HasBroker : Str
  IbPrtPortfolio : Int
  IbPortfolio : Str
  IbUrTrader : Str
  ExercisedOptionKey : Int
  Contract : Str
  ConfirmFormat : Str
  CyLegalEntityKey : Int
  LegalEntity : Str
  LegalEntityLongName : Str
  Region : Str
  Terms : List NucleusTradeTermModel
  AnomalyTestResult : Str
  CreatedAt : Time
  ModifiedAt : Time
  CreatedBy : Str
  ModifiedBy : Str
  OptionType : Str
  ExecutionTime : Time
  ExoticFlag : Str
  InteraffiliateFlag : Str
  StartDate : Time
  EndDate : Time
  deriving DecidableEq, Repr

/-- The zero value of `nucleus.NucleusTradeHeaderModel`. -/
def NucleusTradeHeaderModel.zero : NucleusTradeHeaderModel :=
  { DealKey := 0, DealType := [], TotalQuantity := 0, TransactionDate := Time.zero,
    DnDirection := [], CyCompanyKey := 0, CompanyCode := [], Company := [],
    CompanyLongName := [], HsHedgeKey := [], PrtPortfolio := 0, Portfolio := [],
    UrTrader := [], CyBrokerKey := 0, Broker := [], DaRtIndicator := [], TzTimeZone := [],
    TzExerciseZone := [], HasBroker := [], IbPrtPortfolio := 0, IbPortfolio := [],
    IbUrTrader := [], ExercisedOptionKey := 0, Contract := [], ConfirmFormat := [],
    CyLegalEntityKey := 0, LegalEntity := [], LegalEntityLongName := [], Region := [],
    Terms := [], AnomalyTestResult := [], CreatedAt := Time.zero, ModifiedAt := Time.zero,
    CreatedBy := [], ModifiedBy := [], OptionType := [], ExecutionTime := Time.zero,
    ExoticFlag := [], InteraffiliateFlag := [], StartDate := Time.zero, EndDate := Time.zero }

/-- The execution-time block shared by the header fetchers: the timestamp is parsed only
when both columns are non-null and non-empty; otherwise the header keeps the given one. -/
def executionTimeOf (executionDate executionTime : Option Str) (current : Time) :
    Except Fault Time :=
  match executionDate, executionTime with
  | some d, some t =>
    if d ≠ [] ∧ t ≠ [] then
      match parseExecutionDateTime d t with
      | Except.ok execTime => Except.ok execTime
      | Except.error err => Except.error (Fault.error err)
    else Except.ok current
  | _, _ => Except.ok current

/-- The statement `p.Terms = append(p.Terms, term)` on the header object at pointer `p`;
a nil or dangling pointer panics. -/
def appendTermAt (heap : List NucleusTradeHeaderModel) (p : Nat) (term : NucleusTradeTermModel) :
    Except Fault (List NucleusTradeHeaderModel) :=
  match heap[p]? with
  | none => Except.error Fault.panic
  | some h => Except.ok (heap.set p { h with Terms := h.Terms ++ [term] })

/-! ## Power swaps -/

/-- The columns of one row of `getNucPowerSwapDealListQuery`, named after their scan
destinations; nullable destinations (`sql.NullString`, `sql.NullFloat64`,
`sql.NullInt32`) are options. -/
structure PowerSwapRow where
  DealKey : Int
  DealType : Str
  totalQuantity : Option Float64
  DnDirection : Str
  TransactionDate : Time
  CyCompanyKey : Int
  Company : Str
  CompanyLongName : Str
  CompanyCode : Str
  LegalEntity : Str
  LegalEntityLongName : Str
  CyLegalEntityKey : Int
  interaffiliateFlag : Option Str
  contract : Option Str
  confirmFormat : Option Str
  Region : Str
  hsHedgeKey : Option Str
  PrtPortfolio : Int
  Portfolio : Str
  UrTrader : Str
  ibPrtPortfolio : Option Int
  ibPortfolio : Option Str
  ibUrTrader : Option Str
  TzTimeZone : Str
  hasBroker : Option Str
  broker : Option Str
  optionKey : Option Int
  Pool1 : Str
  Product1 : Str
  Volume : Float64
  fixedPrice : Option Float64
  nonstdFlag : Str
  Publication : Str
  PubIndex : Str
  Frequency : Str
  fixPiPbPublication : Option Str
  fixPiPubIndex : Option Str
  fixFrqFrequency : Option Str
  StartDate : Time
  EndDate : Time
  HolidaySchedule : Str
  CreatedBy : Str
  CreatedAt : Time
  ModifiedBy : Str
  ModifiedAt : Time
  executionDate : Option Str
  executionTime : Option Str
  exoticFlag : Option Str
  deriving DecidableEq, Repr

/-- The term `pvModel` that the loop of `GetNucPowerSwapDealList` builds from a row
(before the assignment of `VolSeq` in the standard branch). -/
def powerSwapTermOfRow (r : PowerSwapRow) : NucleusTradeTermModel :=
  let idxModel : NucleusTradeIndexModel :=
    { NucleusTradeIndexModel.zero with
      Publication := r.Publication, PubIndex := r.PubIndex, Frequency := r.Frequency }
  let indexes2 : List NucleusTradeIndexModel :=
    match r.fixPiPbPublication, r.fixPiPubIndex, r.fixFrqFrequency with
    | some pub, some idx, some frq =>
      [{ NucleusTradeIndexModel.zero with Publication := pub, PubIndex := idx, Frequency := frq }]
    | _, _, _ => []
  { NucleusTradeTermModel.zero with
    Pool1 := r.Pool1, Product1 := r.Product1, Volume := r.Volume,
    HolidaySchedule := r.HolidaySchedule,
    FixedPrice := r.fixedPrice.getD 0,
    Indexes2 := indexes2,
    BegDate := r.StartDate, EndDate := r.EndDate,
    Indexes1 := [idxModel] }

/-- The header `headerModel` that the loop of `GetNucPowerSwapDealList` builds from a row
(before its terms are attached); a timestamp that does not parse is an error. -/
def powerSwapHeaderOfRow (r : PowerSwapRow) : Except Fault NucleusTradeHeaderModel :=
  match executionTimeOf r.executionDate r.executionTime Time.zero with
  | Except.error e => Except.error e
  | Except.ok execTime =>
    Except.ok
      { NucleusTradeHeaderModel.zero with
        DealKey := r.DealKey, DealType := r.DealType, DnDirection := r.DnDirection,
        TransactionDate := r.TransactionDate, CyCompanyKey := r.CyCompanyKey,
        Company := r.Company, CompanyLongName := r.CompanyLongName,
        CompanyCode := r.CompanyCode, LegalEntity := r.LegalEntity,
        LegalEntityLongName := r.LegalEntityLongName, CyLegalEntityKey := r.CyLegalEntityKey,
        Region := r.Region, PrtPortfolio := r.PrtPortfolio, Portfolio := r.Portfolio,
        UrTrader := r.UrTrader, TzTimeZone := r.TzTimeZone,
        StartDate := r.StartDate, EndDate := r.EndDate,
        CreatedBy := r.CreatedBy, CreatedAt := r.CreatedAt,
        ModifiedBy := r.ModifiedBy, ModifiedAt := r.ModifiedAt,
        TotalQuantity := r.totalQuantity.getD 0,
        InteraffiliateFlag := r.interaffiliateFlag.getD [],
        Contract := r.contract.getD [],
        ConfirmFormat := r.confirmFormat.getD [],
        HsHedgeKey := r.hsHedgeKey.getD [],
        IbPrtPortfolio := r.ibPrtPortfolio.getD 0,
        IbPortfolio := r.ibPortfolio.getD [],
        IbUrTrader := r.ibUrTrader.getD [],
        HasBroker := r.hasBroker.getD [],
        Broker := r.broker.getD [],
        ExercisedOptionKey := r.optionKey.getD 0,
        ExecutionTime := execTime,
        ExoticFlag := r.exoticFlag.getD [] }

/-- The local state of a header fetcher that correlates terms: the allocated header
objects in allocation order (`headerModels`, a pointer being a position in it), the maps
from deal key to header pointer and to initial term, and the collected keys. -/
structure FetchState where
  headerModels : List NucleusTradeHeaderModel
  headerModelsMap : GoMap Nat
  initialTermModelsMap : GoMap NucleusTradeTermModel
  dealKeys : List Int
  formulaDealKeys : List Int

/-- The state before the first row. -/
def FetchState.init : FetchState :=
  { headerModels := [], headerModelsMap := [], initialTermModelsMap := [], dealKeys := [],
    formulaDealKeys := [] }

/-- The body of the row loop of `GetNucPowerSwapDealList`, after the scan. -/
def powerSwapRowStep (st : FetchState) (r : PowerSwapRow) : Except Fault FetchState :=
  match powerSwapHeaderOfRow r with
  | Except.error e => Except.error e
  | Except.ok headerModel =>
    let pvModel := powerSwapTermOfRow r
    if r.nonstdFlag = ['N'] then
      Except.ok
        { st with
          headerModels :=
            st.headerModels ++ [{ headerModel with Terms := [{ pvModel with VolSeq := 0 }] }] }
    else
      Except.ok
        { st with
          initialTermModelsMap := mapSet st.initialTermModelsMap headerModel.DealKey pvModel
          headerModelsMap := mapSet st.headerModelsMap headerModel.DealKey st.headerModels.length
          dealKeys := st.dealKeys ++ [headerModel.DealKey]
          headerModels := st.headerModels ++ [headerModel] }

/-- The columns of one row of `getNucPowerSwapDealTermModelQuery`. -/
structure PowerSwapTermRow where
  dealKey : Int
  VolSeq : Int
  BegDate : Time
  EndDate : Time
  deriving DecidableEq, Repr

/-- The function `getNucPowerSwapDealTermModel`; `query` is the answer of the ledger
store to the term query for the given keys (a failure of `CreateInQueryInt` or of
`QueryContext` is an error answer). The check of `rows.Close()` returns the outer `err`,
which is nil there; after the loop `rows.Close()` is nil, and a failure of the driver to
close the cursor is reported by `rows.Err()`. -/
def getNucPowerSwapDealTermModel (query : List Int → Except Error (Rows PowerSwapTermRow))
    (dealKeys : List Int) : Except Fault (GoMap (List NucleusTradeTermModel)) :=
  if dealKeys.length = 0 then Except.ok []
  else
    match query dealKeys with
    | Except.error err => Except.error (Fault.error err)
    | Except.ok rows =>
      match scanLoop rows ([] : GoMap (List NucleusTradeTermModel))
          (fun termModelMap r =>
            Except.ok (mapAppend termModelMap r.dealKey
              { NucleusTradeTermModel.zero with
                VolSeq := r.VolSeq, BegDate := r.BegDate, EndDate := r.EndDate })) with
      | Except.error e => Except.error e
      | Except.ok termModelMap =>
        match rows.closeErr with
        | some _ => Except.ok []
        | none =>
          match rows.err with
          | some err => Except.error (Fault.error err)
          | none => Except.ok termModelMap

/-- The inner loop of the splice of `GetNucPowerSwapDealList` for one term: the fields of
the initial term are copied onto the term, which is appended to the header of its key. -/
def powerSwapSpliceTerm (st : FetchState) (dealKey : Int)
    (heap : List NucleusTradeHeaderModel) (termModel : NucleusTradeTermModel) :
    Except Fault (List NucleusTradeHeaderModel) :=
  match mapGet st.initialTermModelsMap dealKey with
  | none => Except.error Fault.panic
  | some initialTerm =>
    let termModel :=
      { termModel with
        Pool1 := initialTerm.Pool1, Product1 := initialTerm.Product1,
        Indexes1 := initialTerm.Indexes1, Indexes2 := initialTerm.Indexes2,
        HolidaySchedule := initialTerm.HolidaySchedule }
    match mapGet st.headerModelsMap dealKey with
    | none => Except.error Fault.panic
    | some p => appendTermAt heap p termModel

/-- The loop `for dealKey, termModels := range termModelsMap` of
`GetNucPowerSwapDealList`, over the entries of the map in the order given. -/
def powerSwapSplice (st : FetchState) (entries : GoMap (List NucleusTradeTermModel))
    (heap : List NucleusTradeHeaderModel) : Except Fault (List NucleusTradeHeaderModel) :=
  entries.foldlM
    (fun heap entry => entry.2.foldlM (powerSwapSpliceTerm st entry.1) heap)
    heap

/-- The function `GetNucPowerSwapDealList`; `primary` is the answer of the ledger store
to the primary query for the trade date and watermark, `termQuery` its answer to the term
query. -/
def GetNucPowerSwapDealList (primary : Except Error (Rows PowerSwapRow))
    (termQuery : List Int → Except Error (Rows PowerSwapTermRow)) :
    Except Fault (List NucleusTradeHeaderModel) :=
  match primary with
  | Except.error err => Except.error (Fault.error err)
  | Except.ok rows =>
    match scanLoop rows FetchState.init powerSwapRowStep with
    | Except.error e => Except.error e
    | Except.ok st =>
      match rows.closeErr with
      | some _ => Except.ok []
      | none =>
        match rows.err with
        | some err => Except.error (Fault.error err)
        | none =>
          if 0 < st.dealKeys.length then
            match getNucPowerSwapDealTermModel termQuery st.dealKeys with
            | Except.error e => Except.error e
            | Except.ok termModelsMap => powerSwapSplice st termModelsMap st.headerModels
          else Except.ok st.headerModels

/-! ## Capacity deals -/

/-- The columns of one row of `getNucCapacityDealListQuery`, named after their scan
destinations. -/
structure CapacityRow where
  DealKey : Int
  DealType : Str
  totalQuantity : Option Float64
  DnDirection : Str
  TransactionDate : Time
  CyCompanyKey : Int
  Company : Str
  CompanyLongName : Str
  CompanyCode : Str
  LegalEntity : Str
  LegalEntityLongName : Str
  CyLegalEntityKey : Int
  interaffiliateFlag : Option Str
  contract : Option Str
  confirmFormat : Option Str
  Region : Str
  hsHedgeKey : Option Str
  PrtPortfolio : Int
  Portfolio : Str
  UrTrader : Str
  TzTimeZone : Str
  hasBroker : Option Str
  broker : Option Str
  nonstdFlag : Str
  PriceType : Str
  charge : Option Float64
  Volume : Float64
  energyFormula : Option Str
  Pool1 : Str
  Product1 : Str
  PointCode1 : Str
  StartDate : Time
  EndDate : Time
  HolidaySchedule : Str
  CreatedBy : Str
  ModifiedBy : Str
  CreatedAt : Time
  ModifiedAt : Time
  executionDate : Option Str
  executionTime : Option Str
  deriving DecidableEq, Repr

/-- The term `pvModel` that the loop of `GetNucCapacityDealList` builds from a row. -/
def capacityTermOfRow (r : CapacityRow) : NucleusTradeTermModel :=
  { NucleusTradeTermModel.zero with
    PriceType := r.PriceType, Volume := r.Volume, Pool1 := r.Pool1, Product1 := r.Product1,
    PointCode1 := r.PointCode1, HolidaySchedule := r.HolidaySchedule,
    FixedPrice := r.charge.getD 0,
    BegDate := r.StartDate, EndDate := r.EndDate,
    Formula1 := r.energyFormula.getD [] }

/-- The header `headerModel` that the loop of `GetNucCapacityDealList` builds from a row
(before its terms are attached); a timestamp that does not parse is an error. -/
def capacityHeaderOfRow (r : CapacityRow) : Except Fault NucleusTradeHeaderModel :=
  match executionTimeOf r.executionDate r.executionTime Time.zero with
  | Except.error e => Except.error e
  | Except.ok execTime =>
    Except.ok
      { NucleusTradeHeaderModel.zero with
        DealKey := r.DealKey, DealType := r.DealType, DnDirection := r.DnDirection,
        TransactionDate := r.TransactionDate, CyCompanyKey := r.CyCompanyKey,
        Company := r.Company, CompanyLongName := r.CompanyLongName,
        CompanyCode := r.CompanyCode, LegalEntity := r.LegalEntity,
        LegalEntityLongName := r.LegalEntityLongName, CyLegalEntityKey := r.CyLegalEntityKey,
        Region := r.Region, PrtPortfolio := r.PrtPortfolio, Portfolio := r.Portfolio,
        UrTrader := r.UrTrader, TzTimeZone := r.TzTimeZone,
        StartDate := r.StartDate, EndDate := r.EndDate,
        CreatedBy := r.CreatedBy, ModifiedBy := r.ModifiedBy,
        CreatedAt := r.CreatedAt, ModifiedAt := r.ModifiedAt,
        TotalQuantity := r.totalQuantity.getD 0,
        InteraffiliateFlag := r.interaffiliateFlag.getD [],
        Contract := r.contract.getD [],
        ConfirmFormat := r.confirmFormat.getD [],
        HsHedgeKey := r.hsHedgeKey.getD [],
        HasBroker := r.hasBroker.getD [],
        Broker := r.broker.getD [],
        ExoticFlag := ['N', 'A'],
        ExecutionTime := execTime }

/-- The body of the row loop of `GetNucCapacityDealList`, after the scan. -/
def capacityRowStep (st : FetchState) (r : CapacityRow) : Except Fault FetchState :=
  match capacityHeaderOfRow r with
  | Except.error e => Except.error e
  | Except.ok headerModel =>
    let pvModel := capacityTermOfRow r
    let formulaDealKeys :=
      if r.energyFormula.isSome then st.formulaDealKeys ++ [headerModel.DealKey]
      else st.formulaDealKeys
    if r.nonstdFlag = ['N'] then
      Except.ok
        { st with
          formulaDealKeys := formulaDealKeys
          headerModels :=
            st.headerModels ++ [{ headerModel with Terms := [{ pvModel with VolSeq := 0 }] }] }
    else
      Except.ok
        { st with
          formulaDealKeys := formulaDealKeys
          initialTermModelsMap := mapSet st.initialTermModelsMap headerModel.DealKey pvModel
          headerModelsMap := mapSet st.headerModelsMap headerModel.DealKey st.headerModels.length
          dealKeys := st.dealKeys ++ [headerModel.DealKey]
          headerModels := st.headerModels ++ [headerModel] }

/-- The columns of one row of `getNucCapacityDealTermModelQuery`. -/
structure CapacityTermRow where
  dealKey : Int
  BegDate : Time
  EndDate : Time
  deriving DecidableEq, Repr

/-- The body of the row loop of `getNucCapacityDealTermModel`: the volume sequence of a
term is the number of terms already stored under its key. -/
def capacityTermStep (termModelMap : GoMap (List NucleusTradeTermModel)) (r : CapacityTermRow) :
    GoMap (List NucleusTradeTermModel) :=
  mapAppend termModelMap r.dealKey
    { NucleusTradeTermModel.zero with
      BegDate := r.BegDate, EndDate := r.EndDate,
      VolSeq := ((mapGet termModelMap r.dealKey).getD []).length }

/-- The function `getNucCapacityDealTermModel`; `query` is the answer of the ledger store
to the term query for the given keys. -/
def getNucCapacityDealTermModel (query : List Int → Except Error (Rows CapacityTermRow))
    (dealKeys : List Int) : Except Fault (GoMap (List NucleusTradeTermModel)) :=
  if dealKeys.length = 0 then Except.ok []
  else
    match query dealKeys with
    | Except.error err => Except.error (Fault.error err)
    | Except.ok rows =>
      match scanLoop rows ([] : GoMap (List NucleusTradeTermModel))
          (fun termModelMap r => Except.ok (capacityTermStep termModelMap r)) with
      | Except.error e => Except.error e
      | Except.ok termModelMap =>
        match rows.closeErr with
        | some _ => Except.ok []
        | none =>
          match rows.err with
          | some err => Except.error (Fault.error err)
          | none => Except.ok termModelMap

/-- The columns of one row of `getNucCapacityDealIndexModelQuery`. -/
structure CapacityIndexRow where
  dealKey : Int
  Publication : Str
  PubIndex : Str
  Frequency : Str
  deriving DecidableEq, Repr

/-- The body of the row loop of `getNucCapacityDealIndexModel`. -/
def capacityIndexStep (indexModelMap : GoMap (List NucleusTradeIndexModel))
    (r : CapacityIndexRow) : GoMap (List NucleusTradeIndexModel) :=
  mapAppend indexModelMap r.dealKey
    { Publication := r.Publication, PubIndex := r.PubIndex, Frequency := r.Frequency,
      VolSeq := ((mapGet indexModelMap r.dealKey).getD []).length }

/-- The function `getNucCapacityDealIndexModel`; `query` is the answer of the ledger
store to the index query for the given keys. -/
def getNucCapacityDealIndexModel (query : List Int → Except Error (Rows CapacityIndexRow))
    (dealKeys : List Int) : Except Fault (GoMap (List NucleusTradeIndexModel)) :=
  if dealKeys.length = 0 then Except.ok []
  else
    match query dealKeys with
    | Except.error err => Except.error (Fault.error err)
    | Except.ok rows =>
      match scanLoop rows ([] : GoMap (List NucleusTradeIndexModel))
          (fun indexModelMap r => Except.ok (capacityIndexStep indexModelMap r)) with
      | Except.error e => Except.error e
      | Except.ok indexModelMap =>
        match rows.closeErr with
        | some _ => Except.ok []
        | none =>
          match rows.err with
          | some err => Except.error (Fault.error err)
          | none => Except.ok indexModelMap

/-- The inner loop of the term splice of `GetNucCapacityDealList` for one term. -/
def capacitySpliceTerm (st : FetchState) (dealKey : Int)
    (heap : List NucleusTradeHeaderModel) (termModel : NucleusTradeTermModel) :
    Except Fault (List NucleusTradeHeaderModel) :=
  match mapGet st.initialTermModelsMap dealKey with
  | none => Except.error Fault.panic
  | some initialTerm =>
    let termModel :=
      { termModel with
        PriceType := initialTerm.PriceType, Pool1 := initialTerm.Pool1,
        Product1 := initialTerm.Product1, PointCode1 := initialTerm.PointCode1,
        HolidaySchedule := initialTerm.HolidaySchedule }
    match mapGet st.headerModelsMap dealKey with
    | none => Except.error Fault.panic
    | some p => appendTermAt heap p termModel

/-- The loop `for dealKey, termModels := range termModelsMap` of `GetNucCapacityDealList`,
over the entries of the map in the order given. -/
def capacitySplice (st : FetchState) (entries : GoMap (List NucleusTradeTermModel))
    (heap : List NucleusTradeHeaderModel) : Except Fault (List NucleusTradeHeaderModel) :=
  entries.foldlM
    (fun heap entry => entry.2.foldlM (capacitySpliceTerm st entry.1) heap)
    heap

/-- The statement `headerModelsMap[dealKey].Terms[0].Indexes1 = indexModels`: a key
without header and a header without term both panic. -/
def capacitySpliceIndex (st : FetchState) (heap : List NucleusTradeHeaderModel)
    (entry : Int × List NucleusTradeIndexModel) : Except Fault (List NucleusTradeHeaderModel) :=
  match mapGet st.headerModelsMap entry.1 with
  | none => Except.error Fault.panic
  | some p =>
    match heap[p]? with
    | none => Except.error Fault.panic
    | some h =>
      match h.Terms with
      | [] => Except.error Fault.panic
      | t :: ts => Except.ok (heap.set p { h with Terms := { t with Indexes1 := entry.2 } :: ts })

/-- The function `GetNucCapacityDealList`; `primary` is the answer of the ledger store to
the primary query, `termQuery` and `indexQuery` its answers to the term and index
queries. -/
def GetNucCapacityDealList (primary : Except Error (Rows CapacityRow))
    (termQuery : List Int → Except Error (Rows CapacityTermRow))
    (indexQuery : List Int → Except Error (Rows CapacityIndexRow)) :
    Except Fault (List NucleusTradeHeaderModel) :=
  match primary with
  | Except.error err => Except.error (Fault.error err)
  | Except.ok rows =>
    match scanLoop rows FetchState.init capacityRowStep with
    | Except.error e => Except.error e
    | Except.ok st =>
      match rows.closeErr with
      | some _ => Except.ok []
      | none =>
        match rows.err with
        | some err => Except.error (Fault.error err)
        | none =>
          let withTerms : Except Fault (List NucleusTradeHeaderModel) :=
            if 0 < st.dealKeys.length then
              match getNucCapacityDealTermModel termQuery st.dealKeys with
              | Except.error e => Except.error e
              | Except.ok termModelsMap => capacitySplice st termModelsMap st.headerModels
            else Except.ok st.headerModels
          match withTerms with
          | Except.error e => Except.error e
          | Except.ok heap =>
            if 0 < st.formulaDealKeys.length then
              match getNucCapacityDealIndexModel indexQuery st.formulaDealKeys with
              | Except.error e => Except.error e
              | Except.ok indexModelsMap => indexModelsMap.foldlM (capacitySpliceIndex st) heap
            else Except.ok heap

/-! ## Emission terms -/

/-- The columns of one row of `getNucEmissionDealListTermModelQuery`. -/
structure EmissionTermRow where
  dealKey : Int
  VolSeq : Int
  BegDate : Time
  EndDate : Time
  PriceType : Str
  FixedPrice : Float64
  Volume : Float64
  Product1 : Str
  ctpPointCode : Option Str
  formula : Option Str
  deriving DecidableEq, Repr

/-- The term `termModel` that the loop of `getNucEmissionDealListTermModel` builds from a
row; the formula is decoded when it is non-null and non-empty. -/
def emissionTermOfRow (r : EmissionTermRow) : NucleusTradeTermModel :=
  let base : NucleusTradeTermModel :=
    { NucleusTradeTermModel.zero with
      VolSeq := r.VolSeq, BegDate := r.BegDate, EndDate := r.EndDate,
      PriceType := r.PriceType, FixedPrice := r.FixedPrice, Volume := r.Volume,
      Product1 := r.Product1, PointCode1 := r.ctpPointCode.getD [] }
  match r.formula with
  | some formula =>
    if formula ≠ [] then
      { base with Formula1 := formula, Indexes1 := base.Indexes1 ++ decodeFormula formula }
    else base
  | none => base

/-- The body of the row loop of `getNucEmissionDealListTermModel`. -/
def emissionTermStep (termModelMap : GoMap (List NucleusTradeTermModel)) (r : EmissionTermRow) :
    GoMap (List NucleusTradeTermModel) :=
  mapAppend termModelMap r.dealKey (emissionTermOfRow r)

/-- The function `getNucEmissionDealListTermModel`; `query` is the answer of the ledger
store to the term query for the given keys. The pattern is a constant that compiles, so
`regexp.Compile` does not fail. -/
def getNucEmissionDealListTermModel (query : List Int → Except Error (Rows EmissionTermRow))
    (dealKeys : List Int) : Except Fault (GoMap (List NucleusTradeTermModel)) :=
  if dealKeys.length = 0 then Except.ok []
  else
    match query dealKeys with
    | Except.error err => Except.error (Fault.error err)
    | Except.ok rows =>
      match scanLoop rows ([] : GoMap (List NucleusTradeTermModel))
          (fun termModelMap r => Except.ok (emissionTermStep termModelMap r)) with
      | Except.error e => Except.error e
      | Except.ok termModelMap =>
        match rows.closeErr with
        | some _ => Except.ok []
        | none =>
          match rows.err with
          | some err => Except.error (Fault.error err)
          | none => Except.ok termModelMap

/-! ## Anomaly merge and upsert -/

/-- A finding, a value of the interface `common.IModelBasePayload` as `ProcessTrades`
observes it: the results of its three getters and the outcome of `json.Marshal` on it. -/
structure ModelBasePayload where
  ModelName : Str
  Message : Str
  ScoredLabel : Str
  marshalled : Except Error Str
  deriving DecidableEq

/-- The type `sql.NullString`; `none` is the value with `Valid: false`. -/
abbrev NullString := Option Str

/-- The struct `nucleusProcessedTradeType`. -/
structure nucleusProcessedTradeType where
  TradeId : Int
  DealType : Str
  PortfolioId : Int
  TransactionDate : Time
  TradeDetail : Str
  AnomalyDetectedFlag : Bool
  AnomalyTestResult : NullString
  ModelParameters : NullString
  deriving DecidableEq, Repr

/-- The extraction-run row, the struct `nucleus.NucleusTradeExtractionRunModel`. -/
structure NucleusTradeExtractionRunModel where
  ExtractionRunId : Int
  TransactionDate : Time
  DealType : Str
  TimeParameter : Time
  CreatedAt : Time
  deriving DecidableEq, Repr

/-- The analytics store as the repository uses it: the rows of the table
`dbo.NucleusTradeExtractionRun`, the next value of its run identifier, and the batches
passed to the upsert procedure, oldest first. -/
structure MachineLearningDb where
  extractionRuns : List NucleusTradeExtractionRunModel
  nextExtractionRunId : Int
  upsertCalls : List (List nucleusProcessedTradeType)
  deriving DecidableEq, Repr

/-- One step of the loop over the findings of a trade in `ProcessTrades`: a finding
labelled `"NO"` extends both texts; a finding that cannot be serialized ends the call. -/
def mergeFinding (acc : Str × Str) (result : ModelBasePayload) : Except Error (Str × Str) :=
  if result.ScoredLabel = ['N', 'O'] then
    let anomalyMsg :=
      if acc.1 = [] then result.ModelName ++ [' '] ++ result.Message
      else acc.1 ++ [';'] ++ result.ModelName ++ [' '] ++ result.Message
    match result.marshalled with
    | Except.error err => Except.error err
    | Except.ok vParams =>
      let modelParams := if acc.2 = [] then vParams else acc.2 ++ [';'] ++ vParams
      Except.ok (anomalyMsg, modelParams)
  else Except.ok acc

/-- The body of the loop over the trades in `ProcessTrades`: the payload row of one
trade; `jsonMarshal` is `json.Marshal` on a header. -/
def processedTradeOf (jsonMarshal : NucleusTradeHeaderModel → Except Error Str)
    (anomalyMessages : GoMap (List ModelBasePayload)) (trade : NucleusTradeHeaderModel) :
    Except Error nucleusProcessedTradeType :=
  let resultList := (mapGet anomalyMessages trade.DealKey).getD []
  match resultList.foldlM mergeFinding (([], []) : Str × Str) with
  | Except.error err => Except.error err
  | Except.ok (anomalyMsg, modelParams) =>
    match jsonMarshal trade with
    | Except.error err => Except.error err
    | Except.ok marshalledTrade =>
      Except.ok
        { TradeId := trade.DealKey
          DealType := trade.DealType
          PortfolioId := trade.PrtPortfolio
          TransactionDate := trade.TransactionDate
          TradeDetail := marshalledTrade
          AnomalyDetectedFlag := decide (anomalyMsg ≠ [])
          AnomalyTestResult := if anomalyMsg ≠ [] then some anomalyMsg else none
          ModelParameters := if modelParams ≠ [] then some modelParams else none }

/-- The function `ProcessTrades`: the returned error (`none` is nil) and the store after
the call. `execErr` is the answer of the store to the `Exec` of the upsert procedure, if
it is called. -/
def ProcessTrades (db : MachineLearningDb) (execErr : Option Error)
    (jsonMarshal : NucleusTradeHeaderModel → Except Error Str)
    (trades : List NucleusTradeHeaderModel) (anomalyMessages : GoMap (List ModelBasePayload)) :
    Option Error × MachineLearningDb :=
  if trades.length = 0 then (none, db)
  else
    match trades.mapM (processedTradeOf jsonMarshal anomalyMessages) with
    | Except.error err => (some err, db)
    | Except.ok nucleusProcessedTradeTypeData =>
      (execErr, { db with upsertCalls := db.upsertCalls ++ [nucleusProcessedTradeTypeData] })

/-! ## Watermarks -/

/-- The error `sql.ErrNoRows`. -/
def ErrNoRows : Error := { msg := "sql: no rows in result set" }

/-- Modelled from the spec: the declaration of the table `dbo.NucleusTradeExtractionRun`
is not part of the sources. Its run identifier is an internal identifier given by the
store on insert; it is the next value of a counter that only grows. -/
def newExtractionRunId (db : MachineLearningDb) : Int :=
  db.nextExtractionRunId

/-- The statement `insertExtractionRunQuery` on the table; `now` is the value of
`SYSUTCDATETIME()`. -/
def insertExtractionRunRow (db : MachineLearningDb) (now : Time) (transactionDate : Time)
    (dealType : Str) (timeParameter : Time) : MachineLearningDb :=
  { db with
    extractionRuns :=
      db.extractionRuns ++
        [{ ExtractionRunId := newExtractionRunId db, TransactionDate := transactionDate,
           DealType := dealType, TimeParameter := timeParameter, CreatedAt := now }]
    nextExtractionRunId := newExtractionRunId db + 1 }

/-- The greatest value of a list of integers, `MAX` of SQL; `none` on no rows. -/
def maxId : List Int → Option Int
  | [] => none
  | x :: xs =>
    match maxId xs with
    | none => some x
    | some m => some (max x m)

/-- The rows selected by `getLastExtractionRunQuery`: those of the date and deal type
whose run identifier is the greatest among the rows of that date and deal type. -/
def lastExtractionRunRows (db : MachineLearningDb) (transactionDate : Time) (dealType : Str) :
    List NucleusTradeExtractionRunModel :=
  let sel := db.extractionRuns.filter
    (fun r => decide (r.TransactionDate = transactionDate ∧ r.DealType = dealType))
  sel.filter (fun r => decide (some r.ExtractionRunId = maxId (sel.map fun x => x.ExtractionRunId)))

/-- The function `GetLastExtractionRun`; `storeErr` is the error, if any, with which the
store answers the query. `QueryRow.Scan` takes the first selected row and reports
`sql.ErrNoRows` when there is none, which is returned as `(nil, nil)`. -/
def GetLastExtractionRun (db : MachineLearningDb) (storeErr : Option Error)
    (tradeDate : Time) (dealType : Str) : Except Error (Option NucleusTradeExtractionRunModel) :=
  let scan : Except Error NucleusTradeExtractionRunModel :=
    match storeErr with
    | some err => Except.error err
    | none =>
      match lastExtractionRunRows db tradeDate dealType with
      | [] => Except.error ErrNoRows
      | extractionRun :: _ => Except.ok extractionRun
  match scan with
  | Except.error err => if err = ErrNoRows then Except.ok none else Except.error err
  | Except.ok extractionRun => Except.ok (some extractionRun)

/-- The function `InsertExtractionRun`: the returned error (`none` is nil) and the store
after the call; `storeErr` is the error, if any, with which the store answers, and then
no row is added. -/
def InsertExtractionRun (db : MachineLearningDb) (storeErr : Option Error) (now : Time)
    (tradeDate : Time) (lastRun : Time) (dealType : Str) : Option Error × MachineLearningDb :=
  match storeErr with
  | some err => (some err, db)
  | none => (none, insertExtractionRunRow db now tradeDate dealType lastRun)

/-- Order of two lists of numbers, the first difference deciding. -/
def lexLt : List Nat → List Nat → Bool
  | x :: xs, y :: ys => decide (x < y) || (decide (x = y) && lexLt xs ys)
  | _, _ => false

/-- The method `Time.Before` on civil UTC times. -/
def Time.Before (t u : Time) : Bool :=
  lexLt [t.year, t.month, t.day, t.hour, t.minute, t.second, t.nanosecond]
    [u.year, u.month, u.day, u.hour, u.minute, u.second, u.nanosecond]

/-! ## Predicates of the statements -/

/-- A segment of a well-formed bracketed triple: non-empty and free of brackets, pipes
and newlines. -/
def Segment (s : Str) : Prop :=
  s ≠ [] ∧ ∀ x ∈ s, x ≠ '[' ∧ x ≠ ']' ∧ x ≠ '|' ∧ x ≠ '\n'

instance instDecidableSegment (s : Str) : Decidable (Segment s) := by
  unfold Segment
  infer_instance

/-- Declarative meaning of a pattern: the words it matches. -/
def Matches : List Item → Str → Prop
  | [], w => w = []
  | Item.lit c :: items, w => ∃ w', w = c :: w' ∧ Matches items w'
  | Item.dotPlus :: items, w =>
    ∃ u w', u ≠ [] ∧ (∀ x ∈ u, x ≠ '\n') ∧ w = u ++ w' ∧ Matches items w'

/-- The findings map with every finding whose scored label differs from `"NO"` removed. -/
def keepFlagged (anomalyMessages : GoMap (List ModelBasePayload)) :
    GoMap (List ModelBasePayload) :=
  anomalyMessages.map
    (fun entry => (entry.1, entry.2.filter (fun r => decide (r.ScoredLabel = ['N', 'O']))))

/-- The store is well formed when the next run identifier is above those in the table. -/
def MachineLearningDb.WellFormed (db : MachineLearningDb) : Prop :=
  ∀ r ∈ db.extractionRuns, r.ExtractionRunId < db.nextExtractionRunId

instance instDecidableWellFormed (db : MachineLearningDb) : Decidable db.WellFormed := by
  unfold MachineLearningDb.WellFormed
  infer_instance

/-- The fields that the splice-back carries from the initial term of a header row to the
terms fetched for its key. -/
def SameInitialFields (t initialTerm : NucleusTradeTermModel) : Prop :=
  t.Pool1 = initialTerm.Pool1 ∧ t.Product1 = initialTerm.Product1 ∧
    t.PointCode1 = initialTerm.PointCode1 ∧ t.HolidaySchedule = initialTerm.HolidaySchedule

instance instDecidableSameInitialFields (t initialTerm : NucleusTradeTermModel) :
    Decidable (SameInitialFields t initialTerm) := by
  unfold SameInitialFields
  infer_instance

/-- The terms that the loop of `getNucCapacityDealTermModel` stores for the rows of one
key, in row order, when `n` terms are already stored under that key. -/
def capacityTermsFrom : Nat → List CapacityTermRow → List NucleusTradeTermModel
  | _, [] => []
  | n, r :: rs =>
    { NucleusTradeTermModel.zero with BegDate := r.BegDate, EndDate := r.EndDate, VolSeq := n } ::
      capacityTermsFrom (n + 1) rs

/-- The link between the maps of a fetcher and its header objects: `shadow` tells for
each header object, in allocation order, the initial term of its row when the row is
non-standard. Every key of the header map points to a non-standard header whose initial
term is the one stored for the key. -/
def MapsAgree (headerModelsMap : GoMap Nat) (initialTermModelsMap : GoMap NucleusTradeTermModel)
    (shadow : List (Option NucleusTradeTermModel)) : Prop :=
  ∀ (k : Int) (p : Nat), mapGet headerModelsMap k = some p →
    ∃ pv, shadow[p]? = some (some pv) ∧ mapGet initialTermModelsMap k = some pv

/-- The terms of every non-standard header object carry the fields of the initial term of
its row. -/
def TermsAgree (heap : List NucleusTradeHeaderModel)
    (shadow : List (Option NucleusTradeTermModel)) : Prop :=
  heap.length = shadow.length ∧
    ∀ (i : Nat) (h : NucleusTradeHeaderModel) (pv : NucleusTradeTermModel),
      heap[i]? = some h → shadow[i]? = some (some pv) →
        ∀ t ∈ h.Terms, SameInitialFields t pv

/-- For each power-swap row, the initial term of its header when the row is non-standard. -/
def powerSwapShadow (l : List PowerSwapRow) : List (Option NucleusTradeTermModel) :=
  l.map (fun r => if r.nonstdFlag = ['N'] then none else some (powerSwapTermOfRow r))

/-- For each capacity row, the initial term of its header when the row is non-standard. -/
def capacityShadow (l : List CapacityRow) : List (Option NucleusTradeTermModel) :=
  l.map (fun r => if r.nonstdFlag = ['N'] then none else some (capacityTermOfRow r))

/-! ## Sample rows -/

/-- A non-standard power-swap row. -/
def samplePowerSwapRow : PowerSwapRow :=
  { DealKey := 4001, DealType := "PSWPS".toList, totalQuantity := some 100,
    DnDirection := "PURCHASE".toList, TransactionDate := { Time.zero with year := 2022 },
    CyCompanyKey := 1601, Company := "PJM".toList, CompanyLongName := "PJM LLC".toList,
    CompanyCode := "PJM".toList, LegalEntity := "SENA".toList,
    LegalEntityLongName := "SENA LP".toList, CyLegalEntityKey := 10430,
    interaffiliateFlag := some ['N'], contract := none, confirmFormat := none,
    Region := "EAST".toList, hsHedgeKey := none, PrtPortfolio := 288,
    Portfolio := "SD".toList, UrTrader := "SROSS".toList, ibPrtPortfolio := none,
    ibPortfolio := none, ibUrTrader := none, TzTimeZone := "PPT".toList,
    hasBroker := some "NO".toList, broker := none, optionKey := none,
    Pool1 := "PJM".toList, Product1 := "STD ON".toList, Volume := 50, fixedPrice := some 3,
    nonstdFlag := ['Y'], Publication := "PJM DA LMP".toList, PubIndex := "4052".toList,
    Frequency := "HOURLY".toList, fixPiPbPublication := none, fixPiPubIndex := none,
    fixFrqFrequency := none, StartDate := { Time.zero with year := 2022, month := 6 },
    EndDate := { Time.zero with year := 2022, month := 7 },
    HolidaySchedule := "NERC".toList, CreatedBy := "SROSS".toList,
    CreatedAt := { Time.zero with year := 2022 }, ModifiedBy := "SROSS".toList,
    ModifiedAt := { Time.zero with year := 2022 },
    executionDate := some "2022-05-05".toList, executionTime := some "08:18:55 AM".toList,
    exoticFlag := some "NA".toList }

/-- Two term rows for the key of the sample power-swap row. -/
def samplePowerSwapTermRows : Rows PowerSwapTermRow :=
  { scanned :=
      [Except.ok { dealKey := 4001, VolSeq := 0,
                   BegDate := { Time.zero with year := 2022, month := 6 },
                   EndDate := { Time.zero with year := 2022, month := 6, day := 30 } },
       Except.ok { dealKey := 4001, VolSeq := 1,
                   BegDate := { Time.zero with year := 2022, month := 7 },
                   EndDate := { Time.zero with year := 2022, month := 7, day := 31 } }],
    closeFailure := none, lastErr := none }

/-- A non-standard capacity row without formula. -/
def sampleCapacityRow : CapacityRow :=
  { DealKey := 5001, DealType := "CAPCTY".toList, totalQuantity := none,
    DnDirection := "SALE".toList, TransactionDate := { Time.zero with year := 2022 },
    CyCompanyKey := 1601, Company := "PJM".toList, CompanyLongName := "PJM LLC".toList,
    CompanyCode := "PJM".toList, LegalEntity := "SENA".toList,
    LegalEntityLongName := "SENA LP".toList, CyLegalEntityKey := 10430,
    interaffiliateFlag := none, contract := none, confirmFormat := none,
    Region := "EAST".toList, hsHedgeKey := none, PrtPortfolio := 288,
    Portfolio := "SD".toList, UrTrader := "SROSS".toList, TzTimeZone := "PPT".toList,
    hasBroker := none, broker := none, nonstdFlag := ['Y'], PriceType := ['F'],
    charge := some 2, Volume := 10, energyFormula := none, Pool1 := "ERCOT".toList,
    Product1 := "ANNUAL".toList, PointCode1 := "HB_NORTH".toList,
    StartDate := { Time.zero with year := 2022, month := 6 },
    EndDate := { Time.zero with year := 2022, month := 7 },
    HolidaySchedule := "NERC".toList, CreatedBy := "SROSS".toList,
    ModifiedBy := "SROSS".toList, CreatedAt := { Time.zero with year := 2022 },
    ModifiedAt := { Time.zero with year := 2022 }, executionDate := none,
    executionTime := none }

/-- Two term rows for the key of the sample capacity row. -/
def sampleCapacityTermRows : Rows CapacityTermRow :=
  { scanned :=
      [Except.ok { dealKey := 5001,
                   BegDate := { Time.zero with year := 2022, month := 6 },
                   EndDate := { Time.zero with year := 2022, month := 6, day := 30 } },
       Except.ok { dealKey := 5001,
                   BegDate := { Time.zero with year := 2022, month := 7 },
                   EndDate := { Time.zero with year := 2022, month := 7, day := 31 } }],
    closeFailure := none, lastErr := none }

/-- The headers of a result, none on a failure. -/
def headersOf (result : Except Fault (List NucleusTradeHeaderModel)) :
    List NucleusTradeHeaderModel :=
  match result with
  | Except.ok headers => headers
  | Except.error _ => []

/-! ## Statements on the anomaly merge -/

/-- The pieces of the anomaly text of a findings list: model name, a blank and message of
each finding labelled `"NO"`, in the order of the list. -/
def anomalyPieces (resultList : List ModelBasePayload) : List Str :=
  (resultList.filter (fun r => decide (r.ScoredLabel = ['N', 'O']))).map
    (fun r => r.ModelName ++ [' '] ++ r.Message)

instance instDecidableIsOk {ε α : Type} (x : Except ε α) : Decidable (∃ p, x = Except.ok p) :=
  match x with
  | Except.ok p => isTrue ⟨p, rfl⟩
  | Except.error _ => isFalse (fun h => h.elim (fun _ hp => Except.noConfusion hp))

/-- No finding labelled `"NO"` of the list fails to serialize. -/
def FindingsSerialize (resultList : List ModelBasePayload) : Prop :=
  ∀ r ∈ resultList, r.ScoredLabel = ['N', 'O'] → ∃ p, r.marshalled = Except.ok p

instance instDecidableFindingsSerialize (resultList : List ModelBasePayload) :
    Decidable (FindingsSerialize resultList) := by
  unfold FindingsSerialize
  infer_instance

/-- A header with deal key 7, for the examples of the anomaly merge. -/
def sampleTrade : NucleusTradeHeaderModel :=
  { NucleusTradeHeaderModel.zero with
    DealKey := 7, DealType := "PWRNSD".toList, PrtPortfolio := 288 }

/-- A second header, with deal key 8. -/
def sampleTrade2 : NucleusTradeHeaderModel :=
  { NucleusTradeHeaderModel.zero with
    DealKey := 8, DealType := "PWRNSD".toList, PrtPortfolio := 301 }

/-- Findings for deal key 7: two labelled `"NO"` around one labelled `"YES"`. -/
def sampleFindings : GoMap (List ModelBasePayload) :=
  [(7, [{ ModelName := "M1".toList, Message := "a".toList, ScoredLabel := "NO".toList,
          marshalled := Except.ok "p1".toList },
        { ModelName := "M2".toList, Message := "b".toList, ScoredLabel := "YES".toList,
          marshalled := Except.ok "p2".toList },
        { ModelName := "M3".toList, Message := "c".toList, ScoredLabel := "NO".toList,
          marshalled := Except.ok "p3".toList }])]

/-- A serializer of headers that fails on deal key 8 only. -/
def sampleMarshal (trade : NucleusTradeHeaderModel) : Except Error Str :=
  if trade.DealKey = 8 then Except.error { msg := "json: unsupported value" }
  else Except.ok "{}".toList

/-- An analytics store with no run and no upsert call. -/
def emptyDb : MachineLearningDb :=
  { extractionRuns := [], nextExtractionRunId := 1, upsertCalls := [] }

/-! ## Power deals -/

/-- The columns of one row of `getNucPowerDealListQuery`, named after their scan
destinations. -/
structure PowerRow where
  DealKey : Int
  DealType : Str
  DnDirection : Str
  TransactionDate : Time
  CyCompanyKey : Int
  Company : Str
  CompanyLongName : Str
  CompanyCode : Str
  LegalEntity : Str
  LegalEntityLongName : Str
  CyLegalEntityKey : Int
  contract : Option Str
  confirmFormat : Option Str
  Region : Str
  hsHedgeKey : Option Str
  PrtPortfolio : Int
  Portfolio : Str
  UrTrader : Str
  TzTimeZone : Str
  hasBroker : Option Str
  broker : Option Str
  optionKey : Option Int
  CreatedBy : Str
  CreatedAt : Time
  ModifiedBy : Str
  ModifiedAt : Time
  executionDate : Option Str
  executionTime : Option Str
  exoticFlag : Option Str
  deriving DecidableEq, Repr

/-- The header `headerModel` that the loop of `GetNucPowerDealList` builds from a row; a
timestamp that does not parse is an error. -/
def powerHeaderOfRow (r : PowerRow) : Except Fault NucleusTradeHeaderModel :=
  match executionTimeOf r.executionDate r.executionTime Time.zero with
  | Except.error e => Except.error e
  | Except.ok execTime =>
    Except.ok
      { NucleusTradeHeaderModel.zero with
        DealKey := r.DealKey, DealType := r.DealType, DnDirection := r.DnDirection,
        TransactionDate := r.TransactionDate, CyCompanyKey := r.CyCompanyKey,
        Company := r.Company, CompanyLongName := r.CompanyLongName,
        CompanyCode := r.CompanyCode, LegalEntity := r.LegalEntity,
        LegalEntityLongName := r.LegalEntityLongName, CyLegalEntityKey := r.CyLegalEntityKey,
        Region := r.Region, PrtPortfolio := r.PrtPortfolio, Portfolio := r.Portfolio,
        UrTrader := r.UrTrader, TzTimeZone := r.TzTimeZone,
        CreatedBy := r.CreatedBy, CreatedAt := r.CreatedAt,
        ModifiedBy := r.ModifiedBy, ModifiedAt := r.ModifiedAt,
        Contract := r.contract.getD [],
        ConfirmFormat := r.confirmFormat.getD [],
        HsHedgeKey := r.hsHedgeKey.getD [],
        HasBroker := r.hasBroker.getD [],
        Broker := r.broker.getD [],
        ExercisedOptionKey := r.optionKey.getD 0,
        ExecutionTime := execTime,
        ExoticFlag := r.exoticFlag.getD [],
        InteraffiliateFlag := ['N'] }

/-- The body of the row loop of `GetNucPowerDealList`, after the scan. -/
def powerRowStep (st : FetchState) (r : PowerRow) : Except Fault FetchState :=
  match powerHeaderOfRow r with
  | Except.error e => Except.error e
  | Except.ok headerModel =>
    Except.ok
      { st with
        dealKeys := st.dealKeys ++ [headerModel.DealKey]
        headerModelsMap := mapSet st.headerModelsMap headerModel.DealKey st.headerModels.length
        headerModels := st.headerModels ++ [headerModel] }

/-- The columns of one row of `getNucPowerTradeTermModelQuery`. -/
structure PowerTermRow where
  powerKey : Int
  VolSeq : Int
  BegDate : Time
  EndDate : Time
  PriceType : Str
  FixedPrice : Float64
  Volume : Float64
  Pool1 : Str
  Product1 : Str
  PointCode1 : Str
  formula : Option Str
  HolidaySchedule : Str
  deriving DecidableEq, Repr

/-- The columns of one row of `getNucPowerTradeIndexModelQuery`. -/
structure PowerIndexRow where
  dealKey : Int
  VolSeq : Int
  Publication : Str
  PubIndex : Str
  Frequency : Str
  deriving DecidableEq, Repr

/-- The function `getNucPowerTradeIndexModel`; `query` is the answer of the ledger store
to the index query built from the formula map. -/
def getNucPowerTradeIndexModel (query : GoMap Int → Except Error (Rows PowerIndexRow))
    (formulaMap : GoMap Int) : Except Fault (GoMap (List NucleusTradeIndexModel)) :=
  if formulaMap.length = 0 then Except.ok []
  else
    match query formulaMap with
    | Except.error err => Except.error (Fault.error err)
    | Except.ok rows =>
      match scanLoop rows ([] : GoMap (List NucleusTradeIndexModel))
          (fun insNumResult r =>
            Except.ok (mapAppend insNumResult r.dealKey
              { VolSeq := r.VolSeq, Publication := r.Publication, PubIndex := r.PubIndex,
                Frequency := r.Frequency })) with
      | Except.error e => Except.error e
      | Except.ok insNumResult =>
        match rows.closeErr with
        | some _ => Except.ok []
        | none =>
          match rows.err with
          | some err => Except.error (Fault.error err)
          | none => Except.ok insNumResult

/-- The term `termModel` that the loop of `getNucPowerDealTradeTermModel` builds from a
row. -/
def powerTermOfRow (r : PowerTermRow) : NucleusTradeTermModel :=
  { NucleusTradeTermModel.zero with
    VolSeq := r.VolSeq, BegDate := r.BegDate, EndDate := r.EndDate, PriceType := r.PriceType,
    FixedPrice := r.FixedPrice, Volume := r.Volume, Pool1 := r.Pool1, Product1 := r.Product1,
    PointCode1 := r.PointCode1, HolidaySchedule := r.HolidaySchedule,
    Formula1 :=
      match r.formula with
      | some formula => if formula ≠ [] then formula else []
      | none => [] }

/-- The body of the row loop of `getNucPowerDealTradeTermModel`: the state is the term
map and the formula map. -/
def powerTermStep (st : GoMap (List NucleusTradeTermModel) × GoMap Int) (r : PowerTermRow) :
    GoMap (List NucleusTradeTermModel) × GoMap Int :=
  let formulaMap :=
    match r.formula with
    | some formula => if formula ≠ [] then mapSet st.2 r.powerKey r.VolSeq else st.2
    | none => st.2
  (mapAppend st.1 r.powerKey (powerTermOfRow r), formulaMap)

/-- The innermost loop of the index splice of `getNucPowerDealTradeTermModel`: an index
is appended to every term of its deal key that has its volume sequence. -/
def powerAttachIndex (termModels : GoMap (List NucleusTradeTermModel)) (dealKey : Int)
    (indexModel : NucleusTradeIndexModel) : GoMap (List NucleusTradeTermModel) :=
  match mapGet termModels dealKey with
  | some terms =>
    mapSet termModels dealKey
      (terms.map (fun termModel =>
        if termModel.VolSeq = indexModel.VolSeq then
          { termModel with Indexes1 := termModel.Indexes1 ++ [indexModel] }
        else termModel))
  | none => termModels

/-- The loop `for dealKey, indexModels := range indexModelsMap` of
`getNucPowerDealTradeTermModel`, over the entries of the map in the order given. -/
def powerAttachIndexes (termModels : GoMap (List NucleusTradeTermModel))
    (indexModelsMap : GoMap (List NucleusTradeIndexModel)) :
    GoMap (List NucleusTradeTermModel) :=
  indexModelsMap.foldl
    (fun tm entry => entry.2.foldl (fun tm indexModel => powerAttachIndex tm entry.1 indexModel) tm)
    termModels

/-- The function `getNucPowerDealTradeTermModel`; `termQuery` and `indexQuery` are the
answers of the ledger store to the term query and to the index query. -/
def getNucPowerDealTradeTermModel (termQuery : List Int → Except Error (Rows PowerTermRow))
    (indexQuery : GoMap Int → Except Error (Rows PowerIndexRow)) (dealKeys : List Int) :
    Except Fault (GoMap (List NucleusTradeTermModel)) :=
  if dealKeys.length = 0 then Except.ok []
  else
    match termQuery dealKeys with
    | Except.error err => Except.error (Fault.error err)
    | Except.ok rows =>
      match scanLoop rows (([], []) : GoMap (List NucleusTradeTermModel) × GoMap Int)
          (fun st r => Except.ok (powerTermStep st r)) with
      | Except.error e => Except.error e
      | Except.ok st =>
        match rows.closeErr with
        | some _ => Except.ok []
        | none =>
          match rows.err with
          | some err => Except.error (Fault.error err)
          | none =>
            match getNucPowerTradeIndexModel indexQuery st.2 with
            | Except.error e => Except.error e
            | Except.ok indexModelsMap => Except.ok (powerAttachIndexes st.1 indexModelsMap)

/-- The statement `p.Terms = terms` on the header object at pointer `p`; a nil or
dangling pointer panics. -/
def setTermsAt (heap : List NucleusTradeHeaderModel) (p : Nat)
    (terms : List NucleusTradeTermModel) : Except Fault (List NucleusTradeHeaderModel) :=
  match heap[p]? with
  | none => Except.error Fault.panic
  | some h => Except.ok (heap.set p { h with Terms := terms })

/-- The loop `for index := range headerModelsMap` of `GetNucPowerDealList`, over the
entries of the header map in the order given: each header gets the terms of its key, no
term when the key has none. -/
def powerAttachTerms (termModelsMap : GoMap (List NucleusTradeTermModel))
    (entries : GoMap Nat) (heap : List NucleusTradeHeaderModel) :
    Except Fault (List NucleusTradeHeaderModel) :=
  entries.foldlM
    (fun heap entry => setTermsAt heap entry.2 ((mapGet termModelsMap entry.1).getD []))
    heap

/-- The function `GetNucPowerDealList`; `primary`, `termQuery` and `indexQuery` are the
answers of the ledger store to the primary, term and index queries. -/
def GetNucPowerDealList (primary : Except Error (Rows PowerRow))
    (termQuery : List Int → Except Error (Rows PowerTermRow))
    (indexQuery : GoMap Int → Except Error (Rows PowerIndexRow)) :
    Except Fault (List NucleusTradeHeaderModel) :=
  match primary with
  | Except.error err => Except.error (Fault.error err)
  | Except.ok rows =>
    match scanLoop rows FetchState.init powerRowStep with
    | Except.error e => Except.error e
    | Except.ok st =>
      match rows.closeErr with
      | some _ => Except.ok []
      | none =>
        match rows.err with
        | some err => Except.error (Fault.error err)
        | none =>
          if 0 < st.dealKeys.length then
            match getNucPowerDealTradeTermModel termQuery indexQuery st.dealKeys with
            | Except.error e => Except.error e
            | Except.ok termModelsMap =>
              powerAttachTerms termModelsMap st.headerModelsMap st.headerModels
          else Except.ok st.headerModels

/-! ## Point-to-point deals -/

/-- The columns of one row of `getNucPTPDealListQuery`, named after their scan
destinations; the columns of the second index carry the suffix 2. -/
structure PTPRow where
  DealKey : Int
  DealType : Str
  DnDirection : Str
  TransactionDate : Time
  CyCompanyKey : Int
  Company : Str
  CompanyLongName : Str
  CompanyCode : Str
  LegalEntity : Str
  LegalEntityLongName : Str
  CyLegalEntityKey : Int
  contract : Option Str
  confirmFormat : Option Str
  Region : Str
  hsHedgeKey : Option Str
  PrtPortfolio : Int
  Portfolio : Str
  UrTrader : Str
  TzTimeZone : Str
  hasBroker : Option Str
  broker : Option Str
  BegDate : Time
  Pool1 : Str
  Product1 : Str
  Publication : Str
  PubIndex : Str
  Publication2 : Str
  PubIndex2 : Str
  CreatedBy : Str
  ModifiedBy : Str
  CreatedAt : Time
  ModifiedAt : Time
  deriving DecidableEq, Repr

/-- The header that the loop of `GetNucPTPDealList` builds from a row, with its single
term. -/
def ptpHeaderOfRow (r : PTPRow) : NucleusTradeHeaderModel :=
  let idxModel : NucleusTradeIndexModel :=
    { NucleusTradeIndexModel.zero with
      Publication := r.Publication, PubIndex := r.PubIndex, Frequency := "HOURLY".toList }
  let idxModel2 : NucleusTradeIndexModel :=
    { NucleusTradeIndexModel.zero with
      Publication := r.Publication2, PubIndex := r.PubIndex2, Frequency := "HOURLY".toList }
  let pvModel : NucleusTradeTermModel :=
    { NucleusTradeTermModel.zero with
      BegDate := r.BegDate, Pool1 := r.Pool1, Product1 := r.Product1, EndDate := r.BegDate,
      VolSeq := 0, Indexes1 := [idxModel], Indexes2 := [idxModel2] }
  { NucleusTradeHeaderModel.zero with
    DealKey := r.DealKey, DealType := r.DealType, DnDirection := r.DnDirection,
    TransactionDate := r.TransactionDate, CyCompanyKey := r.CyCompanyKey,
    Company := r.Company, CompanyLongName := r.CompanyLongName,
    CompanyCode := r.CompanyCode, LegalEntity := r.LegalEntity,
    LegalEntityLongName := r.LegalEntityLongName, CyLegalEntityKey := r.CyLegalEntityKey,
    Region := r.Region, PrtPortfolio := r.PrtPortfolio, Portfolio := r.Portfolio,
    UrTrader := r.UrTrader, TzTimeZone := r.TzTimeZone,
    CreatedBy := r.CreatedBy, ModifiedBy := r.ModifiedBy,
    CreatedAt := r.CreatedAt, ModifiedAt := r.ModifiedAt,
    Contract := r.contract.getD [],
    ConfirmFormat := r.confirmFormat.getD [],
    HsHedgeKey := r.hsHedgeKey.getD [],
    HasBroker := r.hasBroker.getD [],
    Broker := r.broker.getD [],
    InteraffiliateFlag := ['N'],
    Terms := [pvModel] }

/-- The function `GetNucPTPDealList`; `primary` is the answer of the ledger store to the
primary query. -/
def GetNucPTPDealList (primary : Except Error (Rows PTPRow)) :
    Except Fault (List NucleusTradeHeaderModel) :=
  match primary with
  | Except.error err => Except.error (Fault.error err)
  | Except.ok rows =>
    match scanLoop rows ([] : List NucleusTradeHeaderModel)
        (fun headerModels r => Except.ok (headerModels ++ [ptpHeaderOfRow r])) with
    | Except.error e => Except.error e
    | Except.ok headerModels =>
      match rows.closeErr with
      | some _ => Except.ok []
      | none =>
        match rows.err with
        | some err => Except.error (Fault.error err)
        | none => Except.ok headerModels

/-! ## Misc charges -/

/-- The columns of one row of `getNucMiscChargeDealListQuery`, named after their scan
destinations. -/
structure MiscChargeRow where
  DealKey : Int
  DealType : Str
  DnDirection : Str
  TransactionDate : Time
  CyCompanyKey : Int
  Company : Str
  CompanyLongName : Str
  CompanyCode : Str
  LegalEntity : Str
  LegalEntityLongName : Str
  CyLegalEntityKey : Int
  contract : Option Str
  confirmFormat : Option Str
  region : Option Str
  hsHedgeKey : Option Str
  PrtPortfolio : Int
  Portfolio : Str
  UrTrader : Str
  tzTimeZone : Option Str
  hasBroker : Option Str
  broker : Option Str
  CreatedBy : Str
  ModifiedBy : Str
  CreatedAt : Time
  ModifiedAt : Time
  deriving DecidableEq, Repr

/-- The header that the loop of `GetNucMiscChargeDealList` builds from a row, before its
terms are attached. -/
def miscChargeHeaderOfRow (r : MiscChargeRow) : NucleusTradeHeaderModel :=
  { NucleusTradeHeaderModel.zero with
    DealKey := r.DealKey, DealType := r.DealType, DnDirection := r.DnDirection,
    TransactionDate := r.TransactionDate, CyCompanyKey := r.CyCompanyKey,
    Company := r.Company, CompanyLongName := r.CompanyLongName,
    CompanyCode := r.CompanyCode, LegalEntity := r.LegalEntity,
    LegalEntityLongName := r.LegalEntityLongName, CyLegalEntityKey := r.CyLegalEntityKey,
    PrtPortfolio := r.PrtPortfolio, Portfolio := r.Portfolio, UrTrader := r.UrTrader,
    CreatedBy := r.CreatedBy, ModifiedBy := r.ModifiedBy,
    CreatedAt := r.CreatedAt, ModifiedAt := r.ModifiedAt,
    Contract := r.contract.getD [],
    ConfirmFormat := r.confirmFormat.getD [],
    Region := r.region.getD [],
    HsHedgeKey := r.hsHedgeKey.getD [],
    TzTimeZone := r.tzTimeZone.getD [],
    HasBroker := r.hasBroker.getD [],
    Broker := r.broker.getD [],
    InteraffiliateFlag := ['N'] }

/-- The body of the row loop of `GetNucMiscChargeDealList`, after the scan. -/
def miscChargeRowStep (st : FetchState) (r : MiscChargeRow) : FetchState :=
  { st with
    dealKeys := st.dealKeys ++ [r.DealKey]
    headerModelsMap := mapSet st.headerModelsMap r.DealKey st.headerModels.length
    headerModels := st.headerModels ++ [miscChargeHeaderOfRow r] }

/-- The columns of one row of `getNucMiscChargeDealTermListQuery`. -/
structure MiscChargeTermRow where
  dealKey : Int
  VolSeq : Int
  BegDate : Time
  EndDate : Time
  Volume : Float64
  deriving DecidableEq, Repr

/-- The function `getNucMiscChargeDealTermList`; `query` is the answer of the ledger
store to the term query for the given keys. -/
def getNucMiscChargeDealTermList (query : List Int → Except Error (Rows MiscChargeTermRow))
    (dealKeys : List Int) : Except Fault (GoMap (List NucleusTradeTermModel)) :=
  if dealKeys.length = 0 then Except.ok []
  else
    match query dealKeys with
    | Except.error err => Except.error (Fault.error err)
    | Except.ok rows =>
      match scanLoop rows ([] : GoMap (List NucleusTradeTermModel))
          (fun termModels r =>
            Except.ok (mapAppend termModels r.dealKey
              { NucleusTradeTermModel.zero with
                VolSeq := r.VolSeq, BegDate := r.BegDate, EndDate := r.EndDate,
                Volume := r.Volume })) with
      | Except.error e => Except.error e
      | Except.ok termModels =>
        match rows.closeErr with
        | some _ => Except.ok []
        | none =>
          match rows.err with
          | some err => Except.error (Fault.error err)
          | none => Except.ok termModels

/-- The statement `headerModelsMap[dealKey].Terms = termModels` of the fetchers that
replace the term list of a header: a key without header panics. -/
def replaceTermsOfKey (headerModelsMap : GoMap Nat) (heap : List NucleusTradeHeaderModel)
    (entry : Int × List NucleusTradeTermModel) : Except Fault (List NucleusTradeHeaderModel) :=
  match mapGet headerModelsMap entry.1 with
  | none => Except.error Fault.panic
  | some p => setTermsAt heap p entry.2

/-- The function `GetNucMiscChargeDealList`; `primary` and `termQuery` are the answers of
the ledger store to the primary and term queries. -/
def GetNucMiscChargeDealList (primary : Except Error (Rows MiscChargeRow))
    (termQuery : List Int → Except Error (Rows MiscChargeTermRow)) :
    Except Fault (List NucleusTradeHeaderModel) :=
  match primary with
  | Except.error err => Except.error (Fault.error err)
  | Except.ok rows =>
    match scanLoop rows FetchState.init (fun st r => Except.ok (miscChargeRowStep st r)) with
    | Except.error e => Except.error e
    | Except.ok st =>
      match rows.closeErr with
      | some _ => Except.ok []
      | none =>
        match rows.err with
        | some err => Except.error (Fault.error err)
        | none =>
          if 0 < st.dealKeys.length then
            match getNucMiscChargeDealTermList termQuery st.dealKeys with
            | Except.error e => Except.error e
            | Except.ok termModelsMap =>
              termModelsMap.foldlM (replaceTermsOfKey st.headerModelsMap) st.headerModels
          else Except.ok st.headerModels

/-! ## Statements on the fetchers -/

/-- A header without its term list: the header fields proper. -/
def eraseTerms (h : NucleusTradeHeaderModel) : NucleusTradeHeaderModel :=
  { h with Terms := [] }

/-- The outcome of a fetch is a returned error: not a header list and not a panic. -/
def ReturnsError (result : Except Fault (List NucleusTradeHeaderModel)) : Prop :=
  ∃ e, result = Except.error (Fault.error e)

/-- A standard power-swap row with another deal key. -/
def samplePowerSwapRow2 : PowerSwapRow :=
  { samplePowerSwapRow with DealKey := 4002, nonstdFlag := ['N'] }

/-- A primary cursor over the two sample power-swap rows, the non-standard one first. -/
def samplePowerSwapRows : Rows PowerSwapRow :=
  { scanned := [Except.ok samplePowerSwapRow, Except.ok samplePowerSwapRow2],
    closeFailure := none, lastErr := none }

/-- A power-deal row with a well-formed execution timestamp. -/
def samplePowerRow : PowerRow :=
  { DealKey := 3996507, DealType := "PWRNSD".toList, DnDirection := "SALE".toList,
    TransactionDate := { Time.zero with year := 2022, month := 5, day := 5 },
    CyCompanyKey := 10459, Company := "MISO".toList, CompanyLongName := "MIDWEST".toList,
    CompanyCode := "MIDWEST IN".toList, LegalEntity := "SENA".toList,
    LegalEntityLongName := "SENA LP".toList, CyLegalEntityKey := 10430,
    contract := some "011-KW-IS-10952".toList, confirmFormat := some "HOURLY".toList,
    Region := "EAST".toList, hsHedgeKey := none, PrtPortfolio := 288,
    Portfolio := "SD - TRANS".toList, UrTrader := "SROSS".toList, TzTimeZone := "PPT".toList,
    hasBroker := some "NO".toList, broker := some "NA".toList, optionKey := none,
    CreatedBy := "SROSS".toList, CreatedAt := { Time.zero with year := 2022, month := 5 },
    ModifiedBy := "SROSS".toList, ModifiedAt := { Time.zero with year := 2022, month := 5 },
    executionDate := some "2022-05-05".toList, executionTime := some "08:18:55 AM".toList,
    exoticFlag := some "NA".toList }

/-- A power-deal row whose execution timestamp fits neither layout. -/
def samplePowerRowBadTime : PowerRow :=
  { samplePowerRow with
    DealKey := 3996508, executionDate := some "2022/05/05".toList,
    executionTime := some "8h18".toList }

/-- A term row for the sample power deal, with a formula. -/
def samplePowerTermRow : PowerTermRow :=
  { powerKey := 3996507, VolSeq := 0,
    BegDate := { Time.zero with year := 2022, month := 5, day := 5 },
    EndDate := { Time.zero with year := 2022, month := 5, day := 5 },
    PriceType := ['I'], FixedPrice := 0, Volume := 0, Pool1 := "MISOE".toList,
    Product1 := "HOURLY".toList, PointCode1 := "MISO/PJM".toList,
    formula := some "[MISO DALMP|PJMC|HOURLY]".toList, HolidaySchedule := "NERC".toList }

/-- The error with which the sample cursors fail to close. -/
def sampleCloseError : Error := { msg := "sql: close failed" }

/-- The error with which the sample queries fail. -/
def sampleQueryError : Error := { msg := "ORA-03113: end-of-file on communication channel" }

/-- A cursor over the sample power-deal row and a second row whose timestamp fits neither
layout. -/
def samplePowerRowsBadTime : Rows PowerRow :=
  { scanned := [Except.ok samplePowerRow, Except.ok samplePowerRowBadTime],
    closeFailure := none, lastErr := none }

/-- A cursor over the sample power-deal row that closes without error. -/
def samplePowerRows : Rows PowerRow :=
  { scanned := [Except.ok samplePowerRow], closeFailure := none, lastErr := none }

/-- A cursor over the sample power-deal row whose close reports an error. -/
def samplePowerRowsCloseError : Rows PowerRow :=
  { scanned := [Except.ok samplePowerRow], closeFailure := some sampleCloseError,
    lastErr := none }

/-- A cursor over the sample term row that closes without error. -/
def samplePowerTermRows : Rows PowerTermRow :=
  { scanned := [Except.ok samplePowerTermRow], closeFailure := none, lastErr := none }

/-- A cursor over the sample term row whose close reports an error. -/
def samplePowerTermRowsCloseError : Rows PowerTermRow :=
  { scanned := [Except.ok samplePowerTermRow], closeFailure := some sampleCloseError,
    lastErr := none }

/-- A cursor without index rows whose close reports an error. -/
def samplePowerIndexRowsCloseError : Rows PowerIndexRow :=
  { scanned := [], closeFailure := some sampleCloseError, lastErr := none }

/-- A point-to-point row. -/
def samplePTPRow : PTPRow :=
  { DealKey := 72011, DealType := "PTP".toList, DnDirection := "PURCHASE".toList,
    TransactionDate := { Time.zero with year := 2022, month := 5, day := 5 },
    CyCompanyKey := 1601, Company := "ERCOT".toList, CompanyLongName := "ERCOT ISO".toList,
    CompanyCode := "ERCOT".toList, LegalEntity := "SENA".toList,
    LegalEntityLongName := "SENA LP".toList, CyLegalEntityKey := 10430,
    contract := none, confirmFormat := none, Region := "TEXAS".toList, hsHedgeKey := none,
    PrtPortfolio := 288, Portfolio := "SD".toList, UrTrader := "SROSS".toList,
    TzTimeZone := "CPT".toList, hasBroker := some "NO".toList, broker := none,
    BegDate := { Time.zero with year := 2022, month := 5, day := 6 },
    Pool1 := "ERCOT".toList, Product1 := "HOURLY".toList,
    Publication := "ERCOT DA".toList, PubIndex := "HB_NORTH".toList,
    Publication2 := "ERCOT DA".toList, PubIndex2 := "HB_WEST".toList,
    CreatedBy := "SROSS".toList, ModifiedBy := "SROSS".toList,
    CreatedAt := { Time.zero with year := 2022, month := 5 },
    ModifiedAt := { Time.zero with year := 2022, month := 5 } }

/-- A cursor over the sample point-to-point row. -/
def samplePTPRows : Rows PTPRow :=
  { scanned := [Except.ok samplePTPRow], closeFailure := none, lastErr := none }

/-- A misc-charge row. -/
def sampleMiscChargeRow : MiscChargeRow :=
  { DealKey := 88120, DealType := "MISC".toList, DnDirection := "SALE".toList,
    TransactionDate := { Time.zero with year := 2022, month := 5, day := 5 },
    CyCompanyKey := 1601, Company := "PJM".toList, CompanyLongName := "PJM LLC".toList,
    CompanyCode := "PJM".toList, LegalEntity := "SENA".toList,
    LegalEntityLongName := "SENA LP".toList, CyLegalEntityKey := 10430,
    contract := none, confirmFormat := none, region := some "EAST".toList,
    hsHedgeKey := none, PrtPortfolio := 288, Portfolio := "SD".toList,
    UrTrader := "SROSS".toList, tzTimeZone := some "PPT".toList, hasBroker := none,
    broker := none, CreatedBy := "SROSS".toList, ModifiedBy := "SROSS".toList,
    CreatedAt := { Time.zero with year := 2022, month := 5 },
    ModifiedAt := { Time.zero with year := 2022, month := 5 } }

/-- A cursor over the sample misc-charge row. -/
def sampleMiscChargeRows : Rows MiscChargeRow :=
  { scanned := [Except.ok sampleMiscChargeRow], closeFailure := none, lastErr := none }

/-- A cursor over one term row of the sample misc charge. -/
def sampleMiscChargeTermRows : Rows MiscChargeTermRow :=
  { scanned :=
      [Except.ok { dealKey := 88120, VolSeq := 1,
                   BegDate := { Time.zero with year := 2022, month := 6 },
                   EndDate := { Time.zero with year := 2022, month := 6, day := 30 },
                   Volume := 25 }],
    closeFailure := none, lastErr := none }

/-- A cursor over the sample capacity row. -/
def sampleCapacityRows : Rows CapacityRow :=
  { scanned := [Except.ok sampleCapacityRow], closeFailure := none, lastErr := none }

/-! ## Statements on the capacity index splice -/

/-- A list of indexes in which each index carries its position as volume sequence. -/
def IndexesNumbered (l : List NucleusTradeIndexModel) : Prop :=
  ∀ (j : Nat) (x : NucleusTradeIndexModel), l[j]? = some x → x.VolSeq = (j : Int)

/-- A term list without index whose first term, if any, has volume sequence 0. -/
def TermsBeforeIndexes (terms : List NucleusTradeTermModel) : Prop :=
  (∀ t, terms.head? = some t → t.VolSeq = 0) ∧ ∀ u ∈ terms, u.Indexes1 = []

/-- A term list whose first term, if any, has volume sequence 0 and indexes numbered by
position, and whose other terms have no index. -/
def TermsWithIndexes (terms : List NucleusTradeTermModel) : Prop :=
  (∀ t, terms.head? = some t → t.VolSeq = 0 ∧ IndexesNumbered t.Indexes1) ∧
    ∀ u ∈ terms.tail, u.Indexes1 = []

/-- A non-standard capacity row with an energy formula. -/
def sampleCapacityFormulaRow : CapacityRow :=
  { sampleCapacityRow with
    DealKey := 5002, energyFormula := some "[ER AS RRS|DA_RRS|HOURLY]".toList }

/-- A cursor over the sample capacity row with a formula. -/
def sampleCapacityFormulaRows : Rows CapacityRow :=
  { scanned := [Except.ok sampleCapacityFormulaRow], closeFailure := none, lastErr := none }

/-- One term row for the key of the sample capacity row with a formula. -/
def sampleCapacityFormulaTermRows : Rows CapacityTermRow :=
  { scanned :=
      [Except.ok { dealKey := 5002,
                   BegDate := { Time.zero with year := 2022, month := 6 },
                   EndDate := { Time.zero with year := 2022, month := 6, day := 30 } }],
    closeFailure := none, lastErr := none }

/-- Two index rows for the key of the sample capacity row with a formula. -/
def sampleCapacityIndexRows : Rows CapacityIndexRow :=
  { scanned :=
      [Except.ok { dealKey := 5002, Publication := "ER AS RRS".toList,
                   PubIndex := "DA_RRS".toList, Frequency := "HOURLY".toList },
       Except.ok { dealKey := 5002, Publication := "ER AS REG".toList,
                   PubIndex := "DA_REGUP".toList, Frequency := "HOURLY".toList }],
    closeFailure := none, lastErr := none }

/-- An analytics store with two runs of the family `POWER` for one trade date. -/
def sampleRunsDb : MachineLearningDb :=
  { extractionRuns :=
      [{ ExtractionRunId := 461, TransactionDate := Time.zero, DealType := "POWER".toList,
         TimeParameter := { Time.zero with year := 2030 }, CreatedAt := Time.zero },
       { ExtractionRunId := 462, TransactionDate := Time.zero, DealType := "POWER".toList,
         TimeParameter := { Time.zero with year := 2022 }, CreatedAt := Time.zero }],
    nextExtractionRunId := 463, upsertCalls := [] }

/-! ## Single-query fetchers -/

/-- The frame shared by the fetchers that issue one query: the scan loop appends the
header mapped from each row, a parse error ends the call, then the close check and the
`rows.Err` check. -/
def collectHeaders {α : Type} (primary : Except Error (Rows α))
    (headerOfRow : α → Except Fault NucleusTradeHeaderModel) :
    Except Fault (List NucleusTradeHeaderModel) :=
  match primary with
  | Except.error err => Except.error (Fault.error err)
  | Except.ok rows =>
    match scanLoop rows ([] : List NucleusTradeHeaderModel)
        (fun headerModels r =>
          match headerOfRow r with
          | Except.error e => Except.error e
          | Except.ok headerModel => Except.ok (headerModels ++ [headerModel])) with
    | Except.error e => Except.error e
    | Except.ok headerModels =>
      match rows.closeErr with
      | some _ => Except.ok []
      | none =>
        match rows.err with
        | some err => Except.error (Fault.error err)
        | none => Except.ok headerModels

/-- The index slot filled from a nullable formula column: decoded when the column is
non-null and non-empty. -/
def indexesOfFormula (formula : Option Str) : List NucleusTradeIndexModel :=
  match formula with
  | some f => if f ≠ [] then decodeFormula f else []
  | none => []

/-! ## Power options -/

/-- The columns of one row of `getNucPowerOptionsDealListQuery`, named after their scan
destinations. -/
structure PowerOptionsRow where
  DealKey : Int
  DealType : Str
  totalQuantity : Option Float64
  DnDirection : Str
  TransactionDate : Time
  CyCompanyKey : Int
  Company : Str
  CompanyLongName : Str
  CompanyCode : Str
  LegalEntity : Str
  LegalEntityLongName : Str
  CyLegalEntityKey : Int
  interaffiliateFlag : Option Str
  contract : Option Str
  confirmFormat : Option Str
  Region : Str
  hsHedgeKey : Option Str
  PrtPortfolio : Int
  Portfolio : Str
  UrTrader : Str
  ibPrtPortfolio : Option Int
  ibPortfolio : Option Str
  ibUrTrader : Option Str
  TzTimeZone : Str
  TzExerciseZone : Str
  hasBroker : Option Str
  broker : Option Str
  Pool1 : Str
  Product1 : Str
  PointCode1 : Str
  settleFormula : Option Str
  StartDate : Time
  EndDate : Time
  HolidaySchedule : Str
  Volume : Float64
  fixedPrice : Option Float64
  PriceType : Str
  strikeFormula : Option Str
  CreatedBy : Str
  ModifiedBy : Str
  CreatedAt : Time
  ModifiedAt : Time
  executionDate : Option Str
  executionTime : Option Str
  exoticFlag : Option Str
  deriving DecidableEq, Repr

/-- The term `pvModel` that the loop of `GetNucPowerOptionsDealList` builds from a row. -/
def powerOptionsTermOfRow (r : PowerOptionsRow) : NucleusTradeTermModel :=
  { NucleusTradeTermModel.zero with
    Pool1 := r.Pool1, Product1 := r.Product1, PointCode1 := r.PointCode1,
    HolidaySchedule := r.HolidaySchedule, Volume := r.Volume, PriceType := r.PriceType,
    BegDate := r.StartDate, EndDate := r.EndDate, VolSeq := 0,
    FixedPrice := r.fixedPrice.getD 0,
    Indexes1 := indexesOfFormula r.settleFormula,
    Indexes2 := indexesOfFormula r.strikeFormula }

/-- The header that the loop of `GetNucPowerOptionsDealList` builds from a row, with its
single term; a timestamp that does not parse is an error. -/
def powerOptionsHeaderOfRow (r : PowerOptionsRow) : Except Fault NucleusTradeHeaderModel :=
  match executionTimeOf r.executionDate r.executionTime Time.zero with
  | Except.error e => Except.error e
  | Except.ok execTime =>
    Except.ok
      { NucleusTradeHeaderModel.zero with
        DealKey := r.DealKey, DealType := r.DealType, DnDirection := r.DnDirection,
        TransactionDate := r.TransactionDate, CyCompanyKey := r.CyCompanyKey,
        Company := r.Company, CompanyLongName := r.CompanyLongName,
        CompanyCode := r.CompanyCode, LegalEntity := r.LegalEntity,
        LegalEntityLongName := r.LegalEntityLongName, CyLegalEntityKey := r.CyLegalEntityKey,
        Region := r.Region, PrtPortfolio := r.PrtPortfolio, Portfolio := r.Portfolio,
        UrTrader := r.UrTrader, TzTimeZone := r.TzTimeZone,
        TzExerciseZone := r.TzExerciseZone, StartDate := r.StartDate, EndDate := r.EndDate,
        CreatedBy := r.CreatedBy, ModifiedBy := r.ModifiedBy,
        CreatedAt := r.CreatedAt, ModifiedAt := r.ModifiedAt,
        TotalQuantity := r.totalQuantity.getD 0,
        InteraffiliateFlag := r.interaffiliateFlag.getD [],
        Contract := r.contract.getD [],
        ConfirmFormat := r.confirmFormat.getD [],
        HsHedgeKey := r.hsHedgeKey.getD [],
        IbPrtPortfolio := r.ibPrtPortfolio.getD 0,
        IbPortfolio := r.ibPortfolio.getD [],
        IbUrTrader := r.ibUrTrader.getD [],
        HasBroker := r.hasBroker.getD [],
        Broker := r.broker.getD [],
        ExoticFlag := r.exoticFlag.getD [],
        ExecutionTime := execTime,
        Terms := [powerOptionsTermOfRow r] }

/-- The function `GetNucPowerOptionsDealList`; `primary` is the answer of the ledger
store to the primary query. The pattern is a constant that compiles, so `regexp.Compile`
does not fail. -/
def GetNucPowerOptionsDealList (primary : Except Error (Rows PowerOptionsRow)) :
    Except Fault (List NucleusTradeHeaderModel) :=
  collectHeaders primary powerOptionsHeaderOfRow

/-! ## Spread options -/

/-- The columns of one row of `getNucSpreadOptionsDealListQuery`, named after their scan
destinations. -/
structure SpreadOptionsRow where
  DealKey : Int
  DealType : Str
  DnDirection : Str
  TransactionDate : Time
  CyCompanyKey : Int
  Company : Str
  CompanyLongName : Str
  CompanyCode : Str
  LegalEntity : Str
  LegalEntityLongName : Str
  CyLegalEntityKey : Int
  contract : Option Str
  confirmFormat : Option Str
  Region : Str
  hsHedgeKey : Option Str
  PrtPortfolio : Int
  Portfolio : Str
  UrTrader : Str
  ibPrtPortfolio : Option Int
  ibPortfolio : Option Str
  ibUrTrader : Option Str
  tzTimeZone : Option Str
  hasBroker : Option Str
  broker : Option Str
  StartDate : Time
  EndDate : Time
  HolidaySchedule : Str
  formula1 : Option Str
  formula2 : Option Str
  pool1 : Option Str
  pool2 : Option Str
  product1 : Option Str
  product2 : Option Str
  Volume : Float64
  fixedPrice : Option Float64
  CreatedBy : Str
  ModifiedBy : Str
  CreatedAt : Time
  ModifiedAt : Time
  executionDate : Option Str
  executionTime : Option Str
  exoticFlag : Option Str
  pointCode1 : Option Str
  deriving DecidableEq, Repr

/-- The term `pvModel` that the loop of `GetNucSpreadOptionsDealList` builds from a row. -/
def spreadOptionsTermOfRow (r : SpreadOptionsRow) : NucleusTradeTermModel :=
  { NucleusTradeTermModel.zero with
    HolidaySchedule := r.HolidaySchedule, Volume := r.Volume,
    Pool1 := r.pool1.getD [], Pool2 := r.pool2.getD [],
    Product1 := r.product1.getD [], Product2 := r.product2.getD [],
    FixedPrice := r.fixedPrice.getD 0, PointCode1 := r.pointCode1.getD [],
    VolSeq := 0, BegDate := r.StartDate, EndDate := r.EndDate,
    Indexes1 := indexesOfFormula r.formula1,
    Indexes2 := indexesOfFormula r.formula2 }

/-- The header that the loop of `GetNucSpreadOptionsDealList` builds from a row, with its
single term; a timestamp that does not parse is an error. -/
def spreadOptionsHeaderOfRow (r : SpreadOptionsRow) : Except Fault NucleusTradeHeaderModel :=
  match executionTimeOf r.executionDate r.executionTime Time.zero with
  | Except.error e => Except.error e
  | Except.ok execTime =>
    Except.ok
      { NucleusTradeHeaderModel.zero with
        DealKey := r.DealKey, DealType := r.DealType, DnDirection := r.DnDirection,
        TransactionDate := r.TransactionDate, CyCompanyKey := r.CyCompanyKey,
        Company := r.Company, CompanyLongName := r.CompanyLongName,
        CompanyCode := r.CompanyCode, LegalEntity := r.LegalEntity,
        LegalEntityLongName := r.LegalEntityLongName, CyLegalEntityKey := r.CyLegalEntityKey,
        Region := r.Region, PrtPortfolio := r.PrtPortfolio, Portfolio := r.Portfolio,
        UrTrader := r.UrTrader, StartDate := r.StartDate, EndDate := r.EndDate,
        CreatedBy := r.CreatedBy, ModifiedBy := r.ModifiedBy,
        CreatedAt := r.CreatedAt, ModifiedAt := r.ModifiedAt,
        Contract := r.contract.getD [],
        ConfirmFormat := r.confirmFormat.getD [],
        HsHedgeKey := r.hsHedgeKey.getD [],
        IbPrtPortfolio := r.ibPrtPortfolio.getD 0,
        IbPortfolio := r.ibPortfolio.getD [],
        IbUrTrader := r.ibUrTrader.getD [],
        TzTimeZone := r.tzTimeZone.getD [],
        HasBroker := r.hasBroker.getD [],
        Broker := r.broker.getD [],
        ExoticFlag := r.exoticFlag.getD [],
        InteraffiliateFlag := ['N'],
        ExecutionTime := execTime,
        Terms := [spreadOptionsTermOfRow r] }

/-- The function `GetNucSpreadOptionsDealList`; `primary` is the answer of the ledger
store to the primary query. -/
def GetNucSpreadOptionsDealList (primary : Except Error (Rows SpreadOptionsRow)) :
    Except Fault (List NucleusTradeHeaderModel) :=
  collectHeaders primary spreadOptionsHeaderOfRow

/-! ## Heat-rate swaps -/

/-- The columns of one row of `getNucHeatRateSwapsDealListQuery`, named after their scan
destinations. -/
structure HeatRateSwapsRow where
  DealKey : Int
  DealType : Str
  totalQuantity : Option Float64
  DnDirection : Str
  TransactionDate : Time
  CyCompanyKey : Int
  Company : Str
  CompanyLongName : Str
  CompanyCode : Str
  LegalEntity : Str
  LegalEntityLongName : Str
  CyLegalEntityKey : Int
  interaffiliateFlag : Option Str
  contract : Option Str
  confirmFormat : Option Str
  Region : Str
  hsHedgeKey : Option Str
  PrtPortfolio : Int
  Portfolio : Str
  UrTrader : Str
  tzTimeZone : Option Str
  hasBroker : Option Str
  broker : Option Str
  exercisedOptionKey : Option Int
  Pool1 : Str
  Product1 : Str
  publication1 : Option Str
  pubIndex1 : Option Str
  publication2 : Option Str
  pubIndex2 : Option Str
  frequency2 : Option Str
  StartDate : Time
  EndDate : Time
  HolidaySchedule : Str
  volume : Option Float64
  CreatedBy : Str
  ModifiedBy : Str
  CreatedAt : Time
  ModifiedAt : Time
  executionDate : Option Str
  executionTime : Option Str
  deriving DecidableEq, Repr

/-- The index `idxModel` of the first slot of a heat-rate swap row. -/
def heatRateSwapsIndex1 (r : HeatRateSwapsRow) : NucleusTradeIndexModel :=
  { NucleusTradeIndexModel.zero with
    Publication := r.publication1.getD [], PubIndex := r.pubIndex1.getD [] }

/-- The index `idxModel2` of the second slot of a heat-rate swap row. -/
def heatRateSwapsIndex2 (r : HeatRateSwapsRow) : NucleusTradeIndexModel :=
  { NucleusTradeIndexModel.zero with
    Publication := r.publication2.getD [], PubIndex := r.pubIndex2.getD [],
    Frequency := r.frequency2.getD [] }

/-- The term `pvModel` that the loop of `GetNucHeatRateSwapsDealList` builds from a row:
the second index is appended twice to the second slot. -/
def heatRateSwapsTermOfRow (r : HeatRateSwapsRow) : NucleusTradeTermModel :=
  { NucleusTradeTermModel.zero with
    Pool1 := r.Pool1, Product1 := r.Product1, HolidaySchedule := r.HolidaySchedule,
    Indexes1 := [heatRateSwapsIndex1 r],
    Indexes2 := [heatRateSwapsIndex2 r, heatRateSwapsIndex2 r],
    Volume := r.volume.getD 0, VolSeq := 0, BegDate := r.StartDate, EndDate := r.EndDate }

/-- The header that the loop of `GetNucHeatRateSwapsDealList` builds from a row, with its
single term; a timestamp that does not parse is an error. -/
def heatRateSwapsHeaderOfRow (r : HeatRateSwapsRow) : Except Fault NucleusTradeHeaderModel :=
  match executionTimeOf r.executionDate r.executionTime Time.zero with
  | Except.error e => Except.error e
  | Except.ok execTime =>
    Except.ok
      { NucleusTradeHeaderModel.zero with
        DealKey := r.DealKey, DealType := r.DealType, DnDirection := r.DnDirection,
        TransactionDate := r.TransactionDate, CyCompanyKey := r.CyCompanyKey,
        Company := r.Company, CompanyLongName := r.CompanyLongName,
        CompanyCode := r.CompanyCode, LegalEntity := r.LegalEntity,
        LegalEntityLongName := r.LegalEntityLongName, CyLegalEntityKey := r.CyLegalEntityKey,
        Region := r.Region, PrtPortfolio := r.PrtPortfolio, Portfolio := r.Portfolio,
        UrTrader := r.UrTrader, StartDate := r.StartDate, EndDate := r.EndDate,
        CreatedBy := r.CreatedBy, ModifiedBy := r.ModifiedBy,
        CreatedAt := r.CreatedAt, ModifiedAt := r.ModifiedAt,
        TotalQuantity := r.totalQuantity.getD 0,
        InteraffiliateFlag := r.interaffiliateFlag.getD [],
        Contract := r.contract.getD [],
        ConfirmFormat := r.confirmFormat.getD [],
        HsHedgeKey := r.hsHedgeKey.getD [],
        TzTimeZone := r.tzTimeZone.getD [],
        HasBroker := r.hasBroker.getD [],
        Broker := r.broker.getD [],
        ExercisedOptionKey := r.exercisedOptionKey.getD 0,
        ExecutionTime := execTime,
        ExoticFlag := ['N', 'A'],
        Terms := [heatRateSwapsTermOfRow r] }

/-- The function `GetNucHeatRateSwapsDealList`; `primary` is the answer of the ledger
store to the primary query. -/
def GetNucHeatRateSwapsDealList (primary : Except Error (Rows HeatRateSwapsRow)) :
    Except Fault (List NucleusTradeHeaderModel) :=
  collectHeaders primary heatRateSwapsHeaderOfRow

/-! ## TCC and FTR deals -/

/-- The columns of one row of `getNucTCCFTRSDealListQuery`, named after their scan
destinations; `PubIndex2` is the index of the second slot. -/
structure TCCFTRSRow where
  DealKey : Int
  DealType : Str
  DnDirection : Str
  TransactionDate : Time
  CyCompanyKey : Int
  Company : Str
  CompanyLongName : Str
  CompanyCode : Str
  LegalEntity : Str
  LegalEntityLongName : Str
  CyLegalEntityKey : Int
  contract : Option Str
  confirmFormat : Option Str
  Region : Str
  hsHedgeKey : Option Str
  PrtPortfolio : Int
  Portfolio : Str
  UrTrader : Str
  TzTimeZone : Str
  hasBroker : Option Str
  broker : Option Str
  BegDate : Time
  EndDate : Time
  HolidaySchedule : Str
  volume : Option Float64
  fixedPrice : Option Float64
  Pool1 : Str
  Product1 : Str
  Publication : Str
  Frequency : Str
  PubIndex : Str
  PubIndex2 : Str
  CreatedBy : Str
  ModifiedBy : Str
  CreatedAt : Time
  ModifiedAt : Time
  deriving DecidableEq, Repr

/-- The term `pvModel` that the loop of `GetNucTCCFTRSDealList` builds from a row. -/
def tccftrsTermOfRow (r : TCCFTRSRow) : NucleusTradeTermModel :=
  { NucleusTradeTermModel.zero with
    BegDate := r.BegDate, EndDate := r.EndDate, HolidaySchedule := r.HolidaySchedule,
    Pool1 := r.Pool1, Product1 := r.Product1,
    Volume := r.volume.getD 0, FixedPrice := r.fixedPrice.getD 0,
    Indexes1 :=
      [{ NucleusTradeIndexModel.zero with
         Publication := r.Publication, Frequency := r.Frequency, PubIndex := r.PubIndex }],
    Indexes2 :=
      [{ NucleusTradeIndexModel.zero with
         Publication := r.Publication, Frequency := r.Frequency, PubIndex := r.PubIndex2 }],
    VolSeq := 0 }

/-- The header that the loop of `GetNucTCCFTRSDealList` builds from a row, with its single
term. -/
def tccftrsHeaderOfRow (r : TCCFTRSRow) : Except Fault NucleusTradeHeaderModel :=
  Except.ok
    { NucleusTradeHeaderModel.zero with
      DealKey := r.DealKey, DealType := r.DealType, DnDirection := r.DnDirection,
      TransactionDate := r.TransactionDate, CyCompanyKey := r.CyCompanyKey,
      Company := r.Company, CompanyLongName := r.CompanyLongName,
      CompanyCode := r.CompanyCode, LegalEntity := r.LegalEntity,
      LegalEntityLongName := r.LegalEntityLongName, CyLegalEntityKey := r.CyLegalEntityKey,
      Region := r.Region, PrtPortfolio := r.PrtPortfolio, Portfolio := r.Portfolio,
      UrTrader := r.UrTrader, TzTimeZone := r.TzTimeZone,
      CreatedBy := r.CreatedBy, ModifiedBy := r.ModifiedBy,
      CreatedAt := r.CreatedAt, ModifiedAt := r.ModifiedAt,
      Contract := r.contract.getD [],
      ConfirmFormat := r.confirmFormat.getD [],
      HsHedgeKey := r.hsHedgeKey.getD [],
      HasBroker := r.hasBroker.getD [],
      Broker := r.broker.getD [],
      ExoticFlag := ['N', 'A'],
      InteraffiliateFlag := ['N'],
      Terms := [tccftrsTermOfRow r] }

/-- The function `GetNucTCCFTRSDealList`; `primary` is the answer of the ledger store to
the primary query for the trade date, deal type and watermark. -/
def GetNucTCCFTRSDealList (primary : Except Error (Rows TCCFTRSRow)) :
    Except Fault (List NucleusTradeHeaderModel) :=
  collectHeaders primary tccftrsHeaderOfRow

/-! ## Transmission deals -/

/-- The columns of one row of `getNucTransmissionDealListQuery`, named after their scan
destinations; `executionTime` holds a date without time. -/
structure TransmissionRow where
  DealKey : Int
  DealType : Str
  DnDirection : Str
  TransactionDate : Time
  CyCompanyKey : Int
  Company : Str
  CompanyLongName : Str
  CompanyCode : Str
  LegalEntity : Str
  LegalEntityLongName : Str
  CyLegalEntityKey : Int
  contract : Option Str
  confirmFormat : Option Str
  Region : Str
  hsHedgeKey : Option Str
  PrtPortfolio : Int
  Portfolio : Str
  UrTrader : Str
  TzTimeZone : Str
  hasBroker : Option Str
  broker : Option Str
  CreatedBy : Str
  ModifiedBy : Str
  CreatedAt : Time
  ModifiedAt : Time
  executionTime : Option Str
  deriving DecidableEq, Repr

/-- The header that the loop of `GetNucTransmissionDealList` builds from a row: every
non-null execution date is parsed, the empty text included, and a date that does not
parse is an error. -/
def transmissionHeaderOfRow (r : TransmissionRow) : Except Fault NucleusTradeHeaderModel :=
  let parsed : Except Fault Time :=
    match r.executionTime with
    | some text =>
      match parseExecutionDate text with
      | Except.ok time => Except.ok time
      | Except.error err => Except.error (Fault.error err)
    | none => Except.ok Time.zero
  match parsed with
  | Except.error e => Except.error e
  | Except.ok execTime =>
    Except.ok
      { NucleusTradeHeaderModel.zero with
        DealKey := r.DealKey, DealType := r.DealType, DnDirection := r.DnDirection,
        TransactionDate := r.TransactionDate, CyCompanyKey := r.CyCompanyKey,
        Company := r.Company, CompanyLongName := r.CompanyLongName,
        CompanyCode := r.CompanyCode, LegalEntity := r.LegalEntity,
        LegalEntityLongName := r.LegalEntityLongName, CyLegalEntityKey := r.CyLegalEntityKey,
        Region := r.Region, PrtPortfolio := r.PrtPortfolio, Portfolio := r.Portfolio,
        UrTrader := r.UrTrader, TzTimeZone := r.TzTimeZone,
        CreatedBy := r.CreatedBy, ModifiedBy := r.ModifiedBy,
        CreatedAt := r.CreatedAt, ModifiedAt := r.ModifiedAt,
        Contract := r.contract.getD [],
        ConfirmFormat := r.confirmFormat.getD [],
        HsHedgeKey := r.hsHedgeKey.getD [],
        HasBroker := r.hasBroker.getD [],
        Broker := r.broker.getD [],
        ExecutionTime := execTime,
        ExoticFlag := ['N', 'A'],
        InteraffiliateFlag := ['N'] }

/-- The body of the row loop of a fetcher that registers every header under its deal key:
`GetNucTransmissionDealList` and `GetNucEmissionDealList`. -/
def registerHeader (st : FetchState) (headerModel : NucleusTradeHeaderModel) : FetchState :=
  { st with
    dealKeys := st.dealKeys ++ [headerModel.DealKey]
    headerModelsMap := mapSet st.headerModelsMap headerModel.DealKey st.headerModels.length
    headerModels := st.headerModels ++ [headerModel] }

/-- The columns of one row of `getNucTransmissionDealTermListQuery`. -/
structure TransmissionTermRow where
  dealKey : Int
  VolSeq : Int
  BegDate : Time
  EndDate : Time
  Volume : Float64
  Product1 : Str
  Pool1 : Str
  PointCode1 : Str
  Pool2 : Str
  PointCode2 : Str
  HolidaySchedule : Str
  deriving DecidableEq, Repr

/-- The term `termModel` that the loop of `getNucTransmissionDealTermModel` builds from a
row. -/
def transmissionTermOfRow (r : TransmissionTermRow) : NucleusTradeTermModel :=
  { NucleusTradeTermModel.zero with
    VolSeq := r.VolSeq, BegDate := r.BegDate, EndDate := r.EndDate, Volume := r.Volume,
    Product1 := r.Product1, Pool1 := r.Pool1, PointCode1 := r.PointCode1, Pool2 := r.Pool2,
    PointCode2 := r.PointCode2, HolidaySchedule := r.HolidaySchedule, PriceType := ['F'] }

/-- The function `getNucTransmissionDealTermModel`; `query` is the answer of the ledger
store to the term query for the given keys. -/
def getNucTransmissionDealTermModel
    (query : List Int → Except Error (Rows TransmissionTermRow)) (dealKeys : List Int) :
    Except Fault (GoMap (List NucleusTradeTermModel)) :=
  if dealKeys.length = 0 then Except.ok []
  else
    match query dealKeys with
    | Except.error err => Except.error (Fault.error err)
    | Except.ok rows =>
      match scanLoop rows ([] : GoMap (List NucleusTradeTermModel))
          (fun termModels r =>
            Except.ok (mapAppend termModels r.dealKey (transmissionTermOfRow r))) with
      | Except.error e => Except.error e
      | Except.ok termModels =>
        match rows.closeErr with
        | some _ => Except.ok []
        | none =>
          match rows.err with
          | some err => Except.error (Fault.error err)
          | none => Except.ok termModels

/-- The function `GetNucTransmissionDealList`; `primary` and `termQuery` are the answers
of the ledger store to the primary and term queries. -/
def GetNucTransmissionDealList (primary : Except Error (Rows TransmissionRow))
    (termQuery : List Int → Except Error (Rows TransmissionTermRow)) :
    Except Fault (List NucleusTradeHeaderModel) :=
  match primary with
  | Except.error err => Except.error (Fault.error err)
  | Except.ok rows =>
    match scanLoop rows FetchState.init
        (fun st r =>
          match transmissionHeaderOfRow r with
          | Except.error e => Except.error e
          | Except.ok headerModel => Except.ok (registerHeader st headerModel)) with
    | Except.error e => Except.error e
    | Except.ok st =>
      match rows.closeErr with
      | some _ => Except.ok []
      | none =>
        match rows.err with
        | some err => Except.error (Fault.error err)
        | none =>
          if 0 < st.dealKeys.length then
            match getNucTransmissionDealTermModel termQuery st.dealKeys with
            | Except.error e => Except.error e
            | Except.ok termModelsMap =>
              termModelsMap.foldlM (replaceTermsOfKey st.headerModelsMap) st.headerModels
          else Except.ok st.headerModels

/-! ## Emission deals -/

/-- The columns of one row of `getNucEmissionDealListQuery`, named after their scan
destinations. -/
structure EmissionRow where
  DealKey : Int
  DealType : Str
  DnDirection : Str
  TransactionDate : Time
  CyCompanyKey : Int
  Company : Str
  CompanyLongName : Str
  CompanyCode : Str
  LegalEntity : Str
  LegalEntityLongName : Str
  CyLegalEntityKey : Int
  contract : Option Str
  confirmFormat : Option Str
  Region : Str
  hsHedgeKey : Option Str
  PrtPortfolio : Int
  Portfolio : Str
  UrTrader : Str
  tzTimeZone : Option Str
  hasBroker : Option Str
  broker : Option Str
  CreatedBy : Str
  ModifiedBy : Str
  CreatedAt : Time
  ModifiedAt : Time
  executionDate : Option Str
  executionTime : Option Str
  deriving DecidableEq, Repr

/-- The header that the loop of `GetNucEmissionDealList` builds from a row; a timestamp
that does not parse is an error. -/
def emissionHeaderOfRow (r : EmissionRow) : Except Fault NucleusTradeHeaderModel :=
  match executionTimeOf r.executionDate r.executionTime Time.zero with
  | Except.error e => Except.error e
  | Except.ok execTime =>
    Except.ok
      { NucleusTradeHeaderModel.zero with
        DealKey := r.DealKey, DealType := r.DealType, DnDirection := r.DnDirection,
        TransactionDate := r.TransactionDate, CyCompanyKey := r.CyCompanyKey,
        Company := r.Company, CompanyLongName := r.CompanyLongName,
        CompanyCode := r.CompanyCode, LegalEntity := r.LegalEntity,
        LegalEntityLongName := r.LegalEntityLongName, CyLegalEntityKey := r.CyLegalEntityKey,
        Region := r.Region, PrtPortfolio := r.PrtPortfolio, Portfolio := r.Portfolio,
        UrTrader := r.UrTrader,
        CreatedBy := r.CreatedBy, ModifiedBy := r.ModifiedBy,
        CreatedAt := r.CreatedAt, ModifiedAt := r.ModifiedAt,
        Contract := r.contract.getD [],
        ConfirmFormat := r.confirmFormat.getD [],
        HsHedgeKey := r.hsHedgeKey.getD [],
        TzTimeZone := r.tzTimeZone.getD [],
        HasBroker := r.hasBroker.getD [],
        Broker := r.broker.getD [],
        ExecutionTime := execTime,
        ExoticFlag := ['N', 'A'],
        InteraffiliateFlag := ['N'] }

/-- The function `GetNucEmissionDealList`; `primary` and `termQuery` are the answers of
the ledger store to the primary and term queries. -/
def GetNucEmissionDealList (primary : Except Error (Rows EmissionRow))
    (termQuery : List Int → Except Error (Rows EmissionTermRow)) :
    Except Fault (List NucleusTradeHeaderModel) :=
  match primary with
  | Except.error err => Except.error (Fault.error err)
  | Except.ok rows =>
    match scanLoop rows FetchState.init
        (fun st r =>
          match emissionHeaderOfRow r with
          | Except.error e => Except.error e
          | Except.ok headerModel => Except.ok (registerHeader st headerModel)) with
    | Except.error e => Except.error e
    | Except.ok st =>
      match rows.closeErr with
      | some _ => Except.ok []
      | none =>
        match rows.err with
        | some err => Except.error (Fault.error err)
        | none =>
          if 0 < st.dealKeys.length then
            match getNucEmissionDealListTermModel termQuery st.dealKeys with
            | Except.error e => Except.error e
            | Except.ok termModelsMap =>
              termModelsMap.foldlM (replaceTermsOfKey st.headerModelsMap) st.headerModels
          else Except.ok st.headerModels

/-! ## Emission options -/

/-- The columns of one row of `getNucEmissionOptionDealListQuery`, named after their scan
destinations. -/
structure EmissionOptionRow where
  DealKey : Int
  DealType : Str
  DnDirection : Str
  TransactionDate : Time
  CyCompanyKey : Int
  Company : Str
  CompanyLongName : Str
  CompanyCode : Str
  LegalEntity : Str
  LegalEntityLongName : Str
  CyLegalEntityKey : Int
  contract : Option Str
  confirmFormat : Option Str
  Region : Str
  hsHedgeKey : Option Str
  PrtPortfolio : Int
  Portfolio : Str
  UrTrader : Str
  tzTimeZone : Option Str
  hasBroker : Option Str
  broker : Option Str
  emissionKey : Int
  FixedPrice : Float64
  Volume : Float64
  CreatedBy : Str
  ModifiedBy : Str
  CreatedAt : Time
  ModifiedAt : Time
  executionDate : Option Str
  executionTime : Option Str
  deriving DecidableEq, Repr

/-- The placeholder term `pvModel` that the loop of `GetNucEmissionOptionDealList` builds
from a row: its volume sequence holds the emission key. -/
def emissionOptionTermOfRow (r : EmissionOptionRow) : NucleusTradeTermModel :=
  { NucleusTradeTermModel.zero with
    FixedPrice := r.FixedPrice, Volume := r.Volume, VolSeq := r.emissionKey }

/-- The header that the loop of `GetNucEmissionOptionDealList` builds from a row, with
the placeholder term; a timestamp that does not parse is an error. -/
def emissionOptionHeaderOfRow (r : EmissionOptionRow) :
    Except Fault NucleusTradeHeaderModel :=
  match executionTimeOf r.executionDate r.executionTime Time.zero with
  | Except.error e => Except.error e
  | Except.ok execTime =>
    Except.ok
      { NucleusTradeHeaderModel.zero with
        DealKey := r.DealKey, DealType := r.DealType, DnDirection := r.DnDirection,
        TransactionDate := r.TransactionDate, CyCompanyKey := r.CyCompanyKey,
        Company := r.Company, CompanyLongName := r.CompanyLongName,
        CompanyCode := r.CompanyCode, LegalEntity := r.LegalEntity,
        LegalEntityLongName := r.LegalEntityLongName, CyLegalEntityKey := r.CyLegalEntityKey,
        Region := r.Region, PrtPortfolio := r.PrtPortfolio, Portfolio := r.Portfolio,
        UrTrader := r.UrTrader,
        CreatedBy := r.CreatedBy, ModifiedBy := r.ModifiedBy,
        CreatedAt := r.CreatedAt, ModifiedAt := r.ModifiedAt,
        Contract := r.contract.getD [],
        ConfirmFormat := r.confirmFormat.getD [],
        HsHedgeKey := r.hsHedgeKey.getD [],
        TzTimeZone := r.tzTimeZone.getD [],
        HasBroker := r.hasBroker.getD [],
        Broker := r.broker.getD [],
        ExecutionTime := execTime,
        ExoticFlag := ['N', 'A'],
        InteraffiliateFlag := ['N'],
        Terms := [emissionOptionTermOfRow r] }

/-- The body of the row loop of `GetNucEmissionOptionDealList`: the headers and the
emission keys collected so far. -/
def emissionOptionRowStep (st : List NucleusTradeHeaderModel × List Int)
    (r : EmissionOptionRow) : Except Fault (List NucleusTradeHeaderModel × List Int) :=
  match emissionOptionHeaderOfRow r with
  | Except.error e => Except.error e
  | Except.ok headerModel => Except.ok (st.1 ++ [headerModel], st.2 ++ [r.emissionKey])

/-- The columns of one row of `getNucEmissionOptionDealTermListQuery`. -/
structure EmissionOptionTermRow where
  emissionKey : Int
  VolSeq : Int
  BegDate : Time
  EndDate : Time
  ctpPointCode : Option Str
  Product1 : Str
  deriving DecidableEq, Repr

/-- The term `termModel` that the loop of `getNucEmissionOptionDealTermList` builds from
a row. -/
def emissionOptionFetchedTermOfRow (r : EmissionOptionTermRow) : NucleusTradeTermModel :=
  { NucleusTradeTermModel.zero with
    VolSeq := r.VolSeq, BegDate := r.BegDate, EndDate := r.EndDate,
    PointCode1 := r.ctpPointCode.getD [], Product1 := r.Product1 }

/-- The term objects that `getNucEmissionOptionDealTermList` allocates, in allocation
order, and its map from emission key to the pointers of the terms of the key: a pointer
is a position in `objects`. The objects are written to after the fetch, through the
pointers, so they are kept apart from the map. -/
structure TermStore where
  objects : List NucleusTradeTermModel
  termModelMap : GoMap (List Nat)
  deriving DecidableEq, Repr

/-- The body of the row loop of `getNucEmissionOptionDealTermList`: a new term object,
whose pointer is appended to the list of its key. -/
def emissionOptionTermStep (store : TermStore) (r : EmissionOptionTermRow) : TermStore :=
  { objects := store.objects ++ [emissionOptionFetchedTermOfRow r]
    termModelMap := mapAppend store.termModelMap r.emissionKey store.objects.length }

/-- The function `getNucEmissionOptionDealTermList`; `query` is the answer of the ledger
store to the term query for the given emission keys. -/
def getNucEmissionOptionDealTermList
    (query : List Int → Except Error (Rows EmissionOptionTermRow)) (emissionKeys : List Int) :
    Except Fault TermStore :=
  if emissionKeys.length = 0 then Except.ok { objects := [], termModelMap := [] }
  else
    match query emissionKeys with
    | Except.error err => Except.error (Fault.error err)
    | Except.ok rows =>
      match scanLoop rows ({ objects := [], termModelMap := [] } : TermStore)
          (fun store r => Except.ok (emissionOptionTermStep store r)) with
      | Except.error e => Except.error e
      | Except.ok store =>
        match rows.closeErr with
        | some _ => Except.ok { objects := [], termModelMap := [] }
        | none =>
          match rows.err with
          | some err => Except.error (Fault.error err)
          | none => Except.ok store

/-- The statements `termModel.FixedPrice = ...; termModel.Volume = ...` on the term
object at pointer `p`; a dangling pointer panics. -/
def setPriceAt (fixedPrice volume : Float64) (objects : List NucleusTradeTermModel) (p : Nat) :
    Except Fault (List NucleusTradeTermModel) :=
  match objects[p]? with
  | none => Except.error Fault.panic
  | some termModel =>
    Except.ok (objects.set p { termModel with FixedPrice := fixedPrice, Volume := volume })

/-- The body of the loop `for _, headerModel := range headerModels` of
`GetNucEmissionOptionDealList`. The state is the term objects and, for the headers
already visited, the header and the pointers that its term list now holds. The emission
key, the price and the volume are read from the first term of the header, its
placeholder; a header without term panics. -/
def emissionOptionSpliceStep (termModelsMap : GoMap (List Nat))
    (st : List NucleusTradeTermModel × List (NucleusTradeHeaderModel × List Nat))
    (headerModel : NucleusTradeHeaderModel) :
    Except Fault (List NucleusTradeTermModel × List (NucleusTradeHeaderModel × List Nat)) :=
  match headerModel.Terms with
  | [] => Except.error Fault.panic
  | first :: _ =>
    let modelTerms := (mapGet termModelsMap first.VolSeq).getD []
    match modelTerms.foldlM (setPriceAt first.FixedPrice first.Volume) st.1 with
    | Except.error e => Except.error e
    | Except.ok objects => Except.ok (objects, st.2 ++ [(headerModel, modelTerms)])

/-- The header list as the caller reads it: every term pointer is followed to the term
object as it is when the call returns. -/
def resolveTerms (objects : List NucleusTradeTermModel)
    (headers : List (NucleusTradeHeaderModel × List Nat)) : List NucleusTradeHeaderModel :=
  headers.map
    (fun entry =>
      { entry.1 with Terms := entry.2.map (fun p => objects.getD p NucleusTradeTermModel.zero) })

/-- The function `GetNucEmissionOptionDealList`; `primary` and `termQuery` are the
answers of the ledger store to the primary and term queries. -/
def GetNucEmissionOptionDealList (primary : Except Error (Rows EmissionOptionRow))
    (termQuery : List Int → Except Error (Rows EmissionOptionTermRow)) :
    Except Fault (List NucleusTradeHeaderModel) :=
  match primary with
  | Except.error err => Except.error (Fault.error err)
  | Except.ok rows =>
    match scanLoop rows (([], []) : List NucleusTradeHeaderModel × List Int)
        emissionOptionRowStep with
    | Except.error e => Except.error e
    | Except.ok st =>
      match rows.closeErr with
      | some _ => Except.ok []
      | none =>
        match rows.err with
        | some err => Except.error (Fault.error err)
        | none =>
          if 0 < st.2.length then
            match getNucEmissionOptionDealTermList termQuery st.2 with
            | Except.error e => Except.error e
            | Except.ok store =>
              match st.1.foldlM (emissionOptionSpliceStep store.termModelMap)
                  (store.objects, []) with
              | Except.error e => Except.error e
              | Except.ok spliced => Except.ok (resolveTerms spliced.1 spliced.2)
          else Except.ok st.1

/-! ## Statements on grouping, formulas and iteration order -/

/-- The map `m` groups the rows `l` by key: under each key it holds the terms of the rows
of that key, in row order; a key without row is absent; no key occurs twice; and the
lists hold as many terms as there are rows. -/
def GroupsRows {α : Type} (m : GoMap (List NucleusTradeTermModel)) (l : List α)
    (key : α → Int) (termOfRow : α → NucleusTradeTermModel) : Prop :=
  (∀ k, (mapGet m k).getD [] = (l.filter (fun r => decide (key r = k))).map termOfRow) ∧
  (∀ k, mapGet m k = none ↔ l.filter (fun r => decide (key r = k)) = []) ∧
  (m.map Prod.fst).Nodup ∧
  (m.map (fun e => e.2.length)).sum = l.length

/-- The term that the loop of `getNucPowerSwapDealTermModel` builds from a row. -/
def powerSwapFetchedTermOfRow (r : PowerSwapTermRow) : NucleusTradeTermModel :=
  { NucleusTradeTermModel.zero with
    VolSeq := r.VolSeq, BegDate := r.BegDate, EndDate := r.EndDate }

/-- The term that the loop of `getNucMiscChargeDealTermList` builds from a row. -/
def miscChargeTermOfRow (r : MiscChargeTermRow) : NucleusTradeTermModel :=
  { NucleusTradeTermModel.zero with
    VolSeq := r.VolSeq, BegDate := r.BegDate, EndDate := r.EndDate, Volume := r.Volume }

/-- The term rows of the transmission example: two rows of key 323931 and one of key
323934. -/
def sampleTransmissionTermList : List TransmissionTermRow :=
  [{ dealKey := 323931, VolSeq := 0,
     BegDate := { Time.zero with year := 2022, month := 6, day := 1 },
     EndDate := { Time.zero with year := 2022, month := 6, day := 1 }, Volume := 500,
     Product1 := "HOURLY".toList, Pool1 := "MID-C".toList, PointCode1 := "MID-C".toList,
     Pool2 := "MID-C".toList, PointCode2 := "MID-C".toList,
     HolidaySchedule := "NERC".toList },
   { dealKey := 323934, VolSeq := 0,
     BegDate := { Time.zero with year := 2022, month := 6, day := 1 },
     EndDate := { Time.zero with year := 2022, month := 6, day := 1 }, Volume := 151,
     Product1 := "HOURLY".toList, Pool1 := "MID-C".toList, PointCode1 := "MID-C".toList,
     Pool2 := "MID-C".toList, PointCode2 := "MID-C".toList,
     HolidaySchedule := "NERC".toList },
   { dealKey := 323931, VolSeq := 1,
     BegDate := { Time.zero with year := 2022, month := 6, day := 1 },
     EndDate := { Time.zero with year := 2022, month := 6, day := 1 }, Volume := 414,
     Product1 := "HOURLY".toList, Pool1 := "MID-C".toList, PointCode1 := "MID-C".toList,
     Pool2 := "MID-C".toList, PointCode2 := "MID-C".toList,
     HolidaySchedule := "NERC".toList }]

/-- A cursor over the term rows of the transmission example. -/
def sampleTransmissionTermRows : Rows TransmissionTermRow :=
  { scanned := sampleTransmissionTermList.map Except.ok, closeFailure := none, lastErr := none }

/-- A nullable text column that is SQL null or holds the empty string. -/
def MissingText (s : Option Str) : Prop := s = none ∨ s = some []

instance instDecidableMissingText (s : Option Str) : Decidable (MissingText s) := by
  unfold MissingText
  infer_instance

/-- A heat-rate swap row. -/
def sampleHeatRateSwapsRow : HeatRateSwapsRow :=
  { DealKey := 16495, DealType := "HRSWPS".toList, totalQuantity := some 175200,
    DnDirection := "SALE".toList,
    TransactionDate := { Time.zero with year := 2022, month := 6, day := 1 },
    CyCompanyKey := 10105, Company := "O&R".toList,
    CompanyLongName := "ORANGE AND ROCKLAND".toList, CompanyCode := "ORNGE&RCK".toList,
    LegalEntity := "STRM".toList, LegalEntityLongName := "SHELL TRADING".toList,
    CyLegalEntityKey := 18726, interaffiliateFlag := some ['N'],
    contract := some "033-RM-FI-10415".toList, confirmFormat := some "HR SWAP".toList,
    Region := "EAST".toList, hsHedgeKey := some [], PrtPortfolio := 99482,
    Portfolio := "POWER_RM_CONSUMERS".toList, UrTrader := "DMOLIN".toList,
    tzTimeZone := some [], hasBroker := some "NO".toList, broker := some "NA".toList,
    exercisedOptionKey := none, Pool1 := "NYCAG".toList, Product1 := "STD 7x24".toList,
    publication1 := some "NY DA LMP".toList, pubIndex1 := some "61758".toList,
    publication2 := some "NYMEX".toList, pubIndex2 := some "NG".toList,
    frequency2 := some "MONTHLY".toList,
    StartDate := { Time.zero with year := 2023, month := 1, day := 23 },
    EndDate := { Time.zero with year := 2023, month := 12, day := 31 },
    HolidaySchedule := "NERC".toList, volume := some (-20), CreatedBy := "DMOLIN".toList,
    ModifiedBy := "DMOLIN".toList,
    CreatedAt := { Time.zero with year := 2022, month := 6, day := 1 },
    ModifiedAt := { Time.zero with year := 2022, month := 6, day := 1 },
    executionDate := some "06/01/2022".toList, executionTime := some "09:10:00 AM".toList }

/-- A cursor over the sample heat-rate swap row. -/
def sampleHeatRateSwapsRows : Rows HeatRateSwapsRow :=
  { scanned := [Except.ok sampleHeatRateSwapsRow], closeFailure := none, lastErr := none }

/-- A spread-option row with an execution date and the empty execution time. -/
def sampleSpreadOptionsRow : SpreadOptionsRow :=
  { DealKey := 77283, DealType := "SPDOPT".toList, DnDirection := "PURCHASE".toList,
    TransactionDate := { Time.zero with year := 2022, month := 5, day := 25 },
    CyCompanyKey := 21589, Company := "MIDTOPO".toList,
    CompanyLongName := "MIDDLETOWN POWER LLC".toList, CompanyCode := "MIDTOPO".toList,
    LegalEntity := "SENA".toList, LegalEntityLongName := "SENA LP".toList,
    CyLegalEntityKey := 10430, contract := some "013-KW-BI-32897".toList,
    confirmFormat := some "DF7EXPRESO".toList, Region := "EAST".toList,
    hsHedgeKey := some "FOGECA".toList, PrtPortfolio := 99896,
    Portfolio := "FOGECA".toList, UrTrader := "GGULYASS".toList, ibPrtPortfolio := none,
    ibPortfolio := some [], ibUrTrader := some [], tzTimeZone := some [],
    hasBroker := some "NO".toList, broker := some "NA".toList,
    StartDate := { Time.zero with year := 2022, month := 6, day := 1 },
    EndDate := { Time.zero with year := 2022, month := 6, day := 30 },
    HolidaySchedule := "NERC".toList, formula1 := some "[NE DA LMP|4000|HOURLY]".toList,
    formula2 := some "[GD|TENN Z6 SOUTH|DAILY]".toList, pool1 := some "XMIDX".toList,
    pool2 := some [], product1 := some "STD 7x24".toList, product2 := some [],
    Volume := 226, fixedPrice := some 11, CreatedBy := "GGULYASS".toList,
    ModifiedBy := "GGULYASS".toList,
    CreatedAt := { Time.zero with year := 2022, month := 5, day := 26 },
    ModifiedAt := { Time.zero with year := 2022, month := 5, day := 26 },
    executionDate := some "05/26/2022".toList, executionTime := some [],
    exoticFlag := some "Yes".toList, pointCode1 := some "NOT APPLICABLE".toList }

/-- A cursor over two spread-option rows without execution time. -/
def sampleSpreadOptionsRows : Rows SpreadOptionsRow :=
  { scanned :=
      [Except.ok sampleSpreadOptionsRow,
       Except.ok { sampleSpreadOptionsRow with DealKey := 77294, Volume := 117 }],
    closeFailure := none, lastErr := none }

/-- A transmission row whose execution date is the empty text. -/
def sampleTransmissionRow : TransmissionRow :=
  { DealKey := 323931, DealType := "TRANS".toList, DnDirection := "PURCHASE".toList,
    TransactionDate := { Time.zero with year := 2022, month := 6, day := 2 },
    CyCompanyKey := 10133, Company := "SMUD".toList,
    CompanyLongName := "SACRAMENTO MUNICIPAL UTILITY DIST".toList,
    CompanyCode := "SMUD".toList, LegalEntity := "SENA".toList,
    LegalEntityLongName := "SENA LP".toList, CyLegalEntityKey := 10430,
    contract := some "011-KW-BI-03761".toList, confirmFormat := some "TRANS".toList,
    Region := "WEST".toList, hsHedgeKey := some ['N'], PrtPortfolio := 288,
    Portfolio := "SD - TRANS".toList, UrTrader := "LHILER".toList,
    TzTimeZone := "PPT".toList, hasBroker := some "NO".toList, broker := some "NA".toList,
    CreatedBy := "LHILER".toList, ModifiedBy := "LHILER".toList,
    CreatedAt := { Time.zero with year := 2022, month := 6, day := 2 },
    ModifiedAt := { Time.zero with year := 2022, month := 6, day := 2 },
    executionTime := some [] }

/-- A cursor over the transmission row whose execution date is the empty text. -/
def sampleTransmissionRows : Rows TransmissionRow :=
  { scanned := [Except.ok sampleTransmissionRow], closeFailure := none, lastErr := none }

/-! ## Power deals: statements on terms, formulas and indexes -/

/-- Whether a power term row has a non-null, non-empty formula. -/
def hasFormula (r : PowerTermRow) : Bool :=
  match r.formula with
  | some formula => decide (formula ≠ [])
  | none => false

/-- The index that the loop of `getNucPowerTradeIndexModel` builds from a row. -/
def powerIndexOfRow (r : PowerIndexRow) : NucleusTradeIndexModel :=
  { VolSeq := r.VolSeq, Publication := r.Publication, PubIndex := r.PubIndex,
    Frequency := r.Frequency }

/-- The term map that the row loop of `getNucPowerDealTradeTermModel` builds from the
term rows. -/
def powerTermMap (tl : List PowerTermRow) : GoMap (List NucleusTradeTermModel) :=
  (tl.foldl powerTermStep ([], [])).1

/-- The formula map that the row loop of `getNucPowerDealTradeTermModel` builds from the
term rows: the pairs of deal key and volume sequence passed to the index lookup. -/
def powerFormulaMap (tl : List PowerTermRow) : GoMap Int :=
  (tl.foldl powerTermStep ([], [])).2

/-- A term after the indexes of a list were offered to it: those with its volume
sequence are appended to its first slot, in the order of the list. -/
def withIndexesOf (indexModels : List NucleusTradeIndexModel)
    (termModel : NucleusTradeTermModel) : NucleusTradeTermModel :=
  { termModel with
    Indexes1 :=
      termModel.Indexes1 ++
        indexModels.filter (fun indexModel => decide (termModel.VolSeq = indexModel.VolSeq)) }

/-- Three power term rows: key 11 with volume sequences 0 and 1, both with a formula,
around a row of key 12 without formula. -/
def samplePowerTermList : List PowerTermRow :=
  [{ samplePowerTermRow with powerKey := 11, VolSeq := 0 },
   { samplePowerTermRow with powerKey := 12, VolSeq := 0, formula := none },
   { samplePowerTermRow with powerKey := 11, VolSeq := 1 }]

/-- A cursor over the three sample power term rows. -/
def samplePowerTermRows3 : Rows PowerTermRow :=
  { scanned := samplePowerTermList.map Except.ok, closeFailure := none, lastErr := none }

/-- Index rows for the sample power term rows: two for key 11 and volume sequence 1, one
for key 11 and volume sequence 0, one for key 11 and a volume sequence without term, and
one for a key without term. -/
def samplePowerIndexList : List PowerIndexRow :=
  [{ dealKey := 11, VolSeq := 1, Publication := "MISO DALMP".toList,
     PubIndex := "PJMC".toList, Frequency := "HOURLY".toList },
   { dealKey := 11, VolSeq := 0, Publication := "MISO DALMP".toList,
     PubIndex := "AMIL".toList, Frequency := "HOURLY".toList },
   { dealKey := 11, VolSeq := 7, Publication := "MISO DALMP".toList,
     PubIndex := "CIN".toList, Frequency := "HOURLY".toList },
   { dealKey := 99, VolSeq := 0, Publication := "PJM DA LMP".toList,
     PubIndex := "4052".toList, Frequency := "HOURLY".toList },
   { dealKey := 11, VolSeq := 1, Publication := "MISO RTLMP".toList,
     PubIndex := "PJMC".toList, Frequency := "HOURLY".toList }]

/-- A cursor over the sample power index rows. -/
def samplePowerIndexRows : Rows PowerIndexRow :=
  { scanned := samplePowerIndexList.map Except.ok, closeFailure := none, lastErr := none }

/-! ## Iteration order of maps -/

/-- An order in which a `range` loop may visit the entries of a map: Go leaves the order
unspecified, so every permutation of the entries is possible. -/
def IterationOrder {V : Type} (order : GoMap V → GoMap V) : Prop :=
  ∀ m, (order m).Perm m

/-- The function `getNucPowerDealTradeTermModel` when the loop over the index map visits
its entries in the order `indexOrder`. -/
def getNucPowerDealTradeTermModelIn
    (indexOrder : GoMap (List NucleusTradeIndexModel) → GoMap (List NucleusTradeIndexModel))
    (termQuery : List Int → Except Error (Rows PowerTermRow))
    (indexQuery : GoMap Int → Except Error (Rows PowerIndexRow)) (dealKeys : List Int) :
    Except Fault (GoMap (List NucleusTradeTermModel)) :=
  if dealKeys.length = 0 then Except.ok []
  else
    match termQuery dealKeys with
    | Except.error err => Except.error (Fault.error err)
    | Except.ok rows =>
      match scanLoop rows (([], []) : GoMap (List NucleusTradeTermModel) × GoMap Int)
          (fun st r => Except.ok (powerTermStep st r)) with
      | Except.error e => Except.error e
      | Except.ok st =>
        match rows.closeErr with
        | some _ => Except.ok []
        | none =>
          match rows.err with
          | some err => Except.error (Fault.error err)
          | none =>
            match getNucPowerTradeIndexModel indexQuery st.2 with
            | Except.error e => Except.error e
            | Except.ok indexModelsMap =>
              Except.ok (powerAttachIndexes st.1 (indexOrder indexModelsMap))

/-- The function `GetNucPowerDealList` when the loop over the header map visits its
entries in the order `headerOrder` and the loop over the index map in the order
`indexOrder`. -/
def GetNucPowerDealListIn (headerOrder : GoMap Nat → GoMap Nat)
    (indexOrder : GoMap (List NucleusTradeIndexModel) → GoMap (List NucleusTradeIndexModel))
    (primary : Except Error (Rows PowerRow))
    (termQuery : List Int → Except Error (Rows PowerTermRow))
    (indexQuery : GoMap Int → Except Error (Rows PowerIndexRow)) :
    Except Fault (List NucleusTradeHeaderModel) :=
  match primary with
  | Except.error err => Except.error (Fault.error err)
  | Except.ok rows =>
    match scanLoop rows FetchState.init powerRowStep with
    | Except.error e => Except.error e
    | Except.ok st =>
      match rows.closeErr with
      | some _ => Except.ok []
      | none =>
        match rows.err with
        | some err => Except.error (Fault.error err)
        | none =>
          if 0 < st.dealKeys.length then
            match getNucPowerDealTradeTermModelIn indexOrder termQuery indexQuery
                st.dealKeys with
            | Except.error e => Except.error e
            | Except.ok termModelsMap =>
              powerAttachTerms termModelsMap (headerOrder st.headerModelsMap) st.headerModels
          else Except.ok st.headerModels

/-- The function `GetNucPowerSwapDealList` when the loop over the term map visits its
entries in the order `termOrder`. -/
def GetNucPowerSwapDealListIn
    (termOrder : GoMap (List NucleusTradeTermModel) → GoMap (List NucleusTradeTermModel))
    (primary : Except Error (Rows PowerSwapRow))
    (termQuery : List Int → Except Error (Rows PowerSwapTermRow)) :
    Except Fault (List NucleusTradeHeaderModel) :=
  match primary with
  | Except.error err => Except.error (Fault.error err)
  | Except.ok rows =>
    match scanLoop rows FetchState.init powerSwapRowStep with
    | Except.error e => Except.error e
    | Except.ok st =>
      match rows.closeErr with
      | some _ => Except.ok []
      | none =>
        match rows.err with
        | some err => Except.error (Fault.error err)
        | none =>
          if 0 < st.dealKeys.length then
            match getNucPowerSwapDealTermModel termQuery st.dealKeys with
            | Except.error e => Except.error e
            | Except.ok termModelsMap =>
              powerSwapSplice st (termOrder termModelsMap) st.headerModels
          else Except.ok st.headerModels

/-- Every pointer of the header map points to a header that carries the key of the
pointer, and no key occurs twice in the map. -/
def PointersNameKeys (st : FetchState) : Prop :=
  (st.headerModelsMap.map Prod.fst).Nodup ∧
    ∀ e ∈ st.headerModelsMap, ∃ hd, st.headerModels[e.2]? = some hd ∧ hd.DealKey = e.1

/-- Three power-deal rows, the first and the third with the same deal key. -/
def samplePowerRowList : List PowerRow :=
  [{ samplePowerRow with DealKey := 11, UrTrader := "FIRST".toList },
   { samplePowerRow with DealKey := 12 },
   { samplePowerRow with DealKey := 11, UrTrader := "LATER".toList }]

/-- A cursor over the three sample power-deal rows. -/
def samplePowerRows3 : Rows PowerRow :=
  { scanned := samplePowerRowList.map Except.ok, closeFailure := none, lastErr := none }

/-- Term rows for the keys of the sample power-swap rows, those of key 4001 around one
of a second key. -/
def samplePowerSwapRows2 : Rows PowerSwapRow :=
  { scanned :=
      [Except.ok samplePowerSwapRow,
       Except.ok { samplePowerSwapRow with DealKey := 4003, Pool1 := "MISO".toList }],
    closeFailure := none, lastErr := none }

/-- Term rows for the two non-standard sample power-swap rows. -/
def samplePowerSwapTermRows2 : Rows PowerSwapTermRow :=
  { scanned :=
      [Except.ok { dealKey := 4001, VolSeq := 0,
                   BegDate := { Time.zero with year := 2022, month := 6 },
                   EndDate := { Time.zero with year := 2022, month := 6, day := 30 } },
       Except.ok { dealKey := 4003, VolSeq := 0,
                   BegDate := { Time.zero with year := 2022, month := 6 },
                   EndDate := { Time.zero with year := 2022, month := 6, day := 30 } },
       Except.ok { dealKey := 4001, VolSeq := 1,
                   BegDate := { Time.zero with year := 2022, month := 7 },
                   EndDate := { Time.zero with year := 2022, month := 7, day := 31 } }],
    closeFailure := none, lastErr := none }

/-! ## Sample rows for the capacity index splice -/

/-- A standard capacity row with an energy formula. -/
def sampleCapacityStandardFormulaRow : CapacityRow :=
  { sampleCapacityRow with
    DealKey := 5003, nonstdFlag := ['N'],
    energyFormula := some "[ER AS RRS|DA_RRS|HOURLY]".toList }

/-- A cursor over the standard sample capacity row with a formula. -/
def sampleCapacityStandardFormulaRows : Rows CapacityRow :=
  { scanned := [Except.ok sampleCapacityStandardFormulaRow], closeFailure := none, lastErr := none }

/-- One index row for the key of the standard sample capacity row with a formula. -/
def sampleCapacityStandardIndexList : List CapacityIndexRow :=
  [{ dealKey := 5003, Publication := "ER AS RRS".toList, PubIndex := "DA_RRS".toList,
     Frequency := "HOURLY".toList }]

/-- A cursor over the index row of the standard sample capacity row. -/
def sampleCapacityStandardIndexRows : Rows CapacityIndexRow :=
  { scanned := sampleCapacityStandardIndexList.map Except.ok, closeFailure := none,
    lastErr := none }

/-- A capacity term cursor without rows. -/
def sampleNoCapacityTermRows : Rows CapacityTermRow :=
  { scanned := [], closeFailure := none, lastErr := none }

/-! ## Statements on the emission-option splice -/

/-- The last of the rows `l` with the emission key `k`, if there is one. -/
def lastRowWithEmissionKey (l : List EmissionOptionRow) (k : Int) : Option EmissionOptionRow :=
  (l.filter (fun r => decide (r.emissionKey = k))).getLast?

/-- The term `t` with the strike price and the volume of the row `r`, if there is one. -/
def withPriceOf (r : Option EmissionOptionRow) (t : NucleusTradeTermModel) :
    NucleusTradeTermModel :=
  match r with
  | none => t
  | some r => { t with FixedPrice := r.FixedPrice, Volume := r.Volume }

/-- An emission-option row on the emission deal 31321. -/
def sampleEmissionOptionRow : EmissionOptionRow :=
  { DealKey := 12706, DealType := "EMOPTS".toList, DnDirection := "SALE".toList,
    TransactionDate := { Time.zero with year := 2016, month := 1, day := 27 },
    CyCompanyKey := 16370, Company := "NEWFIN".toList,
    CompanyLongName := "NEWEDGE FINANCIAL INC".toList, CompanyCode := "NEWFIN".toList,
    LegalEntity := "SENA".toList, LegalEntityLongName := "SENA LP".toList,
    CyLegalEntityKey := 10430, contract := none, confirmFormat := some "EMSSN OPT".toList,
    Region := "EAST".toList, hsHedgeKey := some "REALIZED".toList, PrtPortfolio := 99444,
    Portfolio := "HOUSTON EMISSIONS FIN US".toList, UrTrader := "DEKING".toList,
    tzTimeZone := some "EST".toList, hasBroker := some "YES".toList,
    broker := some "TFS".toList, emissionKey := 31321, FixedPrice := 7, Volume := -250,
    CreatedBy := "DEKING".toList, ModifiedBy := "NXTGEN".toList,
    CreatedAt := { Time.zero with year := 2016, month := 1, day := 27 },
    ModifiedAt := { Time.zero with year := 2016, month := 12, day := 14 },
    executionDate := none, executionTime := none }

/-- Two emission-option rows on the same emission deal, with different strike prices and
volumes. -/
def sampleEmissionOptionRowList : List EmissionOptionRow :=
  [sampleEmissionOptionRow,
   { sampleEmissionOptionRow with
     DealKey := 12711, DnDirection := "PURCHASE".toList, FixedPrice := 8, Volume := 700 }]

/-- A cursor over the two sample emission-option rows. -/
def sampleEmissionOptionRows : Rows EmissionOptionRow :=
  { scanned := sampleEmissionOptionRowList.map Except.ok, closeFailure := none, lastErr := none }

/-- One term row of the emission deal 31321. -/
def sampleEmissionOptionTermList : List EmissionOptionTermRow :=
  [{ emissionKey := 31321, VolSeq := 1,
     BegDate := { Time.zero with year := 2010, month := 4, day := 1 },
     EndDate := { Time.zero with year := 2010, month := 4, day := 30 },
     ctpPointCode := some "MID-C".toList, Product1 := "CA REC".toList }]

/-- A cursor over the sample emission-option term row. -/
def sampleEmissionOptionTermRows : Rows EmissionOptionTermRow :=
  { scanned := sampleEmissionOptionTermList.map Except.ok, closeFailure := none, lastErr := none }

/-! ## Registered deal keys and capacity indexes -/

/-- A deal key with an entry in the header table and in the table of initial terms of a
fetch state: the key of a non-standard row of the power-swap and capacity fetchers. -/
def Registered (st : FetchState) (k : Int) : Prop :=
  (∃ p, mapGet st.headerModelsMap k = some p) ∧ ∃ t, mapGet st.initialTermModelsMap k = some t

/-- The indexes that `getNucCapacityDealIndexModel` builds from the index rows of one
deal key, when `n` indexes are already stored under the key. -/
def capacityIndexesFrom : Nat → List CapacityIndexRow → List NucleusTradeIndexModel
  | _, [] => []
  | n, r :: rs =>
    { Publication := r.Publication, PubIndex := r.PubIndex, Frequency := r.Frequency,
      VolSeq := n } :: capacityIndexesFrom (n + 1) rs

/-! ## Output in row order -/

/-- A fetch result that follows the primary rows `l`: the call returns a header list of
the length of `l` whose i-th header has the deal key of the i-th row and stands in the
relation `fields` to it. -/
def FollowsRows {α : Type} (key : α → Int) (fields : α → NucleusTradeHeaderModel → Prop)
    (l : List α) (result : Except Fault (List NucleusTradeHeaderModel)) : Prop :=
  ∃ headers, result = Except.ok headers ∧ headers.length = l.length ∧
    ∀ (i : Nat) (r : α), l[i]? = some r →
      ∃ hd, headers[i]? = some hd ∧ hd.DealKey = key r ∧ fields r hd

/-- The two sample power-swap rows, the first non-standard and the second standard. -/
def samplePowerSwapRowList : List PowerSwapRow :=
  [samplePowerSwapRow, samplePowerSwapRow2]

/-- The term rows of the non-standard sample power-swap row. -/
def samplePowerSwapTermList : List PowerSwapTermRow :=
  [{ dealKey := 4001, VolSeq := 0,
     BegDate := { Time.zero with year := 2022, month := 6 },
     EndDate := { Time.zero with year := 2022, month := 6, day := 30 } },
   { dealKey := 4001, VolSeq := 1,
     BegDate := { Time.zero with year := 2022, month := 7 },
     EndDate := { Time.zero with year := 2022, month := 7, day := 31 } }]

/-- Two capacity rows: the non-standard sample row with a formula, and a standard row
without formula. -/
def sampleCapacityRowList : List CapacityRow :=
  [sampleCapacityFormulaRow, { sampleCapacityRow with DealKey := 5004, nonstdFlag := ['N'] }]

/-- A cursor over the two sample capacity rows. -/
def sampleCapacityRows2 : Rows CapacityRow :=
  { scanned := sampleCapacityRowList.map Except.ok, closeFailure := none, lastErr := none }

/-- The term row of the sample capacity row with a formula. -/
def sampleCapacityFormulaTermList : List CapacityTermRow :=
  [{ dealKey := 5002,
     BegDate := { Time.zero with year := 2022, month := 6 },
     EndDate := { Time.zero with year := 2022, month := 6, day := 30 } }]

/-- The two index rows of the sample capacity row with a formula. -/
def sampleCapacityIndexList : List CapacityIndexRow :=
  [{ dealKey := 5002, Publication := "ER AS RRS".toList,
     PubIndex := "DA_RRS".toList, Frequency := "HOURLY".toList },
   { dealKey := 5002, Publication := "ER AS REG".toList,
     PubIndex := "DA_REGUP".toList, Frequency := "HOURLY".toList }]

/-- The term row of the sample misc charge. -/
def sampleMiscChargeTermList : List MiscChargeTermRow :=
  [{ dealKey := 88120, VolSeq := 1,
     BegDate := { Time.zero with year := 2022, month := 6 },
     EndDate := { Time.zero with year := 2022, month := 6, day := 30 },
     Volume := 25 }]

/-- A power-option row. -/
def samplePowerOptionsRow : PowerOptionsRow :=
  { DealKey := 61204, DealType := "PWROPT".toList, totalQuantity := some 4000,
    DnDirection := "SALE".toList,
    TransactionDate := { Time.zero with year := 2022, month := 5, day := 25 },
    CyCompanyKey := 10459, Company := "MISO".toList, CompanyLongName := "MIDWEST".toList,
    CompanyCode := "MIDWEST IN".toList, LegalEntity := "SENA".toList,
    LegalEntityLongName := "SENA LP".toList, CyLegalEntityKey := 10430,
    interaffiliateFlag := some ['N'], contract := some "011-KW-IS-10952".toList,
    confirmFormat := some "OPTION".toList, Region := "EAST".toList, hsHedgeKey := none,
    PrtPortfolio := 288, Portfolio := "SD - OPT".toList, UrTrader := "SROSS".toList,
    ibPrtPortfolio := none, ibPortfolio := none, ibUrTrader := none,
    TzTimeZone := "EPT".toList, TzExerciseZone := "EPT".toList,
    hasBroker := some "NO".toList, broker := some "NA".toList, Pool1 := "PJM".toList,
    Product1 := "STD 5x16".toList, PointCode1 := "WESTERN HUB".toList,
    settleFormula := some "[PJM DA LMP|51288|HOURLY]".toList,
    StartDate := { Time.zero with year := 2022, month := 7, day := 1 },
    EndDate := { Time.zero with year := 2022, month := 7, day := 31 },
    HolidaySchedule := "NERC".toList, Volume := 50, fixedPrice := some 3,
    PriceType := ['F'], strikeFormula := none, CreatedBy := "SROSS".toList,
    ModifiedBy := "SROSS".toList,
    CreatedAt := { Time.zero with year := 2022, month := 5, day := 25 },
    ModifiedAt := { Time.zero with year := 2022, month := 5, day := 25 },
    executionDate := some "2022-05-25".toList, executionTime := some "08:18:55 AM".toList,
    exoticFlag := some "No".toList }

/-- Two power-option rows. -/
def samplePowerOptionsRowList : List PowerOptionsRow :=
  [samplePowerOptionsRow, { samplePowerOptionsRow with DealKey := 61207, Volume := 25 }]

/-- A cursor over the two sample power-option rows. -/
def samplePowerOptionsRows : Rows PowerOptionsRow :=
  { scanned := samplePowerOptionsRowList.map Except.ok, closeFailure := none, lastErr := none }

/-- The two sample spread-option rows. -/
def sampleSpreadOptionsRowList : List SpreadOptionsRow :=
  [sampleSpreadOptionsRow, { sampleSpreadOptionsRow with DealKey := 77294, Volume := 117 }]

/-- A row of a transmission congestion contract. -/
def sampleTCCFTRSRow : TCCFTRSRow :=
  { DealKey := 45120, DealType := "TCCFTR".toList, DnDirection := "PURCHASE".toList,
    TransactionDate := { Time.zero with year := 2022, month := 5, day := 25 },
    CyCompanyKey := 10459, Company := "MISO".toList, CompanyLongName := "MIDWEST".toList,
    CompanyCode := "MIDWEST IN".toList, LegalEntity := "SENA".toList,
    LegalEntityLongName := "SENA LP".toList, CyLegalEntityKey := 10430,
    contract := none, confirmFormat := some "FTR".toList, Region := "EAST".toList,
    hsHedgeKey := none, PrtPortfolio := 288, Portfolio := "SD - FTR".toList,
    UrTrader := "SROSS".toList, TzTimeZone := "EPT".toList, hasBroker := some "NO".toList,
    broker := some "NA".toList,
    BegDate := { Time.zero with year := 2022, month := 6, day := 1 },
    EndDate := { Time.zero with year := 2022, month := 6, day := 30 },
    HolidaySchedule := "NERC".toList, volume := some 10, fixedPrice := none,
    Pool1 := "MISO".toList, Product1 := "STD 7x24".toList,
    Publication := "MISO DALMP".toList, Frequency := "HOURLY".toList,
    PubIndex := "AMIL".toList, PubIndex2 := "CIN".toList, CreatedBy := "SROSS".toList,
    ModifiedBy := "SROSS".toList,
    CreatedAt := { Time.zero with year := 2022, month := 5, day := 25 },
    ModifiedAt := { Time.zero with year := 2022, month := 5, day := 25 } }

/-- Two rows of transmission congestion contracts. -/
def sampleTCCFTRSRowList : List TCCFTRSRow :=
  [sampleTCCFTRSRow, { sampleTCCFTRSRow with DealKey := 45121, volume := none }]

/-- A cursor over the two sample rows of transmission congestion contracts. -/
def sampleTCCFTRSRows : Rows TCCFTRSRow :=
  { scanned := sampleTCCFTRSRowList.map Except.ok, closeFailure := none, lastErr := none }

/-- Two transmission rows with an execution date, for the two keys of the sample term
rows. -/
def sampleTransmissionDatedRowList : List TransmissionRow :=
  [{ sampleTransmissionRow with DealKey := 323934, executionTime := some "06/02/2022".toList },
   { sampleTransmissionRow with executionTime := none }]

/-- A cursor over the two sample transmission rows with an execution date. -/
def sampleTransmissionDatedRows : Rows TransmissionRow :=
  { scanned := sampleTransmissionDatedRowList.map Except.ok, closeFailure := none,
    lastErr := none }

/-- An emission row. -/
def sampleEmissionRow : EmissionRow :=
  { DealKey := 31321, DealType := "EMSSN".toList, DnDirection := "SALE".toList,
    TransactionDate := { Time.zero with year := 2016, month := 1, day := 27 },
    CyCompanyKey := 16370, Company := "NEWFIN".toList,
    CompanyLongName := "NEWEDGE FINANCIAL INC".toList, CompanyCode := "NEWFIN".toList,
    LegalEntity := "SENA".toList, LegalEntityLongName := "SENA LP".toList,
    CyLegalEntityKey := 10430, contract := none, confirmFormat := some "EMSSN".toList,
    Region := "EAST".toList, hsHedgeKey := some "REALIZED".toList, PrtPortfolio := 99444,
    Portfolio := "HOUSTON EMISSIONS FIN US".toList, UrTrader := "DEKING".toList,
    tzTimeZone := some "EST".toList, hasBroker := some "YES".toList,
    broker := some "TFS".toList, CreatedBy := "DEKING".toList, ModifiedBy := "NXTGEN".toList,
    CreatedAt := { Time.zero with year := 2016, month := 1, day := 27 },
    ModifiedAt := { Time.zero with year := 2016, month := 12, day := 14 },
    executionDate := none, executionTime := none }

/-- Two emission rows. -/
def sampleEmissionRowList : List EmissionRow :=
  [{ sampleEmissionRow with DealKey := 31325 }, sampleEmissionRow]

/-- A cursor over the two sample emission rows. -/
def sampleEmissionRows : Rows EmissionRow :=
  { scanned := sampleEmissionRowList.map Except.ok, closeFailure := none, lastErr := none }

/-- Term rows of the two sample emission deals, in the order 31321, 31325, 31321. -/
def sampleEmissionTermList : List EmissionTermRow :=
  [{ dealKey := 31321, VolSeq := 1,
     BegDate := { Time.zero with year := 2016, month := 2, day := 1 },
     EndDate := { Time.zero with year := 2016, month := 2, day := 29 },
     PriceType := ['F'], FixedPrice := 7, Volume := 250, Product1 := "CA REC".toList,
     ctpPointCode := some "MID-C".toList, formula := none },
   { dealKey := 31325, VolSeq := 1,
     BegDate := { Time.zero with year := 2016, month := 2, day := 1 },
     EndDate := { Time.zero with year := 2016, month := 2, day := 29 },
     PriceType := ['I'], FixedPrice := 0, Volume := 100, Product1 := "CA REC".toList,
     ctpPointCode := none, formula := some "[GD|TENN Z6 SOUTH|DAILY]".toList },
   { dealKey := 31321, VolSeq := 2,
     BegDate := { Time.zero with year := 2016, month := 3, day := 1 },
     EndDate := { Time.zero with year := 2016, month := 3, day := 31 },
     PriceType := ['F'], FixedPrice := 7, Volume := 250, Product1 := "CA REC".toList,
     ctpPointCode := some "MID-C".toList, formula := none }]

/-- A cursor over the sample emission term rows. -/
def sampleEmissionTermRows : Rows EmissionTermRow :=
  { scanned := sampleEmissionTermList.map Except.ok, closeFailure := none, lastErr := none }

/-! ## The formula pattern: lemmas -/

theorem unique_split {c : Char} : ∀ (p q p' q' : Str), c ∉ p → c ∉ q →
    p ++ c :: q = p' ++ c :: q' → p = p' ∧ q = q'
  | [], q, [], q', _, _, h => by simpa using h
  | [], q, y :: p', q', _, hq, h => by
    simp only [List.nil_append, List.cons_append, List.cons.injEq] at h
    exact absurd (by rw [h.2]; simp) hq
  | x :: p, q, [], q', hp, _, h => by
    simp only [List.nil_append, List.cons_append, List.cons.injEq] at h
    exact absurd (by simp [h.1]) hp
  | x :: p, q, y :: p', q', hp, hq, h => by
    simp only [List.cons_append, List.cons.injEq] at h
    have hp' : c ∉ p := fun hc => hp (List.mem_cons_of_mem _ hc)
    obtain ⟨h1, h2⟩ := unique_split p q p' q' hp' hq h.2
    exact ⟨by rw [h.1, h1], h2⟩

theorem matchHere_sound : ∀ (s : Str) (p : List Item) (n : Nat),
    matchHere s p = some n → n ≤ s.length ∧ Matches p (s.take n)
  | s, [], n, h => by
    cases s <;> simp [matchHere] at h <;> subst h <;> simp [Matches]
  | [], _ :: _, n, h => by simp [matchHere] at h
  | x :: xs, Item.lit c :: items, n, h => by
    simp only [matchHere] at h
    split at h
    · rename_i hxc
      cases hm : matchHere xs items with
      | none => simp [hm] at h
      | some k =>
        simp [hm] at h
        subst h
        obtain ⟨h1, h2⟩ := matchHere_sound xs items k hm
        refine ⟨by simpa using h1, ?_⟩
        simp only [List.take_succ_cons, Matches]
        exact ⟨_, by rw [hxc], h2⟩
    · simp at h
  | x :: xs, Item.dotPlus :: items, n, h => by
    simp only [matchHere] at h
    split at h
    · simp at h
    · rename_i hx
      cases hm : matchHere xs (Item.dotPlus :: items) with
      | some k =>
        simp [hm] at h
        subst h
        obtain ⟨h1, h2⟩ := matchHere_sound xs _ k hm
        refine ⟨by simpa using h1, ?_⟩
        simp only [List.take_succ_cons, Matches] at h2 ⊢
        obtain ⟨u, w', hu, hnl, hw, hM⟩ := h2
        refine ⟨x :: u, w', by simp, ?_, by simp [hw], hM⟩
        intro y hy
        rcases List.mem_cons.1 hy with rfl | hy
        · exact hx
        · exact hnl y hy
      | none =>
        simp only [hm] at h
        cases hm2 : matchHere xs items with
        | none => simp [hm2] at h
        | some k =>
          simp [hm2] at h
          subst h
          obtain ⟨h1, h2⟩ := matchHere_sound xs _ k hm2
          refine ⟨by simpa using h1, ?_⟩
          simp only [List.take_succ_cons, Matches]
          refine ⟨[x], _, by simp, ?_, by simp, h2⟩
          intro y hy
          rw [List.mem_singleton.1 hy]
          exact hx

theorem matchHere_complete : ∀ (m : Str) (p : List Item) (rest : Str),
    Matches p m → (matchHere (m ++ rest) p).isSome
  | m, [], rest, _ => by cases h : m ++ rest <;> simp [matchHere]
  | [], Item.lit c :: items, rest, h => by simp [Matches] at h
  | [], Item.dotPlus :: items, rest, h => by
    simp only [Matches] at h
    obtain ⟨u, w', hu, _, hw, _⟩ := h
    cases u with
    | nil => exact absurd rfl hu
    | cons a u => simp at hw
  | x :: m, Item.lit c :: items, rest, h => by
    simp only [Matches, List.cons.injEq] at h
    obtain ⟨w', ⟨hxc, hw⟩, hM⟩ := h
    subst hw
    have := matchHere_complete m items rest hM
    simp only [List.cons_append, matchHere, hxc, if_true]
    cases hm : matchHere (m ++ rest) items with
    | none => simp [hm] at this
    | some k => simp
  | x :: m, Item.dotPlus :: items, rest, h => by
    simp only [Matches] at h
    obtain ⟨u, w', hu, hnl, hw, hM⟩ := h
    cases u with
    | nil => exact absurd rfl hu
    | cons a u =>
      simp only [List.cons_append, List.cons.injEq] at hw
      obtain ⟨hxa, hw⟩ := hw
      subst hxa
      have hx : x ≠ '\n' := hnl x (List.mem_cons_self _ _)
      simp only [List.cons_append, matchHere, hx, if_false]
      cases hm : matchHere (m ++ rest) (Item.dotPlus :: items) with
      | some k => simp
      | none =>
        simp only
        cases u with
        | nil =>
          simp only [List.nil_append] at hw
          subst hw
          have := matchHere_complete m items rest hM
          cases hm2 : matchHere (m ++ rest) items with
          | none => simp [hm2] at this
          | some k => simp
        | cons b u =>
          have hM' : Matches (Item.dotPlus :: items) m := by
            simp only [Matches]
            exact ⟨b :: u, w', by simp, fun y hy => hnl y (List.mem_cons_of_mem _ hy), hw, hM⟩
          have := matchHere_complete m _ rest hM'
          simp [hm] at this

theorem matches_formulaPattern {w : Str} (h : Matches formulaPattern w) :
    ∃ u1 u2 u3 : Str, u1 ≠ [] ∧ u2 ≠ [] ∧ u3 ≠ [] ∧
      (∀ x ∈ u1, x ≠ '\n') ∧ (∀ x ∈ u2, x ≠ '\n') ∧ (∀ x ∈ u3, x ≠ '\n') ∧
      w = '[' :: (u1 ++ '|' :: (u2 ++ '|' :: (u3 ++ [']']))) := by
  simp only [formulaPattern, Matches] at h
  obtain ⟨w1, rfl, u1, w2, hu1, hn1, rfl, w3, rfl, u2, w4, hu2, hn2, rfl, w5, rfl,
    u3, w6, hu3, hn3, rfl, w7, rfl, rfl⟩ := h
  exact ⟨u1, u2, u3, hu1, hu2, hu3, hn1, hn2, hn3, rfl⟩

theorem formulaPattern_matches {u1 u2 u3 : Str} (h1 : u1 ≠ []) (h2 : u2 ≠ []) (h3 : u3 ≠ [])
    (n1 : ∀ x ∈ u1, x ≠ '\n') (n2 : ∀ x ∈ u2, x ≠ '\n') (n3 : ∀ x ∈ u3, x ≠ '\n') :
    Matches formulaPattern ('[' :: (u1 ++ '|' :: (u2 ++ '|' :: (u3 ++ [']'])))) := by
  simp only [formulaPattern, Matches]
  exact ⟨_, rfl, u1, _, h1, n1, rfl, _, rfl, u2, _, h2, n2, rfl, _, rfl, u3, _, h3, n3, rfl,
    _, rfl, rfl⟩

theorem findString_skip (pre s : Str) (h : '[' ∉ pre) :
    findString formulaPattern (pre ++ s) = findString formulaPattern s := by
  induction pre with
  | nil => rfl
  | cons x pre ih =>
    have hx : x ≠ '[' := fun hc => h (by simp [hc])
    have hp : '[' ∉ pre := fun hc => h (List.mem_cons_of_mem _ hc)
    have hm : matchHere (x :: (pre ++ s)) formulaPattern = none := by
      simp [formulaPattern, matchHere, hx]
    have e : findString formulaPattern (x :: (pre ++ s)) = findString formulaPattern (pre ++ s) := by
      simp only [findString, hm]
    rw [List.cons_append, e]
    exact ih hp

theorem findString_of_matchHere {s : Str} {p : List Item} {n : Nat}
    (h : matchHere s p = some n) : findString p s = s.take n := by
  cases s with
  | nil => simp [findString, h]
  | cons x xs => simp [findString, h]

theorem findString_spec (p : List Item) : ∀ (s : Str),
    findString p s = [] ∨
      ∃ pre post, s = pre ++ findString p s ++ post ∧ Matches p (findString p s)
  | [] => by
    left
    cases h : matchHere [] p <;> simp [findString, h]
  | x :: xs => by
    cases h : matchHere (x :: xs) p with
    | some n =>
      right
      obtain ⟨_, h2⟩ := matchHere_sound _ _ _ h
      rw [findString_of_matchHere h]
      exact ⟨[], List.drop n (x :: xs), by simp, h2⟩
    | none =>
      have e : findString p (x :: xs) = findString p xs := by simp [findString, h]
      rw [e]
      rcases findString_spec p xs with h0 | ⟨pre, post, h1, h2⟩
      · exact Or.inl h0
      · right
        exact ⟨x :: pre, post, by rw [List.cons_append, List.cons_append, ← h1], h2⟩

theorem removeAll_append (c : Char) (s t : Str) :
    removeAll c (s ++ t) = removeAll c s ++ removeAll c t := by
  simp [removeAll]

theorem removeAll_of_not_mem {c : Char} {s : Str} (h : c ∉ s) : removeAll c s = s := by
  simp only [removeAll, List.filter_eq_self]
  intro x hx
  simp only [decide_eq_true_eq]
  rintro rfl
  exact h hx

theorem split_ne_nil (sep : Char) (s : Str) : split sep s ≠ [] := by
  induction s with
  | nil => simp [split]
  | cons c cs ih =>
    simp only [split]
    split
    · simp
    · split <;> simp

theorem split_of_not_mem {sep : Char} {s : Str} (h : sep ∉ s) : split sep s = [s] := by
  induction s with
  | nil => rfl
  | cons c cs ih =>
    have hc : c ≠ sep := fun e => h (by simp [e])
    have := ih (fun hm => h (List.mem_cons_of_mem _ hm))
    simp [split, hc, this]

theorem split_append_sep {sep : Char} {s : Str} (t : Str) (h : sep ∉ s) :
    split sep (s ++ sep :: t) = s :: split sep t := by
  induction s with
  | nil => simp [split]
  | cons c cs ih =>
    have hc : c ≠ sep := fun e => h (by simp [e])
    have := ih (fun hm => h (List.mem_cons_of_mem _ hm))
    simp [split, hc, this]

theorem split_length (sep : Char) (s : Str) : (split sep s).length = s.count sep + 1 := by
  induction s with
  | nil => rfl
  | cons c cs ih =>
    by_cases hc : c = sep
    · subst hc
      simp [split, ih]
    · have hne := split_ne_nil sep cs
      have hcnt : (c :: cs).count sep = cs.count sep := by
        rw [List.count_cons_of_ne]; exact fun e => hc e.symm
      simp only [split, hc, if_false, hcnt]
      cases hs : split sep cs with
      | nil => exact absurd hs hne
      | cons piece pieces =>
        rw [hs] at ih
        simpa using ih

theorem decodeFormula_of_length_ne {raw : Str}
    (h : (split '|' (removeAll ']' (removeAll '[' (findString formulaPattern raw)))).length ≠ 3) :
    decodeFormula raw = [] := by
  unfold decodeFormula
  simp only
  split
  · rename_i s0 s1 s2 heq
    rw [heq] at h
    simp at h
  · rfl

theorem removeAll_cons_ne {c x : Char} (s : Str) (h : x ≠ c) :
    removeAll c (x :: s) = x :: removeAll c s := by
  simp [removeAll, h]

theorem removeAll_cons_self (c : Char) (s : Str) : removeAll c (c :: s) = removeAll c s := by
  simp [removeAll]

/-- The text between the brackets of a matched group, once both bracket characters are
removed, when the group is `[a|b|c]` with bracket-free segments. -/
theorem strip_triple {a b c : Str}
    (ha1 : '[' ∉ a) (ha2 : ']' ∉ a) (hb1 : '[' ∉ b) (hb2 : ']' ∉ b)
    (hc1 : '[' ∉ c) (hc2 : ']' ∉ c) :
    removeAll ']' (removeAll '[' ('[' :: (a ++ '|' :: (b ++ '|' :: (c ++ [']']))))) =
      a ++ '|' :: (b ++ '|' :: c) := by
  have e1 : ('|' : Char) ≠ '[' := by decide
  have e2 : (']' : Char) ≠ '[' := by decide
  have e3 : ('|' : Char) ≠ ']' := by decide
  simp only [removeAll_cons_self, removeAll_append, removeAll_cons_ne _ e1,
    removeAll_cons_ne _ e2, removeAll_cons_ne _ e3, removeAll_of_not_mem ha1,
    removeAll_of_not_mem hb1, removeAll_of_not_mem hc1, removeAll_of_not_mem ha2,
    removeAll_of_not_mem hb2, removeAll_of_not_mem hc2]
  simp [removeAll]

/-- The match of the formula pattern on a text that starts with a group `[a|b|c]` and
has no closing bracket after it is exactly that group. -/
theorem findString_triple {a b c post : Str}
    (ha : a ≠ []) (hb : b ≠ []) (hc : c ≠ [])
    (na : ∀ x ∈ a, x ≠ '\n') (nb : ∀ x ∈ b, x ≠ '\n') (nc : ∀ x ∈ c, x ≠ '\n')
    (ha2 : ']' ∉ a) (hb2 : ']' ∉ b) (hc2 : ']' ∉ c) (hpost : ']' ∉ post) :
    findString formulaPattern ('[' :: (a ++ '|' :: (b ++ '|' :: (c ++ ']' :: post)))) =
      '[' :: (a ++ '|' :: (b ++ '|' :: (c ++ [']']))) := by
  have hM := formulaPattern_matches ha hb hc na nb nc
  have hsome := matchHere_complete _ _ post hM
  have es : '[' :: (a ++ '|' :: (b ++ '|' :: (c ++ [']']))) ++ post =
      '[' :: (a ++ '|' :: (b ++ '|' :: (c ++ ']' :: post))) := by simp
  rw [es] at hsome
  cases hm : matchHere ('[' :: (a ++ '|' :: (b ++ '|' :: (c ++ ']' :: post)))) formulaPattern with
  | none => simp [hm] at hsome
  | some n =>
    rw [findString_of_matchHere hm]
    obtain ⟨_, hs⟩ := matchHere_sound _ _ _ hm
    obtain ⟨u1, u2, u3, _, _, _, _, _, _, hw⟩ := matches_formulaPattern hs
    have hsplit := List.take_append_drop n ('[' :: (a ++ '|' :: (b ++ '|' :: (c ++ ']' :: post))))
    rw [hw] at hsplit ⊢
    have e1 : '[' :: (a ++ '|' :: (b ++ '|' :: (c ++ ']' :: post))) =
        ('[' :: (a ++ '|' :: (b ++ '|' :: c))) ++ ']' :: post := by simp
    have e2 : '[' :: (u1 ++ '|' :: (u2 ++ '|' :: (u3 ++ [']']))) ++
        List.drop n ('[' :: (a ++ '|' :: (b ++ '|' :: (c ++ ']' :: post)))) =
        ('[' :: (u1 ++ '|' :: (u2 ++ '|' :: u3))) ++
          ']' :: List.drop n ('[' :: (a ++ '|' :: (b ++ '|' :: (c ++ ']' :: post)))) := by simp
    rw [e2] at hsplit
    have hno : ']' ∉ ('[' :: (a ++ '|' :: (b ++ '|' :: c))) := by
      simp only [List.mem_cons, List.mem_append, not_or]
      exact ⟨by decide, ha2, by decide, hb2, by decide, hc2⟩
    have key := unique_split _ _ _ _ hno hpost (e1.symm.trans hsplit.symm)
    have e3 : '[' :: (u1 ++ '|' :: (u2 ++ '|' :: (u3 ++ [']']))) =
        ('[' :: (u1 ++ '|' :: (u2 ++ '|' :: u3))) ++ [']'] := by simp
    rw [e3, ← key.1]
    simp

/-- Decoding of a formula whose first opening bracket starts a group `[a|b|c]` with
non-empty segments free of brackets, pipes and newlines, and which has no closing
bracket after that group. -/
theorem decodeFormula_triple {pre a b c post : Str}
    (ha : a ≠ []) (hb : b ≠ []) (hc : c ≠ [])
    (fa : ∀ x ∈ a, x ≠ '[' ∧ x ≠ ']' ∧ x ≠ '|' ∧ x ≠ '\n')
    (fb : ∀ x ∈ b, x ≠ '[' ∧ x ≠ ']' ∧ x ≠ '|' ∧ x ≠ '\n')
    (fc : ∀ x ∈ c, x ≠ '[' ∧ x ≠ ']' ∧ x ≠ '|' ∧ x ≠ '\n')
    (hpre : '[' ∉ pre) (hpost : ']' ∉ post) :
    decodeFormula (pre ++ '[' :: (a ++ '|' :: (b ++ '|' :: (c ++ ']' :: post)))) =
      [{ VolSeq := 0, Publication := a, PubIndex := b, Frequency := c }] := by
  have m1 : ∀ {s : Str} {ch : Char}, (∀ x ∈ s, x ≠ ch) → ch ∉ s := fun h hm => h _ hm rfl
  have hf := findString_triple ha hb hc (fun x hx => (fa x hx).2.2.2) (fun x hx => (fb x hx).2.2.2)
    (fun x hx => (fc x hx).2.2.2) (m1 fun x hx => (fa x hx).2.1) (m1 fun x hx => (fb x hx).2.1)
    (m1 fun x hx => (fc x hx).2.1) hpost
  have hs := strip_triple (m1 fun x hx => (fa x hx).1) (m1 fun x hx => (fa x hx).2.1)
    (m1 fun x hx => (fb x hx).1) (m1 fun x hx => (fb x hx).2.1)
    (m1 fun x hx => (fc x hx).1) (m1 fun x hx => (fc x hx).2.1)
  have hsp : split '|' (a ++ '|' :: (b ++ '|' :: c)) = [a, b, c] := by
    rw [split_append_sep _ (m1 fun x hx => (fa x hx).2.2.1),
      split_append_sep _ (m1 fun x hx => (fb x hx).2.2.1),
      split_of_not_mem (m1 fun x hx => (fc x hx).2.2.1)]
  unfold decodeFormula
  simp only [findString_skip _ _ hpre, hf, hs, hsp, NucleusTradeIndexModel.zero]

theorem decodeFormula_of_no_match {raw : Str} (h : findString formulaPattern raw = []) :
    decodeFormula raw = [] := by
  apply decodeFormula_of_length_ne
  rw [h]
  decide

/-- Decoding of a formula without a bracketed group, or with exactly one bracketed group
whose content does not have three pipe-separated segments, yields no index. -/
theorem decodeFormula_malformed {s : Str}
    (h : (¬ ∃ pre inner post : Str, s = pre ++ '[' :: (inner ++ ']' :: post)) ∨
      (∃ pre inner post : Str, s = pre ++ '[' :: (inner ++ ']' :: post) ∧
        '[' ∉ pre ∧ '[' ∉ inner ∧ ']' ∉ inner ∧ '[' ∉ post ∧ ']' ∉ post ∧
        (split '|' inner).length ≠ 3)) :
    decodeFormula s = [] := by
  rcases findString_spec formulaPattern s with h0 | ⟨pre', post', hs, hM⟩
  · exact decodeFormula_of_no_match h0
  · obtain ⟨u1, u2, u3, _, _, _, _, _, _, hw⟩ := matches_formulaPattern hM
    have hs' : s = pre' ++ '[' :: ((u1 ++ '|' :: (u2 ++ '|' :: u3)) ++ ']' :: post') := by
      rw [hs, hw]; simp
    rcases h with h | ⟨pre, inner, post, hs2, hp1, hi1, hi2, hq1, hq2, hlen⟩
    · exact absurd ⟨_, _, _, hs'⟩ h
    · have hno : '[' ∉ inner ++ ']' :: post := by
        simp only [List.mem_append, List.mem_cons, not_or]
        exact ⟨hi1, by decide, hq1⟩
      obtain ⟨_, k2⟩ := unique_split _ _ _ _ hp1 hno (hs2.symm.trans hs')
      obtain ⟨k3, _⟩ := unique_split _ _ _ _ hi2 hq2 k2
      apply decodeFormula_of_length_ne
      have e : findString formulaPattern s = '[' :: (inner ++ [']']) := by
        rw [hw, k3]; simp
      have e1 : (']' : Char) ≠ '[' := by decide
      rw [e, removeAll_cons_self, removeAll_append, removeAll_of_not_mem hi1,
        removeAll_cons_ne _ e1]
      have e2 : removeAll '[' [] = [] := rfl
      rw [e2, removeAll_append, removeAll_of_not_mem hi2, removeAll_cons_self]
      have e3 : removeAll ']' [] = [] := rfl
      rw [e3, List.append_nil]
      exact hlen

theorem matchHere_dotPlus_greedy {rest : Str} {items : List Item} {n : Nat}
    (hnone : matchHere rest (Item.dotPlus :: items) = none)
    (hsome : matchHere rest items = some n) :
    ∀ (u : Str), u ≠ [] → (∀ x ∈ u, x ≠ '\n') →
      matchHere (u ++ rest) (Item.dotPlus :: items) = some (u.length + n)
  | [], hu, _ => absurd rfl hu
  | [x], _, hn => by
    have hx : x ≠ '\n' := hn x (by simp)
    show matchHere (x :: rest) (Item.dotPlus :: items) = some ([x].length + n)
    simp only [matchHere, hx, if_false, hnone, hsome, Option.map_some', List.length_singleton]
    rw [Nat.add_comm]
  | x :: y :: u, _, hn => by
    have hx : x ≠ '\n' := hn x (by simp)
    have ih := matchHere_dotPlus_greedy hnone hsome (y :: u) (by simp)
      (fun z hz => hn z (List.mem_cons_of_mem _ hz))
    simp only [List.cons_append] at ih
    show matchHere (x :: (y :: (u ++ rest))) (Item.dotPlus :: items) = _
    rw [matchHere, if_neg hx, ih]
    simp only [List.length_cons, Option.some.injEq]
    omega

/-- When every word of a pattern ends with `]`, the anchored match on a text whose only
closing bracket ends a matching word is that word. -/
theorem matchHere_unique_close {p : List Item} {m' post : Str}
    (hends : ∀ w, Matches p w → ∃ w', w = w' ++ [']'])
    (hM : Matches p (m' ++ [']'])) (h1 : ']' ∉ m') (h2 : ']' ∉ post) :
    matchHere (m' ++ ']' :: post) p = some (m'.length + 1) := by
  have hsome := matchHere_complete _ _ post hM
  have es : m' ++ [']'] ++ post = m' ++ ']' :: post := by simp
  rw [es] at hsome
  cases hm : matchHere (m' ++ ']' :: post) p with
  | none => simp [hm] at hsome
  | some n =>
    obtain ⟨hle, hs⟩ := matchHere_sound _ _ _ hm
    obtain ⟨w', hw⟩ := hends _ hs
    have hsplit := List.take_append_drop n (m' ++ ']' :: post)
    rw [hw, List.append_assoc, List.singleton_append] at hsplit
    obtain ⟨k, _⟩ := unique_split _ _ _ _ h1 h2 hsplit.symm
    have hl := congrArg List.length hw
    rw [List.length_take, Nat.min_eq_left hle, ← k] at hl
    simp at hl
    rw [hl]

theorem count_removeAll {c sep : Char} (h : sep ≠ c) (s : Str) :
    (removeAll c s).count sep = s.count sep := by
  induction s with
  | nil => rfl
  | cons x xs ih =>
    by_cases hx : x = c
    · subst hx
      rw [removeAll_cons_self, ih, List.count_cons_of_ne h]
    · rw [removeAll_cons_ne _ hx]
      by_cases hs : x = sep
      · subst hs
        simp [ih]
      · have hs' : sep ≠ x := fun e => hs e.symm
        rw [List.count_cons_of_ne hs', List.count_cons_of_ne hs', ih]

/-- Decoding of a formula with two bracketed triples on one line: the greedy match runs
from the first opening bracket to the last closing bracket, its content has at least
five pipe-separated segments, and no index is decoded. -/
theorem decodeFormula_two_triples {pre a b c mid d e f post : Str}
    (he : e ≠ []) (hf : f ≠ [])
    (na : ∀ x ∈ a, x ≠ '\n') (nb : ∀ x ∈ b, x ≠ '\n') (nc : ∀ x ∈ c, x ≠ '\n')
    (nd : ∀ x ∈ d, x ≠ '\n')
    (fe : ∀ x ∈ e, x ≠ ']' ∧ x ≠ '|' ∧ x ≠ '\n') (ff : ∀ x ∈ f, x ≠ ']' ∧ x ≠ '|' ∧ x ≠ '\n')
    (hpre : '[' ∉ pre) (hmid : ∀ x ∈ mid, x ≠ '\n') (hpost : ']' ∉ post) :
    decodeFormula (pre ++ '[' :: (a ++ '|' :: (b ++ '|' :: (c ++ ']' :: (mid ++
      '[' :: (d ++ '|' :: (e ++ '|' :: (f ++ ']' :: post)))))))) = [] := by
  have m1 : ∀ {s : Str} {ch : Char}, (∀ x ∈ s, x ≠ ch) → ch ∉ s := fun h hm => h _ hm rfl
  have he2 : ']' ∉ e := m1 fun x hx => (fe x hx).1
  have he3 : '|' ∉ e := m1 fun x hx => (fe x hx).2.1
  have hf2 : ']' ∉ f := m1 fun x hx => (ff x hx).1
  have hf3 : '|' ∉ f := m1 fun x hx => (ff x hx).2.1
  have hm' : ']' ∉ '|' :: (e ++ '|' :: f) := by
    simp only [List.mem_cons, List.mem_append, not_or]
    exact ⟨by decide, he2, by decide, hf2⟩
  have hR : '|' :: (e ++ '|' :: (f ++ ']' :: post)) = ('|' :: (e ++ '|' :: f)) ++ ']' :: post := by
    simp
  -- the tail `|e|f]post` matches the rest of the pattern, up to its closing bracket
  have hsome : matchHere ('|' :: (e ++ '|' :: (f ++ ']' :: post)))
      [Item.lit '|', Item.dotPlus, Item.lit '|', Item.dotPlus, Item.lit ']'] =
      some (('|' :: (e ++ '|' :: f)).length + 1) := by
    rw [hR]
    apply matchHere_unique_close _ _ hm' hpost
    · intro w hw
      simp only [Matches] at hw
      obtain ⟨w1, rfl, u2, w2, _, _, rfl, w3, rfl, u3, w4, _, _, rfl, w5, rfl, rfl⟩ := hw
      exact ⟨'|' :: (u2 ++ '|' :: u3), by simp⟩
    · simp only [Matches]
      exact ⟨_, by simp, e, _, he, fun x hx => (fe x hx).2.2, rfl, _, rfl, f, _, hf,
        fun x hx => (ff x hx).2.2, rfl, _, rfl, rfl⟩
  -- and `.+` cannot take one more rune from it
  have hnone : matchHere ('|' :: (e ++ '|' :: (f ++ ']' :: post)))
      [Item.dotPlus, Item.lit '|', Item.dotPlus, Item.lit '|', Item.dotPlus, Item.lit ']'] =
      none := by
    cases hm : matchHere ('|' :: (e ++ '|' :: (f ++ ']' :: post)))
      [Item.dotPlus, Item.lit '|', Item.dotPlus, Item.lit '|', Item.dotPlus, Item.lit ']'] with
    | none => rfl
    | some k =>
      exfalso
      obtain ⟨_, hs⟩ := matchHere_sound _ _ _ hm
      simp only [Matches] at hs
      obtain ⟨u1, w1, hu1, _, hw, w2, rfl, u2, w3, _, _, rfl, w4, rfl, u3, w5, _, _, rfl, w6,
        rfl, rfl⟩ := hs
      have hsplit := List.take_append_drop k ('|' :: (e ++ '|' :: (f ++ ']' :: post)))
      rw [hw] at hsplit
      have e2 : u1 ++ '|' :: (u2 ++ '|' :: (u3 ++ [']'])) ++
          List.drop k ('|' :: (e ++ '|' :: (f ++ ']' :: post))) =
          (u1 ++ '|' :: (u2 ++ '|' :: u3)) ++
            ']' :: List.drop k ('|' :: (e ++ '|' :: (f ++ ']' :: post))) := by simp
      rw [e2] at hsplit
      obtain ⟨key, _⟩ := unique_split _ _ _ _ hm' hpost (hR.symm.trans hsplit.symm)
      have hcnt := congrArg (List.count '|') key
      cases u1 with
      | nil => exact hu1 rfl
      | cons x u1 =>
        have hx : x = '|' := by
          simp only [List.cons_append, List.cons.injEq] at key
          exact key.1.symm
        subst hx
        simp only [List.count_cons_self, List.count_append, List.cons_append,
          List.count_eq_zero_of_not_mem he3, List.count_eq_zero_of_not_mem hf3] at hcnt
        omega
  have hU : ∀ x ∈ a ++ '|' :: (b ++ '|' :: (c ++ ']' :: (mid ++ '[' :: d))), x ≠ '\n' := by
    intro x hx
    simp only [List.mem_append, List.mem_cons] at hx
    rcases hx with h | rfl | h | rfl | h | rfl | h | rfl | h
    · exact na x h
    · decide
    · exact nb x h
    · decide
    · exact nc x h
    · decide
    · exact hmid x h
    · decide
    · exact nd x h
  have hG := matchHere_dotPlus_greedy hnone hsome
    (a ++ '|' :: (b ++ '|' :: (c ++ ']' :: (mid ++ '[' :: d)))) (by simp) hU
  have es : '[' :: (a ++ '|' :: (b ++ '|' :: (c ++ ']' :: (mid ++
      '[' :: (d ++ '|' :: (e ++ '|' :: (f ++ ']' :: post))))))) =
      '[' :: ((a ++ '|' :: (b ++ '|' :: (c ++ ']' :: (mid ++ '[' :: d)))) ++
        '|' :: (e ++ '|' :: (f ++ ']' :: post))) := by simp
  have hmatch : matchHere ('[' :: ((a ++ '|' :: (b ++ '|' :: (c ++ ']' :: (mid ++ '[' :: d)))) ++
        '|' :: (e ++ '|' :: (f ++ ']' :: post)))) formulaPattern =
      some ((a ++ '|' :: (b ++ '|' :: (c ++ ']' :: (mid ++ '[' :: d)))).length +
        (('|' :: (e ++ '|' :: f)).length + 1) + 1) := by
    rw [formulaPattern, matchHere, if_pos rfl, hG]
    rfl
  have hW : '[' :: ((a ++ '|' :: (b ++ '|' :: (c ++ ']' :: (mid ++ '[' :: d)))) ++
        '|' :: (e ++ '|' :: (f ++ ']' :: post))) =
      ('[' :: ((a ++ '|' :: (b ++ '|' :: (c ++ ']' :: (mid ++ '[' :: d)))) ++
        '|' :: (e ++ '|' :: (f ++ [']'])))) ++ post := by simp
  apply decodeFormula_of_length_ne
  rw [findString_skip _ _ hpre, es, findString_of_matchHere hmatch, hW,
    List.take_left' (by simp; omega), split_length,
    count_removeAll (by decide), count_removeAll (by decide)]
  simp only [List.count_cons, List.count_append]
  simp
  omega

/-! ## Maps and row loops: lemmas -/

theorem mapGet_mapSet_self {V : Type} (m : GoMap V) (k : Int) (v : V) :
    mapGet (mapSet m k v) k = some v := by
  induction m with
  | nil => simp [mapSet, mapGet]
  | cons e m ih =>
    obtain ⟨k', v'⟩ := e
    by_cases h : k' = k
    · simp [mapSet, mapGet, h]
    · simp [mapSet, mapGet, h, ih]

theorem mapGet_mapSet_of_ne {V : Type} (m : GoMap V) {k k' : Int} (v : V) (h : k' ≠ k) :
    mapGet (mapSet m k v) k' = mapGet m k' := by
  induction m with
  | nil => simp [mapSet, mapGet, h.symm]
  | cons e m ih =>
    obtain ⟨k0, v0⟩ := e
    by_cases h0 : k0 = k
    · subst h0
      simp [mapSet, mapGet, h.symm]
    · by_cases h1 : k0 = k'
      · subst h1
        simp [mapSet, mapGet, h0]
      · simp [mapSet, mapGet, h0, h1, ih]

theorem mapGet_mapAppend_self {V : Type} (m : GoMap (List V)) (k : Int) (v : V) :
    mapGet (mapAppend m k v) k = some ((mapGet m k).getD [] ++ [v]) :=
  mapGet_mapSet_self _ _ _

theorem mapGet_mapAppend_of_ne {V : Type} (m : GoMap (List V)) {k k' : Int} (v : V)
    (h : k' ≠ k) : mapGet (mapAppend m k v) k' = mapGet m k' :=
  mapGet_mapSet_of_ne _ _ h

/-- A row loop whose scans all succeed and whose body cannot fail is a left fold. -/
theorem scanLoop_ok {α σ : Type} (rows : Rows α) (l : List α) (init : σ) (f : σ → α → σ)
    (h : rows.scanned = l.map Except.ok) :
    scanLoop rows init (fun st a => Except.ok (f st a)) = Except.ok (l.foldl f init) := by
  unfold scanLoop
  rw [h]
  clear h
  induction l generalizing init with
  | nil => rfl
  | cons a l ih =>
    simp only [List.map_cons, List.foldlM_cons, List.foldl_cons]
    exact ih (f init a)

/-- Terms stored by a grouping loop stay stored, and every row leaves its term under its
key. -/
theorem foldl_mapAppend_mem {α V : Type} (key : α → Int) (mk : α → V) :
    ∀ (l : List α) (acc : GoMap (List V)),
      (∀ k v, v ∈ (mapGet acc k).getD [] →
        v ∈ (mapGet (l.foldl (fun m r => mapAppend m (key r) (mk r)) acc) k).getD []) ∧
      (∀ r ∈ l,
        mk r ∈ (mapGet (l.foldl (fun m r => mapAppend m (key r) (mk r)) acc) (key r)).getD [])
  | [], acc => ⟨fun _ _ h => h, fun _ h => absurd h (List.not_mem_nil _)⟩
  | a :: l, acc => by
    obtain ⟨ih1, ih2⟩ := foldl_mapAppend_mem key mk l (mapAppend acc (key a) (mk a))
    have step : ∀ k v, v ∈ (mapGet acc k).getD [] →
        v ∈ (mapGet (mapAppend acc (key a) (mk a)) k).getD [] := by
      intro k v hv
      by_cases hk : k = key a
      · subst hk
        rw [mapGet_mapAppend_self]
        simp [hv]
      · rw [mapGet_mapAppend_of_ne _ _ hk]
        exact hv
    refine ⟨fun k v hv => ih1 k v (step k v hv), ?_⟩
    intro r hr
    rcases List.mem_cons.1 hr with rfl | hr
    · apply ih1
      rw [mapGet_mapAppend_self]
      simp
    · exact ih2 r hr

/-! ## Formula decoding: the claims -/

/-- C1: for every formula `pre ++ "[" ++ a ++ "|" ++ b ++ "|" ++ c ++ "]" ++ post` whose
segments `a`, `b`, `c` are non-empty and free of brackets, pipes and newlines and whose
`pre` and `post` hold no square bracket, formula decoding yields exactly one price index,
with Publication `a`, PubIndex `b` and Frequency `c`. -/
theorem C1_decodeFormula_bracket_free_context (pre a b c post : Str)
    (ha : Segment a) (hb : Segment b) (hc : Segment c)
    (hpre : ∀ x ∈ pre, x ≠ '[' ∧ x ≠ ']') (hpost : ∀ x ∈ post, x ≠ '[' ∧ x ≠ ']') :
    decodeFormula (pre ++ ['['] ++ a ++ ['|'] ++ b ++ ['|'] ++ c ++ [']'] ++ post) =
      [{ VolSeq := 0, Publication := a, PubIndex := b, Frequency := c }] := by
  have h := @decodeFormula_triple pre a b c post ha.1 hb.1 hc.1 ha.2 hb.2 hc.2
    (fun hm => (hpre _ hm).1 rfl) (fun hm => (hpost _ hm).2 rfl)
  simpa using h

/-- Witness of C1: the formula `(10.5*[GD|HOU SHP CHNL|DAILY]) + 3.55` decodes to the
index (GD, HOU SHP CHNL, DAILY). -/
theorem C1_decodeFormula_witness :
    Segment "GD".toList ∧ Segment "HOU SHP CHNL".toList ∧ Segment "DAILY".toList ∧
      decodeFormula "(10.5*[GD|HOU SHP CHNL|DAILY]) + 3.55".toList =
        [{ VolSeq := 0, Publication := "GD".toList, PubIndex := "HOU SHP CHNL".toList,
           Frequency := "DAILY".toList }] :=
  ⟨by decide, by decide, by decide,
    C1_decodeFormula_bracket_free_context "(10.5*".toList "GD".toList "HOU SHP CHNL".toList
      "DAILY".toList ") + 3.55".toList (by decide) (by decide) (by decide) (by decide)
      (by decide)⟩

/-- C2 (as the code behaves): a formula that contains no bracketed group, or exactly one
bracketed group and no other bracket, the content of the group having fewer or more than
three pipe-separated segments, yields no price index, and it is no error: the emission
term fetcher attaches no index to the term of such a row, returns no error whatever the
formulas of its rows are, and returns the term of every row, those after the malformed one
included. -/
theorem C2_malformed_formula_no_index_no_error (s : Str)
    (h : (¬ ∃ pre inner post : Str, s = pre ++ ['['] ++ inner ++ [']'] ++ post) ∨
      (∃ pre inner post : Str, s = pre ++ ['['] ++ inner ++ [']'] ++ post ∧
        (∀ x ∈ pre ++ inner ++ post, x ≠ '[' ∧ x ≠ ']') ∧
        (split '|' inner).length ≠ 3)) :
    decodeFormula s = [] ∧
    (∀ r : EmissionTermRow, r.formula = some s →
      (emissionTermOfRow r).Indexes1 = [] ∧ (emissionTermOfRow r).Formula1 = s) ∧
    (∀ (query : List Int → Except Error (Rows EmissionTermRow)) (dealKeys : List Int)
      (rows : Rows EmissionTermRow) (l : List EmissionTermRow),
      dealKeys ≠ [] → query dealKeys = Except.ok rows → rows.scanned = l.map Except.ok →
      rows.closeErr = none → rows.err = none →
      ∃ m, getNucEmissionDealListTermModel query dealKeys = Except.ok m ∧
        ∀ r ∈ l, emissionTermOfRow r ∈ (mapGet m r.dealKey).getD []) := by
  have hdec : decodeFormula s = [] := by
    apply decodeFormula_malformed
    rcases h with h | ⟨pre, inner, post, hs, hfree, hlen⟩
    · left
      rintro ⟨pre, inner, post, hs⟩
      exact h ⟨pre, inner, post, by simpa using hs⟩
    · right
      refine ⟨pre, inner, post, by simpa using hs, ?_, ?_, ?_, ?_, ?_, hlen⟩
      · exact fun hm => (hfree _ (by simp [hm])).1 rfl
      · exact fun hm => (hfree _ (by simp [hm])).1 rfl
      · exact fun hm => (hfree _ (by simp [hm])).2 rfl
      · exact fun hm => (hfree _ (by simp [hm])).1 rfl
      · exact fun hm => (hfree _ (by simp [hm])).2 rfl
  refine ⟨hdec, ?_, ?_⟩
  · intro r hr
    unfold emissionTermOfRow
    simp only [hr]
    by_cases hs : s = []
    · subst hs
      simp [NucleusTradeTermModel.zero]
    · simp [hs, hdec, NucleusTradeTermModel.zero]
  · intro query dealKeys rows l hk hq hsc hc he
    have hlen : dealKeys.length ≠ 0 := by
      cases dealKeys with
      | nil => exact absurd rfl hk
      | cons a t => simp
    refine ⟨l.foldl emissionTermStep [], ?_, ?_⟩
    · unfold getNucEmissionDealListTermModel
      rw [if_neg hlen, hq]
      simp only [scanLoop_ok rows l _ emissionTermStep hsc, hc, he]
    · exact (foldl_mapAppend_mem (fun r : EmissionTermRow => r.dealKey) emissionTermOfRow l []).2

/-- Witness of C2: the formulas `[A|B]`, `[A|B|C|D]` and `3.55` decode to no index. -/
theorem C2_malformed_formula_witness :
    decodeFormula "[A|B|C|D]".toList = [] ∧ decodeFormula "[A|B]".toList = [] ∧
      decodeFormula "3.55".toList = [] :=
  ⟨(C2_malformed_formula_no_index_no_error "[A|B|C|D]".toList
      (Or.inr ⟨[], "A|B|C|D".toList, [], by decide, by decide, by decide⟩)).1,
    by decide, by decide⟩

/-- Counterexample to C2 as stated: in `[A|B] [C|D]` each bracketed group has two
segments, and in `[A|B]|C]` the bracketed group has two; the greedy match runs from the
first `[` to the last `]`, its content has three segments, and decoding yields the indexes
(A, B C, D) and (A, B, C). -/
theorem C2_counterexample :
    (split '|' "A|B".toList).length = 2 ∧ (split '|' "C|D".toList).length = 2 ∧
    decodeFormula "[A|B] [C|D]".toList =
      [{ VolSeq := 0, Publication := ['A'], PubIndex := "B C".toList, Frequency := ['D'] }] ∧
    decodeFormula "[A|B]|C]".toList =
      [{ VolSeq := 0, Publication := ['A'], PubIndex := ['B'], Frequency := ['C'] }] := by
  decide

/-- C9 (as the code behaves): formula decoding uses one greedy match. For every formula
with two well-formed bracketed triples on one line, no `[` before the first and no `]`
after the second, the match runs from the first `[` to the last `]`; its content has more
than three pipe-separated segments and no price index is decoded. -/
theorem C9_two_triples_on_one_line_decode_to_nothing (pre a b c mid d e f post : Str)
    (ha : Segment a) (hb : Segment b) (hc : Segment c)
    (hd : Segment d) (he : Segment e) (hf : Segment f)
    (hpre : '[' ∉ pre) (hmid : ∀ x ∈ mid, x ≠ '\n') (hpost : ']' ∉ post) :
    decodeFormula (pre ++ ['['] ++ a ++ ['|'] ++ b ++ ['|'] ++ c ++ [']'] ++ mid ++
      ['['] ++ d ++ ['|'] ++ e ++ ['|'] ++ f ++ [']'] ++ post) = [] := by
  have h := @decodeFormula_two_triples pre a b c mid d e f post he.1 hf.1
    (fun x hx => (ha.2 x hx).2.2.2) (fun x hx => (hb.2 x hx).2.2.2)
    (fun x hx => (hc.2 x hx).2.2.2) (fun x hx => (hd.2 x hx).2.2.2)
    (fun x hx => (he.2 x hx).2) (fun x hx => (hf.2 x hx).2) hpre hmid hpost
  simpa using h

/-- Witness of the amended C9, which is also the counterexample's formula. -/
theorem C9_two_triples_witness : decodeFormula "[A|B|C] - [D|E|F]".toList = [] :=
  C9_two_triples_on_one_line_decode_to_nothing [] ['A'] ['B'] ['C'] " - ".toList ['D'] ['E']
    ['F'] [] (by decide) (by decide) (by decide) (by decide) (by decide) (by decide)
    (by decide) (by decide) (by decide)

/-- Counterexample to C9 as stated: `[A|B|C] - [D|E|F]` holds two well-formed triples, and
decoding it does not yield the index (A, B, C): it yields no index. -/
theorem C9_counterexample :
    decodeFormula "[A|B|C] - [D|E|F]".toList ≠
      [{ VolSeq := 0, Publication := ['A'], PubIndex := ['B'], Frequency := ['C'] }] ∧
    (decodeFormula "[A|B|C] - [D|E|F]".toList).length ≠ 1 := by
  decide

/-- C10 (as the code behaves): for every well-formed triple `[a|b|c]` (segments non-empty
and free of brackets, pipes and newlines), every text `pre` without `[` and every text
`post` without `]`, decoding `pre ++ "[a|b|c]" ++ post` yields the index (a, b, c); `pre`
and `post` may hold pipes, `pre` may hold `]` and `post` may hold `[`. -/
theorem C10_decodeFormula_ignores_surrounding_text (pre a b c post : Str)
    (ha : Segment a) (hb : Segment b) (hc : Segment c)
    (hpre : '[' ∉ pre) (hpost : ']' ∉ post) :
    decodeFormula (pre ++ ['['] ++ a ++ ['|'] ++ b ++ ['|'] ++ c ++ [']'] ++ post) =
      [{ VolSeq := 0, Publication := a, PubIndex := b, Frequency := c }] := by
  have h := @decodeFormula_triple pre a b c post ha.1 hb.1 hc.1 ha.2 hb.2 hc.2
    hpre hpost
  simpa using h

/-- Witness of the amended C10: stray pipes and brackets on the allowed sides. -/
theorem C10_decodeFormula_witness :
    decodeFormula "x]|y[a|b|c]|z[".toList =
      [{ VolSeq := 0, Publication := ['a'], PubIndex := ['b'], Frequency := ['c'] }] :=
  C10_decodeFormula_ignores_surrounding_text "x]|y".toList ['a'] ['b'] ['c'] "|z[".toList
    (by decide) (by decide) (by decide) (by decide) (by decide)

/-- Counterexample to C10 as stated: with a stray `]` after the triple the third segment
swallows the text in between, and with a stray `[` and `|` before it no index is
decoded. -/
theorem C10_counterexample :
    Segment ['a'] ∧ Segment ['b'] ∧ Segment ['c'] ∧
    decodeFormula ([] ++ "[a|b|c]".toList ++ " x]".toList) =
      [{ VolSeq := 0, Publication := ['a'], PubIndex := ['b'], Frequency := "c x".toList }] ∧
    decodeFormula ("[x|".toList ++ "[a|b|c]".toList ++ []) = [] := by
  decide

/-! ## Anomaly merge: the claims -/

theorem foldlM_mergeFinding_filter :
    ∀ (l : List ModelBasePayload) (acc : Str × Str),
      l.foldlM mergeFinding acc =
        (l.filter (fun r => decide (r.ScoredLabel = ['N', 'O']))).foldlM mergeFinding acc
  | [], _ => rfl
  | r :: l, acc => by
    by_cases h : r.ScoredLabel = ['N', 'O']
    · simp only [List.filter_cons, h, decide_True, if_true, List.foldlM_cons]
      cases hm : mergeFinding acc r with
      | error e => rfl
      | ok acc' =>
        simp only [Except.bind, bind]
        exact foldlM_mergeFinding_filter l acc'
    · have hstep : mergeFinding acc r = Except.ok acc := by simp [mergeFinding, h]
      simp only [List.filter_cons, h, decide_False, List.foldlM_cons, hstep]
      simp only [Except.bind, bind]
      exact foldlM_mergeFinding_filter l acc

theorem mapGet_keepFlagged (m : GoMap (List ModelBasePayload)) (k : Int) :
    mapGet (keepFlagged m) k =
      (mapGet m k).map (fun l => l.filter (fun r => decide (r.ScoredLabel = ['N', 'O']))) := by
  induction m with
  | nil => rfl
  | cons e m ih =>
    obtain ⟨k', v⟩ := e
    by_cases h : k' = k
    · simp [keepFlagged, mapGet, h]
    · have ih' := ih
      simp only [keepFlagged] at ih'
      simp [keepFlagged, mapGet, h, ih']

theorem processedTradeOf_keepFlagged (jsonMarshal : NucleusTradeHeaderModel → Except Error Str)
    (anomalyMessages : GoMap (List ModelBasePayload)) (trade : NucleusTradeHeaderModel) :
    processedTradeOf jsonMarshal anomalyMessages trade =
      processedTradeOf jsonMarshal (keepFlagged anomalyMessages) trade := by
  unfold processedTradeOf
  rw [mapGet_keepFlagged]
  cases hg : mapGet anomalyMessages trade.DealKey with
  | none => rfl
  | some l =>
    simp only [Option.getD_some, Option.map_some']
    rw [foldlM_mergeFinding_filter l]

/-- C3: ProcessTrades ignores findings whose scored label is not `"NO"`: for every header
and findings map, the payload row built for the header (and its error, if a finding
cannot be serialized) is the one built from the findings with every finding of another
label removed, and so is the whole call. With one `"NO"` and one `"YES"` finding for the
deal key the row is the row of the `"NO"` finding alone: its anomaly text is that
finding's model name and message. -/
theorem C3_processTrades_ignores_other_labels (db : MachineLearningDb) (execErr : Option Error)
    (jsonMarshal : NucleusTradeHeaderModel → Except Error Str)
    (trades : List NucleusTradeHeaderModel) (anomalyMessages : GoMap (List ModelBasePayload)) :
    (∀ trade, processedTradeOf jsonMarshal anomalyMessages trade =
      processedTradeOf jsonMarshal (keepFlagged anomalyMessages) trade) ∧
    ProcessTrades db execErr jsonMarshal trades anomalyMessages =
      ProcessTrades db execErr jsonMarshal trades (keepFlagged anomalyMessages) ∧
    (∀ (trade : NucleusTradeHeaderModel) (no yes : ModelBasePayload) (p : Str),
      no.ScoredLabel = ['N', 'O'] → yes.ScoredLabel = ['Y', 'E', 'S'] →
      no.marshalled = Except.ok p →
      processedTradeOf jsonMarshal [(trade.DealKey, [no, yes])] trade =
        processedTradeOf jsonMarshal [(trade.DealKey, [no])] trade ∧
      ∀ row, processedTradeOf jsonMarshal [(trade.DealKey, [no, yes])] trade = Except.ok row →
        row.AnomalyDetectedFlag = true ∧
        row.AnomalyTestResult = some (no.ModelName ++ [' '] ++ no.Message)) := by
  have hrow := processedTradeOf_keepFlagged jsonMarshal anomalyMessages
  refine ⟨hrow, ?_, ?_⟩
  · unfold ProcessTrades
    have hf : processedTradeOf jsonMarshal anomalyMessages =
        processedTradeOf jsonMarshal (keepFlagged anomalyMessages) := funext hrow
    rw [hf]
  · intro trade no yes p hno hyes hp
    have hyes' : yes.ScoredLabel ≠ ['N', 'O'] := by rw [hyes]; decide
    have e1 : processedTradeOf jsonMarshal [(trade.DealKey, [no, yes])] trade =
        processedTradeOf jsonMarshal [(trade.DealKey, [no])] trade := by
      rw [processedTradeOf_keepFlagged jsonMarshal [(trade.DealKey, [no, yes])],
        processedTradeOf_keepFlagged jsonMarshal [(trade.DealKey, [no])]]
      simp [keepFlagged, hno, hyes']
    refine ⟨e1, ?_⟩
    intro row hrow
    rw [e1] at hrow
    simp only [processedTradeOf, mapGet, if_true, Option.getD_some, List.foldlM_cons,
      List.foldlM_nil, mergeFinding, hno, hp, bind, Except.bind, pure, Except.pure] at hrow
    cases hj : jsonMarshal trade with
    | error e => simp [hj] at hrow
    | ok d =>
      simp only [hj, Except.ok.injEq] at hrow
      subst hrow
      simp

/-- C4: ProcessTrades called with an empty header list returns success and passes no
batch to the analytics store, whatever the findings map contains. -/
theorem C4_processTrades_empty_batch_is_noop (db : MachineLearningDb) (execErr : Option Error)
    (jsonMarshal : NucleusTradeHeaderModel → Except Error Str)
    (anomalyMessages : GoMap (List ModelBasePayload)) :
    ProcessTrades db execErr jsonMarshal [] anomalyMessages = (none, db) ∧
    (ProcessTrades db execErr jsonMarshal [] anomalyMessages).2.upsertCalls = db.upsertCalls := by
  constructor <;> rfl

/-! ## Execution timestamps: the claims -/

/-- C7: parseExecutionDateTime accepts both layouts, the ISO-like one first:
`("2022-05-05", "08:18:55 AM")` gives 2022-05-05 08:18:55 and `("05/23/2022",
"12:00:00 AM")`, which the ISO-like layout rejects, gives 2022-05-23 00:00:00; in general
a value the ISO-like layout accepts is returned as that layout reads it, the slash layout
decides only when the ISO-like layout fails, and an error is returned exactly when both
layouts fail. -/
theorem C7_parseExecutionDateTime_two_layouts :
    parseExecutionDateTime "2022-05-05".toList "08:18:55 AM".toList =
      Except.ok { year := 2022, month := 5, day := 5, hour := 8, minute := 18, second := 55,
                  nanosecond := 0 } ∧
    parseExecutionDateTime "05/23/2022".toList "12:00:00 AM".toList =
      Except.ok { year := 2022, month := 5, day := 23, hour := 0, minute := 0, second := 0,
                  nanosecond := 0 } ∧
    timeParse layoutIsoDateTime "05/23/2022 12:00:00 AM".toList = Except.error errBad ∧
    (∀ (executionDate executionTime : Str) (execTime : Time),
      timeParse layoutIsoDateTime
          ((split ' ' executionDate).headD [] ++ [' '] ++ executionTime) = Except.ok execTime →
        parseExecutionDateTime executionDate executionTime = Except.ok execTime) ∧
    (∀ (executionDate executionTime : Str) (e : Error),
      timeParse layoutIsoDateTime
          ((split ' ' executionDate).headD [] ++ [' '] ++ executionTime) = Except.error e →
        parseExecutionDateTime executionDate executionTime =
          timeParse layoutUsDateTime
            ((split ' ' executionDate).headD [] ++ [' '] ++ executionTime)) ∧
    (∀ (executionDate executionTime : Str) (err : Error),
      parseExecutionDateTime executionDate executionTime = Except.error err ↔
        (∃ e, timeParse layoutIsoDateTime
          ((split ' ' executionDate).headD [] ++ [' '] ++ executionTime) = Except.error e) ∧
        timeParse layoutUsDateTime
          ((split ' ' executionDate).headD [] ++ [' '] ++ executionTime) = Except.error err) := by
  refine ⟨by decide, by decide, by decide, ?_, ?_, ?_⟩
  · intro d t x h
    simp only [parseExecutionDateTime, h]
  · intro d t e h
    simp only [parseExecutionDateTime, h]
    cases timeParse layoutUsDateTime ((split ' ' d).headD [] ++ [' '] ++ t) <;> rfl
  · intro d t err
    simp only [parseExecutionDateTime]
    cases h1 : timeParse layoutIsoDateTime ((split ' ' d).headD [] ++ [' '] ++ t) with
    | ok x => simp
    | error e =>
      cases h2 : timeParse layoutUsDateTime ((split ' ' d).headD [] ++ [' '] ++ t) with
      | ok x => simp
      | error e2 => simp

/-! ## Watermarks: the claims -/

theorem lexLt_irrefl : ∀ (l : List Nat), lexLt l l = false
  | [] => rfl
  | x :: l => by simp [lexLt, lexLt_irrefl l]

theorem Time.Before_irrefl (t : Time) : t.Before t = false :=
  lexLt_irrefl _

theorem maxId_append_singleton (x : Int) :
    ∀ (l : List Int), (∀ y ∈ l, y < x) → maxId (l ++ [x]) = some x
  | [], _ => rfl
  | y :: l, h => by
    have ih := maxId_append_singleton x l (fun z hz => h z (List.mem_cons_of_mem _ hz))
    have hy : y < x := h y (List.mem_cons_self _ _)
    show maxId (y :: (l ++ [x])) = some x
    rw [maxId, ih]
    simp only [Option.some.injEq]
    exact max_eq_right (le_of_lt hy)

/-- C8: watermark round trip. From any well-formed state of the extraction-run table,
after InsertExtractionRun(date, t1, family) and then InsertExtractionRun(date, t2, family)
with t2 later than t1, both successful, GetLastExtractionRun(date, family) returns the
run whose TimeParameter is t2, not t1: the row of that date and family with the greatest
run identifier, which is the one of the second insert. -/
theorem C8_watermark_round_trip (db : MachineLearningDb) (now1 now2 date t1 t2 : Time)
    (family : Str) (hwf : db.WellFormed) (hlater : t1.Before t2 = true) :
    (InsertExtractionRun db none now1 date t1 family).1 = none ∧
    (InsertExtractionRun (InsertExtractionRun db none now1 date t1 family).2 none now2 date t2
      family).1 = none ∧
    ∃ run,
      GetLastExtractionRun
        (InsertExtractionRun (InsertExtractionRun db none now1 date t1 family).2 none now2 date
          t2 family).2 none date family = Except.ok (some run) ∧
      run.TimeParameter = t2 ∧ run.TimeParameter ≠ t1 ∧
      run.ExtractionRunId = db.nextExtractionRunId + 1 ∧
      run.TransactionDate = date ∧ run.DealType = family := by
  have hne : t2 ≠ t1 := by
    intro h
    rw [h, Time.Before_irrefl] at hlater
    exact Bool.noConfusion hlater
  refine ⟨rfl, rfl,
    ⟨{ ExtractionRunId := db.nextExtractionRunId + 1, TransactionDate := date,
       DealType := family, TimeParameter := t2, CreatedAt := now2 },
      ?_, rfl, hne, rfl, rfl, rfl⟩⟩
  have hrows : lastExtractionRunRows
      (InsertExtractionRun (InsertExtractionRun db none now1 date t1 family).2 none now2 date
        t2 family).2 date family =
      [{ ExtractionRunId := db.nextExtractionRunId + 1, TransactionDate := date,
         DealType := family, TimeParameter := t2, CreatedAt := now2 }] := by
    simp only [lastExtractionRunRows, InsertExtractionRun, insertExtractionRunRow,
      newExtractionRunId,
      List.append_assoc, List.singleton_append, List.filter_append, List.filter_cons,
      List.filter_nil, and_self, decide_True, if_true, List.map_append, List.map_cons,
      List.map_nil]
    have hids : ∀ y ∈ List.map (fun x => x.ExtractionRunId)
        (List.filter (fun r => decide (r.TransactionDate = date ∧ r.DealType = family))
          db.extractionRuns) ++ [db.nextExtractionRunId], y < db.nextExtractionRunId + 1 := by
      intro y hy
      rcases List.mem_append.1 hy with hy | hy
      · obtain ⟨r, hr, rfl⟩ := List.mem_map.1 hy
        have := hwf r (List.mem_of_mem_filter hr)
        omega
      · rw [List.mem_singleton.1 hy]
        omega
    have hmax := maxId_append_singleton _ _ hids
    rw [List.append_assoc, List.singleton_append] at hmax
    rw [hmax]
    have hnone : List.filter (fun r => decide (some r.ExtractionRunId =
        some (db.nextExtractionRunId + 1)))
        (List.filter (fun r => decide (r.TransactionDate = date ∧ r.DealType = family))
          db.extractionRuns) = [] := by
      rw [List.filter_eq_nil_iff]
      intro r hr
      have := hwf r (List.mem_of_mem_filter hr)
      simp only [Option.some.injEq, decide_eq_true_eq]
      omega
    rw [hnone]
    simp
  simp only [GetLastExtractionRun, hrows]

/-- Witness of C8 on a table that already holds a run of the same date and family. -/
theorem C8_watermark_round_trip_witness :
    ∃ run,
      GetLastExtractionRun
        (InsertExtractionRun
          (InsertExtractionRun
            { extractionRuns :=
                [{ ExtractionRunId := 461, TransactionDate := Time.zero, DealType := "POWER".toList,
                   TimeParameter := { Time.zero with year := 2030 }, CreatedAt := Time.zero }],
              nextExtractionRunId := 462, upsertCalls := [] }
            none Time.zero Time.zero { Time.zero with year := 2022 } "POWER".toList).2
          none Time.zero Time.zero { Time.zero with year := 2023 } "POWER".toList).2
        none Time.zero "POWER".toList = Except.ok (some run) ∧
      run.TimeParameter = { Time.zero with year := 2023 } :=
  have h := C8_watermark_round_trip
    { extractionRuns :=
        [{ ExtractionRunId := 461, TransactionDate := Time.zero, DealType := "POWER".toList,
           TimeParameter := { Time.zero with year := 2030 }, CreatedAt := Time.zero }],
      nextExtractionRunId := 462, upsertCalls := [] }
    Time.zero Time.zero Time.zero { Time.zero with year := 2022 } { Time.zero with year := 2023 }
    "POWER".toList (by decide) (by decide)
  match h.2.2 with
  | ⟨run, h1, h2, _⟩ => ⟨run, h1, h2⟩

/-! ## Capacity terms: the claims -/

theorem foldl_capacityTermStep_get (k : Int) :
    ∀ (l : List CapacityTermRow) (acc : GoMap (List NucleusTradeTermModel)),
      (mapGet (l.foldl capacityTermStep acc) k).getD [] =
        (mapGet acc k).getD [] ++
          capacityTermsFrom ((mapGet acc k).getD []).length
            (l.filter (fun r => decide (r.dealKey = k)))
  | [], acc => by simp [capacityTermsFrom]
  | r :: l, acc => by
    rw [List.foldl_cons, foldl_capacityTermStep_get k l]
    by_cases h : r.dealKey = k
    · subst h
      simp only [capacityTermStep, mapGet_mapAppend_self, Option.getD_some, List.filter_cons,
        decide_True, if_true, capacityTermsFrom, List.length_append, List.length_singleton,
        List.append_assoc, List.singleton_append]
    · have hk : k ≠ r.dealKey := fun e => h e.symm
      simp only [capacityTermStep, mapGet_mapAppend_of_ne _ _ hk, List.filter_cons, h,
        decide_False]
      rfl

theorem capacityTermsFrom_volSeq :
    ∀ (l : List CapacityTermRow) (n : Nat),
      (capacityTermsFrom n l).map (fun t => t.VolSeq) =
        (List.range' n l.length).map (fun i => (i : Int))
  | [], _ => rfl
  | r :: l, n => by
    simp [capacityTermsFrom, List.range'_succ, capacityTermsFrom_volSeq l (n + 1)]

theorem capacityTermsFrom_dates :
    ∀ (l : List CapacityTermRow) (n : Nat),
      (capacityTermsFrom n l).map (fun t => (t.BegDate, t.EndDate)) =
        l.map (fun r => (r.BegDate, r.EndDate))
  | [], _ => rfl
  | r :: l, n => by
    simp [capacityTermsFrom, capacityTermsFrom_dates l (n + 1)]

/-- C6: positional volume sequences for capacity terms. For every list of capacity term
rows that the term fetcher reads, the terms stored under a deal key that has N rows carry
the volume sequences 0, 1, ..., N-1 in source row order, whatever rows of other keys are
interleaved: the i-th term of the key is built from the i-th row of that key. -/
theorem C6_capacity_terms_numbered_by_position
    (query : List Int → Except Error (Rows CapacityTermRow)) (dealKeys : List Int)
    (rows : Rows CapacityTermRow) (l : List CapacityTermRow)
    (hk : dealKeys ≠ []) (hq : query dealKeys = Except.ok rows)
    (hs : rows.scanned = l.map Except.ok) (hc : rows.closeErr = none) (he : rows.err = none) :
    ∃ m, getNucCapacityDealTermModel query dealKeys = Except.ok m ∧
      ∀ k : Int,
        ((mapGet m k).getD []).map (fun t => t.VolSeq) =
          (List.range (l.filter (fun r => decide (r.dealKey = k))).length).map
            (fun i => (i : Int)) ∧
        ((mapGet m k).getD []).map (fun t => (t.BegDate, t.EndDate)) =
          (l.filter (fun r => decide (r.dealKey = k))).map (fun r => (r.BegDate, r.EndDate)) := by
  have hlen : dealKeys.length ≠ 0 := by
    cases dealKeys with
    | nil => exact absurd rfl hk
    | cons a t => simp
  refine ⟨l.foldl capacityTermStep [], ?_, ?_⟩
  · unfold getNucCapacityDealTermModel
    rw [if_neg hlen, hq]
    simp only [scanLoop_ok rows l _ capacityTermStep hs, hc, he]
  · intro k
    rw [foldl_capacityTermStep_get k l []]
    simp only [mapGet, Option.getD_none, List.nil_append, List.length_nil]
    exact ⟨by rw [capacityTermsFrom_volSeq, List.range_eq_range'], capacityTermsFrom_dates _ _⟩

/-- Witness of C6: two rows of key 7 around a row of key 9 are numbered 0 and 1. -/
theorem C6_capacity_terms_witness :
    ∃ m, getNucCapacityDealTermModel
        (fun _ => Except.ok
          { scanned :=
              [Except.ok { dealKey := 7, BegDate := Time.zero, EndDate := Time.zero },
               Except.ok { dealKey := 9, BegDate := Time.zero, EndDate := Time.zero },
               Except.ok { dealKey := 7, BegDate := Time.zero, EndDate := Time.zero }],
            closeFailure := none, lastErr := none }) [7, 9] = Except.ok m ∧
      ((mapGet m 7).getD []).map (fun t => t.VolSeq) = [0, 1] :=
  match C6_capacity_terms_numbered_by_position
      (fun _ => Except.ok
        { scanned :=
            [Except.ok { dealKey := 7, BegDate := Time.zero, EndDate := Time.zero },
             Except.ok { dealKey := 9, BegDate := Time.zero, EndDate := Time.zero },
             Except.ok { dealKey := 7, BegDate := Time.zero, EndDate := Time.zero }],
          closeFailure := none, lastErr := none }) [7, 9] _
      [{ dealKey := 7, BegDate := Time.zero, EndDate := Time.zero },
       { dealKey := 9, BegDate := Time.zero, EndDate := Time.zero },
       { dealKey := 7, BegDate := Time.zero, EndDate := Time.zero }]
      (by decide) rfl rfl rfl rfl with
  | ⟨m, h1, h2⟩ => ⟨m, h1, (h2 7).1⟩

/-! ## Splice-back of terms: lemmas -/

/-- A property of the state of a failing loop that every successful step keeps holds
after the loop. -/
theorem foldlM_invariant {σ α : Type} (f : σ → α → Except Fault σ) (P : σ → Prop) :
    ∀ (l : List α), (∀ s a s', a ∈ l → P s → f s a = Except.ok s' → P s') →
      ∀ s s', P s → l.foldlM f s = Except.ok s' → P s'
  | [], _, s, s', hP, h => by
    simp only [List.foldlM_nil, pure, Except.pure, Except.ok.injEq] at h
    rw [← h]; exact hP
  | a :: l, hstep, s, s', hP, h => by
    simp only [List.foldlM_cons, bind, Except.bind] at h
    cases hf : f s a with
    | error e => simp [hf] at h
    | ok s1 =>
      simp only [hf] at h
      exact foldlM_invariant f P l
        (fun s a s' ha => hstep s a s' (List.mem_cons_of_mem _ ha)) s1 s'
        (hstep s a s1 (List.mem_cons_self _ _) hP hf) h

/-- A row loop whose scans all succeed is the monadic fold of its body. -/
theorem scanLoop_scanned_ok {α σ : Type} (rows : Rows α) (l : List α) (init : σ)
    (body : σ → α → Except Fault σ) (h : rows.scanned = l.map Except.ok) :
    scanLoop rows init body = l.foldlM body init := by
  unfold scanLoop
  rw [h]
  clear h
  induction l generalizing init with
  | nil => rfl
  | cons a l ih =>
    simp only [List.map_cons, List.foldlM_cons, bind, Except.bind]
    cases body init a with
    | error e => rfl
    | ok s => exact ih s

theorem MapsAgree.standard {hm : GoMap Nat} {im : GoMap NucleusTradeTermModel}
    {shadow : List (Option NucleusTradeTermModel)} (h : MapsAgree hm im shadow) :
    MapsAgree hm im (shadow ++ [none]) := by
  intro k p hp
  obtain ⟨pv, h1, h2⟩ := h k p hp
  refine ⟨pv, ?_, h2⟩
  have hlt : p < shadow.length := by
    by_contra hge
    rw [List.getElem?_eq_none (Nat.le_of_not_lt hge)] at h1
    exact Option.noConfusion h1
  rw [List.getElem?_append_left hlt]
  exact h1

theorem MapsAgree.nonStandard {hm : GoMap Nat} {im : GoMap NucleusTradeTermModel}
    {shadow : List (Option NucleusTradeTermModel)} (h : MapsAgree hm im shadow)
    (key : Int) (pv : NucleusTradeTermModel) :
    MapsAgree (mapSet hm key shadow.length) (mapSet im key pv) (shadow ++ [some pv]) := by
  intro k p hp
  by_cases hk : k = key
  · subst hk
    rw [mapGet_mapSet_self] at hp
    cases hp
    exact ⟨pv, by simp, mapGet_mapSet_self _ _ _⟩
  · rw [mapGet_mapSet_of_ne _ _ hk] at hp
    obtain ⟨pv', h1, h2⟩ := h k p hp
    refine ⟨pv', ?_, by rw [mapGet_mapSet_of_ne _ _ hk]; exact h2⟩
    have hlt : p < shadow.length := by
      by_contra hge
      rw [List.getElem?_eq_none (Nat.le_of_not_lt hge)] at h1
      exact Option.noConfusion h1
    rw [List.getElem?_append_left hlt]
    exact h1

theorem TermsAgree.push {heap : List NucleusTradeHeaderModel}
    {shadow : List (Option NucleusTradeTermModel)} (h : TermsAgree heap shadow)
    (header : NucleusTradeHeaderModel) (entry : Option NucleusTradeTermModel)
    (hnew : ∀ pv, entry = some pv → ∀ t ∈ header.Terms, SameInitialFields t pv) :
    TermsAgree (heap ++ [header]) (shadow ++ [entry]) := by
  obtain ⟨hlen, hterms⟩ := h
  refine ⟨by simp [hlen], ?_⟩
  intro i hd pv hi hs t ht
  by_cases hlt : i < heap.length
  · rw [List.getElem?_append_left hlt] at hi
    rw [List.getElem?_append_left (hlen ▸ hlt)] at hs
    exact hterms i hd pv hi hs t ht
  · have hge : heap.length ≤ i := Nat.le_of_not_lt hlt
    rw [List.getElem?_append_right hge] at hi
    rw [List.getElem?_append_right (hlen ▸ hge)] at hs
    have hi0 : i - heap.length = 0 := by
      by_contra hne
      have : [header][i - heap.length]? = none := by
        apply List.getElem?_eq_none
        simp only [List.length_singleton]
        omega
      rw [this] at hi
      exact Option.noConfusion hi
    rw [hi0] at hi
    rw [← hlen, hi0] at hs
    simp only [List.getElem?_cons_zero, Option.some.injEq] at hi hs
    subst hi
    exact hnew pv hs t ht

theorem TermsAgree.appendTermAt {heap heap' : List NucleusTradeHeaderModel}
    {shadow : List (Option NucleusTradeTermModel)} (h : TermsAgree heap shadow)
    {p : Nat} {pv term : NucleusTradeTermModel} (hp : shadow[p]? = some (some pv))
    (hterm : SameInitialFields term pv)
    (hstep : appendTermAt heap p term = Except.ok heap') : TermsAgree heap' shadow := by
  obtain ⟨hlen, hterms⟩ := h
  unfold Nucleus.appendTermAt at hstep
  cases hget : heap[p]? with
  | none => simp [hget] at hstep
  | some hd0 =>
    simp only [hget, Except.ok.injEq] at hstep
    subst hstep
    refine ⟨by simp [hlen], ?_⟩
    intro i hd pv' hi hs t ht
    by_cases hip : p = i
    · subst hip
      have hlt : p < heap.length := by
        by_contra hge
        rw [List.getElem?_eq_none (Nat.le_of_not_lt hge)] at hget
        exact Option.noConfusion hget
      rw [List.getElem?_set_self hlt] at hi
      cases hi
      rw [hp] at hs
      cases hs
      simp only [List.mem_append, List.mem_singleton] at ht
      rcases ht with ht | rfl
      · exact hterms p hd0 pv hget hp t ht
      · exact hterm
    · rw [List.getElem?_set_ne hip] at hi
      exact hterms i hd pv' hi hs t ht

theorem scanLoop_invariant {α σ : Type} (rows : Rows α) (body : σ → α → Except Fault σ)
    (P : σ → Prop) (hstep : ∀ s a s', P s → body s a = Except.ok s' → P s')
    (init s' : σ) (hP : P init) (h : scanLoop rows init body = Except.ok s') : P s' := by
  unfold scanLoop at h
  refine foldlM_invariant _ P rows.scanned ?_ init s' hP h
  intro s r s1 _ hs hr
  cases r with
  | error e => simp at hr
  | ok a => exact hstep s a s1 hs hr

theorem mapGet_mem {V : Type} : ∀ (m : GoMap V) (k : Int) (v : V),
    mapGet m k = some v → (k, v) ∈ m
  | [], _, _, h => by simp [mapGet] at h
  | (k', v') :: m, k, v, h => by
    by_cases hk : k' = k
    · subst hk
      simp only [mapGet, if_true, Option.some.injEq] at h
      subst h
      exact List.mem_cons_self _ _
    · simp only [mapGet, hk, if_false] at h
      exact List.mem_cons_of_mem _ (mapGet_mem m k v h)

theorem mapSet_forall {V : Type} (R : V → Prop) : ∀ (m : GoMap V) (k : Int) (v : V),
    (∀ e ∈ m, R e.2) → R v → ∀ e ∈ mapSet m k v, R e.2
  | [], k, v, _, hv, e, he => by
    simp only [mapSet, List.mem_singleton] at he
    subst he
    exact hv
  | (k', v') :: m, k, v, hm, hv, e, he => by
    by_cases hk : k' = k
    · simp only [mapSet, hk, if_true, List.mem_cons] at he
      rcases he with rfl | he
      · exact hv
      · exact hm e (List.mem_cons_of_mem _ he)
    · simp only [mapSet, hk, if_false, List.mem_cons] at he
      rcases he with rfl | he
      · exact hm _ (List.mem_cons_self _ _)
      · exact mapSet_forall R m k v (fun e he => hm e (List.mem_cons_of_mem _ he)) hv e he

theorem mapAppend_forall {V : Type} (Q : V → Prop) (m : GoMap (List V)) (k : Int) (v : V)
    (hm : ∀ e ∈ m, ∀ t ∈ e.2, Q t) (hv : Q v) : ∀ e ∈ mapAppend m k v, ∀ t ∈ e.2, Q t := by
  apply mapSet_forall (fun l => ∀ t ∈ l, Q t) m k _ hm
  intro t ht
  rcases List.mem_append.1 ht with ht | ht
  · cases hg : mapGet m k with
    | none => simp [hg] at ht
    | some l =>
      rw [hg] at ht
      exact hm _ (mapGet_mem m k l hg) t ht
  · rw [List.mem_singleton.1 ht]
    exact hv

theorem powerSwapHeaderOfRow_terms {r : PowerSwapRow} {h : NucleusTradeHeaderModel}
    (hr : powerSwapHeaderOfRow r = Except.ok h) : h.Terms = [] ∧ h.DealKey = r.DealKey := by
  unfold powerSwapHeaderOfRow at hr
  cases he : executionTimeOf r.executionDate r.executionTime Time.zero with
  | error e => simp [he] at hr
  | ok t =>
    simp only [he, Except.ok.injEq] at hr
    subst hr
    exact ⟨rfl, rfl⟩

theorem capacityHeaderOfRow_terms {r : CapacityRow} {h : NucleusTradeHeaderModel}
    (hr : capacityHeaderOfRow r = Except.ok h) : h.Terms = [] ∧ h.DealKey = r.DealKey := by
  unfold capacityHeaderOfRow at hr
  cases he : executionTimeOf r.executionDate r.executionTime Time.zero with
  | error e => simp [he] at hr
  | ok t =>
    simp only [he, Except.ok.injEq] at hr
    subst hr
    exact ⟨rfl, rfl⟩

theorem powerSwapRowStep_agree {st st' : FetchState} {r : PowerSwapRow}
    {shadow : List (Option NucleusTradeTermModel)}
    (hm : MapsAgree st.headerModelsMap st.initialTermModelsMap shadow)
    (ht : TermsAgree st.headerModels shadow) (hstep : powerSwapRowStep st r = Except.ok st') :
    MapsAgree st'.headerModelsMap st'.initialTermModelsMap
        (shadow ++ [if r.nonstdFlag = ['N'] then none else some (powerSwapTermOfRow r)]) ∧
      TermsAgree st'.headerModels
        (shadow ++ [if r.nonstdFlag = ['N'] then none else some (powerSwapTermOfRow r)]) := by
  unfold powerSwapRowStep at hstep
  cases hh : powerSwapHeaderOfRow r with
  | error e => simp [hh] at hstep
  | ok hdr =>
    obtain ⟨hterms, _⟩ := powerSwapHeaderOfRow_terms hh
    simp only [hh] at hstep
    by_cases hflag : r.nonstdFlag = ['N']
    · simp only [hflag, if_true, Except.ok.injEq] at hstep ⊢
      subst hstep
      exact ⟨hm.standard, ht.push _ none (fun pv h => Option.noConfusion h)⟩
    · simp only [hflag, if_false, Except.ok.injEq] at hstep ⊢
      subst hstep
      refine ⟨?_, ht.push _ _ ?_⟩
      · have := hm.nonStandard hdr.DealKey (powerSwapTermOfRow r)
        rw [← ht.1] at this
        exact this
      · intro pv _ t htm
        rw [hterms] at htm
        exact absurd htm (List.not_mem_nil _)

theorem capacityRowStep_agree {st st' : FetchState} {r : CapacityRow}
    {shadow : List (Option NucleusTradeTermModel)}
    (hm : MapsAgree st.headerModelsMap st.initialTermModelsMap shadow)
    (ht : TermsAgree st.headerModels shadow) (hstep : capacityRowStep st r = Except.ok st') :
    MapsAgree st'.headerModelsMap st'.initialTermModelsMap
        (shadow ++ [if r.nonstdFlag = ['N'] then none else some (capacityTermOfRow r)]) ∧
      TermsAgree st'.headerModels
        (shadow ++ [if r.nonstdFlag = ['N'] then none else some (capacityTermOfRow r)]) := by
  unfold capacityRowStep at hstep
  cases hh : capacityHeaderOfRow r with
  | error e => simp [hh] at hstep
  | ok hdr =>
    obtain ⟨hterms, _⟩ := capacityHeaderOfRow_terms hh
    simp only [hh] at hstep
    by_cases hflag : r.nonstdFlag = ['N']
    · simp only [hflag, if_true, Except.ok.injEq] at hstep ⊢
      subst hstep
      exact ⟨hm.standard, ht.push _ none (fun pv h => Option.noConfusion h)⟩
    · simp only [hflag, if_false, Except.ok.injEq] at hstep ⊢
      subst hstep
      refine ⟨?_, ht.push _ _ ?_⟩
      · have := hm.nonStandard hdr.DealKey (capacityTermOfRow r)
        rw [← ht.1] at this
        exact this
      · intro pv _ t htm
        rw [hterms] at htm
        exact absurd htm (List.not_mem_nil _)

/-- After the row loop of the power-swap fetcher the maps and the header objects agree
with the rows read. -/
theorem powerSwap_rowLoop_agree (l : List PowerSwapRow) :
    ∀ st, l.foldlM powerSwapRowStep FetchState.init = Except.ok st →
      MapsAgree st.headerModelsMap st.initialTermModelsMap (powerSwapShadow l) ∧
        TermsAgree st.headerModels (powerSwapShadow l) := by
  induction l using List.reverseRecOn with
  | nil =>
    intro st h
    simp only [List.foldlM_nil, pure, Except.pure, Except.ok.injEq] at h
    subst h
    refine ⟨fun k p hp => ?_, rfl, fun i h pv hi => ?_⟩
    · simp [FetchState.init, mapGet] at hp
    · simp [FetchState.init] at hi
  | append_singleton l r ih =>
    intro st h
    rw [List.foldlM_append] at h
    cases hl : l.foldlM powerSwapRowStep FetchState.init with
    | error e => simp [hl, bind, Except.bind] at h
    | ok st0 =>
      simp only [hl, bind, Except.bind, List.foldlM_cons, List.foldlM_nil] at h
      obtain ⟨h1, h2⟩ := ih st0 hl
      have hstep : powerSwapRowStep st0 r = Except.ok st := by
        cases hs : powerSwapRowStep st0 r with
        | error e => simp [hs] at h
        | ok s1 =>
          simp only [hs, pure, Except.pure, Except.ok.injEq] at h
          rw [h]
      have := powerSwapRowStep_agree h1 h2 hstep
      simpa [powerSwapShadow] using this

/-- After the row loop of the capacity fetcher the maps and the header objects agree with
the rows read. -/
theorem capacity_rowLoop_agree (l : List CapacityRow) :
    ∀ st, l.foldlM capacityRowStep FetchState.init = Except.ok st →
      MapsAgree st.headerModelsMap st.initialTermModelsMap (capacityShadow l) ∧
        TermsAgree st.headerModels (capacityShadow l) := by
  induction l using List.reverseRecOn with
  | nil =>
    intro st h
    simp only [List.foldlM_nil, pure, Except.pure, Except.ok.injEq] at h
    subst h
    refine ⟨fun k p hp => ?_, rfl, fun i h pv hi => ?_⟩
    · simp [FetchState.init, mapGet] at hp
    · simp [FetchState.init] at hi
  | append_singleton l r ih =>
    intro st h
    rw [List.foldlM_append] at h
    cases hl : l.foldlM capacityRowStep FetchState.init with
    | error e => simp [hl, bind, Except.bind] at h
    | ok st0 =>
      simp only [hl, bind, Except.bind, List.foldlM_cons, List.foldlM_nil] at h
      obtain ⟨h1, h2⟩ := ih st0 hl
      have hstep : capacityRowStep st0 r = Except.ok st := by
        cases hs : capacityRowStep st0 r with
        | error e => simp [hs] at h
        | ok s1 =>
          simp only [hs, pure, Except.pure, Except.ok.injEq] at h
          rw [h]
      have := capacityRowStep_agree h1 h2 hstep
      simpa [capacityShadow] using this

theorem powerSwapSplice_agree {st : FetchState} {shadow : List (Option NucleusTradeTermModel)}
    (hm : MapsAgree st.headerModelsMap st.initialTermModelsMap shadow)
    (hshadow : ∀ pv, some pv ∈ shadow → pv.PointCode1 = [])
    (entries : GoMap (List NucleusTradeTermModel))
    (hentries : ∀ e ∈ entries, ∀ t ∈ e.2, t.PointCode1 = [])
    (heap heap' : List NucleusTradeHeaderModel) (ht : TermsAgree heap shadow)
    (h : powerSwapSplice st entries heap = Except.ok heap') : TermsAgree heap' shadow := by
  unfold powerSwapSplice at h
  refine foldlM_invariant _ (fun hp => TermsAgree hp shadow) entries ?_ heap heap' ht h
  intro hp entry hp' hmem hinv hstep
  refine foldlM_invariant _ (fun hp => TermsAgree hp shadow) entry.2 ?_ hp hp' hinv hstep
  intro hq term hq' htmem hinv2 hterm
  unfold powerSwapSpliceTerm at hterm
  cases hi : mapGet st.initialTermModelsMap entry.1 with
  | none => simp [hi] at hterm
  | some initialTerm =>
    cases hh : mapGet st.headerModelsMap entry.1 with
    | none => simp [hi, hh] at hterm
    | some p =>
      simp only [hi, hh] at hterm
      obtain ⟨pv, hpv, hpv2⟩ := hm entry.1 p hh
      rw [hi] at hpv2
      cases hpv2
      refine hinv2.appendTermAt hpv ?_ hterm
      have h1 : initialTerm.PointCode1 = [] :=
        hshadow initialTerm (List.getElem?_mem hpv)
      have h2 : term.PointCode1 = [] := hentries entry hmem term htmem
      exact ⟨rfl, rfl, by rw [h1]; exact h2, rfl⟩

theorem capacitySplice_agree {st : FetchState} {shadow : List (Option NucleusTradeTermModel)}
    (hm : MapsAgree st.headerModelsMap st.initialTermModelsMap shadow)
    (entries : GoMap (List NucleusTradeTermModel))
    (heap heap' : List NucleusTradeHeaderModel) (ht : TermsAgree heap shadow)
    (h : capacitySplice st entries heap = Except.ok heap') : TermsAgree heap' shadow := by
  unfold capacitySplice at h
  refine foldlM_invariant _ (fun hp => TermsAgree hp shadow) entries ?_ heap heap' ht h
  intro hp entry hp' _ hinv hstep
  refine foldlM_invariant _ (fun hp => TermsAgree hp shadow) entry.2 ?_ hp hp' hinv hstep
  intro hq term hq' _ hinv2 hterm
  unfold capacitySpliceTerm at hterm
  cases hi : mapGet st.initialTermModelsMap entry.1 with
  | none => simp [hi] at hterm
  | some initialTerm =>
    cases hh : mapGet st.headerModelsMap entry.1 with
    | none => simp [hi, hh] at hterm
    | some p =>
      simp only [hi, hh] at hterm
      obtain ⟨pv, hpv, hpv2⟩ := hm entry.1 p hh
      rw [hi] at hpv2
      cases hpv2
      refine TermsAgree.appendTermAt hinv2 hpv ?_ hterm
      exact ⟨rfl, rfl, rfl, rfl⟩

theorem capacitySpliceIndex_agree {st : FetchState}
    {shadow : List (Option NucleusTradeTermModel)}
    (heap heap' : List NucleusTradeHeaderModel) (entry : Int × List NucleusTradeIndexModel)
    (ht : TermsAgree heap shadow) (h : capacitySpliceIndex st heap entry = Except.ok heap') :
    TermsAgree heap' shadow := by
  unfold capacitySpliceIndex at h
  cases hh : mapGet st.headerModelsMap entry.1 with
  | none => simp [hh] at h
  | some p =>
    cases hg : heap[p]? with
    | none => simp [hh, hg] at h
    | some hd0 =>
      cases hterms : hd0.Terms with
      | nil => simp [hh, hg, hterms] at h
      | cons t0 ts =>
        simp only [hh, hg, hterms, Except.ok.injEq] at h
        subst h
        obtain ⟨hlen, hall⟩ := ht
        refine ⟨by simp [hlen], ?_⟩
        intro i hd pv hi hs t htm
        by_cases hip : p = i
        · subst hip
          have hlt : p < heap.length := by
            by_contra hge
            rw [List.getElem?_eq_none (Nat.le_of_not_lt hge)] at hg
            exact Option.noConfusion hg
          rw [List.getElem?_set_self hlt] at hi
          cases hi
          simp only [List.mem_cons] at htm
          rcases htm with rfl | htm
          · exact hall p hd0 pv hg hs t0 (by rw [hterms]; exact List.mem_cons_self _ _)
          · exact hall p hd0 pv hg hs t (by rw [hterms]; exact List.mem_cons_of_mem _ htm)
        · rw [List.getElem?_set_ne hip] at hi
          exact hall i hd pv hi hs t htm

theorem getNucPowerSwapDealTermModel_pointCode
    (query : List Int → Except Error (Rows PowerSwapTermRow)) (dealKeys : List Int)
    (m : GoMap (List NucleusTradeTermModel))
    (h : getNucPowerSwapDealTermModel query dealKeys = Except.ok m) :
    ∀ e ∈ m, ∀ t ∈ e.2, t.PointCode1 = [] := by
  unfold getNucPowerSwapDealTermModel at h
  by_cases hk : dealKeys.length = 0
  · simp only [hk, if_true, Except.ok.injEq] at h
    subst h
    intro e he
    exact absurd he (List.not_mem_nil _)
  · simp only [hk, if_false] at h
    cases hq : query dealKeys with
    | error e => simp [hq] at h
    | ok rows =>
      simp only [hq] at h
      cases hl : scanLoop rows ([] : GoMap (List NucleusTradeTermModel))
          (fun termModelMap r =>
            Except.ok (mapAppend termModelMap r.dealKey
              { NucleusTradeTermModel.zero with
                VolSeq := r.VolSeq, BegDate := r.BegDate, EndDate := r.EndDate })) with
      | error e => simp [hl] at h
      | ok tm =>
        have hall : ∀ e ∈ tm, ∀ t ∈ e.2, t.PointCode1 = [] := by
          refine scanLoop_invariant rows _ (fun mm => ∀ e ∈ mm, ∀ t ∈ e.2, t.PointCode1 = [])
            ?_ [] tm (fun e he => absurd he (List.not_mem_nil _)) hl
          intro s a s' hs hstep
          simp only [Except.ok.injEq] at hstep
          subst hstep
          refine mapAppend_forall (fun t => t.PointCode1 = []) s a.dealKey _ hs ?_
          rfl
        simp only [hl] at h
        cases hc : rows.closeErr with
        | some ce =>
          simp only [hc, Except.ok.injEq] at h
          subst h
          intro e he
          exact absurd he (List.not_mem_nil _)
        | none =>
          cases he : rows.err with
          | some ee => simp [hc, he] at h
          | none =>
            simp only [hc, he, Except.ok.injEq] at h
            subst h
            exact hall

theorem TermsAgree.nil (shadow : List (Option NucleusTradeTermModel)) :
    ∀ (i : Nat) (h : NucleusTradeHeaderModel) (pv : NucleusTradeTermModel),
      ([] : List NucleusTradeHeaderModel)[i]? = some h → shadow[i]? = some (some pv) →
        ∀ t ∈ h.Terms, SameInitialFields t pv := by
  intro i h pv hi
  simp at hi

/-- The headers returned by the power-swap fetcher agree with the rows read. -/
theorem GetNucPowerSwapDealList_agree (rows : Rows PowerSwapRow) (l : List PowerSwapRow)
    (termQuery : List Int → Except Error (Rows PowerSwapTermRow))
    (headers : List NucleusTradeHeaderModel) (hs : rows.scanned = l.map Except.ok)
    (h : GetNucPowerSwapDealList (Except.ok rows) termQuery = Except.ok headers) :
    ∀ (i : Nat) (hd : NucleusTradeHeaderModel) (pv : NucleusTradeTermModel),
      headers[i]? = some hd → (powerSwapShadow l)[i]? = some (some pv) →
        ∀ t ∈ hd.Terms, SameInitialFields t pv := by
  unfold GetNucPowerSwapDealList at h
  simp only [scanLoop_scanned_ok rows l _ _ hs] at h
  cases hl : l.foldlM powerSwapRowStep FetchState.init with
  | error e => simp [hl] at h
  | ok st =>
    obtain ⟨hm, ht⟩ := powerSwap_rowLoop_agree l st hl
    simp only [hl] at h
    cases hc : rows.closeErr with
    | some ce =>
      simp only [hc, Except.ok.injEq] at h
      subst h
      exact TermsAgree.nil _
    | none =>
      cases he : rows.err with
      | some ee => simp [hc, he] at h
      | none =>
        simp only [hc, he] at h
        by_cases hk : 0 < st.dealKeys.length
        · simp only [hk, if_true] at h
          cases hq : getNucPowerSwapDealTermModel termQuery st.dealKeys with
          | error e => simp [hq] at h
          | ok tm =>
            simp only [hq] at h
            have hshadow : ∀ pv, some pv ∈ powerSwapShadow l → pv.PointCode1 = [] := by
              intro pv hpv
              simp only [powerSwapShadow, List.mem_map] at hpv
              obtain ⟨r, _, hr⟩ := hpv
              by_cases hflag : r.nonstdFlag = ['N']
              · simp [hflag] at hr
              · simp only [hflag, if_false, Option.some.injEq] at hr
                rw [← hr]
                rfl
            exact (powerSwapSplice_agree hm hshadow tm
              (getNucPowerSwapDealTermModel_pointCode termQuery _ tm hq) _ _ ht h).2
        · simp only [hk, if_false, Except.ok.injEq] at h
          subst h
          exact ht.2

/-- The headers returned by the capacity fetcher agree with the rows read. -/
theorem GetNucCapacityDealList_agree (rows : Rows CapacityRow) (l : List CapacityRow)
    (termQuery : List Int → Except Error (Rows CapacityTermRow))
    (indexQuery : List Int → Except Error (Rows CapacityIndexRow))
    (headers : List NucleusTradeHeaderModel) (hs : rows.scanned = l.map Except.ok)
    (h : GetNucCapacityDealList (Except.ok rows) termQuery indexQuery = Except.ok headers) :
    ∀ (i : Nat) (hd : NucleusTradeHeaderModel) (pv : NucleusTradeTermModel),
      headers[i]? = some hd → (capacityShadow l)[i]? = some (some pv) →
        ∀ t ∈ hd.Terms, SameInitialFields t pv := by
  unfold GetNucCapacityDealList at h
  simp only [scanLoop_scanned_ok rows l _ _ hs] at h
  cases hl : l.foldlM capacityRowStep FetchState.init with
  | error e => simp [hl] at h
  | ok st =>
    obtain ⟨hm, ht⟩ := capacity_rowLoop_agree l st hl
    simp only [hl] at h
    cases hc : rows.closeErr with
    | some ce =>
      simp only [hc, Except.ok.injEq] at h
      subst h
      exact TermsAgree.nil _
    | none =>
      cases he : rows.err with
      | some ee => simp [hc, he] at h
      | none =>
        simp only [hc, he] at h
        have hterms : ∀ heap, (if 0 < st.dealKeys.length then
              match getNucCapacityDealTermModel termQuery st.dealKeys with
              | Except.error e => Except.error e
              | Except.ok termModelsMap => capacitySplice st termModelsMap st.headerModels
            else Except.ok st.headerModels) = Except.ok heap →
            TermsAgree heap (capacityShadow l) := by
          intro heap hheap
          by_cases hk : 0 < st.dealKeys.length
          · simp only [hk, if_true] at hheap
            cases hq : getNucCapacityDealTermModel termQuery st.dealKeys with
            | error e => simp [hq] at hheap
            | ok tm =>
              simp only [hq] at hheap
              exact capacitySplice_agree hm tm _ _ ht hheap
          · simp only [hk, if_false, Except.ok.injEq] at hheap
            subst hheap
            exact ht
        cases hw : (if 0 < st.dealKeys.length then
              match getNucCapacityDealTermModel termQuery st.dealKeys with
              | Except.error e => Except.error e
              | Except.ok termModelsMap => capacitySplice st termModelsMap st.headerModels
            else Except.ok st.headerModels) with
        | error e => simp [hw] at h
        | ok heap =>
          have hheap := hterms heap hw
          simp only [hw] at h
          by_cases hf : 0 < st.formulaDealKeys.length
          · simp only [hf, if_true] at h
            cases hq : getNucCapacityDealIndexModel indexQuery st.formulaDealKeys with
            | error e => simp [hq] at h
            | ok im =>
              simp only [hq] at h
              exact (foldlM_invariant _ (fun hp => TermsAgree hp (capacityShadow l)) im
                (fun s a s' _ hP hstep => capacitySpliceIndex_agree s s' a hP hstep)
                heap headers hheap h).2
          · simp only [hf, if_false, Except.ok.injEq] at h
            subst h
            exact hheap.2

/-! ## Splice-back of terms: the claim -/

theorem shadow_getElem? {α : Type} (l : List α) (flag : α → Prop) [DecidablePred flag]
    (mk : α → NucleusTradeTermModel) (i : Nat) (r : α) (hr : l[i]? = some r)
    (hflag : ¬ flag r) :
    (l.map (fun r => if flag r then none else some (mk r)))[i]? = some (some (mk r)) := by
  rw [List.getElem?_map, hr]
  simp [hflag]

/-- C5: splice-back for non-standard deals (power swap and capacity). For every answer of
the ledger store to the primary and term queries for which the fetch returns headers, and
every non-standard row (its flag is not `"N"`), each term in the term list of the header
of that row, whatever the number of term rows fetched for its deal key, has Pool1,
Product1, PointCode1 and HolidaySchedule equal to those of the initial term built from
the row. -/
theorem C5_splice_back_carries_initial_fields :
    (∀ (rows : Rows PowerSwapRow) (l : List PowerSwapRow)
        (termQuery : List Int → Except Error (Rows PowerSwapTermRow))
        (headers : List NucleusTradeHeaderModel),
        rows.scanned = l.map Except.ok →
        GetNucPowerSwapDealList (Except.ok rows) termQuery = Except.ok headers →
        ∀ (i : Nat) (r : PowerSwapRow) (hd : NucleusTradeHeaderModel),
          l[i]? = some r → r.nonstdFlag ≠ ['N'] → headers[i]? = some hd →
          ∀ t ∈ hd.Terms, SameInitialFields t (powerSwapTermOfRow r)) ∧
    (∀ (rows : Rows CapacityRow) (l : List CapacityRow)
        (termQuery : List Int → Except Error (Rows CapacityTermRow))
        (indexQuery : List Int → Except Error (Rows CapacityIndexRow))
        (headers : List NucleusTradeHeaderModel),
        rows.scanned = l.map Except.ok →
        GetNucCapacityDealList (Except.ok rows) termQuery indexQuery = Except.ok headers →
        ∀ (i : Nat) (r : CapacityRow) (hd : NucleusTradeHeaderModel),
          l[i]? = some r → r.nonstdFlag ≠ ['N'] → headers[i]? = some hd →
          ∀ t ∈ hd.Terms, SameInitialFields t (capacityTermOfRow r)) := by
  constructor
  · intro rows l termQuery headers hs h i r hd hr hflag hhd
    exact GetNucPowerSwapDealList_agree rows l termQuery headers hs h i hd _ hhd
      (shadow_getElem? l (fun r => r.nonstdFlag = ['N']) powerSwapTermOfRow i r hr hflag)
  · intro rows l termQuery indexQuery headers hs h i r hd hr hflag hhd
    exact GetNucCapacityDealList_agree rows l termQuery indexQuery headers hs h i hd _ hhd
      (shadow_getElem? l (fun r => r.nonstdFlag = ['N']) capacityTermOfRow i r hr hflag)

/-- Witness of C5: a non-standard power-swap row and a non-standard capacity row, each
with two term rows fetched for its key; both terms of each header carry the fields of the
initial term. -/
theorem C5_splice_back_witness :
    (∃ hd, (headersOf (GetNucPowerSwapDealList
          (Except.ok { scanned := [Except.ok samplePowerSwapRow], closeFailure := none, lastErr := none })
          (fun _ => Except.ok samplePowerSwapTermRows)))[0]? = some hd ∧
        hd.Terms.length = 2 ∧
        ∀ t ∈ hd.Terms, SameInitialFields t (powerSwapTermOfRow samplePowerSwapRow)) ∧
    (∃ hd, (headersOf (GetNucCapacityDealList
          (Except.ok { scanned := [Except.ok sampleCapacityRow], closeFailure := none, lastErr := none })
          (fun _ => Except.ok sampleCapacityTermRows)
          (fun _ => Except.error ErrNoRows)))[0]? = some hd ∧
        hd.Terms.length = 2 ∧
        ∀ t ∈ hd.Terms, SameInitialFields t (capacityTermOfRow sampleCapacityRow)) :=
  ⟨⟨_, rfl, rfl,
      C5_splice_back_carries_initial_fields.1
        { scanned := [Except.ok samplePowerSwapRow], closeFailure := none, lastErr := none }
        [samplePowerSwapRow] (fun _ => Except.ok samplePowerSwapTermRows) _ rfl rfl 0
        samplePowerSwapRow _ rfl (by decide) rfl⟩,
    ⟨_, rfl, rfl,
      C5_splice_back_carries_initial_fields.2
        { scanned := [Except.ok sampleCapacityRow], closeFailure := none, lastErr := none }
        [sampleCapacityRow] (fun _ => Except.ok sampleCapacityTermRows)
        (fun _ => Except.error ErrNoRows) _ rfl rfl 0 sampleCapacityRow _ rfl (by decide) rfl⟩⟩

/-! ## Anomaly merge: text, flag, rows and failures -/

theorem intercalate_cons_cons (sep x y : Str) (l : List Str) :
    List.intercalate sep (x :: y :: l) = x ++ sep ++ List.intercalate sep (y :: l) := by
  simp [List.intercalate, List.intersperse]

theorem mergeFinding_of_other {acc : Str × Str} {r : ModelBasePayload}
    (h : r.ScoredLabel ≠ ['N', 'O']) : mergeFinding acc r = Except.ok acc := by
  simp [mergeFinding, h]

theorem mergeFinding_of_flagged {acc acc' : Str × Str} {r : ModelBasePayload}
    (h : r.ScoredLabel = ['N', 'O']) (hm : mergeFinding acc r = Except.ok acc') :
    acc'.1 = (if acc.1 = [] then r.ModelName ++ [' '] ++ r.Message
      else acc.1 ++ [';'] ++ r.ModelName ++ [' '] ++ r.Message) := by
  simp only [mergeFinding, h, if_true] at hm
  cases hp : r.marshalled with
  | error e => simp [hp] at hm
  | ok p =>
    simp only [hp, Except.ok.injEq] at hm
    rw [← hm]

/-- The anomaly text after the findings loop that starts from a non-empty text: every
further piece is appended after a semicolon. -/
theorem foldlM_mergeFinding_text_of_ne :
    ∀ (l : List ModelBasePayload) (acc res : Str × Str), acc.1 ≠ [] →
      l.foldlM mergeFinding acc = Except.ok res →
      res.1 = acc.1 ++ ((anomalyPieces l).map (fun x => [';'] ++ x)).flatten
  | [], acc, res, _, h => by
    simp only [List.foldlM_nil, pure, Except.pure, Except.ok.injEq] at h
    rw [← h]
    simp [anomalyPieces]
  | r :: l, acc, res, hne, h => by
    simp only [List.foldlM_cons, bind, Except.bind] at h
    cases hm : mergeFinding acc r with
    | error e => simp [hm] at h
    | ok acc' =>
      simp only [hm] at h
      by_cases hl : r.ScoredLabel = ['N', 'O']
      · have h1 := mergeFinding_of_flagged hl hm
        rw [if_neg hne] at h1
        have hne' : acc'.1 ≠ [] := by
          rw [h1]
          simp
        rw [foldlM_mergeFinding_text_of_ne l acc' res hne' h, h1]
        simp [anomalyPieces, hl]
      · rw [mergeFinding_of_other hl] at hm
        cases hm
        rw [foldlM_mergeFinding_text_of_ne l acc res hne h]
        simp [anomalyPieces, hl]

theorem intercalate_semicolon_cons (x : Str) (l : List Str) :
    List.intercalate [';'] (x :: l) = x ++ (l.map (fun y => [';'] ++ y)).flatten := by
  induction l generalizing x with
  | nil => simp [List.intercalate, List.intersperse]
  | cons y l ih =>
    rw [intercalate_cons_cons, ih y]
    simp

/-- The anomaly text after the findings loop that starts from the empty text: the pieces
joined with semicolons. -/
theorem foldlM_mergeFinding_text :
    ∀ (l : List ModelBasePayload) (acc res : Str × Str), acc.1 = [] →
      l.foldlM mergeFinding acc = Except.ok res →
      res.1 = List.intercalate [';'] (anomalyPieces l)
  | [], acc, res, hnil, h => by
    simp only [List.foldlM_nil, pure, Except.pure, Except.ok.injEq] at h
    rw [← h, hnil]
    simp [anomalyPieces, List.intercalate, List.intersperse]
  | r :: l, acc, res, hnil, h => by
    simp only [List.foldlM_cons, bind, Except.bind] at h
    cases hm : mergeFinding acc r with
    | error e => simp [hm] at h
    | ok acc' =>
      simp only [hm] at h
      by_cases hl : r.ScoredLabel = ['N', 'O']
      · have h1 := mergeFinding_of_flagged hl hm
        rw [if_pos hnil] at h1
        have hne' : acc'.1 ≠ [] := by
          rw [h1]
          simp
        have hp : anomalyPieces (r :: l) = (r.ModelName ++ [' '] ++ r.Message) :: anomalyPieces l := by
          simp [anomalyPieces, hl]
        rw [foldlM_mergeFinding_text_of_ne l acc' res hne' h, h1, hp, intercalate_semicolon_cons]
      · rw [mergeFinding_of_other hl] at hm
        cases hm
        have hp : anomalyPieces (r :: l) = anomalyPieces l := by
          simp [anomalyPieces, hl]
        rw [hp]
        exact foldlM_mergeFinding_text l acc res hnil h

theorem anomalyPieces_eq_nil_iff (l : List ModelBasePayload) :
    anomalyPieces l = [] ↔ ¬ ∃ r ∈ l, r.ScoredLabel = ['N', 'O'] := by
  simp [anomalyPieces, List.filter_eq_nil_iff]

theorem intercalate_pieces_eq_nil_iff (l : List ModelBasePayload) :
    List.intercalate [';'] (anomalyPieces l) = [] ↔ anomalyPieces l = [] := by
  constructor
  · intro h
    cases hp : anomalyPieces l with
    | nil => rfl
    | cons x xs =>
      rw [hp, intercalate_semicolon_cons] at h
      have hx : x ∈ anomalyPieces l := by rw [hp]; exact List.mem_cons_self _ _
      simp only [anomalyPieces, List.mem_map] at hx
      obtain ⟨r, _, hr⟩ := hx
      rw [← hr] at h
      simp at h
  · intro h
    rw [h]
    simp [List.intercalate, List.intersperse]

/-- The shape of a payload row that `processedTradeOf` builds. -/
theorem processedTradeOf_ok_iff (jsonMarshal : NucleusTradeHeaderModel → Except Error Str)
    (anomalyMessages : GoMap (List ModelBasePayload)) (trade : NucleusTradeHeaderModel)
    (row : nucleusProcessedTradeType) :
    processedTradeOf jsonMarshal anomalyMessages trade = Except.ok row ↔
      ∃ texts d,
        ((mapGet anomalyMessages trade.DealKey).getD []).foldlM mergeFinding
          (([], []) : Str × Str) = Except.ok texts ∧
        jsonMarshal trade = Except.ok d ∧
        row =
          { TradeId := trade.DealKey
            DealType := trade.DealType
            PortfolioId := trade.PrtPortfolio
            TransactionDate := trade.TransactionDate
            TradeDetail := d
            AnomalyDetectedFlag := decide (texts.1 ≠ [])
            AnomalyTestResult := if texts.1 ≠ [] then some texts.1 else none
            ModelParameters := if texts.2 ≠ [] then some texts.2 else none } := by
  unfold processedTradeOf
  simp only
  constructor
  · intro h
    cases hf : List.foldlM mergeFinding (([], []) : Str × Str)
        ((mapGet anomalyMessages trade.DealKey).getD []) with
    | error e =>
      rw [hf] at h
      exact Except.noConfusion h
    | ok texts =>
      obtain ⟨m, p⟩ := texts
      rw [hf] at h
      cases hj : jsonMarshal trade with
      | error e =>
        rw [hj] at h
        exact Except.noConfusion h
      | ok d =>
        rw [hj] at h
        exact ⟨(m, p), d, rfl, rfl, (Except.ok.inj h).symm⟩
  · rintro ⟨texts, d, hf, hj, hrow⟩
    obtain ⟨m, p⟩ := texts
    rw [hf, hj, hrow]

/-- C11: anomaly message concatenation in ProcessTrades. For every header and findings
map for which the payload row is built, the anomaly text of the row is the pieces (model
name, a blank, message), one per finding labelled `"NO"` under the header's deal key, in
the order of the findings list and joined with `;` without leading or trailing
separator; when there is no such finding the anomaly text is null. -/
theorem C11_anomaly_text_is_pieces_joined
    (jsonMarshal : NucleusTradeHeaderModel → Except Error Str)
    (anomalyMessages : GoMap (List ModelBasePayload)) (trade : NucleusTradeHeaderModel)
    (row : nucleusProcessedTradeType)
    (h : processedTradeOf jsonMarshal anomalyMessages trade = Except.ok row) :
    row.AnomalyTestResult =
      (if anomalyPieces ((mapGet anomalyMessages trade.DealKey).getD []) = [] then none
       else some (List.intercalate [';']
         (anomalyPieces ((mapGet anomalyMessages trade.DealKey).getD [])))) := by
  obtain ⟨texts, d, hf, _, hrow⟩ := (processedTradeOf_ok_iff _ _ _ _).1 h
  have ht := foldlM_mergeFinding_text _ _ _ rfl hf
  rw [hrow]
  simp only
  rw [ht]
  by_cases hp : anomalyPieces ((mapGet anomalyMessages trade.DealKey).getD []) = []
  · rw [if_pos hp, hp]
    simp [List.intercalate, List.intersperse]
  · rw [if_neg hp, if_pos]
    exact fun he => hp ((intercalate_pieces_eq_nil_iff _).1 he)

/-- Witness of C11: the two findings labelled `"NO"` give the text `M1 a;M3 c`. -/
theorem C11_anomaly_text_witness :
    ∃ row, processedTradeOf (fun _ => Except.ok "{}".toList) sampleFindings sampleTrade =
        Except.ok row ∧
      row.AnomalyTestResult = some "M1 a;M3 c".toList :=
  ⟨_, rfl,
    (C11_anomaly_text_is_pieces_joined (fun _ => Except.ok "{}".toList) sampleFindings
      sampleTrade _ rfl).trans (by decide)⟩

theorem foldlM_mergeFinding_nonempty_iff :
    ∀ (l : List ModelBasePayload) (acc res : Str × Str),
      l.foldlM mergeFinding acc = Except.ok res →
      (res.1 ≠ [] ↔ acc.1 ≠ [] ∨ ∃ r ∈ l, r.ScoredLabel = ['N', 'O'])
  | [], acc, res, h => by
    simp only [List.foldlM_nil, pure, Except.pure, Except.ok.injEq] at h
    rw [← h]
    simp
  | r :: l, acc, res, h => by
    simp only [List.foldlM_cons, bind, Except.bind] at h
    cases hm : mergeFinding acc r with
    | error e => simp [hm] at h
    | ok acc' =>
      simp only [hm] at h
      rw [foldlM_mergeFinding_nonempty_iff l acc' res h]
      by_cases hl : r.ScoredLabel = ['N', 'O']
      · have h1 := mergeFinding_of_flagged hl hm
        have hne' : acc'.1 ≠ [] := by
          rw [h1]
          split <;> simp
        constructor
        · intro _
          exact Or.inr ⟨r, List.mem_cons_self _ _, hl⟩
        · intro _
          exact Or.inl hne'
      · rw [mergeFinding_of_other hl] at hm
        cases hm
        constructor
        · rintro (h1 | ⟨x, hx, hxl⟩)
          · exact Or.inl h1
          · exact Or.inr ⟨x, List.mem_cons_of_mem _ hx, hxl⟩
        · rintro (h1 | ⟨x, hx, hxl⟩)
          · exact Or.inl h1
          · rcases List.mem_cons.1 hx with rfl | hx
            · exact absurd hxl hl
            · exact Or.inr ⟨x, hx, hxl⟩

/-- C12: anomaly-detected flag in ProcessTrades. For every header and findings map for
which the payload row is built, the flag is true if and only if at least one finding
listed under the header's deal key has scored label `"NO"`, model name and message may
be empty; equivalently if and only if the anomaly text is not null. Findings with
another label never set it. -/
theorem C12_anomaly_flag_iff_flagged_finding
    (jsonMarshal : NucleusTradeHeaderModel → Except Error Str)
    (anomalyMessages : GoMap (List ModelBasePayload)) (trade : NucleusTradeHeaderModel)
    (row : nucleusProcessedTradeType)
    (h : processedTradeOf jsonMarshal anomalyMessages trade = Except.ok row) :
    (row.AnomalyDetectedFlag = true ↔
      ∃ r ∈ (mapGet anomalyMessages trade.DealKey).getD [], r.ScoredLabel = ['N', 'O']) ∧
    (row.AnomalyDetectedFlag = true ↔ row.AnomalyTestResult ≠ none) := by
  obtain ⟨texts, d, hf, _, hrow⟩ := (processedTradeOf_ok_iff _ _ _ _).1 h
  have hiff := foldlM_mergeFinding_nonempty_iff _ _ _ hf
  simp only [ne_eq, not_true_eq_false, false_or] at hiff
  rw [hrow]
  simp only [decide_eq_true_eq]
  refine ⟨hiff, ?_⟩
  by_cases ht : texts.1 = []
  · simp [ht]
  · simp [ht]

/-- Witness of C12: a finding labelled `"NO"` with empty model name and message sets the
flag, and a finding labelled `"YES"` alone does not. -/
theorem C12_anomaly_flag_witness :
    (∃ row, processedTradeOf (fun _ => Except.ok "{}".toList)
        [(7, [{ ModelName := [], Message := [], ScoredLabel := "NO".toList,
                marshalled := Except.ok "p".toList }])] sampleTrade = Except.ok row ∧
      row.AnomalyDetectedFlag = true) ∧
    (∃ row, processedTradeOf (fun _ => Except.ok "{}".toList)
        [(7, [{ ModelName := "M".toList, Message := "m".toList, ScoredLabel := "YES".toList,
                marshalled := Except.ok "p".toList }])] sampleTrade = Except.ok row ∧
      row.AnomalyDetectedFlag = false) :=
  ⟨⟨_, rfl,
      (C12_anomaly_flag_iff_flagged_finding (fun _ => Except.ok "{}".toList)
        [(7, [{ ModelName := [], Message := [], ScoredLabel := "NO".toList,
                marshalled := Except.ok "p".toList }])] sampleTrade _ rfl).1.2
        ⟨_, List.mem_cons_self _ _, rfl⟩⟩,
    ⟨_, rfl, rfl⟩⟩

theorem mapM_ok_of_forall {α β : Type} (f : α → Except Error β) :
    ∀ (l : List α), (∀ t ∈ l, ∃ r, f t = Except.ok r) → ∃ rs, l.mapM f = Except.ok rs
  | [], _ => ⟨[], rfl⟩
  | t :: l, h => by
    obtain ⟨r, hr⟩ := h t (List.mem_cons_self _ _)
    obtain ⟨rs, hrs⟩ := mapM_ok_of_forall f l (fun u hu => h u (List.mem_cons_of_mem _ hu))
    refine ⟨r :: rs, ?_⟩
    rw [List.mapM_cons, hr, hrs]
    rfl

theorem mapM_ok_spec {α β : Type} (f : α → Except Error β) :
    ∀ (l : List α) (rs : List β), l.mapM f = Except.ok rs →
      rs.length = l.length ∧
        ∀ (i : Nat) (t : α), l[i]? = some t → ∃ r, rs[i]? = some r ∧ f t = Except.ok r
  | [], rs, h => by
    simp only [List.mapM_nil, pure, Except.pure, Except.ok.injEq] at h
    subst h
    exact ⟨rfl, fun i t hi => by simp at hi⟩
  | t :: l, rs, h => by
    rw [List.mapM_cons] at h
    cases hr : f t with
    | error e =>
      rw [hr] at h
      exact Except.noConfusion h
    | ok r =>
      cases hrs : l.mapM f with
      | error e =>
        rw [hr, hrs] at h
        exact Except.noConfusion h
      | ok rs' =>
        rw [hr, hrs] at h
        have hrs_eq : rs = r :: rs' := (Except.ok.inj h).symm
        subst hrs_eq
        obtain ⟨hlen, hall⟩ := mapM_ok_spec f l rs' hrs
        refine ⟨by simp [hlen], ?_⟩
        intro i u hi
        cases i with
        | zero =>
          simp only [List.getElem?_cons_zero, Option.some.injEq] at hi
          subst hi
          exact ⟨r, by simp, hr⟩
        | succ i =>
          simp only [List.getElem?_cons_succ] at hi ⊢
          exact hall i u hi

theorem mapM_error_first {α β : Type} (f : α → Except Error β) (t : α) (post : List α)
    (e : Error) (ht : f t = Except.error e) :
    ∀ (pre : List α), (∀ u ∈ pre, ∃ r, f u = Except.ok r) →
      (pre ++ t :: post).mapM f = Except.error e
  | [], _ => by
    rw [List.nil_append, List.mapM_cons, ht]
    rfl
  | u :: pre, h => by
    obtain ⟨r, hr⟩ := h u (List.mem_cons_self _ _)
    have ih := mapM_error_first f t post e ht pre
      (fun v hv => h v (List.mem_cons_of_mem _ hv))
    rw [List.cons_append, List.mapM_cons, hr, ih]
    rfl

theorem mapM_error_of_mem {α β : Type} (f : α → Except Error β) :
    ∀ (l : List α) (t : α), t ∈ l → (∃ e, f t = Except.error e) →
      ∃ e, l.mapM f = Except.error e
  | [], _, hm, _ => absurd hm (List.not_mem_nil _)
  | u :: l, t, hm, ht => by
    rw [List.mapM_cons]
    cases hu : f u with
    | error e => exact ⟨e, rfl⟩
    | ok r =>
      rcases List.mem_cons.1 hm with rfl | hm
      · obtain ⟨e, he⟩ := ht
        rw [hu] at he
        exact Except.noConfusion he
      · obtain ⟨e, he⟩ := mapM_error_of_mem f l t hm ht
        rw [he]
        exact ⟨e, rfl⟩

theorem foldlM_mergeFinding_ok :
    ∀ (l : List ModelBasePayload), FindingsSerialize l →
      ∀ acc, ∃ res, l.foldlM mergeFinding acc = Except.ok res
  | [], _, acc => ⟨acc, rfl⟩
  | r :: l, h, acc => by
    have hl : FindingsSerialize l := fun x hx => h x (List.mem_cons_of_mem _ hx)
    simp only [List.foldlM_cons, bind, Except.bind]
    by_cases hr : r.ScoredLabel = ['N', 'O']
    · obtain ⟨p, hp⟩ := h r (List.mem_cons_self _ _) hr
      simp only [mergeFinding, hr, if_true, hp]
      exact foldlM_mergeFinding_ok l hl _
    · rw [mergeFinding_of_other hr]
      exact foldlM_mergeFinding_ok l hl acc

theorem foldlM_mergeFinding_error_first (r : ModelBasePayload) (l2 : List ModelBasePayload)
    (e : Error) (hr : r.ScoredLabel = ['N', 'O']) (he : r.marshalled = Except.error e) :
    ∀ (l1 : List ModelBasePayload), FindingsSerialize l1 →
      ∀ acc, (l1 ++ r :: l2).foldlM mergeFinding acc = Except.error e
  | [], _, acc => by
    simp only [List.nil_append, List.foldlM_cons, bind, Except.bind, mergeFinding, hr, if_true,
      he]
  | x :: l1, h, acc => by
    have hl : FindingsSerialize l1 := fun y hy => h y (List.mem_cons_of_mem _ hy)
    simp only [List.cons_append, List.foldlM_cons, bind, Except.bind]
    by_cases hx : x.ScoredLabel = ['N', 'O']
    · obtain ⟨p, hp⟩ := h x (List.mem_cons_self _ _) hx
      simp only [mergeFinding, hx, if_true, hp]
      exact foldlM_mergeFinding_error_first r l2 e hr he l1 hl _
    · rw [mergeFinding_of_other hx]
      exact foldlM_mergeFinding_error_first r l2 e hr he l1 hl acc

theorem foldlM_mergeFinding_error_of_mem :
    ∀ (l : List ModelBasePayload) (r : ModelBasePayload), r ∈ l → r.ScoredLabel = ['N', 'O'] →
      (∃ e, r.marshalled = Except.error e) →
      ∀ acc, ∃ e, l.foldlM mergeFinding acc = Except.error e
  | [], _, hm, _, _, _ => absurd hm (List.not_mem_nil _)
  | x :: l, r, hm, hr, he, acc => by
    simp only [List.foldlM_cons, bind, Except.bind]
    cases hx : mergeFinding acc x with
    | error e => exact ⟨e, rfl⟩
    | ok acc' =>
      rcases List.mem_cons.1 hm with rfl | hm
      · obtain ⟨e, he⟩ := he
        simp [mergeFinding, hr, he] at hx
      · exact foldlM_mergeFinding_error_of_mem l r hm hr he acc'

theorem processedTradeOf_ok_of_serialize
    (jsonMarshal : NucleusTradeHeaderModel → Except Error Str)
    (anomalyMessages : GoMap (List ModelBasePayload)) (trade : NucleusTradeHeaderModel)
    (hf : FindingsSerialize ((mapGet anomalyMessages trade.DealKey).getD []))
    (hj : ∃ d, jsonMarshal trade = Except.ok d) :
    ∃ row, processedTradeOf jsonMarshal anomalyMessages trade = Except.ok row := by
  obtain ⟨texts, ht⟩ := foldlM_mergeFinding_ok _ hf (([], []) : Str × Str)
  obtain ⟨d, hd⟩ := hj
  exact ⟨_, (processedTradeOf_ok_iff _ _ _ _).2 ⟨texts, d, ht, hd, rfl⟩⟩

/-- C13: ProcessTrades builds exactly one payload row per header, in header order. For
every non-empty header list of length n whose headers and `"NO"`-labelled findings
serialize, the batch passed to the store has length n, and its i-th row has the TradeId
(DealKey), DealType, PortfolioId (PrtPortfolio) and TransactionDate of the i-th header
and a TradeDetail that is the serialization of that header, whatever findings are
supplied. -/
theorem C13_one_payload_row_per_header (db : MachineLearningDb) (execErr : Option Error)
    (jsonMarshal : NucleusTradeHeaderModel → Except Error Str)
    (trades : List NucleusTradeHeaderModel) (anomalyMessages : GoMap (List ModelBasePayload))
    (hne : trades ≠ [])
    (hj : ∀ t ∈ trades, ∃ d, jsonMarshal t = Except.ok d)
    (hf : ∀ t ∈ trades, FindingsSerialize ((mapGet anomalyMessages t.DealKey).getD [])) :
    ∃ batch,
      ProcessTrades db execErr jsonMarshal trades anomalyMessages =
        (execErr, { db with upsertCalls := db.upsertCalls ++ [batch] }) ∧
      batch.length = trades.length ∧
      ∀ (i : Nat) (t : NucleusTradeHeaderModel), trades[i]? = some t →
        ∃ row, batch[i]? = some row ∧ row.TradeId = t.DealKey ∧ row.DealType = t.DealType ∧
          row.PortfolioId = t.PrtPortfolio ∧ row.TransactionDate = t.TransactionDate ∧
          jsonMarshal t = Except.ok row.TradeDetail := by
  obtain ⟨batch, hb⟩ := mapM_ok_of_forall (processedTradeOf jsonMarshal anomalyMessages) trades
    (fun t ht => processedTradeOf_ok_of_serialize jsonMarshal anomalyMessages t (hf t ht)
      (hj t ht))
  obtain ⟨hlen, hall⟩ := mapM_ok_spec _ trades batch hb
  have hn : trades.length ≠ 0 := by
    cases trades with
    | nil => exact absurd rfl hne
    | cons a l => simp
  refine ⟨batch, ?_, hlen, ?_⟩
  · unfold ProcessTrades
    rw [if_neg hn, hb]
  · intro i t hi
    obtain ⟨row, hrow, hp⟩ := hall i t hi
    obtain ⟨texts, d, _, hd, hr⟩ := (processedTradeOf_ok_iff _ _ _ _).1 hp
    refine ⟨row, hrow, ?_⟩
    rw [hr]
    exact ⟨rfl, rfl, rfl, rfl, hd⟩

/-- Witness of C13: two headers, findings for the first only; the batch has two rows, in
header order. -/
theorem C13_one_payload_row_per_header_witness :
    ∃ batch,
      ProcessTrades emptyDb none (fun _ => Except.ok "{}".toList) [sampleTrade, sampleTrade2]
          sampleFindings =
        (none, { emptyDb with upsertCalls := emptyDb.upsertCalls ++ [batch] }) ∧
      batch.length = 2 :=
  match C13_one_payload_row_per_header emptyDb none (fun _ => Except.ok "{}".toList)
      [sampleTrade, sampleTrade2] sampleFindings (by decide)
      (fun _ _ => ⟨_, rfl⟩) (by decide) with
  | ⟨batch, h1, h2, _⟩ => ⟨batch, h1, h2⟩

theorem processedTradeOf_error_of_marshal
    (jsonMarshal : NucleusTradeHeaderModel → Except Error Str)
    (anomalyMessages : GoMap (List ModelBasePayload)) (trade : NucleusTradeHeaderModel)
    (e : Error) (hj : jsonMarshal trade = Except.error e) :
    (∃ e', processedTradeOf jsonMarshal anomalyMessages trade = Except.error e') ∧
    (FindingsSerialize ((mapGet anomalyMessages trade.DealKey).getD []) →
      processedTradeOf jsonMarshal anomalyMessages trade = Except.error e) := by
  constructor
  · cases hp : processedTradeOf jsonMarshal anomalyMessages trade with
    | error e' => exact ⟨e', rfl⟩
    | ok row =>
      obtain ⟨_, d, _, hd, _⟩ := (processedTradeOf_ok_iff _ _ _ _).1 hp
      rw [hj] at hd
      exact Except.noConfusion hd
  · intro hf
    obtain ⟨texts, ht⟩ := foldlM_mergeFinding_ok _ hf (([], []) : Str × Str)
    obtain ⟨m, p⟩ := texts
    unfold processedTradeOf
    simp only
    rw [ht, hj]

theorem processedTradeOf_error_of_finding
    (jsonMarshal : NucleusTradeHeaderModel → Except Error Str)
    (anomalyMessages : GoMap (List ModelBasePayload)) (trade : NucleusTradeHeaderModel)
    (r : ModelBasePayload) (e : Error) (hr : r.ScoredLabel = ['N', 'O'])
    (he : r.marshalled = Except.error e) :
    (r ∈ (mapGet anomalyMessages trade.DealKey).getD [] →
      ∃ e', processedTradeOf jsonMarshal anomalyMessages trade = Except.error e') ∧
    (∀ l1 l2, (mapGet anomalyMessages trade.DealKey).getD [] = l1 ++ r :: l2 →
      FindingsSerialize l1 →
      processedTradeOf jsonMarshal anomalyMessages trade = Except.error e) := by
  constructor
  · intro hm
    obtain ⟨e', he'⟩ := foldlM_mergeFinding_error_of_mem _ r hm hr ⟨e, he⟩ (([], []) : Str × Str)
    refine ⟨e', ?_⟩
    unfold processedTradeOf
    simp only
    rw [he']
  · intro l1 l2 hl h1
    have := foldlM_mergeFinding_error_first r l2 e hr he l1 h1 (([], []) : Str × Str)
    unfold processedTradeOf
    simp only
    rw [hl, this]

theorem ProcessTrades_of_error (db : MachineLearningDb) (execErr : Option Error)
    (jsonMarshal : NucleusTradeHeaderModel → Except Error Str)
    (trades : List NucleusTradeHeaderModel) (anomalyMessages : GoMap (List ModelBasePayload))
    (e : Error) (hne : trades ≠ [])
    (h : trades.mapM (processedTradeOf jsonMarshal anomalyMessages) = Except.error e) :
    ProcessTrades db execErr jsonMarshal trades anomalyMessages = (some e, db) := by
  have hn : trades.length ≠ 0 := by
    cases trades with
    | nil => exact absurd rfl hne
    | cons a l => simp
  unfold ProcessTrades
  rw [if_neg hn, h]

/-- C14: ProcessTrades is all-or-nothing on serialization errors. If serializing a header
of the batch, or a finding labelled `"NO"` listed under the deal key of a header of the
batch, fails, ProcessTrades returns an error and passes no batch to the analytics store,
even when earlier headers serialized; the error returned is the one of the first failure
in header order (findings of a header before the header itself). -/
theorem C14_serialization_error_aborts_batch (db : MachineLearningDb) (execErr : Option Error)
    (jsonMarshal : NucleusTradeHeaderModel → Except Error Str)
    (trades : List NucleusTradeHeaderModel) (anomalyMessages : GoMap (List ModelBasePayload)) :
    (∀ t ∈ trades,
      ((∃ e, jsonMarshal t = Except.error e) ∨
        (∃ r ∈ (mapGet anomalyMessages t.DealKey).getD [],
          r.ScoredLabel = ['N', 'O'] ∧ ∃ e, r.marshalled = Except.error e)) →
      ∃ e', ProcessTrades db execErr jsonMarshal trades anomalyMessages = (some e', db)) ∧
    (∀ (pre post : List NucleusTradeHeaderModel) (t : NucleusTradeHeaderModel) (e : Error),
      trades = pre ++ t :: post →
      (∀ u ∈ pre, (∃ d, jsonMarshal u = Except.ok d) ∧
        FindingsSerialize ((mapGet anomalyMessages u.DealKey).getD [])) →
      FindingsSerialize ((mapGet anomalyMessages t.DealKey).getD []) →
      jsonMarshal t = Except.error e →
      ProcessTrades db execErr jsonMarshal trades anomalyMessages = (some e, db)) ∧
    (∀ (pre post : List NucleusTradeHeaderModel) (t : NucleusTradeHeaderModel)
      (l1 l2 : List ModelBasePayload) (r : ModelBasePayload) (e : Error),
      trades = pre ++ t :: post →
      (∀ u ∈ pre, (∃ d, jsonMarshal u = Except.ok d) ∧
        FindingsSerialize ((mapGet anomalyMessages u.DealKey).getD [])) →
      (mapGet anomalyMessages t.DealKey).getD [] = l1 ++ r :: l2 →
      FindingsSerialize l1 → r.ScoredLabel = ['N', 'O'] → r.marshalled = Except.error e →
      ProcessTrades db execErr jsonMarshal trades anomalyMessages = (some e, db)) := by
  refine ⟨?_, ?_, ?_⟩
  · intro t ht hfail
    have hne : trades ≠ [] := List.ne_nil_of_mem ht
    have herr : ∃ e, processedTradeOf jsonMarshal anomalyMessages t = Except.error e := by
      rcases hfail with ⟨e, he⟩ | ⟨r, hr, hl, e, he⟩
      · exact (processedTradeOf_error_of_marshal jsonMarshal anomalyMessages t e he).1
      · exact (processedTradeOf_error_of_finding jsonMarshal anomalyMessages t r e hl he).1 hr
    obtain ⟨e', he'⟩ := mapM_error_of_mem _ trades t ht herr
    exact ⟨e', ProcessTrades_of_error db execErr jsonMarshal trades anomalyMessages e' hne he'⟩
  · intro pre post t e htr hpre hf hj
    have hne : trades ≠ [] := by rw [htr]; simp
    apply ProcessTrades_of_error db execErr jsonMarshal trades anomalyMessages e hne
    rw [htr]
    exact mapM_error_first _ t post e
      ((processedTradeOf_error_of_marshal jsonMarshal anomalyMessages t e hj).2 hf) pre
      (fun u hu => processedTradeOf_ok_of_serialize jsonMarshal anomalyMessages u
        (hpre u hu).2 (hpre u hu).1)
  · intro pre post t l1 l2 r e htr hpre hl h1 hr he
    have hne : trades ≠ [] := by rw [htr]; simp
    apply ProcessTrades_of_error db execErr jsonMarshal trades anomalyMessages e hne
    rw [htr]
    exact mapM_error_first _ t post e
      ((processedTradeOf_error_of_finding jsonMarshal anomalyMessages t r e hr he).2 l1 l2 hl h1)
      pre
      (fun u hu => processedTradeOf_ok_of_serialize jsonMarshal anomalyMessages u
        (hpre u hu).2 (hpre u hu).1)

/-- Witness of C14: the first header serializes, the second does not; the call returns
the error of the second and the store has received nothing. -/
theorem C14_serialization_error_witness :
    ProcessTrades emptyDb none sampleMarshal [sampleTrade, sampleTrade2] sampleFindings =
      (some { msg := "json: unsupported value" }, emptyDb) :=
  (C14_serialization_error_aborts_batch emptyDb none sampleMarshal [sampleTrade, sampleTrade2]
    sampleFindings).2.1 [sampleTrade] [] sampleTrade2 { msg := "json: unsupported value" } rfl
    (by decide) (by decide) rfl

/-! ## Watermarks: the absent cursor -/

theorem maxId_eq_none_iff : ∀ (l : List Int), maxId l = none ↔ l = []
  | [] => by simp [maxId]
  | x :: l => by
    simp only [maxId]
    cases maxId l <;> simp

theorem maxId_mem : ∀ (l : List Int) (m : Int), maxId l = some m → m ∈ l
  | [], m, h => by simp [maxId] at h
  | x :: l, m, h => by
    simp only [maxId] at h
    cases hm : maxId l with
    | none =>
      simp only [hm, Option.some.injEq] at h
      rw [← h]
      exact List.mem_cons_self _ _
    | some m' =>
      simp only [hm, Option.some.injEq] at h
      have ih := maxId_mem l m' hm
      rcases max_choice x m' with hc | hc
      · rw [← h, hc]
        exact List.mem_cons_self _ _
      · rw [← h, hc]
        exact List.mem_cons_of_mem _ ih

/-- C15: GetLastExtractionRun reports a missing watermark as absent, not as an error.
When the table has no run for the trade date and family the call returns (nil, nil); a
store error other than `sql.ErrNoRows` is returned unchanged with a nil result; and when
the table has a run for the date and family, the call returns a row of the table of that
date and family with its five fields as stored, the first row that the query selects. -/
theorem C15_missing_watermark_is_absent (db : MachineLearningDb) (tradeDate : Time)
    (dealType : Str) :
    ((∀ r ∈ db.extractionRuns, ¬ (r.TransactionDate = tradeDate ∧ r.DealType = dealType)) →
      GetLastExtractionRun db none tradeDate dealType = Except.ok none) ∧
    (∀ err, err ≠ ErrNoRows →
      GetLastExtractionRun db (some err) tradeDate dealType = Except.error err) ∧
    (∀ r rest, lastExtractionRunRows db tradeDate dealType = r :: rest →
      GetLastExtractionRun db none tradeDate dealType = Except.ok (some r)) ∧
    ((∃ r ∈ db.extractionRuns, r.TransactionDate = tradeDate ∧ r.DealType = dealType) →
      ∃ run ∈ db.extractionRuns,
        GetLastExtractionRun db none tradeDate dealType = Except.ok (some run) ∧
        run.TransactionDate = tradeDate ∧ run.DealType = dealType) := by
  refine ⟨?_, ?_, ?_, ?_⟩
  · intro h
    have hsel : db.extractionRuns.filter
        (fun r => decide (r.TransactionDate = tradeDate ∧ r.DealType = dealType)) = [] := by
      rw [List.filter_eq_nil_iff]
      intro r hr
      simpa using h r hr
    have hrows : lastExtractionRunRows db tradeDate dealType = [] := by
      simp only [lastExtractionRunRows, hsel, List.filter_nil]
    simp only [GetLastExtractionRun, hrows]
    rfl
  · intro err herr
    simp only [GetLastExtractionRun, if_neg herr]
  · intro r rest h
    simp only [GetLastExtractionRun, h]
  · rintro ⟨r, hr, hd⟩
    have hmem : r ∈ db.extractionRuns.filter
        (fun r => decide (r.TransactionDate = tradeDate ∧ r.DealType = dealType)) := by
      rw [List.mem_filter]
      exact ⟨hr, by simpa using hd⟩
    cases hmax : maxId ((db.extractionRuns.filter
        (fun r => decide (r.TransactionDate = tradeDate ∧ r.DealType = dealType))).map
          fun x => x.ExtractionRunId) with
    | none =>
      rw [maxId_eq_none_iff, List.map_eq_nil_iff] at hmax
      rw [hmax] at hmem
      exact absurd hmem (List.not_mem_nil _)
    | some m =>
      obtain ⟨x, hx, hxm⟩ := List.mem_map.1 (maxId_mem _ m hmax)
      have hxrows : x ∈ lastExtractionRunRows db tradeDate dealType := by
        simp only [lastExtractionRunRows]
        rw [List.mem_filter]
        refine ⟨hx, ?_⟩
        rw [hmax, hxm]
        simp
      cases hrows : lastExtractionRunRows db tradeDate dealType with
      | nil =>
        rw [hrows] at hxrows
        exact absurd hxrows (List.not_mem_nil _)
      | cons run rest =>
        have hrun : run ∈ lastExtractionRunRows db tradeDate dealType := by
          rw [hrows]
          exact List.mem_cons_self _ _
        simp only [lastExtractionRunRows] at hrun
        have h1 := List.mem_of_mem_filter hrun
        have h2 := (List.mem_filter.1 h1).2
        simp only [decide_eq_true_eq] at h2
        refine ⟨run, List.mem_of_mem_filter h1, ?_, h2.1, h2.2⟩
        simp only [GetLastExtractionRun, hrows]

/-- Witness of C15: the sample store has no run of the family `CAPACITY`, and the call
returns no run and no error; it has runs of the family `POWER`, and the call returns one
of them. -/
theorem C15_missing_watermark_witness :
    GetLastExtractionRun sampleRunsDb none Time.zero "CAPACITY".toList = Except.ok none ∧
    ∃ run ∈ sampleRunsDb.extractionRuns,
      GetLastExtractionRun sampleRunsDb none Time.zero "POWER".toList = Except.ok (some run) ∧
      run.TransactionDate = Time.zero ∧ run.DealType = "POWER".toList :=
  ⟨(C15_missing_watermark_is_absent sampleRunsDb Time.zero "CAPACITY".toList).1 (by decide),
    (C15_missing_watermark_is_absent sampleRunsDb Time.zero "POWER".toList).2.2.2
      (by decide)⟩

/-! ## Row order of the fetch output -/

theorem map_set_of_eq {α β : Type} (f : α → β) :
    ∀ (l : List α) (p : Nat) (a a' : α), l[p]? = some a → f a' = f a →
      (l.set p a').map f = l.map f
  | [], _, _, _, h, _ => by simp at h
  | x :: l, 0, a, a', h, hf => by
    simp only [List.getElem?_cons_zero, Option.some.injEq] at h
    subst h
    simp [hf]
  | x :: l, p + 1, a, a', h, hf => by
    simp only [List.getElem?_cons_succ] at h
    simp [map_set_of_eq f l p a a' h hf]

theorem appendTermAt_eraseTerms {heap heap' : List NucleusTradeHeaderModel} {p : Nat}
    {term : NucleusTradeTermModel} (h : appendTermAt heap p term = Except.ok heap') :
    heap'.map eraseTerms = heap.map eraseTerms := by
  unfold appendTermAt at h
  cases hg : heap[p]? with
  | none => simp [hg] at h
  | some hd =>
    simp only [hg, Except.ok.injEq] at h
    subst h
    exact map_set_of_eq eraseTerms heap p hd _ hg rfl

theorem setTermsAt_eraseTerms {heap heap' : List NucleusTradeHeaderModel} {p : Nat}
    {terms : List NucleusTradeTermModel} (h : setTermsAt heap p terms = Except.ok heap') :
    heap'.map eraseTerms = heap.map eraseTerms := by
  unfold setTermsAt at h
  cases hg : heap[p]? with
  | none => simp [hg] at h
  | some hd =>
    simp only [hg, Except.ok.injEq] at h
    subst h
    exact map_set_of_eq eraseTerms heap p hd _ hg rfl

theorem powerSwapSplice_eraseTerms (st : FetchState)
    (entries : GoMap (List NucleusTradeTermModel)) (heap heap' : List NucleusTradeHeaderModel)
    (h : powerSwapSplice st entries heap = Except.ok heap') :
    heap'.map eraseTerms = heap.map eraseTerms := by
  unfold powerSwapSplice at h
  refine foldlM_invariant _ (fun hp => hp.map eraseTerms = heap.map eraseTerms) entries ?_
    heap heap' rfl h
  intro hp entry hp' _ hinv hstep
  refine foldlM_invariant _ (fun hq => hq.map eraseTerms = heap.map eraseTerms) entry.2 ?_
    hp hp' hinv hstep
  intro hq term hq' _ hinv2 hterm
  unfold powerSwapSpliceTerm at hterm
  cases hi : mapGet st.initialTermModelsMap entry.1 with
  | none => simp [hi] at hterm
  | some initialTerm =>
    cases hh : mapGet st.headerModelsMap entry.1 with
    | none => simp [hi, hh] at hterm
    | some p =>
      simp only [hi, hh] at hterm
      rw [appendTermAt_eraseTerms hterm]
      exact hinv2

theorem capacitySplice_eraseTerms (st : FetchState)
    (entries : GoMap (List NucleusTradeTermModel)) (heap heap' : List NucleusTradeHeaderModel)
    (h : capacitySplice st entries heap = Except.ok heap') :
    heap'.map eraseTerms = heap.map eraseTerms := by
  unfold capacitySplice at h
  refine foldlM_invariant _ (fun hp => hp.map eraseTerms = heap.map eraseTerms) entries ?_
    heap heap' rfl h
  intro hp entry hp' _ hinv hstep
  refine foldlM_invariant _ (fun hq => hq.map eraseTerms = heap.map eraseTerms) entry.2 ?_
    hp hp' hinv hstep
  intro hq term hq' _ hinv2 hterm
  unfold capacitySpliceTerm at hterm
  cases hi : mapGet st.initialTermModelsMap entry.1 with
  | none => simp [hi] at hterm
  | some initialTerm =>
    cases hh : mapGet st.headerModelsMap entry.1 with
    | none => simp [hi, hh] at hterm
    | some p =>
      simp only [hi, hh] at hterm
      rw [appendTermAt_eraseTerms hterm]
      exact hinv2

theorem capacitySpliceIndex_eraseTerms (st : FetchState)
    (heap heap' : List NucleusTradeHeaderModel) (entry : Int × List NucleusTradeIndexModel)
    (h : capacitySpliceIndex st heap entry = Except.ok heap') :
    heap'.map eraseTerms = heap.map eraseTerms := by
  unfold capacitySpliceIndex at h
  cases hh : mapGet st.headerModelsMap entry.1 with
  | none => simp [hh] at h
  | some p =>
    cases hg : heap[p]? with
    | none => simp [hh, hg] at h
    | some hd0 =>
      cases hterms : hd0.Terms with
      | nil => simp [hh, hg, hterms] at h
      | cons t0 ts =>
        simp only [hh, hg, hterms, Except.ok.injEq] at h
        subst h
        exact map_set_of_eq eraseTerms heap p hd0 _ hg rfl

theorem powerAttachTerms_eraseTerms (termModelsMap : GoMap (List NucleusTradeTermModel))
    (entries : GoMap Nat) (heap heap' : List NucleusTradeHeaderModel)
    (h : powerAttachTerms termModelsMap entries heap = Except.ok heap') :
    heap'.map eraseTerms = heap.map eraseTerms := by
  unfold powerAttachTerms at h
  refine foldlM_invariant _ (fun hp => hp.map eraseTerms = heap.map eraseTerms) entries ?_
    heap heap' rfl h
  intro hp entry hp' _ hinv hstep
  rw [setTermsAt_eraseTerms hstep]
  exact hinv

/-- The header objects allocated by a row loop, read without their terms, are the headers
mapped from the rows, in row order. -/
theorem rowLoop_headers {α : Type} (step : FetchState → α → Except Fault FetchState)
    (hdr : α → Except Fault NucleusTradeHeaderModel)
    (hstep : ∀ st r st', step st r = Except.ok st' →
      ∃ h0, hdr r = Except.ok h0 ∧
        st'.headerModels.map eraseTerms = st.headerModels.map eraseTerms ++ [h0]) :
    ∀ (l : List α) (st0 st : FetchState), l.foldlM step st0 = Except.ok st →
      ∃ hs, st.headerModels.map eraseTerms = st0.headerModels.map eraseTerms ++ hs ∧
        List.Forall₂ (fun r h => hdr r = Except.ok h) l hs
  | [], st0, st, h => by
    simp only [List.foldlM_nil, pure, Except.pure, Except.ok.injEq] at h
    subst h
    exact ⟨[], by simp, List.Forall₂.nil⟩
  | r :: l, st0, st, h => by
    simp only [List.foldlM_cons, bind, Except.bind] at h
    cases hs : step st0 r with
    | error e => simp [hs] at h
    | ok st1 =>
      simp only [hs] at h
      obtain ⟨h0, hh0, hmap⟩ := hstep st0 r st1 hs
      obtain ⟨hs', hmap', hall⟩ := rowLoop_headers step hdr hstep l st1 st h
      refine ⟨h0 :: hs', ?_, List.Forall₂.cons hh0 hall⟩
      rw [hmap', hmap]
      simp

theorem forall₂_getElem? {α β : Type} (R : α → β → Prop) :
    ∀ (l : List α) (hs : List β), List.Forall₂ R l hs →
      hs.length = l.length ∧ ∀ (i : Nat) (r : α), l[i]? = some r → ∃ h, hs[i]? = some h ∧ R r h
  | [], _, h => by
    cases h
    exact ⟨rfl, fun i r hi => by simp at hi⟩
  | a :: l, _, h => by
    cases h with
    | cons hab hrest =>
      obtain ⟨hlen, hall⟩ := forall₂_getElem? R l _ hrest
      refine ⟨by simp [hlen], ?_⟩
      intro i r hi
      cases i with
      | zero =>
        simp only [List.getElem?_cons_zero, Option.some.injEq] at hi
        subst hi
        exact ⟨_, by simp, hab⟩
      | succ i =>
        simp only [List.getElem?_cons_succ] at hi ⊢
        exact hall i r hi

/-- From the headers read without terms to the returned headers. -/
theorem headers_follow_rows {α : Type} (hdr : α → Except Fault NucleusTradeHeaderModel)
    (l : List α) (headers : List NucleusTradeHeaderModel) (hs : List NucleusTradeHeaderModel)
    (hmap : headers.map eraseTerms = hs)
    (hall : List.Forall₂ (fun r h => hdr r = Except.ok h) l hs) :
    headers.length = l.length ∧
      ∀ (i : Nat) (r : α), l[i]? = some r →
        ∃ hd, headers[i]? = some hd ∧ hdr r = Except.ok (eraseTerms hd) := by
  obtain ⟨hlen, hidx⟩ := forall₂_getElem? _ l hs hall
  refine ⟨by rw [← hlen, ← hmap, List.length_map], ?_⟩
  intro i r hi
  obtain ⟨h, hh, hr⟩ := hidx i r hi
  rw [← hmap, List.getElem?_map] at hh
  cases hg : headers[i]? with
  | none => simp [hg] at hh
  | some hd =>
    simp only [hg, Option.map_some', Option.some.injEq] at hh
    exact ⟨hd, rfl, by rw [hh]; exact hr⟩

theorem powerSwapRowStep_headers (st : FetchState) (r : PowerSwapRow) (st' : FetchState)
    (h : powerSwapRowStep st r = Except.ok st') :
    ∃ h0, powerSwapHeaderOfRow r = Except.ok h0 ∧
      st'.headerModels.map eraseTerms = st.headerModels.map eraseTerms ++ [h0] := by
  unfold powerSwapRowStep at h
  cases hh : powerSwapHeaderOfRow r with
  | error e => simp [hh] at h
  | ok hdr =>
    obtain ⟨hterms, _⟩ := powerSwapHeaderOfRow_terms hh
    have he : eraseTerms hdr = hdr := by
      unfold eraseTerms
      rw [← hterms]
    refine ⟨hdr, rfl, ?_⟩
    simp only [hh] at h
    by_cases hflag : r.nonstdFlag = ['N']
    · simp only [hflag, if_true, Except.ok.injEq] at h
      subst h
      simp only [List.map_append, List.map_cons, List.map_nil]
      rw [← he]
      rfl
    · simp only [hflag, if_false, Except.ok.injEq] at h
      subst h
      simp only [List.map_append, List.map_cons, List.map_nil, he]

theorem capacityRowStep_headers (st : FetchState) (r : CapacityRow) (st' : FetchState)
    (h : capacityRowStep st r = Except.ok st') :
    ∃ h0, capacityHeaderOfRow r = Except.ok h0 ∧
      st'.headerModels.map eraseTerms = st.headerModels.map eraseTerms ++ [h0] := by
  unfold capacityRowStep at h
  cases hh : capacityHeaderOfRow r with
  | error e => simp [hh] at h
  | ok hdr =>
    obtain ⟨hterms, _⟩ := capacityHeaderOfRow_terms hh
    have he : eraseTerms hdr = hdr := by
      unfold eraseTerms
      rw [← hterms]
    refine ⟨hdr, rfl, ?_⟩
    simp only [hh] at h
    by_cases hflag : r.nonstdFlag = ['N']
    · simp only [hflag, if_true, Except.ok.injEq] at h
      subst h
      simp only [List.map_append, List.map_cons, List.map_nil]
      rw [← he]
      rfl
    · simp only [hflag, if_false, Except.ok.injEq] at h
      subst h
      simp only [List.map_append, List.map_cons, List.map_nil, he]

theorem powerHeaderOfRow_terms {r : PowerRow} {h : NucleusTradeHeaderModel}
    (hr : powerHeaderOfRow r = Except.ok h) : h.Terms = [] ∧ h.DealKey = r.DealKey := by
  unfold powerHeaderOfRow at hr
  cases he : executionTimeOf r.executionDate r.executionTime Time.zero with
  | error e => simp [he] at hr
  | ok t =>
    simp only [he, Except.ok.injEq] at hr
    subst hr
    exact ⟨rfl, rfl⟩

theorem powerRowStep_headers (st : FetchState) (r : PowerRow) (st' : FetchState)
    (h : powerRowStep st r = Except.ok st') :
    ∃ h0, powerHeaderOfRow r = Except.ok h0 ∧
      st'.headerModels.map eraseTerms = st.headerModels.map eraseTerms ++ [h0] := by
  unfold powerRowStep at h
  cases hh : powerHeaderOfRow r with
  | error e => simp [hh] at h
  | ok hdr =>
    obtain ⟨hterms, _⟩ := powerHeaderOfRow_terms hh
    have he : eraseTerms hdr = hdr := by
      unfold eraseTerms
      rw [← hterms]
    refine ⟨hdr, rfl, ?_⟩
    simp only [hh, Except.ok.injEq] at h
    subst h
    simp only [List.map_append, List.map_cons, List.map_nil, he]

/-- The headers returned by the power-swap fetcher, read without terms, are those of the
rows. -/
theorem GetNucPowerSwapDealList_headers (rows : Rows PowerSwapRow) (l : List PowerSwapRow)
    (termQuery : List Int → Except Error (Rows PowerSwapTermRow))
    (headers : List NucleusTradeHeaderModel) (hs : rows.scanned = l.map Except.ok)
    (hc : rows.closeErr = none)
    (h : GetNucPowerSwapDealList (Except.ok rows) termQuery = Except.ok headers) :
    List.Forall₂ (fun r h => powerSwapHeaderOfRow r = Except.ok h) l
      (headers.map eraseTerms) := by
  unfold GetNucPowerSwapDealList at h
  simp only [scanLoop_scanned_ok rows l _ _ hs, hc] at h
  cases hl : l.foldlM powerSwapRowStep FetchState.init with
  | error e => simp [hl] at h
  | ok st =>
    obtain ⟨hs0, hmap, hall⟩ := rowLoop_headers powerSwapRowStep powerSwapHeaderOfRow
      powerSwapRowStep_headers l FetchState.init st hl
    simp only [FetchState.init, List.map_nil, List.nil_append] at hmap
    simp only [hl] at h
    cases he : rows.err with
    | some ee => simp [he] at h
    | none =>
      simp only [he] at h
      by_cases hk : 0 < st.dealKeys.length
      · simp only [hk, if_true] at h
        cases hq : getNucPowerSwapDealTermModel termQuery st.dealKeys with
        | error e => simp [hq] at h
        | ok tm =>
          simp only [hq] at h
          rw [powerSwapSplice_eraseTerms st tm _ _ h, hmap]
          exact hall
      · simp only [hk, if_false, Except.ok.injEq] at h
        subst h
        rw [hmap]
        exact hall

/-- The headers returned by the capacity fetcher, read without terms, are those of the
rows. -/
theorem GetNucCapacityDealList_headers (rows : Rows CapacityRow) (l : List CapacityRow)
    (termQuery : List Int → Except Error (Rows CapacityTermRow))
    (indexQuery : List Int → Except Error (Rows CapacityIndexRow))
    (headers : List NucleusTradeHeaderModel) (hs : rows.scanned = l.map Except.ok)
    (hc : rows.closeErr = none)
    (h : GetNucCapacityDealList (Except.ok rows) termQuery indexQuery = Except.ok headers) :
    List.Forall₂ (fun r h => capacityHeaderOfRow r = Except.ok h) l
      (headers.map eraseTerms) := by
  unfold GetNucCapacityDealList at h
  simp only [scanLoop_scanned_ok rows l _ _ hs, hc] at h
  cases hl : l.foldlM capacityRowStep FetchState.init with
  | error e => simp [hl] at h
  | ok st =>
    obtain ⟨hs0, hmap, hall⟩ := rowLoop_headers capacityRowStep capacityHeaderOfRow
      capacityRowStep_headers l FetchState.init st hl
    simp only [FetchState.init, List.map_nil, List.nil_append] at hmap
    simp only [hl] at h
    cases he : rows.err with
    | some ee => simp [he] at h
    | none =>
      simp only [he] at h
      have hterms : ∀ heap, (if 0 < st.dealKeys.length then
            match getNucCapacityDealTermModel termQuery st.dealKeys with
            | Except.error e => Except.error e
            | Except.ok termModelsMap => capacitySplice st termModelsMap st.headerModels
          else Except.ok st.headerModels) = Except.ok heap →
          heap.map eraseTerms = st.headerModels.map eraseTerms := by
        intro heap hheap
        by_cases hk : 0 < st.dealKeys.length
        · simp only [hk, if_true] at hheap
          cases hq : getNucCapacityDealTermModel termQuery st.dealKeys with
          | error e => simp [hq] at hheap
          | ok tm =>
            simp only [hq] at hheap
            exact capacitySplice_eraseTerms st tm _ _ hheap
        · simp only [hk, if_false, Except.ok.injEq] at hheap
          rw [hheap]
      cases hw : (if 0 < st.dealKeys.length then
            match getNucCapacityDealTermModel termQuery st.dealKeys with
            | Except.error e => Except.error e
            | Except.ok termModelsMap => capacitySplice st termModelsMap st.headerModels
          else Except.ok st.headerModels) with
      | error e => simp [hw] at h
      | ok heap =>
        have hheap := hterms heap hw
        simp only [hw] at h
        by_cases hf : 0 < st.formulaDealKeys.length
        · simp only [hf, if_true] at h
          cases hq : getNucCapacityDealIndexModel indexQuery st.formulaDealKeys with
          | error e => simp [hq] at h
          | ok im =>
            simp only [hq] at h
            have := foldlM_invariant _
              (fun hp => hp.map eraseTerms = st.headerModels.map eraseTerms) im
              (fun s a s' _ hP hstep =>
                (capacitySpliceIndex_eraseTerms st s s' a hstep).trans hP)
              heap headers hheap h
            rw [this, hmap]
            exact hall
        · simp only [hf, if_false, Except.ok.injEq] at h
          subst h
          rw [hheap, hmap]
          exact hall

/-- The headers returned by the power-deal fetcher, read without terms, are those of the
rows. -/
theorem GetNucPowerDealList_headers (rows : Rows PowerRow) (l : List PowerRow)
    (termQuery : List Int → Except Error (Rows PowerTermRow))
    (indexQuery : GoMap Int → Except Error (Rows PowerIndexRow))
    (headers : List NucleusTradeHeaderModel) (hs : rows.scanned = l.map Except.ok)
    (hc : rows.closeErr = none)
    (h : GetNucPowerDealList (Except.ok rows) termQuery indexQuery = Except.ok headers) :
    List.Forall₂ (fun r h => powerHeaderOfRow r = Except.ok h) l (headers.map eraseTerms) := by
  unfold GetNucPowerDealList at h
  simp only [scanLoop_scanned_ok rows l _ _ hs, hc] at h
  cases hl : l.foldlM powerRowStep FetchState.init with
  | error e => simp [hl] at h
  | ok st =>
    obtain ⟨hs0, hmap, hall⟩ := rowLoop_headers powerRowStep powerHeaderOfRow
      powerRowStep_headers l FetchState.init st hl
    simp only [FetchState.init, List.map_nil, List.nil_append] at hmap
    simp only [hl] at h
    cases he : rows.err with
    | some ee => simp [he] at h
    | none =>
      simp only [he] at h
      by_cases hk : 0 < st.dealKeys.length
      · simp only [hk, if_true] at h
        cases hq : getNucPowerDealTradeTermModel termQuery indexQuery st.dealKeys with
        | error e => simp [hq] at h
        | ok tm =>
          simp only [hq] at h
          rw [powerAttachTerms_eraseTerms tm _ _ _ h, hmap]
          exact hall
      · simp only [hk, if_false, Except.ok.injEq] at h
        subst h
        rw [hmap]
        exact hall

/-! ## Failures of a fetch -/

theorem foldlM_fails_of_mem {σ α : Type} (f : σ → α → Except Fault σ) (a : α)
    (hfail : ∀ s, ∃ e, f s a = Except.error e) :
    ∀ (l : List α), a ∈ l → ∀ s, ∃ e, l.foldlM f s = Except.error e
  | [], hm, _ => absurd hm (List.not_mem_nil _)
  | x :: l, hm, s => by
    simp only [List.foldlM_cons, bind, Except.bind]
    cases hx : f s x with
    | error e => exact ⟨e, rfl⟩
    | ok s1 =>
      rcases List.mem_cons.1 hm with rfl | hm
      · obtain ⟨e, he⟩ := hfail s
        rw [hx] at he
        exact Except.noConfusion he
      · exact foldlM_fails_of_mem f a hfail l hm s1

theorem foldlM_error_kind {σ α : Type} (f : σ → α → Except Fault σ) (Q : Fault → Prop)
    (hstep : ∀ s a e, f s a = Except.error e → Q e) :
    ∀ (l : List α) (s : σ) (e : Fault), l.foldlM f s = Except.error e → Q e
  | [], s, e, h => by
    simp only [List.foldlM_nil, pure, Except.pure] at h
    exact Except.noConfusion h
  | x :: l, s, e, h => by
    simp only [List.foldlM_cons, bind, Except.bind] at h
    cases hx : f s x with
    | error e' =>
      simp only [hx, Except.error.injEq] at h
      rw [← h]
      exact hstep s x e' hx
    | ok s1 =>
      simp only [hx] at h
      exact foldlM_error_kind f Q hstep l s1 e h

/-- A row loop fails when the body fails on one of the rows that it scans. -/
theorem scanLoop_fails_of_mem {α σ : Type} (rows : Rows α) (init : σ)
    (body : σ → α → Except Fault σ) (a : α) (hm : Except.ok a ∈ rows.scanned)
    (hfail : ∀ s, ∃ e, body s a = Except.error e) :
    ∃ e, scanLoop rows init body = Except.error e := by
  unfold scanLoop
  exact foldlM_fails_of_mem _ (Except.ok a) (fun s => hfail s) rows.scanned hm init

/-- A row loop whose body only fails with returned errors only fails with returned
errors. -/
theorem scanLoop_error_kind {α σ : Type} (rows : Rows α) (init : σ)
    (body : σ → α → Except Fault σ)
    (hbody : ∀ s a e, body s a = Except.error e → ∃ err, e = Fault.error err)
    (e : Fault) (h : scanLoop rows init body = Except.error e) : ∃ err, e = Fault.error err := by
  unfold scanLoop at h
  refine foldlM_error_kind _ (fun e => ∃ err, e = Fault.error err) ?_ rows.scanned init e h
  intro s r e' hr
  cases r with
  | error err =>
    simp only [Except.error.injEq] at hr
    exact ⟨err, hr.symm⟩
  | ok a => exact hbody s a e' hr

/-- A row loop that reads rows without failure and then a row on which the body fails
returns the error of that row. -/
theorem scanLoop_fails_first {α σ : Type} (rows : Rows α) (body : σ → α → Except Fault σ)
    (r : α) (post : List (Except Error α)) (e : Fault) :
    ∀ (l : List α) (init st : σ), rows.scanned = l.map Except.ok ++ Except.ok r :: post →
      l.foldlM body init = Except.ok st → body st r = Except.error e →
      scanLoop rows init body = Except.error e := by
  intro l init st hs hl hr
  unfold scanLoop
  rw [hs]
  clear hs
  induction l generalizing init with
  | nil =>
    simp only [List.foldlM_nil, pure, Except.pure, Except.ok.injEq] at hl
    subst hl
    simp only [List.map_nil, List.nil_append, List.foldlM_cons, bind, Except.bind, hr]
  | cons a l ih =>
    simp only [List.foldlM_cons, bind, Except.bind] at hl
    cases ha : body init a with
    | error e' => simp [ha] at hl
    | ok s1 =>
      simp only [ha] at hl
      simp only [List.map_cons, List.cons_append, List.foldlM_cons, bind, Except.bind, ha]
      exact ih s1 hl

theorem executionTimeOf_error {d t : Str} {e : Error} (hd : d ≠ []) (ht : t ≠ [])
    (h : parseExecutionDateTime d t = Except.error e) (current : Time) :
    executionTimeOf (some d) (some t) current = Except.error (Fault.error e) := by
  simp only [executionTimeOf, hd, ht, ne_eq, not_false_eq_true, and_self, if_true, h]

theorem executionTimeOf_error_kind {ed et : Option Str} {current : Time} {e : Fault}
    (h : executionTimeOf ed et current = Except.error e) : ∃ err, e = Fault.error err := by
  unfold executionTimeOf at h
  cases ed with
  | none => simp at h
  | some d =>
    cases et with
    | none => simp at h
    | some t =>
      simp only at h
      split at h
      · cases hp : parseExecutionDateTime d t with
        | ok x => simp [hp] at h
        | error err =>
          simp only [hp, Except.error.injEq] at h
          exact ⟨err, h.symm⟩
      · exact Except.noConfusion h

theorem powerRowStep_error_kind (s : FetchState) (r : PowerRow) (e : Fault)
    (h : powerRowStep s r = Except.error e) : ∃ err, e = Fault.error err := by
  unfold powerRowStep powerHeaderOfRow at h
  cases he : executionTimeOf r.executionDate r.executionTime Time.zero with
  | error e' =>
    simp only [he, Except.error.injEq] at h
    rw [← h]
    exact executionTimeOf_error_kind he
  | ok t => simp [he] at h

theorem powerRowStep_of_bad_time (s : FetchState) (r : PowerRow) (d t : Str) (e : Error)
    (h1 : r.executionDate = some d) (h2 : r.executionTime = some t) (hd : d ≠ [])
    (ht : t ≠ []) (hp : parseExecutionDateTime d t = Except.error e) :
    powerRowStep s r = Except.error (Fault.error e) := by
  unfold powerRowStep powerHeaderOfRow
  rw [h1, h2, executionTimeOf_error hd ht hp]

theorem powerRowLoop_dealKeys :
    ∀ (l : List PowerRow) (st0 st : FetchState), l.foldlM powerRowStep st0 = Except.ok st →
      st.dealKeys = st0.dealKeys ++ l.map (fun r => r.DealKey)
  | [], st0, st, h => by
    simp only [List.foldlM_nil, pure, Except.pure, Except.ok.injEq] at h
    subst h
    simp
  | r :: l, st0, st, h => by
    simp only [List.foldlM_cons, bind, Except.bind] at h
    cases hs : powerRowStep st0 r with
    | error e => simp [hs] at h
    | ok st1 =>
      simp only [hs] at h
      rw [powerRowLoop_dealKeys l st1 st h]
      unfold powerRowStep at hs
      cases hh : powerHeaderOfRow r with
      | error e => simp [hh] at hs
      | ok hdr =>
        simp only [hh, Except.ok.injEq] at hs
        subst hs
        simp [(powerHeaderOfRow_terms hh).2]

theorem powerRowLoop_ok :
    ∀ (l : List PowerRow), (∀ r ∈ l, ∃ h, powerHeaderOfRow r = Except.ok h) →
      ∀ st0, ∃ st, l.foldlM powerRowStep st0 = Except.ok st
  | [], _, st0 => ⟨st0, rfl⟩
  | r :: l, h, st0 => by
    obtain ⟨hdr, hh⟩ := h r (List.mem_cons_self _ _)
    simp only [List.foldlM_cons, bind, Except.bind, powerRowStep, hh]
    exact powerRowLoop_ok l (fun x hx => h x (List.mem_cons_of_mem _ hx)) _

theorem formulaMap_ne_nil :
    ∀ (tl : List PowerTermRow) (st : GoMap (List NucleusTradeTermModel) × GoMap Int),
      (st.2 ≠ [] ∨ ∃ r ∈ tl, ∃ f, r.formula = some f ∧ f ≠ []) →
      (tl.foldl powerTermStep st).2 ≠ []
  | [], st, h => by
    rcases h with h | ⟨r, hr, _⟩
    · exact h
    · exact absurd hr (List.not_mem_nil _)
  | x :: tl, st, h => by
    rw [List.foldl_cons]
    apply formulaMap_ne_nil tl
    have hset : ∀ (m : GoMap Int) (k v : Int), mapSet m k v ≠ [] := by
      intro m k v
      cases m with
      | nil => simp [mapSet]
      | cons a m =>
        obtain ⟨k', v'⟩ := a
        simp only [mapSet]
        split <;> simp
    rcases h with h | ⟨r, hr, f, hf, hne⟩
    · left
      simp only [powerTermStep]
      cases hx : x.formula with
      | none => exact h
      | some f =>
        simp only
        split
        · exact hset _ _ _
        · exact h
    · rcases List.mem_cons.1 hr with rfl | hr
      · left
        simp only [powerTermStep, hf, hne, ne_eq, not_false_eq_true, if_true]
        exact hset _ _ _
      · exact Or.inr ⟨r, hr, f, hf, hne⟩

theorem powerSwapRowStep_error_kind (s : FetchState) (r : PowerSwapRow) (e : Fault)
    (h : powerSwapRowStep s r = Except.error e) : ∃ err, e = Fault.error err := by
  unfold powerSwapRowStep powerSwapHeaderOfRow at h
  cases he : executionTimeOf r.executionDate r.executionTime Time.zero with
  | error e' =>
    simp only [he, Except.error.injEq] at h
    rw [← h]
    exact executionTimeOf_error_kind he
  | ok t =>
    simp only [he] at h
    split at h <;> exact Except.noConfusion h

theorem powerSwapRowStep_of_bad_time (s : FetchState) (r : PowerSwapRow) (d t : Str)
    (e : Error) (h1 : r.executionDate = some d) (h2 : r.executionTime = some t) (hd : d ≠ [])
    (ht : t ≠ []) (hp : parseExecutionDateTime d t = Except.error e) :
    powerSwapRowStep s r = Except.error (Fault.error e) := by
  unfold powerSwapRowStep powerSwapHeaderOfRow
  rw [h1, h2, executionTimeOf_error hd ht hp]

theorem capacityRowStep_error_kind (s : FetchState) (r : CapacityRow) (e : Fault)
    (h : capacityRowStep s r = Except.error e) : ∃ err, e = Fault.error err := by
  unfold capacityRowStep capacityHeaderOfRow at h
  cases he : executionTimeOf r.executionDate r.executionTime Time.zero with
  | error e' =>
    simp only [he, Except.error.injEq] at h
    rw [← h]
    exact executionTimeOf_error_kind he
  | ok t =>
    simp only [he] at h
    split at h <;> exact Except.noConfusion h

theorem capacityRowStep_of_bad_time (s : FetchState) (r : CapacityRow) (d t : Str)
    (e : Error) (h1 : r.executionDate = some d) (h2 : r.executionTime = some t) (hd : d ≠ [])
    (ht : t ≠ []) (hp : parseExecutionDateTime d t = Except.error e) :
    capacityRowStep s r = Except.error (Fault.error e) := by
  unfold capacityRowStep capacityHeaderOfRow
  rw [h1, h2, executionTimeOf_error hd ht hp]

/-- The primary part of `GetNucPowerDealList` on rows that all scan and map, read from a
cursor that closes without error: the keys passed to the term fetcher are the deal keys
of the rows, in row order. -/
theorem GetNucPowerDealList_of_primary_ok (rows : Rows PowerRow) (l : List PowerRow)
    (termQuery : List Int → Except Error (Rows PowerTermRow))
    (indexQuery : GoMap Int → Except Error (Rows PowerIndexRow))
    (hs : rows.scanned = l.map Except.ok) (hne : l ≠ [])
    (hall : ∀ x ∈ l, ∃ h, powerHeaderOfRow x = Except.ok h)
    (hc : rows.closeErr = none) (he : rows.err = none) :
    ∃ st : FetchState, GetNucPowerDealList (Except.ok rows) termQuery indexQuery =
      match getNucPowerDealTradeTermModel termQuery indexQuery
          (l.map (fun r => r.DealKey)) with
      | Except.error e => Except.error e
      | Except.ok termModelsMap =>
        powerAttachTerms termModelsMap st.headerModelsMap st.headerModels := by
  obtain ⟨st, hst⟩ := powerRowLoop_ok l hall FetchState.init
  have hk : st.dealKeys = l.map (fun r => r.DealKey) := by
    rw [powerRowLoop_dealKeys l FetchState.init st hst]
    rfl
  refine ⟨st, ?_⟩
  unfold GetNucPowerDealList
  simp only [scanLoop_scanned_ok rows l _ _ hs, hst, hc, he]
  have hpos : 0 < st.dealKeys.length := by
    rw [hk, List.length_map]
    exact List.length_pos.2 hne
  rw [if_pos hpos, hk]

/-- C17: a fetch returns an error, and so no header, as soon as a row or a correlation
query fails. For the power-deal fetcher: when some scanned primary row has a non-empty
execution date and time that parse under neither layout, the fetch returns an error,
whatever the other rows are; when the rows before it were mapped, the error is the parse
error of that row; when the term query fails, or the index query fails after the term
rows were read, the fetch returns the error of that query. The power-swap and capacity
fetchers return an error on such a timestamp as well. -/
theorem C17_fetch_aborts_without_partial_result :
    (∀ (rows : Rows PowerRow) (termQuery : List Int → Except Error (Rows PowerTermRow))
        (indexQuery : GoMap Int → Except Error (Rows PowerIndexRow))
        (r : PowerRow) (d t : Str) (e : Error),
        Except.ok r ∈ rows.scanned → r.executionDate = some d → r.executionTime = some t →
        d ≠ [] → t ≠ [] → parseExecutionDateTime d t = Except.error e →
        ReturnsError (GetNucPowerDealList (Except.ok rows) termQuery indexQuery)) ∧
    (∀ (rows : Rows PowerRow) (termQuery : List Int → Except Error (Rows PowerTermRow))
        (indexQuery : GoMap Int → Except Error (Rows PowerIndexRow))
        (l : List PowerRow) (r : PowerRow) (post : List (Except Error PowerRow))
        (d t : Str) (e : Error),
        rows.scanned = l.map Except.ok ++ Except.ok r :: post →
        (∀ x ∈ l, ∃ h, powerHeaderOfRow x = Except.ok h) →
        r.executionDate = some d → r.executionTime = some t →
        d ≠ [] → t ≠ [] → parseExecutionDateTime d t = Except.error e →
        GetNucPowerDealList (Except.ok rows) termQuery indexQuery =
          Except.error (Fault.error e)) ∧
    (∀ (rows : Rows PowerRow) (termQuery : List Int → Except Error (Rows PowerTermRow))
        (indexQuery : GoMap Int → Except Error (Rows PowerIndexRow))
        (l : List PowerRow) (e : Error),
        rows.scanned = l.map Except.ok → l ≠ [] →
        (∀ x ∈ l, ∃ h, powerHeaderOfRow x = Except.ok h) →
        rows.closeErr = none → rows.err = none →
        termQuery (l.map (fun r => r.DealKey)) = Except.error e →
        GetNucPowerDealList (Except.ok rows) termQuery indexQuery =
          Except.error (Fault.error e)) ∧
    (∀ (rows : Rows PowerRow) (termQuery : List Int → Except Error (Rows PowerTermRow))
        (indexQuery : GoMap Int → Except Error (Rows PowerIndexRow))
        (l : List PowerRow) (termRows : Rows PowerTermRow) (tl : List PowerTermRow)
        (e : Error),
        rows.scanned = l.map Except.ok → l ≠ [] →
        (∀ x ∈ l, ∃ h, powerHeaderOfRow x = Except.ok h) →
        rows.closeErr = none → rows.err = none →
        termQuery (l.map (fun r => r.DealKey)) = Except.ok termRows →
        termRows.scanned = tl.map Except.ok → termRows.closeErr = none →
        termRows.err = none →
        (∃ tr ∈ tl, ∃ f, tr.formula = some f ∧ f ≠ []) →
        indexQuery (tl.foldl powerTermStep ([], [])).2 = Except.error e →
        GetNucPowerDealList (Except.ok rows) termQuery indexQuery =
          Except.error (Fault.error e)) ∧
    (∀ (rows : Rows PowerSwapRow) (termQuery : List Int → Except Error (Rows PowerSwapTermRow))
        (r : PowerSwapRow) (d t : Str) (e : Error),
        Except.ok r ∈ rows.scanned → r.executionDate = some d → r.executionTime = some t →
        d ≠ [] → t ≠ [] → parseExecutionDateTime d t = Except.error e →
        ReturnsError (GetNucPowerSwapDealList (Except.ok rows) termQuery)) ∧
    (∀ (rows : Rows CapacityRow) (termQuery : List Int → Except Error (Rows CapacityTermRow))
        (indexQuery : List Int → Except Error (Rows CapacityIndexRow))
        (r : CapacityRow) (d t : Str) (e : Error),
        Except.ok r ∈ rows.scanned → r.executionDate = some d → r.executionTime = some t →
        d ≠ [] → t ≠ [] → parseExecutionDateTime d t = Except.error e →
        ReturnsError (GetNucCapacityDealList (Except.ok rows) termQuery indexQuery)) := by
  refine ⟨?_, ?_, ?_, ?_, ?_, ?_⟩
  · intro rows termQuery indexQuery r d t e hm h1 h2 hd ht hp
    obtain ⟨f, hf⟩ := scanLoop_fails_of_mem rows FetchState.init powerRowStep r hm
      (fun s => ⟨_, powerRowStep_of_bad_time s r d t e h1 h2 hd ht hp⟩)
    obtain ⟨err, herr⟩ := scanLoop_error_kind rows FetchState.init powerRowStep
      powerRowStep_error_kind f hf
    refine ⟨err, ?_⟩
    unfold GetNucPowerDealList
    simp only [hf, herr]
  · intro rows termQuery indexQuery l r post d t e hs hall h1 h2 hd ht hp
    obtain ⟨st, hst⟩ := powerRowLoop_ok l hall FetchState.init
    have hf := scanLoop_fails_first rows powerRowStep r post (Fault.error e) l
      FetchState.init st hs hst (powerRowStep_of_bad_time st r d t e h1 h2 hd ht hp)
    unfold GetNucPowerDealList
    simp only [hf]
  · intro rows termQuery indexQuery l e hs hne hall hc he hq
    obtain ⟨st, hst⟩ := GetNucPowerDealList_of_primary_ok rows l termQuery indexQuery hs hne
      hall hc he
    rw [hst]
    have hlen : ¬ (l.map (fun r => r.DealKey)).length = 0 := by
      rw [List.length_map]
      exact Nat.pos_iff_ne_zero.1 (List.length_pos.2 hne)
    unfold getNucPowerDealTradeTermModel
    simp only [if_neg hlen, hq]
  · intro rows termQuery indexQuery l termRows tl e hs hne hall hc he hq hts htc hte hform hiq
    obtain ⟨st, hst⟩ := GetNucPowerDealList_of_primary_ok rows l termQuery indexQuery hs hne
      hall hc he
    rw [hst]
    have hlen : ¬ (l.map (fun r => r.DealKey)).length = 0 := by
      rw [List.length_map]
      exact Nat.pos_iff_ne_zero.1 (List.length_pos.2 hne)
    have hfm : ¬ (tl.foldl powerTermStep ([], [])).2.length = 0 := by
      intro h0
      exact formulaMap_ne_nil tl ([], []) (Or.inr hform) (List.length_eq_zero.1 h0)
    unfold getNucPowerDealTradeTermModel
    simp only [if_neg hlen, hq, scanLoop_ok termRows tl _ _ hts, htc, hte]
    unfold getNucPowerTradeIndexModel
    simp only [if_neg hfm, hiq]
  · intro rows termQuery r d t e hm h1 h2 hd ht hp
    obtain ⟨f, hf⟩ := scanLoop_fails_of_mem rows FetchState.init powerSwapRowStep r hm
      (fun s => ⟨_, powerSwapRowStep_of_bad_time s r d t e h1 h2 hd ht hp⟩)
    obtain ⟨err, herr⟩ := scanLoop_error_kind rows FetchState.init powerSwapRowStep
      powerSwapRowStep_error_kind f hf
    refine ⟨err, ?_⟩
    unfold GetNucPowerSwapDealList
    simp only [hf, herr]
  · intro rows termQuery indexQuery r d t e hm h1 h2 hd ht hp
    obtain ⟨f, hf⟩ := scanLoop_fails_of_mem rows FetchState.init capacityRowStep r hm
      (fun s => ⟨_, capacityRowStep_of_bad_time s r d t e h1 h2 hd ht hp⟩)
    obtain ⟨err, herr⟩ := scanLoop_error_kind rows FetchState.init capacityRowStep
      capacityRowStep_error_kind f hf
    refine ⟨err, ?_⟩
    unfold GetNucCapacityDealList
    simp only [hf, herr]

/-- Witness of C17: the sample power-deal row maps, the row after it has a timestamp that
fits neither layout, and the fetch returns the parse error of the second row. -/
theorem C17_fetch_aborts_witness :
    GetNucPowerDealList (Except.ok samplePowerRowsBadTime)
        (fun _ => Except.ok samplePowerTermRows) (fun _ => Except.error sampleQueryError) =
      Except.error (Fault.error { msg := "parsing time: field out of range" }) :=
  C17_fetch_aborts_without_partial_result.2.1 samplePowerRowsBadTime
    (fun _ => Except.ok samplePowerTermRows) (fun _ => Except.error sampleQueryError)
    [samplePowerRow] samplePowerRowBadTime [] "2022/05/05".toList "8h18".toList
    { msg := "parsing time: field out of range" } rfl
    (by decide) rfl rfl (by decide) (by decide) (by decide)

/-! ## Failures of the splice loops -/

theorem powerAttachTerms_error_kind (termModelsMap : GoMap (List NucleusTradeTermModel))
    (entries : GoMap Nat) (heap : List NucleusTradeHeaderModel) (e : Fault)
    (h : powerAttachTerms termModelsMap entries heap = Except.error e) : e = Fault.panic := by
  unfold powerAttachTerms at h
  refine foldlM_error_kind _ (fun e => e = Fault.panic) ?_ entries heap e h
  intro hp entry e' he
  unfold setTermsAt at he
  cases hg : hp[entry.2]? with
  | none =>
    simp only [hg, Except.error.injEq] at he
    exact he.symm
  | some hd => simp [hg] at he

/-! ## The exotic flag -/

theorem exoticFlag_of_eraseTerms (v : Str) (heap heap' : List NucleusTradeHeaderModel)
    (hmap : heap'.map eraseTerms = heap.map eraseTerms)
    (h : ∀ x ∈ heap, x.ExoticFlag = v) : ∀ x ∈ heap', x.ExoticFlag = v := by
  intro x hx
  have hmem : eraseTerms x ∈ heap.map eraseTerms := by
    rw [← hmap]
    exact List.mem_map_of_mem eraseTerms hx
  obtain ⟨y, hy, hxy⟩ := List.mem_map.1 hmem
  have h1 : (eraseTerms y).ExoticFlag = (eraseTerms x).ExoticFlag := by rw [hxy]
  have h2 := h y hy
  simpa [eraseTerms, h2] using h1.symm

theorem capacityHeaderOfRow_exoticFlag {r : CapacityRow} {h : NucleusTradeHeaderModel}
    (hr : capacityHeaderOfRow r = Except.ok h) : h.ExoticFlag = ['N', 'A'] := by
  unfold capacityHeaderOfRow at hr
  cases he : executionTimeOf r.executionDate r.executionTime Time.zero with
  | error e => simp [he] at hr
  | ok t =>
    simp only [he, Except.ok.injEq] at hr
    subst hr
    rfl

theorem capacityRowStep_exoticFlag (st : FetchState) (r : CapacityRow) (st' : FetchState)
    (hP : ∀ x ∈ st.headerModels, x.ExoticFlag = ['N', 'A'])
    (h : capacityRowStep st r = Except.ok st') :
    ∀ x ∈ st'.headerModels, x.ExoticFlag = ['N', 'A'] := by
  obtain ⟨h0, hh, hmap⟩ := capacityRowStep_headers st r st' h
  have hflag := capacityHeaderOfRow_exoticFlag hh
  intro x hx
  have hmem : eraseTerms x ∈ st.headerModels.map eraseTerms ++ [h0] := by
    rw [← hmap]
    exact List.mem_map_of_mem eraseTerms hx
  rcases List.mem_append.1 hmem with hm | hm
  · obtain ⟨y, hy, hxy⟩ := List.mem_map.1 hm
    have h1 : (eraseTerms y).ExoticFlag = (eraseTerms x).ExoticFlag := by rw [hxy]
    have h2 := hP y hy
    simpa [eraseTerms, h2] using h1.symm
  · have hx0 : eraseTerms x = h0 := by simpa using hm
    have h1 : (eraseTerms x).ExoticFlag = h0.ExoticFlag := by rw [hx0]
    rw [hflag] at h1
    simpa [eraseTerms] using h1

/-- Every header returned by the capacity fetcher has the exotic flag `"NA"`. -/
theorem GetNucCapacityDealList_exoticFlag (primary : Except Error (Rows CapacityRow))
    (termQuery : List Int → Except Error (Rows CapacityTermRow))
    (indexQuery : List Int → Except Error (Rows CapacityIndexRow))
    (headers : List NucleusTradeHeaderModel)
    (h : GetNucCapacityDealList primary termQuery indexQuery = Except.ok headers) :
    ∀ x ∈ headers, x.ExoticFlag = ['N', 'A'] := by
  unfold GetNucCapacityDealList at h
  cases primary with
  | error e => simp at h
  | ok rows =>
    simp only at h
    cases hl : scanLoop rows FetchState.init capacityRowStep with
    | error e => simp [hl] at h
    | ok st =>
      have hP := scanLoop_invariant rows capacityRowStep
        (fun s => ∀ x ∈ s.headerModels, x.ExoticFlag = ['N', 'A'])
        (fun s a s' hs hstep => capacityRowStep_exoticFlag s a s' hs hstep)
        FetchState.init st (by simp [FetchState.init]) hl
      simp only [hl] at h
      cases hc : rows.closeErr with
      | some ce =>
        simp only [hc, Except.ok.injEq] at h
        subst h
        simp
      | none =>
        simp only [hc] at h
        cases he : rows.err with
        | some ee => simp [he] at h
        | none =>
          simp only [he] at h
          split at h
          · exact Except.noConfusion h
          · rename_i heap hw
            have hheap : heap.map eraseTerms = st.headerModels.map eraseTerms := by
              by_cases hk : 0 < st.dealKeys.length
              · simp only [hk, if_true] at hw
                cases hq : getNucCapacityDealTermModel termQuery st.dealKeys with
                | error e => simp [hq] at hw
                | ok tm =>
                  simp only [hq] at hw
                  exact capacitySplice_eraseTerms st tm _ _ hw
              · simp only [hk, if_false, Except.ok.injEq] at hw
                rw [← hw]
            by_cases hf : 0 < st.formulaDealKeys.length
            · simp only [hf, if_true] at h
              cases hq : getNucCapacityDealIndexModel indexQuery st.formulaDealKeys with
              | error e => simp [hq] at h
              | ok im =>
                simp only [hq] at h
                have := foldlM_invariant _
                  (fun hp => hp.map eraseTerms = st.headerModels.map eraseTerms) im
                  (fun s a s' _ hP hstep =>
                    (capacitySpliceIndex_eraseTerms st s s' a hstep).trans hP)
                  heap headers hheap h
                exact exoticFlag_of_eraseTerms _ _ _ this hP
            · simp only [hf, if_false, Except.ok.injEq] at h
              subst h
              exact exoticFlag_of_eraseTerms _ _ _ hheap hP

/-- Every header returned by the point-to-point fetcher has an empty exotic flag. -/
theorem GetNucPTPDealList_exoticFlag (primary : Except Error (Rows PTPRow))
    (headers : List NucleusTradeHeaderModel)
    (h : GetNucPTPDealList primary = Except.ok headers) :
    ∀ x ∈ headers, x.ExoticFlag = [] := by
  unfold GetNucPTPDealList at h
  cases primary with
  | error e => simp at h
  | ok rows =>
    simp only at h
    cases hl : scanLoop rows ([] : List NucleusTradeHeaderModel)
        (fun headerModels r => Except.ok (headerModels ++ [ptpHeaderOfRow r])) with
    | error e => simp [hl] at h
    | ok hm =>
      have hP := scanLoop_invariant rows
        (fun headerModels r => Except.ok (headerModels ++ [ptpHeaderOfRow r]))
        (fun s => ∀ x ∈ s, x.ExoticFlag = [])
        (fun s a s' hs hstep => by
          simp only [Except.ok.injEq] at hstep
          subst hstep
          intro x hx
          rcases List.mem_append.1 hx with hx | hx
          · exact hs x hx
          · have hxa : x = ptpHeaderOfRow a := by simpa using hx
            rw [hxa]
            rfl)
        [] hm (by simp) hl
      simp only [hl] at h
      cases hc : rows.closeErr with
      | some ce =>
        simp only [hc, Except.ok.injEq] at h
        subst h
        simp
      | none =>
        simp only [hc] at h
        cases he : rows.err with
        | some ee => simp [he] at h
        | none =>
          simp only [he, Except.ok.injEq] at h
          subst h
          exact hP

/-- Every header returned by the misc-charge fetcher has an empty exotic flag. -/
theorem GetNucMiscChargeDealList_exoticFlag (primary : Except Error (Rows MiscChargeRow))
    (termQuery : List Int → Except Error (Rows MiscChargeTermRow))
    (headers : List NucleusTradeHeaderModel)
    (h : GetNucMiscChargeDealList primary termQuery = Except.ok headers) :
    ∀ x ∈ headers, x.ExoticFlag = [] := by
  unfold GetNucMiscChargeDealList at h
  cases primary with
  | error e => simp at h
  | ok rows =>
    simp only at h
    cases hl : scanLoop rows FetchState.init
        (fun st r => Except.ok (miscChargeRowStep st r)) with
    | error e => simp [hl] at h
    | ok st =>
      have hP := scanLoop_invariant rows (fun st r => Except.ok (miscChargeRowStep st r))
        (fun s => ∀ x ∈ s.headerModels, x.ExoticFlag = [])
        (fun s a s' hs hstep => by
          simp only [Except.ok.injEq] at hstep
          subst hstep
          intro x hx
          rcases List.mem_append.1 hx with hx | hx
          · exact hs x hx
          · have hxa : x = miscChargeHeaderOfRow a := by simpa using hx
            rw [hxa]
            rfl)
        FetchState.init st (by simp [FetchState.init]) hl
      simp only [hl] at h
      cases hc : rows.closeErr with
      | some ce =>
        simp only [hc, Except.ok.injEq] at h
        subst h
        simp
      | none =>
        simp only [hc] at h
        cases he : rows.err with
        | some ee => simp [he] at h
        | none =>
          simp only [he] at h
          by_cases hk : 0 < st.dealKeys.length
          · simp only [hk, if_true] at h
            cases hq : getNucMiscChargeDealTermList termQuery st.dealKeys with
            | error e => simp [hq] at h
            | ok tm =>
              simp only [hq] at h
              have := foldlM_invariant _
                (fun hp => hp.map eraseTerms = st.headerModels.map eraseTerms) tm
                (fun s a s' _ hinv hstep => by
                  unfold replaceTermsOfKey at hstep
                  cases hg : mapGet st.headerModelsMap a.1 with
                  | none => simp [hg] at hstep
                  | some p =>
                    simp only [hg] at hstep
                    exact (setTermsAt_eraseTerms hstep).trans hinv)
                st.headerModels headers rfl h
              exact exoticFlag_of_eraseTerms _ _ _ this hP
          · simp only [hk, if_false, Except.ok.injEq] at h
            subst h
            exact hP

/-- C19: the exotic flag of point-to-point and misc-charge headers is empty, not `"NA"`.
Every header returned by the point-to-point fetcher and every header returned by the
misc-charge fetcher has the empty exotic flag, whatever the rows are, while every header
returned by the capacity fetcher has the exotic flag `"NA"`. -/
theorem C19_exotic_flag_empty_for_ptp_and_misc_charge :
    (∀ (primary : Except Error (Rows PTPRow)) (headers : List NucleusTradeHeaderModel),
        GetNucPTPDealList primary = Except.ok headers →
        ∀ x ∈ headers, x.ExoticFlag = [] ∧ x.ExoticFlag ≠ ['N', 'A']) ∧
    (∀ (primary : Except Error (Rows MiscChargeRow))
        (termQuery : List Int → Except Error (Rows MiscChargeTermRow))
        (headers : List NucleusTradeHeaderModel),
        GetNucMiscChargeDealList primary termQuery = Except.ok headers →
        ∀ x ∈ headers, x.ExoticFlag = [] ∧ x.ExoticFlag ≠ ['N', 'A']) ∧
    (∀ (primary : Except Error (Rows CapacityRow))
        (termQuery : List Int → Except Error (Rows CapacityTermRow))
        (indexQuery : List Int → Except Error (Rows CapacityIndexRow))
        (headers : List NucleusTradeHeaderModel),
        GetNucCapacityDealList primary termQuery indexQuery = Except.ok headers →
        ∀ x ∈ headers, x.ExoticFlag = ['N', 'A']) := by
  refine ⟨?_, ?_, ?_⟩
  · intro primary headers h x hx
    have hx0 := GetNucPTPDealList_exoticFlag primary headers h x hx
    exact ⟨hx0, by rw [hx0]; decide⟩
  · intro primary termQuery headers h x hx
    have hx0 := GetNucMiscChargeDealList_exoticFlag primary termQuery headers h x hx
    exact ⟨hx0, by rw [hx0]; decide⟩
  · intro primary termQuery indexQuery headers h x hx
    exact GetNucCapacityDealList_exoticFlag primary termQuery indexQuery headers h x hx

/-- Witness of C19: the fetch of one point-to-point row returns one header, whose exotic
flag is empty. -/
theorem C19_exotic_flag_witness :
    (headersOf (GetNucPTPDealList (Except.ok samplePTPRows))).length = 1 ∧
    ∀ x ∈ headersOf (GetNucPTPDealList (Except.ok samplePTPRows)),
      x.ExoticFlag = [] ∧ x.ExoticFlag ≠ ['N', 'A'] :=
  ⟨by decide, C19_exotic_flag_empty_for_ptp_and_misc_charge.1 (Except.ok samplePTPRows)
    (headersOf (GetNucPTPDealList (Except.ok samplePTPRows))) rfl⟩

/-! ## The capacity index splice -/

theorem forall_mem_set {α : Type} (P : α → Prop) (l : List α) (p : Nat) (a : α)
    (hl : ∀ x ∈ l, P x) (ha : P a) : ∀ x ∈ l.set p a, P x := by
  intro x hx
  rcases List.mem_or_eq_of_mem_set hx with h | h
  · exact hl x h
  · rw [h]
    exact ha

theorem indexesNumbered_append (l : List NucleusTradeIndexModel) (x : NucleusTradeIndexModel)
    (hl : IndexesNumbered l) (hx : x.VolSeq = (l.length : Int)) :
    IndexesNumbered (l ++ [x]) := by
  intro j y hy
  by_cases hj : j < l.length
  · rw [List.getElem?_append_left hj] at hy
    exact hl j y hy
  · have hge : l.length ≤ j := Nat.le_of_not_lt hj
    rw [List.getElem?_append_right hge] at hy
    cases hd : j - l.length with
    | zero =>
      rw [hd] at hy
      simp only [List.getElem?_cons_zero, Option.some.injEq] at hy
      subst hy
      have : j = l.length := by omega
      rw [hx, this]
    | succ n =>
      rw [hd] at hy
      simp at hy

theorem termsBeforeIndexes_append (terms : List NucleusTradeTermModel)
    (t : NucleusTradeTermModel) (h : TermsBeforeIndexes terms) (hi : t.Indexes1 = [])
    (hv : terms = [] → t.VolSeq = 0) : TermsBeforeIndexes (terms ++ [t]) := by
  refine ⟨?_, ?_⟩
  · intro a ha
    cases terms with
    | nil =>
      simp only [List.nil_append, List.head?_cons, Option.some.injEq] at ha
      subst ha
      exact hv rfl
    | cons b bs =>
      simp only [List.cons_append, List.head?_cons, Option.some.injEq] at ha
      subst ha
      exact h.1 b rfl
  · intro u hu
    rcases List.mem_append.1 hu with hu | hu
    · exact h.2 u hu
    · rw [List.mem_singleton.1 hu]
      exact hi

theorem TermsBeforeIndexes.withIndexes {terms : List NucleusTradeTermModel}
    (h : TermsBeforeIndexes terms) : TermsWithIndexes terms := by
  refine ⟨?_, ?_⟩
  · intro t ht
    refine ⟨h.1 t ht, ?_⟩
    have hmem : t ∈ terms := by
      cases terms with
      | nil => simp at ht
      | cons a l =>
        simp only [List.head?_cons, Option.some.injEq] at ht
        subst ht
        exact List.mem_cons_self _ _
    rw [h.2 t hmem]
    intro j x hx
    simp at hx
  · intro u hu
    exact h.2 u (List.mem_of_mem_tail hu)

/-- The term map of `getNucCapacityDealTermModel`: every list starts at volume sequence 0
and no term has an index. -/
theorem capacityTermStep_shape (m : GoMap (List NucleusTradeTermModel)) (r : CapacityTermRow)
    (hm : ∀ e ∈ m, TermsBeforeIndexes e.2) :
    ∀ e ∈ capacityTermStep m r, TermsBeforeIndexes e.2 := by
  unfold capacityTermStep mapAppend
  apply mapSet_forall TermsBeforeIndexes m r.dealKey _ hm
  have hold : TermsBeforeIndexes ((mapGet m r.dealKey).getD []) := by
    cases hg : mapGet m r.dealKey with
    | none => exact ⟨fun t ht => by simp at ht, fun u hu => by simp at hu⟩
    | some l => exact hm _ (mapGet_mem m r.dealKey l hg)
  apply termsBeforeIndexes_append _ _ hold rfl
  intro hnil
  simp only [hnil, List.length_nil, Nat.cast_zero]

theorem getNucCapacityDealTermModel_shape
    (query : List Int → Except Error (Rows CapacityTermRow)) (dealKeys : List Int)
    (m : GoMap (List NucleusTradeTermModel))
    (h : getNucCapacityDealTermModel query dealKeys = Except.ok m) :
    ∀ e ∈ m, TermsBeforeIndexes e.2 := by
  unfold getNucCapacityDealTermModel at h
  by_cases hk : dealKeys.length = 0
  · simp only [hk, if_true, Except.ok.injEq] at h
    subst h
    simp
  · simp only [hk, if_false] at h
    cases hq : query dealKeys with
    | error e => simp [hq] at h
    | ok rows =>
      simp only [hq] at h
      cases hl : scanLoop rows ([] : GoMap (List NucleusTradeTermModel))
          (fun termModelMap r => Except.ok (capacityTermStep termModelMap r)) with
      | error e => simp [hl] at h
      | ok tm =>
        have hP := scanLoop_invariant rows
          (fun termModelMap r => Except.ok (capacityTermStep termModelMap r))
          (fun m => ∀ e ∈ m, TermsBeforeIndexes e.2)
          (fun s a s' hs hstep => by
            simp only [Except.ok.injEq] at hstep
            subst hstep
            exact capacityTermStep_shape s a hs)
          [] tm (by simp) hl
        simp only [hl] at h
        cases hc : rows.closeErr with
        | some ce =>
          simp only [hc, Except.ok.injEq] at h
          subst h
          simp
        | none =>
          simp only [hc] at h
          cases he : rows.err with
          | some ee => simp [he] at h
          | none =>
            simp only [he, Except.ok.injEq] at h
            subst h
            exact hP

/-- The index map of `getNucCapacityDealIndexModel`: every list is numbered by position. -/
theorem capacityIndexStep_numbered (m : GoMap (List NucleusTradeIndexModel))
    (r : CapacityIndexRow) (hm : ∀ e ∈ m, IndexesNumbered e.2) :
    ∀ e ∈ capacityIndexStep m r, IndexesNumbered e.2 := by
  unfold capacityIndexStep mapAppend
  apply mapSet_forall IndexesNumbered m r.dealKey _ hm
  have hold : IndexesNumbered ((mapGet m r.dealKey).getD []) := by
    cases hg : mapGet m r.dealKey with
    | none =>
      intro j x hx
      simp at hx
    | some l => exact hm _ (mapGet_mem m r.dealKey l hg)
  exact indexesNumbered_append _ _ hold rfl

theorem getNucCapacityDealIndexModel_numbered
    (query : List Int → Except Error (Rows CapacityIndexRow)) (dealKeys : List Int)
    (m : GoMap (List NucleusTradeIndexModel))
    (h : getNucCapacityDealIndexModel query dealKeys = Except.ok m) :
    ∀ e ∈ m, IndexesNumbered e.2 := by
  unfold getNucCapacityDealIndexModel at h
  by_cases hk : dealKeys.length = 0
  · simp only [hk, if_true, Except.ok.injEq] at h
    subst h
    simp
  · simp only [hk, if_false] at h
    cases hq : query dealKeys with
    | error e => simp [hq] at h
    | ok rows =>
      simp only [hq] at h
      cases hl : scanLoop rows ([] : GoMap (List NucleusTradeIndexModel))
          (fun indexModelMap r => Except.ok (capacityIndexStep indexModelMap r)) with
      | error e => simp [hl] at h
      | ok im =>
        have hP := scanLoop_invariant rows
          (fun indexModelMap r => Except.ok (capacityIndexStep indexModelMap r))
          (fun m => ∀ e ∈ m, IndexesNumbered e.2)
          (fun s a s' hs hstep => by
            simp only [Except.ok.injEq] at hstep
            subst hstep
            exact capacityIndexStep_numbered s a hs)
          [] im (by simp) hl
        simp only [hl] at h
        cases hc : rows.closeErr with
        | some ce =>
          simp only [hc, Except.ok.injEq] at h
          subst h
          simp
        | none =>
          simp only [hc] at h
          cases he : rows.err with
          | some ee => simp [he] at h
          | none =>
            simp only [he, Except.ok.injEq] at h
            subst h
            exact hP

/-- The row loop of the capacity fetcher leaves term lists without index that start at
volume sequence 0. -/
theorem capacityRowStep_shape (st : FetchState) (r : CapacityRow) (st' : FetchState)
    (hP : ∀ hd ∈ st.headerModels, TermsBeforeIndexes hd.Terms)
    (h : capacityRowStep st r = Except.ok st') :
    ∀ hd ∈ st'.headerModels, TermsBeforeIndexes hd.Terms := by
  unfold capacityRowStep at h
  cases hh : capacityHeaderOfRow r with
  | error e => simp [hh] at h
  | ok hdr =>
    obtain ⟨hterms, _⟩ := capacityHeaderOfRow_terms hh
    simp only [hh] at h
    by_cases hflag : r.nonstdFlag = ['N']
    · simp only [hflag, if_true, Except.ok.injEq] at h
      subst h
      intro hd hmem
      rcases List.mem_append.1 hmem with hm | hm
      · exact hP hd hm
      · rw [List.mem_singleton.1 hm]
        refine ⟨?_, ?_⟩
        · intro t ht
          simp only [List.head?_cons, Option.some.injEq] at ht
          subst ht
          rfl
        · intro u hu
          rw [List.mem_singleton.1 hu]
          rfl
    · simp only [hflag, if_false, Except.ok.injEq] at h
      subst h
      intro hd hmem
      rcases List.mem_append.1 hmem with hm | hm
      · exact hP hd hm
      · rw [List.mem_singleton.1 hm, hterms]
        exact ⟨fun t ht => by simp at ht, fun u hu => by simp at hu⟩

/-- The inner loop of the term splice: the terms of one key go to one header, so only the
first of them can become the first term of the header. -/
theorem capacitySpliceTerms_shape (st : FetchState) (k : Int) :
    ∀ (terms : List NucleusTradeTermModel) (heap heap' : List NucleusTradeHeaderModel),
      (∀ hd ∈ heap, TermsBeforeIndexes hd.Terms) →
      (∀ t ∈ terms, t.Indexes1 = []) →
      ((∀ t, terms.head? = some t → t.VolSeq = 0) ∨
        ∃ p hd, mapGet st.headerModelsMap k = some p ∧ heap[p]? = some hd ∧ hd.Terms ≠ []) →
      terms.foldlM (capacitySpliceTerm st k) heap = Except.ok heap' →
      ∀ hd ∈ heap', TermsBeforeIndexes hd.Terms
  | [], heap, heap', hP, _, _, h => by
    simp only [List.foldlM_nil, pure, Except.pure, Except.ok.injEq] at h
    subst h
    exact hP
  | t :: ts, heap, heap', hP, hidx, hfirst, h => by
    simp only [List.foldlM_cons, bind, Except.bind] at h
    cases hs : capacitySpliceTerm st k heap t with
    | error e => simp [hs] at h
    | ok heap1 =>
      simp only [hs] at h
      unfold capacitySpliceTerm at hs
      cases hi : mapGet st.initialTermModelsMap k with
      | none => simp [hi] at hs
      | some initialTerm =>
        cases hh : mapGet st.headerModelsMap k with
        | none => simp [hi, hh] at hs
        | some p =>
          simp only [hi, hh] at hs
          unfold appendTermAt at hs
          cases hg : heap[p]? with
          | none => simp [hg] at hs
          | some hd0 =>
            simp only [hg, Except.ok.injEq] at hs
            have hlt : p < heap.length := by
              rcases Nat.lt_or_ge p heap.length with hlt | hge
              · exact hlt
              · rw [List.getElem?_eq_none hge] at hg
                exact Option.noConfusion hg
            have hmem0 : hd0 ∈ heap := List.getElem?_mem hg
            have hnew : TermsBeforeIndexes (hd0.Terms ++
                [{ t with
                   PriceType := initialTerm.PriceType, Pool1 := initialTerm.Pool1,
                   Product1 := initialTerm.Product1, PointCode1 := initialTerm.PointCode1,
                   HolidaySchedule := initialTerm.HolidaySchedule }]) := by
              apply termsBeforeIndexes_append _ _ (hP hd0 hmem0)
              · exact hidx t (List.mem_cons_self _ _)
              · intro hnil
                rcases hfirst with hf | ⟨p', hd', hp', hg', hne⟩
                · exact hf t rfl
                · rw [hh] at hp'
                  simp only [Option.some.injEq] at hp'
                  subst hp'
                  rw [hg] at hg'
                  simp only [Option.some.injEq] at hg'
                  subst hg'
                  exact absurd hnil hne
            subst hs
            refine capacitySpliceTerms_shape st k ts _ heap' ?_
              (fun u hu => hidx u (List.mem_cons_of_mem _ hu)) ?_ h
            · apply forall_mem_set (fun hd => TermsBeforeIndexes hd.Terms) heap p _ hP
              exact hnew
            · exact Or.inr ⟨p, _, hh, List.getElem?_set_self hlt, by simp⟩

theorem capacitySplice_shape (st : FetchState) (entries : GoMap (List NucleusTradeTermModel))
    (heap heap' : List NucleusTradeHeaderModel)
    (hentries : ∀ e ∈ entries, TermsBeforeIndexes e.2)
    (hP : ∀ hd ∈ heap, TermsBeforeIndexes hd.Terms)
    (h : capacitySplice st entries heap = Except.ok heap') :
    ∀ hd ∈ heap', TermsBeforeIndexes hd.Terms := by
  unfold capacitySplice at h
  refine foldlM_invariant _ (fun hp => ∀ hd ∈ hp, TermsBeforeIndexes hd.Terms) entries ?_
    heap heap' hP h
  intro hp entry hp' hmem hinv hstep
  exact capacitySpliceTerms_shape st entry.1 entry.2 hp hp' hinv (hentries entry hmem).2
    (Or.inl (hentries entry hmem).1) hstep

theorem capacitySpliceIndex_shape (st : FetchState)
    (heap heap' : List NucleusTradeHeaderModel) (entry : Int × List NucleusTradeIndexModel)
    (hentry : IndexesNumbered entry.2)
    (hP : ∀ hd ∈ heap, TermsWithIndexes hd.Terms)
    (h : capacitySpliceIndex st heap entry = Except.ok heap') :
    ∀ hd ∈ heap', TermsWithIndexes hd.Terms := by
  unfold capacitySpliceIndex at h
  cases hh : mapGet st.headerModelsMap entry.1 with
  | none => simp [hh] at h
  | some p =>
    cases hg : heap[p]? with
    | none => simp [hh, hg] at h
    | some hd0 =>
      cases hterms : hd0.Terms with
      | nil => simp [hh, hg, hterms] at h
      | cons t0 ts =>
        simp only [hh, hg, hterms, Except.ok.injEq] at h
        subst h
        have h0 := hP hd0 (List.getElem?_mem hg)
        rw [hterms] at h0
        apply forall_mem_set (fun hd => TermsWithIndexes hd.Terms) heap p _ hP
        refine ⟨?_, ?_⟩
        · intro t ht
          simp only [List.head?_cons, Option.some.injEq] at ht
          subst ht
          exact ⟨(h0.1 t0 rfl).1, hentry⟩
        · intro u hu
          exact h0.2 u hu

/-- Every header returned by the capacity fetcher has a term list whose first term has
volume sequence 0 and indexes numbered by position, and whose other terms have no index. -/
theorem GetNucCapacityDealList_shape (primary : Except Error (Rows CapacityRow))
    (termQuery : List Int → Except Error (Rows CapacityTermRow))
    (indexQuery : List Int → Except Error (Rows CapacityIndexRow))
    (headers : List NucleusTradeHeaderModel)
    (h : GetNucCapacityDealList primary termQuery indexQuery = Except.ok headers) :
    ∀ hd ∈ headers, TermsWithIndexes hd.Terms := by
  unfold GetNucCapacityDealList at h
  cases primary with
  | error e => simp at h
  | ok rows =>
    simp only at h
    cases hl : scanLoop rows FetchState.init capacityRowStep with
    | error e => simp [hl] at h
    | ok st =>
      have hP := scanLoop_invariant rows capacityRowStep
        (fun s => ∀ hd ∈ s.headerModels, TermsBeforeIndexes hd.Terms)
        (fun s a s' hs hstep => capacityRowStep_shape s a s' hs hstep)
        FetchState.init st (by simp [FetchState.init]) hl
      simp only [hl] at h
      cases hc : rows.closeErr with
      | some ce =>
        simp only [hc, Except.ok.injEq] at h
        subst h
        simp
      | none =>
        simp only [hc] at h
        cases he : rows.err with
        | some ee => simp [he] at h
        | none =>
          simp only [he] at h
          split at h
          · exact Except.noConfusion h
          · rename_i heap hw
            have hheap : ∀ hd ∈ heap, TermsBeforeIndexes hd.Terms := by
              by_cases hk : 0 < st.dealKeys.length
              · simp only [hk, if_true] at hw
                cases hq : getNucCapacityDealTermModel termQuery st.dealKeys with
                | error e => simp [hq] at hw
                | ok tm =>
                  simp only [hq] at hw
                  exact capacitySplice_shape st tm _ _
                    (getNucCapacityDealTermModel_shape termQuery st.dealKeys tm hq) hP hw
              · simp only [hk, if_false, Except.ok.injEq] at hw
                rw [← hw]
                exact hP
            have hheap2 : ∀ hd ∈ heap, TermsWithIndexes hd.Terms :=
              fun hd hm => (hheap hd hm).withIndexes
            by_cases hf : 0 < st.formulaDealKeys.length
            · simp only [hf, if_true] at h
              cases hq : getNucCapacityDealIndexModel indexQuery st.formulaDealKeys with
              | error e => simp [hq] at h
              | ok im =>
                simp only [hq] at h
                have hnum := getNucCapacityDealIndexModel_numbered indexQuery
                  st.formulaDealKeys im hq
                exact foldlM_invariant _
                  (fun hp => ∀ hd ∈ hp, TermsWithIndexes hd.Terms) im
                  (fun s a s' hm hinv hstep =>
                    capacitySpliceIndex_shape st s s' a (hnum a hm) hinv hstep)
                  heap headers hheap2 h
            · simp only [hf, if_false, Except.ok.injEq] at h
              subst h
              exact hheap2

/-! ## Maps: keys, grouping and iteration order -/

theorem mapGet_eq_none_iff {V : Type} : ∀ (m : GoMap V) (k : Int),
    mapGet m k = none ↔ k ∉ m.map Prod.fst
  | [], k => by simp [mapGet]
  | (k', v) :: m, k => by
    by_cases h : k' = k
    · simp [mapGet, h]
    · have h' : ¬ k = k' := fun e => h e.symm
      simp [mapGet, h, h', mapGet_eq_none_iff m k]

theorem mapGet_of_mem {V : Type} : ∀ (m : GoMap V) (k : Int) (v : V),
    (m.map Prod.fst).Nodup → (k, v) ∈ m → mapGet m k = some v
  | [], _, _, _, h => absurd h (List.not_mem_nil _)
  | (k', v') :: m, k, v, hn, h => by
    simp only [List.map_cons, List.nodup_cons] at hn
    rcases List.mem_cons.1 h with h | h
    · simp only [Prod.mk.injEq] at h
      obtain ⟨h1, h2⟩ := h
      subst h1 h2
      simp [mapGet]
    · have hk : k' ≠ k := by
        intro e
        subst e
        exact hn.1 (List.mem_map_of_mem Prod.fst h)
      simp only [mapGet, hk, if_false]
      exact mapGet_of_mem m k v hn.2 h

theorem mapSet_keys {V : Type} : ∀ (m : GoMap V) (k : Int) (v : V),
    (mapSet m k v).map Prod.fst =
      if k ∈ m.map Prod.fst then m.map Prod.fst else m.map Prod.fst ++ [k]
  | [], k, v => by simp [mapSet]
  | (k', v') :: m, k, v => by
    by_cases hk : k' = k
    · simp [mapSet, hk]
    · have hk' : ¬ k = k' := fun e => hk e.symm
      simp only [mapSet, hk, if_false, List.map_cons, List.mem_cons, hk', false_or,
        mapSet_keys m k v]
      split <;> simp

theorem mapSet_nodup {V : Type} (m : GoMap V) (k : Int) (v : V)
    (h : (m.map Prod.fst).Nodup) : ((mapSet m k v).map Prod.fst).Nodup := by
  rw [mapSet_keys]
  split
  · exact h
  · rename_i hk
    rw [List.nodup_append]
    refine ⟨h, List.nodup_singleton k, ?_⟩
    intro a ha hb
    rw [List.mem_singleton] at hb
    subst hb
    exact hk ha

theorem mem_mapSet {V : Type} : ∀ (m : GoMap V) (k : Int) (v : V) (e : Int × V),
    (m.map Prod.fst).Nodup → e ∈ mapSet m k v → e = (k, v) ∨ (e ∈ m ∧ e.1 ≠ k)
  | [], k, v, e, _, h => by
    simp only [mapSet, List.mem_singleton] at h
    exact Or.inl h
  | (k', v') :: m, k, v, e, hn, h => by
    simp only [List.map_cons, List.nodup_cons] at hn
    by_cases hk : k' = k
    · simp only [mapSet, hk, if_true, List.mem_cons] at h
      rcases h with h | h
      · exact Or.inl h
      · right
        refine ⟨List.mem_cons_of_mem _ h, ?_⟩
        intro e1
        apply hn.1
        rw [hk, ← e1]
        exact List.mem_map_of_mem Prod.fst h
    · simp only [mapSet, hk, if_false, List.mem_cons] at h
      rcases h with h | h
      · right
        rw [h]
        exact ⟨List.mem_cons_self _ _, hk⟩
      · rcases mem_mapSet m k v e hn.2 h with h1 | ⟨h1, h2⟩
        · exact Or.inl h1
        · exact Or.inr ⟨List.mem_cons_of_mem _ h1, h2⟩

theorem mapGet_perm {V : Type} {m m' : GoMap V} (p : m.Perm m')
    (hn : (m.map Prod.fst).Nodup) (k : Int) : mapGet m k = mapGet m' k := by
  have hn' : (m'.map Prod.fst).Nodup := (p.map Prod.fst).nodup_iff.1 hn
  cases h : mapGet m k with
  | none =>
    rw [mapGet_eq_none_iff] at h
    symm
    rw [mapGet_eq_none_iff]
    intro hk
    exact h ((p.map Prod.fst).mem_iff.2 hk)
  | some v =>
    symm
    exact mapGet_of_mem m' k v hn' (p.mem_iff.1 (mapGet_mem m k v h))

/-- A grouping loop stores under each key the values of the rows of the key, in row
order, after what was stored before. -/
theorem foldl_mapAppend_get {α V : Type} (key : α → Int) (mk : α → V) (k : Int) :
    ∀ (l : List α) (acc : GoMap (List V)),
      (mapGet (l.foldl (fun m r => mapAppend m (key r) (mk r)) acc) k).getD [] =
        (mapGet acc k).getD [] ++ (l.filter (fun r => decide (key r = k))).map mk
  | [], acc => by simp
  | r :: l, acc => by
    rw [List.foldl_cons, foldl_mapAppend_get key mk k l]
    by_cases h : key r = k
    · subst h
      simp only [mapGet_mapAppend_self, Option.getD_some, List.filter_cons, decide_True,
        if_true, List.map_cons, List.append_assoc, List.singleton_append]
    · have hk : k ≠ key r := fun e => h e.symm
      simp only [mapGet_mapAppend_of_ne _ _ hk, List.filter_cons, h, decide_False]
      rfl

/-- A grouping loop leaves a key absent exactly when it was absent and has no row. -/
theorem foldl_mapAppend_none {α V : Type} (key : α → Int) (mk : α → V) (k : Int) :
    ∀ (l : List α) (acc : GoMap (List V)),
      mapGet (l.foldl (fun m r => mapAppend m (key r) (mk r)) acc) k = none ↔
        mapGet acc k = none ∧ l.filter (fun r => decide (key r = k)) = []
  | [], acc => by simp
  | r :: l, acc => by
    rw [List.foldl_cons, foldl_mapAppend_none key mk k l]
    by_cases h : key r = k
    · subst h
      simp [mapGet_mapAppend_self]
    · have hk : k ≠ key r := fun e => h e.symm
      simp [mapGet_mapAppend_of_ne _ _ hk, h]

theorem foldl_mapAppend_nodup {α V : Type} (key : α → Int) (mk : α → V) :
    ∀ (l : List α) (acc : GoMap (List V)), (acc.map Prod.fst).Nodup →
      ((l.foldl (fun m r => mapAppend m (key r) (mk r)) acc).map Prod.fst).Nodup
  | [], _, h => h
  | r :: l, acc, h => by
    rw [List.foldl_cons]
    exact foldl_mapAppend_nodup key mk l _ (mapSet_nodup _ _ _ h)

theorem mapSet_sum_length {V : Type} : ∀ (m : GoMap (List V)) (k : Int) (v : List V),
    ((mapSet m k v).map (fun e => e.2.length)).sum + ((mapGet m k).getD []).length =
      (m.map (fun e => e.2.length)).sum + v.length
  | [], k, v => by simp [mapSet, mapGet]
  | (k', v') :: m, k, v => by
    by_cases hk : k' = k
    · simp only [mapSet, hk, if_true, mapGet, List.map_cons, List.sum_cons, Option.getD_some]
      omega
    · have ih := mapSet_sum_length m k v
      simp only [mapSet, hk, if_false, mapGet, List.map_cons, List.sum_cons]
      omega

/-- A grouping loop neither loses nor duplicates a row: the lists of the map hold one
value per row. -/
theorem foldl_mapAppend_sum {α V : Type} (key : α → Int) (mk : α → V) :
    ∀ (l : List α) (acc : GoMap (List V)),
      ((l.foldl (fun m r => mapAppend m (key r) (mk r)) acc).map (fun e => e.2.length)).sum =
        (acc.map (fun e => e.2.length)).sum + l.length
  | [], acc => by simp
  | r :: l, acc => by
    rw [List.foldl_cons, foldl_mapAppend_sum key mk l]
    have h := mapSet_sum_length acc (key r) ((mapGet acc (key r)).getD [] ++ [mk r])
    rw [List.length_append, List.length_singleton] at h
    rw [List.length_cons]
    unfold mapAppend
    omega

/-- A loop with steps that commute pairwise gives the same result on every permutation
of its list. -/
theorem foldlM_perm {σ α : Type} (f : σ → α → Except Fault σ) {l₁ l₂ : List α}
    (p : l₁.Perm l₂)
    (comm : ∀ x ∈ l₁, ∀ y ∈ l₁, ∀ s,
      (f s x >>= fun s' => f s' y) = (f s y >>= fun s' => f s' x))
    (init : σ) : l₁.foldlM f init = l₂.foldlM f init := by
  rw [List.foldlM_eq_foldl, List.foldlM_eq_foldl]
  apply List.Perm.foldl_eq' p
  intro x hx y hy z
  cases z with
  | error e => rfl
  | ok s =>
    have := comm x hx y hy s
    simpa [bind_assoc] using this

/-! ## Term fetchers group rows by key -/

theorem groupsRows_of_foldl {α : Type} (key : α → Int) (termOfRow : α → NucleusTradeTermModel)
    (l : List α) :
    GroupsRows (l.foldl (fun m r => mapAppend m (key r) (termOfRow r)) []) l key termOfRow := by
  refine ⟨?_, ?_, ?_, ?_⟩
  · intro k
    rw [foldl_mapAppend_get key termOfRow k l []]
    simp [mapGet]
  · intro k
    rw [foldl_mapAppend_none key termOfRow k l []]
    simp [mapGet]
  · exact foldl_mapAppend_nodup key termOfRow l [] (by simp)
  · rw [foldl_mapAppend_sum key termOfRow l []]
    simp

/-- C21: term fetchers group term rows by deal key and keep the row order. For the term
fetchers of power swaps, transmission deals, misc charges and emission deals and every
list of term rows read from a cursor that closes without error, the fetcher returns a
map in which the list under key k is the list of the terms mapped from the rows of key k,
in source order; a key without row is absent, no key occurs twice, and the lists hold
one term per row. -/
theorem C21_term_fetchers_group_rows_by_key :
    (∀ (query : List Int → Except Error (Rows PowerSwapTermRow)) (dealKeys : List Int)
        (rows : Rows PowerSwapTermRow) (l : List PowerSwapTermRow),
        dealKeys ≠ [] → query dealKeys = Except.ok rows → rows.scanned = l.map Except.ok →
        rows.closeErr = none → rows.err = none →
        ∃ m, getNucPowerSwapDealTermModel query dealKeys = Except.ok m ∧
          GroupsRows m l (fun r => r.dealKey) powerSwapFetchedTermOfRow) ∧
    (∀ (query : List Int → Except Error (Rows TransmissionTermRow)) (dealKeys : List Int)
        (rows : Rows TransmissionTermRow) (l : List TransmissionTermRow),
        dealKeys ≠ [] → query dealKeys = Except.ok rows → rows.scanned = l.map Except.ok →
        rows.closeErr = none → rows.err = none →
        ∃ m, getNucTransmissionDealTermModel query dealKeys = Except.ok m ∧
          GroupsRows m l (fun r => r.dealKey) transmissionTermOfRow) ∧
    (∀ (query : List Int → Except Error (Rows MiscChargeTermRow)) (dealKeys : List Int)
        (rows : Rows MiscChargeTermRow) (l : List MiscChargeTermRow),
        dealKeys ≠ [] → query dealKeys = Except.ok rows → rows.scanned = l.map Except.ok →
        rows.closeErr = none → rows.err = none →
        ∃ m, getNucMiscChargeDealTermList query dealKeys = Except.ok m ∧
          GroupsRows m l (fun r => r.dealKey) miscChargeTermOfRow) ∧
    (∀ (query : List Int → Except Error (Rows EmissionTermRow)) (dealKeys : List Int)
        (rows : Rows EmissionTermRow) (l : List EmissionTermRow),
        dealKeys ≠ [] → query dealKeys = Except.ok rows → rows.scanned = l.map Except.ok →
        rows.closeErr = none → rows.err = none →
        ∃ m, getNucEmissionDealListTermModel query dealKeys = Except.ok m ∧
          GroupsRows m l (fun r => r.dealKey) emissionTermOfRow) := by
  refine ⟨?_, ?_, ?_, ?_⟩
  · intro query dealKeys rows l hne hq hs hc he
    have hlen : ¬ dealKeys.length = 0 := fun h0 => hne (List.length_eq_zero.1 h0)
    refine ⟨_, ?_, groupsRows_of_foldl (fun r => r.dealKey) powerSwapFetchedTermOfRow l⟩
    unfold getNucPowerSwapDealTermModel
    simp only [if_neg hlen, hq, scanLoop_ok rows l _ _ hs, hc, he]
    rfl
  · intro query dealKeys rows l hne hq hs hc he
    have hlen : ¬ dealKeys.length = 0 := fun h0 => hne (List.length_eq_zero.1 h0)
    refine ⟨_, ?_, groupsRows_of_foldl (fun r => r.dealKey) transmissionTermOfRow l⟩
    unfold getNucTransmissionDealTermModel
    simp only [if_neg hlen, hq, scanLoop_ok rows l _ _ hs, hc, he]
  · intro query dealKeys rows l hne hq hs hc he
    have hlen : ¬ dealKeys.length = 0 := fun h0 => hne (List.length_eq_zero.1 h0)
    refine ⟨_, ?_, groupsRows_of_foldl (fun r => r.dealKey) miscChargeTermOfRow l⟩
    unfold getNucMiscChargeDealTermList
    simp only [if_neg hlen, hq, scanLoop_ok rows l _ _ hs, hc, he]
    rfl
  · intro query dealKeys rows l hne hq hs hc he
    have hlen : ¬ dealKeys.length = 0 := fun h0 => hne (List.length_eq_zero.1 h0)
    refine ⟨_, ?_, groupsRows_of_foldl (fun r => r.dealKey) emissionTermOfRow l⟩
    unfold getNucEmissionDealListTermModel
    simp only [if_neg hlen, hq, scanLoop_ok rows l _ _ hs, hc, he]
    rfl

/-- Witness of C21: the transmission term rows of keys 323931, 323934, 323931 give a map
with the two terms of key 323931 in row order (volumes 500 and 414) and the term of key
323934. -/
theorem C21_term_fetchers_witness :
    ∃ m, getNucTransmissionDealTermModel (fun _ => Except.ok sampleTransmissionTermRows)
        [323931, 323934] = Except.ok m ∧
      GroupsRows m sampleTransmissionTermList (fun r => r.dealKey) transmissionTermOfRow ∧
      ((mapGet m 323931).getD []).map (fun t => t.Volume) = [500, 414] :=
  match C21_term_fetchers_group_rows_by_key.2.1 (fun _ => Except.ok sampleTransmissionTermRows)
      [323931, 323934] sampleTransmissionTermRows sampleTransmissionTermList
      (by decide) rfl rfl rfl rfl with
  | ⟨m, h1, h2⟩ =>
    ⟨m, h1, h2, by
      rw [h2.1 323931]
      decide⟩

/-! ## Single-query fetchers: lemmas -/

/-- Every header returned by a single-query fetcher is mapped from some row. -/
theorem collectHeaders_mem {α : Type} (primary : Except Error (Rows α))
    (headerOfRow : α → Except Fault NucleusTradeHeaderModel)
    (headers : List NucleusTradeHeaderModel)
    (h : collectHeaders primary headerOfRow = Except.ok headers) :
    ∀ hd ∈ headers, ∃ r, headerOfRow r = Except.ok hd := by
  unfold collectHeaders at h
  split at h
  · exact Except.noConfusion h
  · rename_i rows
    split at h
    · exact Except.noConfusion h
    · rename_i hm hl
      have hP := scanLoop_invariant rows _
        (fun s => ∀ hd ∈ s, ∃ r, headerOfRow r = Except.ok hd)
        (fun s a s' hs hstep => by
          split at hstep
          · exact Except.noConfusion hstep
          · rename_i hdr hh
            simp only [Except.ok.injEq] at hstep
            subst hstep
            intro hd hmem
            rcases List.mem_append.1 hmem with hx | hx
            · exact hs hd hx
            · rw [List.mem_singleton.1 hx]
              exact ⟨a, hh⟩)
        [] hm (by simp) hl
      split at h
      · simp only [Except.ok.injEq] at h
        subst h
        simp
      · split at h
        · exact Except.noConfusion h
        · simp only [Except.ok.injEq] at h
          subst h
          exact hP

theorem collectLoop_forall₂ {α : Type} (headerOfRow : α → Except Fault NucleusTradeHeaderModel) :
    ∀ (l : List α) (acc out : List NucleusTradeHeaderModel),
      l.foldlM
        (fun headerModels r =>
          match headerOfRow r with
          | Except.error e => Except.error e
          | Except.ok headerModel => Except.ok (headerModels ++ [headerModel])) acc =
        Except.ok out →
      ∃ hs, out = acc ++ hs ∧ List.Forall₂ (fun r h => headerOfRow r = Except.ok h) l hs
  | [], acc, out, h => by
    simp only [List.foldlM_nil, pure, Except.pure, Except.ok.injEq] at h
    subst h
    exact ⟨[], by simp, List.Forall₂.nil⟩
  | r :: l, acc, out, h => by
    simp only [List.foldlM_cons, bind, Except.bind] at h
    cases hh : headerOfRow r with
    | error e => simp [hh] at h
    | ok hdr =>
      simp only [hh] at h
      obtain ⟨hs, hout, hall⟩ := collectLoop_forall₂ headerOfRow l _ out h
      exact ⟨hdr :: hs, by rw [hout]; simp, List.Forall₂.cons hh hall⟩

theorem collectLoop_ok {α : Type} (headerOfRow : α → Except Fault NucleusTradeHeaderModel) :
    ∀ (l : List α) (acc hs : List NucleusTradeHeaderModel),
      List.Forall₂ (fun r h => headerOfRow r = Except.ok h) l hs →
      l.foldlM
        (fun headerModels r =>
          match headerOfRow r with
          | Except.error e => Except.error e
          | Except.ok headerModel => Except.ok (headerModels ++ [headerModel])) acc =
        Except.ok (acc ++ hs)
  | [], acc, _, h => by
    cases h
    simp [pure, Except.pure]
  | r :: l, acc, _, h => by
    cases h with
    | cons hab hrest =>
      simp only [List.foldlM_cons, bind, Except.bind, hab]
      rw [collectLoop_ok headerOfRow l _ _ hrest]
      simp

/-- The headers returned by a single-query fetcher are those mapped from the rows, in
row order, when the cursor closes without error. -/
theorem collectHeaders_forall₂ {α : Type} (rows : Rows α) (l : List α)
    (headerOfRow : α → Except Fault NucleusTradeHeaderModel)
    (headers : List NucleusTradeHeaderModel) (hs : rows.scanned = l.map Except.ok)
    (hc : rows.closeErr = none)
    (h : collectHeaders (Except.ok rows) headerOfRow = Except.ok headers) :
    List.Forall₂ (fun r h => headerOfRow r = Except.ok h) l headers := by
  unfold collectHeaders at h
  simp only [scanLoop_scanned_ok rows l _ _ hs, hc] at h
  split at h
  · exact Except.noConfusion h
  · rename_i hm hl
    obtain ⟨hs', hout, hall⟩ := collectLoop_forall₂ headerOfRow l [] hm hl
    split at h
    · exact Except.noConfusion h
    · simp only [Except.ok.injEq] at h
      subst h
      rw [hout]
      simpa using hall

/-- A single-query fetcher returns the headers mapped from the rows when every row maps
and the cursor reports no error. -/
theorem collectHeaders_ok {α : Type} (rows : Rows α) (l : List α)
    (headerOfRow : α → Except Fault NucleusTradeHeaderModel)
    (headers : List NucleusTradeHeaderModel) (hs : rows.scanned = l.map Except.ok)
    (hc : rows.closeErr = none) (he : rows.err = none)
    (hall : List.Forall₂ (fun r h => headerOfRow r = Except.ok h) l headers) :
    collectHeaders (Except.ok rows) headerOfRow = Except.ok headers := by
  unfold collectHeaders
  simp only [scanLoop_scanned_ok rows l _ _ hs, hc, he]
  rw [collectLoop_ok headerOfRow l [] headers hall]
  rfl

theorem forall₂_of_forall {α β : Type} (R : α → β → Prop) (f : α → β) :
    ∀ (l : List α), (∀ r ∈ l, R r (f r)) → List.Forall₂ R l (l.map f)
  | [], _ => List.Forall₂.nil
  | a :: l, h =>
    List.Forall₂.cons (h a (List.mem_cons_self _ _))
      (forall₂_of_forall R f l (fun r hr => h r (List.mem_cons_of_mem _ hr)))

theorem forall₂_of_all_ok {α : Type} (headerOfRow : α → Except Fault NucleusTradeHeaderModel) :
    ∀ (l : List α), (∀ r ∈ l, ∃ h, headerOfRow r = Except.ok h) →
      ∃ hs, List.Forall₂ (fun r h => headerOfRow r = Except.ok h) l hs
  | [], _ => ⟨[], List.Forall₂.nil⟩
  | a :: l, h => by
    obtain ⟨hd, hh⟩ := h a (List.mem_cons_self _ _)
    obtain ⟨hs, hf⟩ := forall₂_of_all_ok headerOfRow l
      (fun r hr => h r (List.mem_cons_of_mem _ hr))
    exact ⟨hd :: hs, List.Forall₂.cons hh hf⟩

/-- A single-query fetcher returns one header per row, in row order, when every row is
mapped and the cursor reports no error. -/
theorem collectHeaders_returns {α : Type} (rows : Rows α) (l : List α)
    (headerOfRow : α → Except Fault NucleusTradeHeaderModel)
    (hs : rows.scanned = l.map Except.ok) (hc : rows.closeErr = none) (he : rows.err = none)
    (hall : ∀ r ∈ l, ∃ h, headerOfRow r = Except.ok h) :
    ∃ headers, collectHeaders (Except.ok rows) headerOfRow = Except.ok headers ∧
      List.Forall₂ (fun r h => headerOfRow r = Except.ok h) l headers := by
  obtain ⟨headers, hf⟩ := forall₂_of_all_ok headerOfRow l hall
  exact ⟨headers, collectHeaders_ok rows l headerOfRow headers hs hc he hf, hf⟩

theorem foldl_collect {α β : Type} (f : α → β) :
    ∀ (l : List α) (acc : List β), l.foldl (fun hm r => hm ++ [f r]) acc = acc ++ l.map f
  | [], acc => by simp
  | a :: l, acc => by
    rw [List.foldl_cons, foldl_collect f l]
    simp

/-! ## Single-term families -/

theorem powerOptionsHeaderOfRow_terms {r : PowerOptionsRow} {hd : NucleusTradeHeaderModel}
    (h : powerOptionsHeaderOfRow r = Except.ok hd) :
    hd.Terms = [powerOptionsTermOfRow r] := by
  unfold powerOptionsHeaderOfRow at h
  split at h
  · exact Except.noConfusion h
  · simp only [Except.ok.injEq] at h
    subst h
    rfl

theorem spreadOptionsHeaderOfRow_terms {r : SpreadOptionsRow} {hd : NucleusTradeHeaderModel}
    (h : spreadOptionsHeaderOfRow r = Except.ok hd) :
    hd.Terms = [spreadOptionsTermOfRow r] := by
  unfold spreadOptionsHeaderOfRow at h
  split at h
  · exact Except.noConfusion h
  · simp only [Except.ok.injEq] at h
    subst h
    rfl

theorem heatRateSwapsHeaderOfRow_terms {r : HeatRateSwapsRow} {hd : NucleusTradeHeaderModel}
    (h : heatRateSwapsHeaderOfRow r = Except.ok hd) :
    hd.Terms = [heatRateSwapsTermOfRow r] := by
  unfold heatRateSwapsHeaderOfRow at h
  split at h
  · exact Except.noConfusion h
  · simp only [Except.ok.injEq] at h
    subst h
    rfl

theorem tccftrsHeaderOfRow_terms {r : TCCFTRSRow} {hd : NucleusTradeHeaderModel}
    (h : tccftrsHeaderOfRow r = Except.ok hd) : hd.Terms = [tccftrsTermOfRow r] := by
  unfold tccftrsHeaderOfRow at h
  simp only [Except.ok.injEq] at h
  subst h
  rfl

theorem GetNucPTPDealList_terms (primary : Except Error (Rows PTPRow))
    (headers : List NucleusTradeHeaderModel)
    (h : GetNucPTPDealList primary = Except.ok headers) :
    ∀ hd ∈ headers, ∃ t, hd.Terms = [t] ∧ t.VolSeq = 0 := by
  unfold GetNucPTPDealList at h
  split at h
  · exact Except.noConfusion h
  · rename_i rows
    split at h
    · exact Except.noConfusion h
    · rename_i hm hl
      have hP := scanLoop_invariant rows _
        (fun s => ∀ hd ∈ s, ∃ t, hd.Terms = [t] ∧ t.VolSeq = 0)
        (fun s a s' hs hstep => by
          simp only [Except.ok.injEq] at hstep
          subst hstep
          intro hd hmem
          rcases List.mem_append.1 hmem with hx | hx
          · exact hs hd hx
          · rw [List.mem_singleton.1 hx]
            exact ⟨_, rfl, rfl⟩)
        [] hm (by simp) hl
      split at h
      · simp only [Except.ok.injEq] at h
        subst h
        simp
      · split at h
        · exact Except.noConfusion h
        · simp only [Except.ok.injEq] at h
          subst h
          exact hP

/-- C22: single-term families use volume sequence 0. Every header returned by the
fetchers of power options, point-to-point deals, spread options, heat-rate swaps and
TCC/FTR deals has exactly one term, and the volume sequence of that term is 0; and each of
these fetchers returns one header per primary row when every row is mapped and the cursor
reports no error. -/
theorem C22_single_term_families_use_volume_sequence_zero :
    (∀ (primary : Except Error (Rows PowerOptionsRow))
        (headers : List NucleusTradeHeaderModel),
        GetNucPowerOptionsDealList primary = Except.ok headers →
        ∀ hd ∈ headers, ∃ t, hd.Terms = [t] ∧ t.VolSeq = 0) ∧
    (∀ (primary : Except Error (Rows PTPRow)) (headers : List NucleusTradeHeaderModel),
        GetNucPTPDealList primary = Except.ok headers →
        ∀ hd ∈ headers, ∃ t, hd.Terms = [t] ∧ t.VolSeq = 0) ∧
    (∀ (primary : Except Error (Rows SpreadOptionsRow))
        (headers : List NucleusTradeHeaderModel),
        GetNucSpreadOptionsDealList primary = Except.ok headers →
        ∀ hd ∈ headers, ∃ t, hd.Terms = [t] ∧ t.VolSeq = 0) ∧
    (∀ (primary : Except Error (Rows HeatRateSwapsRow))
        (headers : List NucleusTradeHeaderModel),
        GetNucHeatRateSwapsDealList primary = Except.ok headers →
        ∀ hd ∈ headers, ∃ t, hd.Terms = [t] ∧ t.VolSeq = 0) ∧
    (∀ (primary : Except Error (Rows TCCFTRSRow)) (headers : List NucleusTradeHeaderModel),
        GetNucTCCFTRSDealList primary = Except.ok headers →
        ∀ hd ∈ headers, ∃ t, hd.Terms = [t] ∧ t.VolSeq = 0) ∧
    (∀ (rows : Rows PowerOptionsRow) (l : List PowerOptionsRow),
        rows.scanned = l.map Except.ok → rows.closeErr = none → rows.err = none →
        (∀ r ∈ l, ∃ h, powerOptionsHeaderOfRow r = Except.ok h) →
        ∃ headers, GetNucPowerOptionsDealList (Except.ok rows) = Except.ok headers ∧
          headers.length = l.length) ∧
    (∀ (rows : Rows PTPRow) (l : List PTPRow),
        rows.scanned = l.map Except.ok → rows.closeErr = none → rows.err = none →
        ∃ headers, GetNucPTPDealList (Except.ok rows) = Except.ok headers ∧
          headers.length = l.length) ∧
    (∀ (rows : Rows SpreadOptionsRow) (l : List SpreadOptionsRow),
        rows.scanned = l.map Except.ok → rows.closeErr = none → rows.err = none →
        (∀ r ∈ l, ∃ h, spreadOptionsHeaderOfRow r = Except.ok h) →
        ∃ headers, GetNucSpreadOptionsDealList (Except.ok rows) = Except.ok headers ∧
          headers.length = l.length) ∧
    (∀ (rows : Rows HeatRateSwapsRow) (l : List HeatRateSwapsRow),
        rows.scanned = l.map Except.ok → rows.closeErr = none → rows.err = none →
        (∀ r ∈ l, ∃ h, heatRateSwapsHeaderOfRow r = Except.ok h) →
        ∃ headers, GetNucHeatRateSwapsDealList (Except.ok rows) = Except.ok headers ∧
          headers.length = l.length) ∧
    (∀ (rows : Rows TCCFTRSRow) (l : List TCCFTRSRow),
        rows.scanned = l.map Except.ok → rows.closeErr = none → rows.err = none →
        ∃ headers, GetNucTCCFTRSDealList (Except.ok rows) = Except.ok headers ∧
          headers.length = l.length) := by
  refine ⟨?_, ?_, ?_, ?_, ?_, ?_, ?_, ?_, ?_, ?_⟩
  · intro primary headers h hd hmem
    obtain ⟨r, hr⟩ := collectHeaders_mem primary powerOptionsHeaderOfRow headers h hd hmem
    exact ⟨_, powerOptionsHeaderOfRow_terms hr, rfl⟩
  · exact GetNucPTPDealList_terms
  · intro primary headers h hd hmem
    obtain ⟨r, hr⟩ := collectHeaders_mem primary spreadOptionsHeaderOfRow headers h hd hmem
    exact ⟨_, spreadOptionsHeaderOfRow_terms hr, rfl⟩
  · intro primary headers h hd hmem
    obtain ⟨r, hr⟩ := collectHeaders_mem primary heatRateSwapsHeaderOfRow headers h hd hmem
    exact ⟨_, heatRateSwapsHeaderOfRow_terms hr, rfl⟩
  · intro primary headers h hd hmem
    obtain ⟨r, hr⟩ := collectHeaders_mem primary tccftrsHeaderOfRow headers h hd hmem
    exact ⟨_, tccftrsHeaderOfRow_terms hr, rfl⟩
  · intro rows l hs hc he hall
    obtain ⟨headers, hrun, hf⟩ :=
      collectHeaders_returns rows l powerOptionsHeaderOfRow hs hc he hall
    exact ⟨headers, hrun, (forall₂_getElem? _ l headers hf).1⟩
  · intro rows l hs hc he
    refine ⟨l.map ptpHeaderOfRow, ?_, List.length_map _ _⟩
    unfold GetNucPTPDealList
    simp only [scanLoop_ok rows l _ _ hs, hc, he, foldl_collect ptpHeaderOfRow l [],
      List.nil_append]
  · intro rows l hs hc he hall
    obtain ⟨headers, hrun, hf⟩ :=
      collectHeaders_returns rows l spreadOptionsHeaderOfRow hs hc he hall
    exact ⟨headers, hrun, (forall₂_getElem? _ l headers hf).1⟩
  · intro rows l hs hc he hall
    obtain ⟨headers, hrun, hf⟩ :=
      collectHeaders_returns rows l heatRateSwapsHeaderOfRow hs hc he hall
    exact ⟨headers, hrun, (forall₂_getElem? _ l headers hf).1⟩
  · intro rows l hs hc he
    obtain ⟨headers, hrun, hf⟩ :=
      collectHeaders_returns rows l tccftrsHeaderOfRow hs hc he (fun r _ => ⟨_, rfl⟩)
    exact ⟨headers, hrun, (forall₂_getElem? _ l headers hf).1⟩

/-- Witness of C22: the fetch of the sample heat-rate swap row returns one header, with
one term of volume sequence 0. -/
theorem C22_single_term_families_witness :
    (headersOf (GetNucHeatRateSwapsDealList (Except.ok sampleHeatRateSwapsRows))).length = 1 ∧
    ∀ hd ∈ headersOf (GetNucHeatRateSwapsDealList (Except.ok sampleHeatRateSwapsRows)),
      ∃ t, hd.Terms = [t] ∧ t.VolSeq = 0 :=
  ⟨by decide, C22_single_term_families_use_volume_sequence_zero.2.2.2.1
    (Except.ok sampleHeatRateSwapsRows)
    (headersOf (GetNucHeatRateSwapsDealList (Except.ok sampleHeatRateSwapsRows))) rfl⟩

/-- C25: heat-rate swap index slots. For every list of primary rows that are all mapped,
read from a cursor that reports no error, the fetch returns one header per row, in row
order; the single term of the header of a row has exactly one index in the first slot,
with the publication and index of leg 1 and an empty frequency, and exactly two indexes in
the second slot, both with the publication, index and frequency of leg 2. -/
theorem C25_heat_rate_swap_index_slots (rows : Rows HeatRateSwapsRow)
    (l : List HeatRateSwapsRow)
    (hs : rows.scanned = l.map Except.ok) (hc : rows.closeErr = none) (he : rows.err = none)
    (hall : ∀ r ∈ l, ∃ h, heatRateSwapsHeaderOfRow r = Except.ok h) :
    ∃ headers, GetNucHeatRateSwapsDealList (Except.ok rows) = Except.ok headers ∧
      headers.length = l.length ∧
      ∀ (i : Nat) (r : HeatRateSwapsRow), l[i]? = some r →
        ∃ hd t, headers[i]? = some hd ∧ hd.Terms = [t] ∧
          t.Indexes1 =
            [{ VolSeq := 0, Publication := r.publication1.getD [],
               PubIndex := r.pubIndex1.getD [], Frequency := [] }] ∧
          t.Indexes2 =
            [{ VolSeq := 0, Publication := r.publication2.getD [],
               PubIndex := r.pubIndex2.getD [], Frequency := r.frequency2.getD [] },
             { VolSeq := 0, Publication := r.publication2.getD [],
               PubIndex := r.pubIndex2.getD [], Frequency := r.frequency2.getD [] }] := by
  obtain ⟨headers, hrun, hf⟩ :=
    collectHeaders_returns rows l heatRateSwapsHeaderOfRow hs hc he hall
  obtain ⟨hlen, hidx⟩ := forall₂_getElem? _ l headers hf
  refine ⟨headers, hrun, hlen, ?_⟩
  intro i r hi
  obtain ⟨hd, hhd, hr⟩ := hidx i r hi
  exact ⟨hd, _, hhd, heatRateSwapsHeaderOfRow_terms hr, rfl, rfl⟩

/-- Witness of C25: the sample heat-rate swap row gives the index `NY DA LMP`/`61758` in
the first slot and twice the index `NYMEX`/`NG`/`MONTHLY` in the second. -/
theorem C25_heat_rate_swap_witness :
    ∃ headers, GetNucHeatRateSwapsDealList (Except.ok sampleHeatRateSwapsRows) =
        Except.ok headers ∧ headers.length = 1 ∧
      ∃ hd t, headers[0]? = some hd ∧ hd.Terms = [t] ∧
        t.Indexes1 =
          [{ VolSeq := 0, Publication := "NY DA LMP".toList, PubIndex := "61758".toList,
             Frequency := [] }] ∧
        t.Indexes2 =
          [{ VolSeq := 0, Publication := "NYMEX".toList, PubIndex := "NG".toList,
             Frequency := "MONTHLY".toList },
           { VolSeq := 0, Publication := "NYMEX".toList, PubIndex := "NG".toList,
             Frequency := "MONTHLY".toList }] :=
  match C25_heat_rate_swap_index_slots sampleHeatRateSwapsRows [sampleHeatRateSwapsRow]
      rfl rfl rfl (by decide) with
  | ⟨headers, h1, h2, h3⟩ => ⟨headers, h1, h2, h3 0 sampleHeatRateSwapsRow rfl⟩

/-! ## Missing execution timestamps -/

theorem executionTimeOf_missing {ed et : Option Str}
    (h : MissingText ed ∨ MissingText et) (current : Time) :
    executionTimeOf ed et current = Except.ok current := by
  unfold executionTimeOf
  cases ed with
  | none => rfl
  | some d =>
    cases et with
    | none => rfl
    | some t =>
      have hnot : ¬ (d ≠ [] ∧ t ≠ []) := by
        rintro ⟨hd, ht⟩
        rcases h with h | h
        · rcases h with h | h
          · exact Option.noConfusion h
          · exact hd (Option.some.inj h)
        · rcases h with h | h
          · exact Option.noConfusion h
          · exact ht (Option.some.inj h)
      simp only [if_neg hnot]

theorem transmissionHeaderOfRow_error_kind (r : TransmissionRow) (e : Fault)
    (h : transmissionHeaderOfRow r = Except.error e) : ∃ err, e = Fault.error err := by
  unfold transmissionHeaderOfRow at h
  cases ht : r.executionTime with
  | none => simp [ht] at h
  | some text =>
    cases hp : parseExecutionDate text with
    | ok t => simp [ht, hp] at h
    | error err =>
      simp only [ht, hp, Except.error.injEq] at h
      exact ⟨err, h.symm⟩

theorem parseExecutionDate_empty : parseExecutionDate [] = Except.error errBad := by
  decide

theorem transmissionHeaderOfRow_empty (r : TransmissionRow) (h : r.executionTime = some []) :
    transmissionHeaderOfRow r = Except.error (Fault.error errBad) := by
  unfold transmissionHeaderOfRow
  simp only [h, parseExecutionDate_empty]

/-- C24, as the code has it: a missing execution date or time is not an error in the
fetchers that read a date and a time, and the transmission fetcher, which reads a date
only, accepts a null date but not the empty text. For power deals, power swaps, power
options, capacity, emission deals, emission options, spread options and heat-rate swaps a
row whose execution date or time is null or empty maps to a header with the zero
execution time; a spread-option fetch over such rows returns one header per row, each
with the zero execution time. A transmission row with a null execution date maps to a
header with the zero execution time; a transmission row whose execution date is the
empty text does not map, and a fetch that reads such a row returns an error. -/
theorem C24_missing_timestamp_maps_to_zero_time :
    (∀ r : PowerRow, MissingText r.executionDate ∨ MissingText r.executionTime →
      ∃ hd, powerHeaderOfRow r = Except.ok hd ∧ hd.ExecutionTime = Time.zero) ∧
    (∀ r : PowerSwapRow, MissingText r.executionDate ∨ MissingText r.executionTime →
      ∃ hd, powerSwapHeaderOfRow r = Except.ok hd ∧ hd.ExecutionTime = Time.zero) ∧
    (∀ r : PowerOptionsRow, MissingText r.executionDate ∨ MissingText r.executionTime →
      ∃ hd, powerOptionsHeaderOfRow r = Except.ok hd ∧ hd.ExecutionTime = Time.zero) ∧
    (∀ r : CapacityRow, MissingText r.executionDate ∨ MissingText r.executionTime →
      ∃ hd, capacityHeaderOfRow r = Except.ok hd ∧ hd.ExecutionTime = Time.zero) ∧
    (∀ r : EmissionRow, MissingText r.executionDate ∨ MissingText r.executionTime →
      ∃ hd, emissionHeaderOfRow r = Except.ok hd ∧ hd.ExecutionTime = Time.zero) ∧
    (∀ r : EmissionOptionRow, MissingText r.executionDate ∨ MissingText r.executionTime →
      ∃ hd, emissionOptionHeaderOfRow r = Except.ok hd ∧ hd.ExecutionTime = Time.zero) ∧
    (∀ r : SpreadOptionsRow, MissingText r.executionDate ∨ MissingText r.executionTime →
      ∃ hd, spreadOptionsHeaderOfRow r = Except.ok hd ∧ hd.ExecutionTime = Time.zero) ∧
    (∀ r : HeatRateSwapsRow, MissingText r.executionDate ∨ MissingText r.executionTime →
      ∃ hd, heatRateSwapsHeaderOfRow r = Except.ok hd ∧ hd.ExecutionTime = Time.zero) ∧
    (∀ (rows : Rows SpreadOptionsRow) (l : List SpreadOptionsRow),
      rows.scanned = l.map Except.ok → rows.closeErr = none → rows.err = none →
      (∀ r ∈ l, MissingText r.executionDate ∨ MissingText r.executionTime) →
      ∃ headers, GetNucSpreadOptionsDealList (Except.ok rows) = Except.ok headers ∧
        headers.length = l.length ∧ ∀ hd ∈ headers, hd.ExecutionTime = Time.zero) ∧
    (∀ r : TransmissionRow, r.executionTime = none →
      ∃ hd, transmissionHeaderOfRow r = Except.ok hd ∧ hd.ExecutionTime = Time.zero) ∧
    (∀ r : TransmissionRow, r.executionTime = some [] →
      ∃ e, transmissionHeaderOfRow r = Except.error (Fault.error e)) ∧
    (∀ (rows : Rows TransmissionRow)
      (termQuery : List Int → Except Error (Rows TransmissionTermRow)) (r : TransmissionRow),
      Except.ok r ∈ rows.scanned → r.executionTime = some [] →
      ReturnsError (GetNucTransmissionDealList (Except.ok rows) termQuery)) := by
  refine ⟨?_, ?_, ?_, ?_, ?_, ?_, ?_, ?_, ?_, ?_, ?_, ?_⟩
  · intro r h
    unfold powerHeaderOfRow
    rw [executionTimeOf_missing h]
    exact ⟨_, rfl, rfl⟩
  · intro r h
    unfold powerSwapHeaderOfRow
    rw [executionTimeOf_missing h]
    exact ⟨_, rfl, rfl⟩
  · intro r h
    unfold powerOptionsHeaderOfRow
    rw [executionTimeOf_missing h]
    exact ⟨_, rfl, rfl⟩
  · intro r h
    unfold capacityHeaderOfRow
    rw [executionTimeOf_missing h]
    exact ⟨_, rfl, rfl⟩
  · intro r h
    unfold emissionHeaderOfRow
    rw [executionTimeOf_missing h]
    exact ⟨_, rfl, rfl⟩
  · intro r h
    unfold emissionOptionHeaderOfRow
    rw [executionTimeOf_missing h]
    exact ⟨_, rfl, rfl⟩
  · intro r h
    unfold spreadOptionsHeaderOfRow
    rw [executionTimeOf_missing h]
    exact ⟨_, rfl, rfl⟩
  · intro r h
    unfold heatRateSwapsHeaderOfRow
    rw [executionTimeOf_missing h]
    exact ⟨_, rfl, rfl⟩
  · intro rows l hs hc he hmiss
    have hrow : ∀ r ∈ l, spreadOptionsHeaderOfRow r = Except.ok
        { NucleusTradeHeaderModel.zero with
          DealKey := r.DealKey, DealType := r.DealType, DnDirection := r.DnDirection,
          TransactionDate := r.TransactionDate, CyCompanyKey := r.CyCompanyKey,
          Company := r.Company, CompanyLongName := r.CompanyLongName,
          CompanyCode := r.CompanyCode, LegalEntity := r.LegalEntity,
          LegalEntityLongName := r.LegalEntityLongName,
          CyLegalEntityKey := r.CyLegalEntityKey,
          Region := r.Region, PrtPortfolio := r.PrtPortfolio, Portfolio := r.Portfolio,
          UrTrader := r.UrTrader, StartDate := r.StartDate, EndDate := r.EndDate,
          CreatedBy := r.CreatedBy, ModifiedBy := r.ModifiedBy,
          CreatedAt := r.CreatedAt, ModifiedAt := r.ModifiedAt,
          Contract := r.contract.getD [],
          ConfirmFormat := r.confirmFormat.getD [],
          HsHedgeKey := r.hsHedgeKey.getD [],
          IbPrtPortfolio := r.ibPrtPortfolio.getD 0,
          IbPortfolio := r.ibPortfolio.getD [],
          IbUrTrader := r.ibUrTrader.getD [],
          TzTimeZone := r.tzTimeZone.getD [],
          HasBroker := r.hasBroker.getD [],
          Broker := r.broker.getD [],
          ExoticFlag := r.exoticFlag.getD [],
          InteraffiliateFlag := ['N'],
          ExecutionTime := Time.zero,
          Terms := [spreadOptionsTermOfRow r] } := by
      intro r hr
      unfold spreadOptionsHeaderOfRow
      rw [executionTimeOf_missing (hmiss r hr)]
    refine ⟨_, collectHeaders_ok rows l spreadOptionsHeaderOfRow _ hs hc he
      (forall₂_of_forall _ _ l hrow), by simp, ?_⟩
    intro hd hmem
    obtain ⟨r, _, hrd⟩ := List.mem_map.1 hmem
    rw [← hrd]
  · intro r h
    unfold transmissionHeaderOfRow
    simp only [h]
    exact ⟨_, rfl, rfl⟩
  · intro r h
    exact ⟨errBad, transmissionHeaderOfRow_empty r h⟩
  · intro rows termQuery r hm h
    obtain ⟨f, hf⟩ := scanLoop_fails_of_mem rows FetchState.init
      (fun st r =>
        match transmissionHeaderOfRow r with
        | Except.error e => Except.error e
        | Except.ok headerModel => Except.ok (registerHeader st headerModel)) r hm
      (fun s => ⟨Fault.error errBad, by simp only [transmissionHeaderOfRow_empty r h]⟩)
    obtain ⟨err, herr⟩ := scanLoop_error_kind rows FetchState.init _
      (fun s a e hstep => by
        split at hstep
        · rename_i e' he'
          simp only [Except.error.injEq] at hstep
          rw [← hstep]
          exact transmissionHeaderOfRow_error_kind a e' he'
        · exact Except.noConfusion hstep) f hf
    refine ⟨err, ?_⟩
    unfold GetNucTransmissionDealList
    simp only [hf, herr]

/-- Witness of C24: the spread-option rows with execution date `05/26/2022` and the empty
execution time are returned, each with the zero execution time; the fetch of a
transmission row whose execution date is the empty text returns an error. -/
theorem C24_missing_timestamp_witness :
    (∃ headers, GetNucSpreadOptionsDealList (Except.ok sampleSpreadOptionsRows) =
        Except.ok headers ∧
      headers.length = 2 ∧ ∀ hd ∈ headers, hd.ExecutionTime = Time.zero) ∧
    MissingText sampleTransmissionRow.executionTime ∧
    ReturnsError (GetNucTransmissionDealList (Except.ok sampleTransmissionRows)
      (fun _ => Except.ok sampleTransmissionTermRows)) :=
  ⟨C24_missing_timestamp_maps_to_zero_time.2.2.2.2.2.2.2.2.1 sampleSpreadOptionsRows
    [sampleSpreadOptionsRow, { sampleSpreadOptionsRow with DealKey := 77294, Volume := 117 }]
    rfl rfl rfl (by decide),
    by decide,
    C24_missing_timestamp_maps_to_zero_time.2.2.2.2.2.2.2.2.2.2.2 sampleTransmissionRows
      (fun _ => Except.ok sampleTransmissionTermRows) sampleTransmissionRow
      (List.mem_cons_self _ _) rfl⟩

/-- The error of that fetch: a transmission row whose execution date is the empty text
makes the fetch return the parse error of the empty text. -/
theorem GetNucTransmissionDealList_empty_date :
    GetNucTransmissionDealList (Except.ok sampleTransmissionRows)
        (fun _ => Except.ok sampleTransmissionTermRows) =
      Except.error (Fault.error errBad) := by
  decide

/-! ## Power deals: the formula map -/

theorem hasFormula_iff (r : PowerTermRow) :
    hasFormula r = true ↔ ∃ f, r.formula = some f ∧ f ≠ [] := by
  unfold hasFormula
  cases r.formula with
  | none => simp
  | some f => simp

theorem powerTermStep_fst (r : PowerTermRow)
    (st : GoMap (List NucleusTradeTermModel) × GoMap Int) :
    (powerTermStep st r).1 = mapAppend st.1 r.powerKey (powerTermOfRow r) := rfl

theorem powerTermStep_snd (r : PowerTermRow)
    (st : GoMap (List NucleusTradeTermModel) × GoMap Int) :
    (powerTermStep st r).2 =
      if hasFormula r = true then mapSet st.2 r.powerKey r.VolSeq else st.2 := by
  unfold powerTermStep hasFormula
  cases r.formula with
  | none => simp
  | some f =>
    by_cases hf : f = []
    · simp [hf]
    · simp [hf]

theorem foldl_powerTermStep_fst :
    ∀ (tl : List PowerTermRow) (st : GoMap (List NucleusTradeTermModel) × GoMap Int),
      (tl.foldl powerTermStep st).1 =
        tl.foldl (fun m r => mapAppend m r.powerKey (powerTermOfRow r)) st.1
  | [], _ => rfl
  | r :: tl, st => by
    rw [List.foldl_cons, List.foldl_cons, foldl_powerTermStep_fst tl, powerTermStep_fst]

theorem foldl_powerTermStep_snd :
    ∀ (tl : List PowerTermRow) (st : GoMap (List NucleusTradeTermModel) × GoMap Int),
      (tl.foldl powerTermStep st).2 =
        tl.foldl
          (fun fm r => if hasFormula r = true then mapSet fm r.powerKey r.VolSeq else fm) st.2
  | [], _ => rfl
  | r :: tl, st => by
    rw [List.foldl_cons, List.foldl_cons, foldl_powerTermStep_snd tl, powerTermStep_snd]

/-- A loop of guarded assignments leaves under each key the value of the last row of the
key that passes the guard. -/
theorem foldl_guardedSet_get {α V : Type} (guard : α → Bool) (key : α → Int) (val : α → V)
    (k : Int) :
    ∀ (l : List α) (acc : GoMap V),
      mapGet (l.foldl (fun m r => if guard r = true then mapSet m (key r) (val r) else m) acc) k =
        (((l.filter (fun r => decide (key r = k) && guard r)).getLast?).map val).or
          (mapGet acc k)
  | [], acc => by simp
  | r :: l, acc => by
    rw [List.foldl_cons, foldl_guardedSet_get guard key val k l]
    by_cases hg : guard r = true
    · by_cases hk : key r = k
      · subst hk
        have hcons : ∀ (fl : List α), (r :: fl).getLast? = fl.getLast?.or (some r) := by
          intro fl
          have := @List.getLast?_append α [r] fl
          simpa using this
        simp only [hg, if_true, mapGet_mapSet_self, List.filter_cons, decide_True,
          Bool.and_self, hcons]
        cases (List.filter (fun r_1 => decide (key r_1 = key r) && guard r_1) l).getLast? <;>
          simp
      · have hk' : k ≠ key r := fun e => hk e.symm
        simp only [hg, if_true, mapGet_mapSet_of_ne _ _ hk', List.filter_cons, hk,
          decide_False, Bool.false_and]
        rfl
    · simp only [hg, List.filter_cons, Bool.and_false]
      rfl

theorem foldl_guardedSet_nodup {α V : Type} (guard : α → Bool) (key : α → Int) (val : α → V) :
    ∀ (l : List α) (acc : GoMap V), (acc.map Prod.fst).Nodup →
      ((l.foldl (fun m r => if guard r = true then mapSet m (key r) (val r) else m)
        acc).map Prod.fst).Nodup
  | [], _, h => h
  | r :: l, acc, h => by
    rw [List.foldl_cons]
    apply foldl_guardedSet_nodup guard key val l
    split
    · exact mapSet_nodup _ _ _ h
    · exact h

theorem foldl_guardedSet_of_false {α V : Type} (guard : α → Bool) (key : α → Int)
    (val : α → V) :
    ∀ (l : List α) (acc : GoMap V), (∀ r ∈ l, guard r = false) →
      l.foldl (fun m r => if guard r = true then mapSet m (key r) (val r) else m) acc = acc
  | [], _, _ => rfl
  | r :: l, acc, h => by
    rw [List.foldl_cons]
    have hr := h r (List.mem_cons_self _ _)
    simp only [hr, Bool.false_eq_true, if_false]
    exact foldl_guardedSet_of_false guard key val l acc
      (fun x hx => h x (List.mem_cons_of_mem _ hx))

/-- The term fetcher of power deals on rows that scan, read from a cursor that closes
without error: the index lookup is made for the formula map of the rows, and its indexes
are attached to the term map of the rows. -/
theorem getNucPowerDealTradeTermModel_of_rows
    (termQuery : List Int → Except Error (Rows PowerTermRow))
    (indexQuery : GoMap Int → Except Error (Rows PowerIndexRow)) (dealKeys : List Int)
    (rows : Rows PowerTermRow) (tl : List PowerTermRow) (hk : dealKeys ≠ [])
    (hq : termQuery dealKeys = Except.ok rows) (hs : rows.scanned = tl.map Except.ok)
    (hc : rows.closeErr = none) (he : rows.err = none) :
    getNucPowerDealTradeTermModel termQuery indexQuery dealKeys =
      (getNucPowerTradeIndexModel indexQuery (powerFormulaMap tl)).map
        (powerAttachIndexes (powerTermMap tl)) := by
  have hlen : ¬ dealKeys.length = 0 := fun h0 => hk (List.length_eq_zero.1 h0)
  unfold getNucPowerDealTradeTermModel powerFormulaMap powerTermMap
  simp only [if_neg hlen, hq, scanLoop_ok rows tl _ _ hs, hc, he]
  cases getNucPowerTradeIndexModel indexQuery (tl.foldl powerTermStep ([], [])).2 <;> rfl

/-- C27: power-deal index lookup keys. For every list of power term rows, the formula map
passed to the index lookup has at most one pair per deal key, and the pair of a key
carries the volume sequence of the last term row of that key with a non-null, non-empty
formula (a key without such a row has no pair); when no row has a formula the map is
empty and the lookup returns no index without asking the store; and the term fetcher
passes exactly this map to the index lookup. -/
theorem C27_power_index_lookup_keys (tl : List PowerTermRow) :
    ((powerFormulaMap tl).map Prod.fst).Nodup ∧
    (∀ k : Int, mapGet (powerFormulaMap tl) k =
      ((tl.filter (fun r => decide (r.powerKey = k) && hasFormula r)).getLast?).map
        (fun r => r.VolSeq)) ∧
    ((∀ r ∈ tl, hasFormula r = false) →
      powerFormulaMap tl = [] ∧
      ∀ indexQuery : GoMap Int → Except Error (Rows PowerIndexRow),
        getNucPowerTradeIndexModel indexQuery (powerFormulaMap tl) = Except.ok []) ∧
    (∀ (termQuery : List Int → Except Error (Rows PowerTermRow))
      (indexQuery : GoMap Int → Except Error (Rows PowerIndexRow)) (dealKeys : List Int)
      (rows : Rows PowerTermRow),
      dealKeys ≠ [] → termQuery dealKeys = Except.ok rows →
      rows.scanned = tl.map Except.ok → rows.closeErr = none → rows.err = none →
      getNucPowerDealTradeTermModel termQuery indexQuery dealKeys =
        (getNucPowerTradeIndexModel indexQuery (powerFormulaMap tl)).map
          (powerAttachIndexes (powerTermMap tl))) := by
  refine ⟨?_, ?_, ?_, ?_⟩
  · unfold powerFormulaMap
    rw [foldl_powerTermStep_snd]
    exact foldl_guardedSet_nodup _ _ _ tl [] (by simp)
  · intro k
    unfold powerFormulaMap
    rw [foldl_powerTermStep_snd, foldl_guardedSet_get hasFormula (fun r => r.powerKey)
      (fun r => r.VolSeq) k tl []]
    simp [mapGet]
  · intro h
    have hnil : powerFormulaMap tl = [] := by
      unfold powerFormulaMap
      rw [foldl_powerTermStep_snd]
      exact foldl_guardedSet_of_false _ _ _ tl [] h
    refine ⟨hnil, ?_⟩
    intro indexQuery
    rw [hnil]
    rfl
  · intro termQuery indexQuery dealKeys rows hk hq hs hc he
    exact getNucPowerDealTradeTermModel_of_rows termQuery indexQuery dealKeys rows tl hk hq
      hs hc he

/-- Witness of C27: of the two formula-bearing rows of key 11, with volume sequences 0
and 1, only the pair (11, 1) is looked up; key 12, without formula, has no pair. -/
theorem C27_power_index_lookup_witness :
    powerFormulaMap samplePowerTermList = [(11, 1)] ∧
    getNucPowerTradeIndexModel (fun _ => Except.error sampleQueryError)
        (powerFormulaMap [{ samplePowerTermRow with formula := none }]) = Except.ok [] ∧
    getNucPowerDealTradeTermModel (fun _ => Except.ok samplePowerTermRows3)
        (fun _ => Except.error sampleQueryError) [11, 12] =
      (getNucPowerTradeIndexModel (fun _ => Except.error sampleQueryError)
        (powerFormulaMap samplePowerTermList)).map
          (powerAttachIndexes (powerTermMap samplePowerTermList)) :=
  ⟨by decide,
    ((C27_power_index_lookup_keys [{ samplePowerTermRow with formula := none }]).2.2.1
      (by decide)).2 (fun _ => Except.error sampleQueryError),
    (C27_power_index_lookup_keys samplePowerTermList).2.2.2
      (fun _ => Except.ok samplePowerTermRows3) (fun _ => Except.error sampleQueryError)
      [11, 12] samplePowerTermRows3 (by decide) rfl rfl rfl rfl⟩

/-! ## Power deals: the index splice -/

theorem withIndexesOf_nil (t : NucleusTradeTermModel) : withIndexesOf [] t = t := by
  cases t
  simp [withIndexesOf]

theorem withIndexesOf_cons (x : NucleusTradeIndexModel) (idxs : List NucleusTradeIndexModel)
    (t : NucleusTradeTermModel) :
    withIndexesOf idxs (withIndexesOf [x] t) = withIndexesOf (x :: idxs) t := by
  cases t
  simp only [withIndexesOf, List.filter_cons, List.filter_nil]
  split <;> simp

theorem powerAttachIndex_get (tm : GoMap (List NucleusTradeTermModel)) (k : Int)
    (x : NucleusTradeIndexModel) (k' : Int) :
    mapGet (powerAttachIndex tm k x) k' =
      if k' = k then (mapGet tm k).map (List.map (withIndexesOf [x])) else mapGet tm k' := by
  unfold powerAttachIndex
  cases hg : mapGet tm k with
  | none =>
    by_cases hk : k' = k
    · simp [hk, hg]
    · simp [hk]
  | some terms =>
    by_cases hk : k' = k
    · subst hk
      simp only [mapGet_mapSet_self, if_true, Option.map_some', Option.some.injEq]
      apply List.map_congr_left
      intro t _
      cases t
      simp only [withIndexesOf, List.filter_cons, List.filter_nil]
      split <;> simp_all
    · simp only [hk, if_false]
      exact mapGet_mapSet_of_ne _ _ hk

/-- The indexes of one deal key, offered to the terms of that key: the other keys keep
their terms. -/
theorem foldl_powerAttachIndex_get (k : Int) :
    ∀ (idxs : List NucleusTradeIndexModel) (tm : GoMap (List NucleusTradeTermModel))
      (k' : Int),
      mapGet (idxs.foldl (fun tm x => powerAttachIndex tm k x) tm) k' =
        if k' = k then (mapGet tm k).map (List.map (withIndexesOf idxs)) else mapGet tm k'
  | [], tm, k' => by
    by_cases hk : k' = k
    · subst hk
      simp only [List.foldl_nil, if_true]
      cases mapGet tm k' with
      | none => rfl
      | some terms =>
        simp only [Option.map_some', Option.some.injEq]
        conv_lhs => rw [← List.map_id terms]
        apply List.map_congr_left
        intro t _
        exact (withIndexesOf_nil t).symm
    · simp [hk]
  | x :: idxs, tm, k' => by
    rw [List.foldl_cons, foldl_powerAttachIndex_get k idxs]
    by_cases hk : k' = k
    · subst hk
      simp only [if_true, powerAttachIndex_get]
      cases mapGet tm k' with
      | none => rfl
      | some terms =>
        simp only [Option.map_some', Option.some.injEq, List.map_map]
        apply List.map_congr_left
        intro t _
        exact withIndexesOf_cons x idxs t
    · simp only [hk, if_false, powerAttachIndex_get]

/-- The index splice of `getNucPowerDealTradeTermModel`, for an index map without
repeated key: every term is offered the indexes stored under its deal key. -/
theorem powerAttachIndexes_get :
    ∀ (im : GoMap (List NucleusTradeIndexModel)) (tm : GoMap (List NucleusTradeTermModel))
      (k : Int), (im.map Prod.fst).Nodup →
      mapGet (powerAttachIndexes tm im) k =
        (mapGet tm k).map (List.map (withIndexesOf ((mapGet im k).getD [])))
  | [], tm, k, _ => by
    simp only [powerAttachIndexes, List.foldl_nil, mapGet, Option.getD_none]
    cases mapGet tm k with
    | none => rfl
    | some terms =>
      simp only [Option.map_some', Option.some.injEq]
      conv_lhs => rw [← List.map_id terms]
      apply List.map_congr_left
      intro t _
      exact (withIndexesOf_nil t).symm
  | (k0, idxs0) :: im, tm, k, hn => by
    simp only [List.map_cons, List.nodup_cons] at hn
    have ih := powerAttachIndexes_get im
      (idxs0.foldl (fun tm x => powerAttachIndex tm k0 x) tm) k hn.2
    unfold powerAttachIndexes at ih ⊢
    rw [List.foldl_cons, ih, foldl_powerAttachIndex_get]
    by_cases hk : k = k0
    · subst hk
      have hnone : mapGet im k = none := (mapGet_eq_none_iff im k).2 hn.1
      simp only [if_true, hnone, Option.getD_none, mapGet, Option.getD_some]
      cases mapGet tm k with
      | none => rfl
      | some terms =>
        simp only [Option.map_some', Option.some.injEq, List.map_map]
        apply List.map_congr_left
        intro t _
        exact withIndexesOf_nil _
    · have hk' : ¬ k0 = k := fun e => hk e.symm
      simp only [hk, if_false, mapGet, hk']

theorem getNucPowerTradeIndexModel_of_rows
    (indexQuery : GoMap Int → Except Error (Rows PowerIndexRow)) (formulaMap : GoMap Int)
    (rows : Rows PowerIndexRow) (il : List PowerIndexRow) (hne : formulaMap ≠ [])
    (hq : indexQuery formulaMap = Except.ok rows) (hs : rows.scanned = il.map Except.ok)
    (hc : rows.closeErr = none) (he : rows.err = none) :
    getNucPowerTradeIndexModel indexQuery formulaMap =
      Except.ok (il.foldl (fun m r => mapAppend m r.dealKey (powerIndexOfRow r)) []) := by
  have hlen : ¬ formulaMap.length = 0 := fun h0 => hne (List.length_eq_zero.1 h0)
  unfold getNucPowerTradeIndexModel
  simp only [if_neg hlen, hq, scanLoop_ok rows il _ _ hs, hc, he]
  rfl

/-- C23: power-deal indexes are attached by deal key and volume sequence. For every list
of term rows of which one has a formula and every list of index rows that the lookup
returns, the term fetcher returns a map in which the terms under deal key k are those of
the term rows of key k, in row order, and the first index slot of the term of a row with
volume sequence v holds exactly the indexes of the index rows with deal key k and volume
sequence v, in index-row order; a key without term row is absent, so index rows that
match no term are dropped. -/
theorem C23_power_indexes_attached_by_key_and_volume_sequence
    (termQuery : List Int → Except Error (Rows PowerTermRow))
    (indexQuery : GoMap Int → Except Error (Rows PowerIndexRow)) (dealKeys : List Int)
    (termRows : Rows PowerTermRow) (tl : List PowerTermRow)
    (indexRows : Rows PowerIndexRow) (il : List PowerIndexRow)
    (hk : dealKeys ≠ []) (hq : termQuery dealKeys = Except.ok termRows)
    (hs : termRows.scanned = tl.map Except.ok) (hc : termRows.closeErr = none)
    (he : termRows.err = none) (hform : ∃ r ∈ tl, hasFormula r = true)
    (hiq : indexQuery (powerFormulaMap tl) = Except.ok indexRows)
    (his : indexRows.scanned = il.map Except.ok) (hic : indexRows.closeErr = none)
    (hie : indexRows.err = none) :
    ∃ m, getNucPowerDealTradeTermModel termQuery indexQuery dealKeys = Except.ok m ∧
      ∀ k : Int,
        (mapGet m k).getD [] =
          (tl.filter (fun r => decide (r.powerKey = k))).map
            (fun r =>
              { powerTermOfRow r with
                Indexes1 :=
                  (il.filter
                    (fun x => decide (x.dealKey = k) && decide (x.VolSeq = r.VolSeq))).map
                    powerIndexOfRow }) ∧
        (mapGet m k = none ↔ tl.filter (fun r => decide (r.powerKey = k)) = []) := by
  have hne : powerFormulaMap tl ≠ [] := by
    obtain ⟨r, hr, hf⟩ := hform
    obtain ⟨f, hf1, hf2⟩ := (hasFormula_iff r).1 hf
    exact formulaMap_ne_nil tl ([], []) (Or.inr ⟨r, hr, f, hf1, hf2⟩)
  have him : ((il.foldl (fun m r => mapAppend m r.dealKey (powerIndexOfRow r))
      ([] : GoMap (List NucleusTradeIndexModel))).map Prod.fst).Nodup :=
    foldl_mapAppend_nodup _ _ il [] (by simp)
  refine ⟨powerAttachIndexes (powerTermMap tl)
    (il.foldl (fun m r => mapAppend m r.dealKey (powerIndexOfRow r)) []), ?_, ?_⟩
  · rw [getNucPowerDealTradeTermModel_of_rows termQuery indexQuery dealKeys termRows tl hk hq
      hs hc he, getNucPowerTradeIndexModel_of_rows indexQuery _ indexRows il hne hiq his hic
      hie]
    rfl
  · intro k
    rw [powerAttachIndexes_get _ _ k him]
    have htm : powerTermMap tl =
        tl.foldl (fun m r => mapAppend m r.powerKey (powerTermOfRow r)) [] := by
      unfold powerTermMap
      rw [foldl_powerTermStep_fst]
    have hget := foldl_mapAppend_get (fun r : PowerTermRow => r.powerKey) powerTermOfRow k tl []
    have hnone := foldl_mapAppend_none (fun r : PowerTermRow => r.powerKey) powerTermOfRow k
      tl []
    have hidx := foldl_mapAppend_get (fun r : PowerIndexRow => r.dealKey) powerIndexOfRow k
      il []
    simp only [mapGet, Option.getD_none, List.nil_append, true_and] at hget hnone hidx
    rw [htm, hidx]
    refine ⟨?_, ?_⟩
    · cases hg : mapGet (tl.foldl (fun m r => mapAppend m r.powerKey (powerTermOfRow r)) [])
          k with
      | none =>
        rw [hnone] at hg
        simp [hg]
      | some terms =>
        rw [hg] at hget
        simp only [Option.getD_some] at hget
        simp only [Option.map_some', Option.getD_some, hget, List.map_map]
        apply List.map_congr_left
        intro r _
        simp only [Function.comp, withIndexesOf, powerTermOfRow, List.nil_append,
          List.filter_map, List.filter_filter]
        congr 1
        show [] ++ _ = _
        rw [List.nil_append]
        congr 1
        apply List.filter_congr
        intro x _
        simp only [powerIndexOfRow]
        by_cases h1 : x.dealKey = k <;> by_cases h2 : r.VolSeq = x.VolSeq <;>
          simp [h1, h2, eq_comm]
    · rw [← hnone]
      cases mapGet (tl.foldl (fun m r => mapAppend m r.powerKey (powerTermOfRow r)) []) k <;>
        simp

/-- Witness of C23: the terms of key 11 with volume sequences 0 and 1 get the index of
the row (11, 0) and, in row order, the two indexes of the rows (11, 1); the index rows
(11, 7) and (99, 0) match no term and are dropped. -/
theorem C23_power_indexes_witness :
    ∃ m, getNucPowerDealTradeTermModel (fun _ => Except.ok samplePowerTermRows3)
        (fun _ => Except.ok samplePowerIndexRows) [11, 12] = Except.ok m ∧
      ((mapGet m 11).getD []).map
          (fun t => (t.VolSeq, t.Indexes1.map (fun x => (x.Publication, x.PubIndex)))) =
        [(0, [("MISO DALMP".toList, "AMIL".toList)]),
         (1, [("MISO DALMP".toList, "PJMC".toList), ("MISO RTLMP".toList, "PJMC".toList)])] ∧
      ((mapGet m 12).getD []).map (fun t => t.Indexes1) = [[]] ∧
      mapGet m 99 = none :=
  match C23_power_indexes_attached_by_key_and_volume_sequence
      (fun _ => Except.ok samplePowerTermRows3) (fun _ => Except.ok samplePowerIndexRows)
      [11, 12] samplePowerTermRows3 samplePowerTermList samplePowerIndexRows
      samplePowerIndexList (by decide) rfl rfl rfl rfl (by decide) rfl rfl rfl rfl with
  | ⟨m, h1, h2⟩ =>
    ⟨m, h1, by rw [(h2 11).1]; decide, by rw [(h2 12).1]; decide, (h2 99).2.2 (by decide)⟩

/-! ## Duplicate deal keys in the power-deal rows -/

theorem setTermsAt_ok {heap : List NucleusTradeHeaderModel} {p : Nat}
    {h : NucleusTradeHeaderModel} (hp : heap[p]? = some h) (terms : List NucleusTradeTermModel) :
    setTermsAt heap p terms = Except.ok (heap.set p { h with Terms := terms }) := by
  unfold setTermsAt
  rw [hp]

/-- The loop over the header map, for pointers that are valid and pairwise distinct: it
succeeds, the header at each pointer of the map gets the terms of the key of that entry,
and every other header is left as it was. -/
theorem powerAttachTerms_spec (termModelsMap : GoMap (List NucleusTradeTermModel)) :
    ∀ (entries : GoMap Nat) (heap : List NucleusTradeHeaderModel),
      (entries.map Prod.snd).Nodup → (∀ e ∈ entries, e.2 < heap.length) →
      ∃ heap', powerAttachTerms termModelsMap entries heap = Except.ok heap' ∧
        heap'.length = heap.length ∧
        (∀ e ∈ entries, ∃ h, heap[e.2]? = some h ∧
          heap'[e.2]? = some { h with Terms := (mapGet termModelsMap e.1).getD [] }) ∧
        (∀ i, i ∉ entries.map Prod.snd → heap'[i]? = heap[i]?)
  | [], heap, _, _ => ⟨heap, rfl, rfl, fun e he => absurd he (List.not_mem_nil _), fun _ _ => rfl⟩
  | e :: es, heap, hn, hv => by
    simp only [List.map_cons, List.nodup_cons] at hn
    have hlt : e.2 < heap.length := hv e (List.mem_cons_self _ _)
    have hget : heap[e.2]? = some heap[e.2] := List.getElem?_eq_getElem hlt
    obtain ⟨heap', hrun, hlen, hin, hout⟩ :=
      powerAttachTerms_spec termModelsMap es
        (heap.set e.2 { heap[e.2] with Terms := (mapGet termModelsMap e.1).getD [] }) hn.2
        (fun x hx => by
          rw [List.length_set]
          exact hv x (List.mem_cons_of_mem _ hx))
    refine ⟨heap', ?_, ?_, ?_, ?_⟩
    · unfold powerAttachTerms
      rw [List.foldlM_cons, setTermsAt_ok hget]
      exact hrun
    · rw [hlen, List.length_set]
    · intro x hx
      rcases List.mem_cons.1 hx with hx | hx
      · subst hx
        refine ⟨heap[x.2], hget, ?_⟩
        rw [hout x.2 hn.1, List.getElem?_set_self hlt]
      · obtain ⟨h, h1, h2⟩ := hin x hx
        have hne : e.2 ≠ x.2 := by
          intro heq
          apply hn.1
          rw [heq]
          exact List.mem_map_of_mem Prod.snd hx
        rw [List.getElem?_set_ne hne] at h1
        exact ⟨h, h1, h2⟩
    · intro i hi
      simp only [List.map_cons, List.mem_cons, not_or] at hi
      rw [hout i hi.2, List.getElem?_set_ne (fun h => hi.1 h.symm)]

/-- The state of the row loop of `GetNucPowerDealList` after the rows `l`: one header per
row, in row order and without terms, and for each deal key of the rows a pointer to the
header of the last row with that key. -/
theorem powerRowLoop_last (l : List PowerRow) :
    ∀ st, l.foldlM powerRowStep FetchState.init = Except.ok st →
      st.headerModels.length = l.length ∧
      (∀ (i : Nat) (r : PowerRow), l[i]? = some r →
        ∃ hd, st.headerModels[i]? = some hd ∧ powerHeaderOfRow r = Except.ok hd) ∧
      (st.headerModelsMap.map Prod.fst).Nodup ∧
      (∀ e ∈ st.headerModelsMap, ∃ r, l[e.2]? = some r ∧ r.DealKey = e.1 ∧
        ∀ (j : Nat) (r' : PowerRow), e.2 < j → l[j]? = some r' → r'.DealKey ≠ e.1) ∧
      (∀ (i : Nat) (r : PowerRow), l[i]? = some r →
        r.DealKey ∈ st.headerModelsMap.map Prod.fst) := by
  induction l using List.reverseRecOn with
  | nil =>
    intro st h
    simp only [List.foldlM_nil, pure, Except.pure, Except.ok.injEq] at h
    subst h
    simp [FetchState.init]
  | append_singleton l r ih =>
    intro st h
    rw [List.foldlM_append] at h
    cases hl : l.foldlM powerRowStep FetchState.init with
    | error e =>
      rw [hl] at h
      exact Except.noConfusion h
    | ok st0 =>
      rw [hl] at h
      obtain ⟨hlen, hhd, hnd, hlast, hkeys⟩ := ih st0 hl
      simp only [bind, Except.bind, List.foldlM_cons, List.foldlM_nil, pure, Except.pure] at h
      cases hh : powerHeaderOfRow r with
      | error e =>
        unfold powerRowStep at h
        simp [hh] at h
      | ok hdr =>
        have hstep : powerRowStep st0 r = Except.ok
            { st0 with
              dealKeys := st0.dealKeys ++ [hdr.DealKey]
              headerModelsMap := mapSet st0.headerModelsMap hdr.DealKey st0.headerModels.length
              headerModels := st0.headerModels ++ [hdr] } := by
          unfold powerRowStep
          rw [hh]
        have hkey : hdr.DealKey = r.DealKey := (powerHeaderOfRow_terms hh).2
        rw [hstep] at h
        simp only [Except.ok.injEq] at h
        subst h
        simp only
        refine ⟨?_, ?_, ?_, ?_, ?_⟩
        · simp [hlen]
        · intro i x hx
          by_cases hi : i < l.length
          · rw [List.getElem?_append_left hi] at hx
            obtain ⟨hd, h1, h2⟩ := hhd i x hx
            refine ⟨hd, ?_, h2⟩
            rw [List.getElem?_append_left (by rw [hlen]; exact hi)]
            exact h1
          · have hi' : l.length ≤ i := Nat.le_of_not_lt hi
            rw [List.getElem?_append_right hi'] at hx
            have hz : i - l.length = 0 := by
              by_contra hz
              have : [r][i - l.length]? = none := by
                apply List.getElem?_eq_none
                simp only [List.length_singleton]
                omega
              rw [this] at hx
              exact Option.noConfusion hx
            rw [hz] at hx
            simp only [List.getElem?_cons_zero, Option.some.injEq] at hx
            subst hx
            refine ⟨hdr, ?_, hh⟩
            rw [List.getElem?_append_right (by rw [hlen]; exact hi'), hlen, hz]
            rfl
        · exact mapSet_nodup _ _ _ hnd
        · intro e he
          rcases mem_mapSet _ _ _ e hnd he with he | ⟨he, hne⟩
          · subst he
            refine ⟨r, ?_, hkey.symm, ?_⟩
            · simp only
              rw [hlen, List.getElem?_append_right (Nat.le_refl _), Nat.sub_self]
              rfl
            · intro j r' hj hr'
              simp only at hj
              rw [hlen] at hj
              have : (l ++ [r])[j]? = none := by
                apply List.getElem?_eq_none
                simp only [List.length_append, List.length_singleton]
                omega
              rw [this] at hr'
              exact Option.noConfusion hr'
          · obtain ⟨r0, h1, h2, h3⟩ := hlast e he
            have hlt : e.2 < l.length := by
              by_contra hc
              rw [List.getElem?_eq_none (Nat.le_of_not_lt hc)] at h1
              exact Option.noConfusion h1
            refine ⟨r0, ?_, h2, ?_⟩
            · rw [List.getElem?_append_left hlt]
              exact h1
            · intro j r' hj hr'
              by_cases hjl : j < l.length
              · rw [List.getElem?_append_left hjl] at hr'
                exact h3 j r' hj hr'
              · have hj' : l.length ≤ j := Nat.le_of_not_lt hjl
                rw [List.getElem?_append_right hj'] at hr'
                have hz : j - l.length = 0 := by
                  by_contra hz
                  have : [r][j - l.length]? = none := by
                    apply List.getElem?_eq_none
                    simp only [List.length_singleton]
                    omega
                  rw [this] at hr'
                  exact Option.noConfusion hr'
                rw [hz] at hr'
                simp only [List.getElem?_cons_zero, Option.some.injEq] at hr'
                subst hr'
                rw [← hkey]
                exact fun hc => hne hc.symm
        · intro i x hx
          rw [mapSet_keys]
          by_cases hi : i < l.length
          · rw [List.getElem?_append_left hi] at hx
            have := hkeys i x hx
            split
            · exact this
            · exact List.mem_append_left _ this
          · have hi' : l.length ≤ i := Nat.le_of_not_lt hi
            rw [List.getElem?_append_right hi'] at hx
            have hz : i - l.length = 0 := by
              by_contra hz
              have : [r][i - l.length]? = none := by
                apply List.getElem?_eq_none
                simp only [List.length_singleton]
                omega
              rw [this] at hx
              exact Option.noConfusion hx
            rw [hz] at hx
            simp only [List.getElem?_cons_zero, Option.some.injEq] at hx
            subst hx
            rw [hkey]
            split
            · rename_i hm
              exact hm
            · exact List.mem_append_right _ (List.mem_singleton_self _)

theorem eraseTerms_withTerms (h : NucleusTradeHeaderModel) (terms : List NucleusTradeTermModel)
    (h0 : h.Terms = []) : eraseTerms { h with Terms := terms } = h := by
  cases h
  simp only at h0
  subst h0
  rfl

theorem eraseTerms_of_empty (h : NucleusTradeHeaderModel) (h0 : h.Terms = []) :
    eraseTerms h = h := by
  cases h
  simp only at h0
  subst h0
  rfl

/-- The pointers of the header map after the row loop of `GetNucPowerDealList` are
pairwise distinct and point into the header list. -/
theorem powerRowLoop_pointers (l : List PowerRow) (st : FetchState)
    (h : l.foldlM powerRowStep FetchState.init = Except.ok st) :
    (st.headerModelsMap.map Prod.snd).Nodup ∧
      ∀ e ∈ st.headerModelsMap, e.2 < st.headerModels.length := by
  obtain ⟨hlen, _, hnd, hlast, _⟩ := powerRowLoop_last l st h
  constructor
  · apply List.Nodup.map_on _ (List.Nodup.of_map _ hnd)
    intro x hx y hy hxy
    obtain ⟨r1, h1, h2, _⟩ := hlast x hx
    obtain ⟨r2, h3, h4, _⟩ := hlast y hy
    rw [hxy, h3, Option.some.injEq] at h1
    subst h1
    exact Prod.ext (h2.symm.trans h4) hxy
  · intro e he
    obtain ⟨r, h1, _⟩ := hlast e he
    rw [hlen]
    by_contra hc
    rw [List.getElem?_eq_none (Nat.le_of_not_lt hc)] at h1
    exact Option.noConfusion h1

/-- C30: duplicate deal keys in the primary rows of `GetNucPowerDealList`. When every row
is mapped and the term fetcher returns the map `termModelsMap` for the deal keys of the
rows, the fetch returns one header per row, in row order, each the header of its row up to
its terms; a header whose deal key occurs again in a later row has an empty term list, and
a header whose deal key occurs in no later row has the terms that `termModelsMap` holds
for that key (none when the key is absent). So of two rows with the same key only the
later header receives the terms. -/
theorem C30_duplicate_deal_key_terms_go_to_last_header (rows : Rows PowerRow)
    (l : List PowerRow) (termQuery : List Int → Except Error (Rows PowerTermRow))
    (indexQuery : GoMap Int → Except Error (Rows PowerIndexRow))
    (termModelsMap : GoMap (List NucleusTradeTermModel))
    (hs : rows.scanned = l.map Except.ok) (hc : rows.closeErr = none)
    (he : rows.err = none) (hall : ∀ x ∈ l, ∃ h, powerHeaderOfRow x = Except.ok h)
    (htm : getNucPowerDealTradeTermModel termQuery indexQuery (l.map (fun r => r.DealKey)) =
      Except.ok termModelsMap) :
    ∃ headers, GetNucPowerDealList (Except.ok rows) termQuery indexQuery = Except.ok headers ∧
      headers.length = l.length ∧
      ∀ (i : Nat) (r : PowerRow), l[i]? = some r →
        ∃ hd, headers[i]? = some hd ∧ powerHeaderOfRow r = Except.ok (eraseTerms hd) ∧
          ((∃ (j : Nat) (r' : PowerRow), i < j ∧ l[j]? = some r' ∧ r'.DealKey = r.DealKey) →
            hd.Terms = []) ∧
          ((∀ (j : Nat) (r' : PowerRow), i < j → l[j]? = some r' → r'.DealKey ≠ r.DealKey) →
            hd.Terms = (mapGet termModelsMap r.DealKey).getD []) := by
  obtain ⟨st, hst⟩ := powerRowLoop_ok l hall FetchState.init
  have hk : st.dealKeys = l.map (fun r => r.DealKey) := by
    rw [powerRowLoop_dealKeys l FetchState.init st hst]
    rfl
  obtain ⟨hlen, hhd, hnd, hlast, hkeys⟩ := powerRowLoop_last l st hst
  obtain ⟨hpn, hpv⟩ := powerRowLoop_pointers l st hst
  obtain ⟨heap', hrun, hlen', hin, hout⟩ :=
    powerAttachTerms_spec termModelsMap st.headerModelsMap st.headerModels hpn hpv
  have hfinal : ∀ (i : Nat) (r : PowerRow), l[i]? = some r →
      ∃ hd, heap'[i]? = some hd ∧ powerHeaderOfRow r = Except.ok (eraseTerms hd) ∧
        ((∃ (j : Nat) (r' : PowerRow), i < j ∧ l[j]? = some r' ∧ r'.DealKey = r.DealKey) →
          hd.Terms = []) ∧
        ((∀ (j : Nat) (r' : PowerRow), i < j → l[j]? = some r' → r'.DealKey ≠ r.DealKey) →
          hd.Terms = (mapGet termModelsMap r.DealKey).getD []) := by
    intro i r hr
    obtain ⟨hd0, hget, hrow⟩ := hhd i r hr
    have hterms : hd0.Terms = [] := (powerHeaderOfRow_terms hrow).1
    by_cases hi : i ∈ st.headerModelsMap.map Prod.snd
    · obtain ⟨e, hem, hei⟩ := List.mem_map.1 hi
      obtain ⟨h1, hg1, hg2⟩ := hin e hem
      obtain ⟨r0, hr0, hkey, hlater⟩ := hlast e hem
      rw [hei] at hg1 hg2 hr0 hlater
      rw [hget, Option.some.injEq] at hg1
      subst hg1
      rw [hr, Option.some.injEq] at hr0
      subst hr0
      refine ⟨_, hg2, ?_, ?_, ?_⟩
      · rw [eraseTerms_withTerms _ _ hterms]
        exact hrow
      · rintro ⟨j, r', hj, hr', hsame⟩
        exact absurd (hsame.trans hkey) (hlater j r' hj hr')
      · intro _
        rw [hkey]
    · refine ⟨hd0, ?_, ?_, fun _ => hterms, ?_⟩
      · rw [hout i hi]
        exact hget
      · rw [eraseTerms_of_empty _ hterms]
        exact hrow
      · intro hnone
        exfalso
        obtain ⟨e, hem, hek⟩ := List.mem_map.1 (hkeys i r hr)
        obtain ⟨r0, hr0, hkey, hlater⟩ := hlast e hem
        have hne : e.2 ≠ i := fun hc => hi (hc ▸ List.mem_map_of_mem Prod.snd hem)
        rcases Nat.lt_or_gt_of_ne hne with hlt | hgt
        · exact hlater i r hlt hr hek.symm
        · exact hnone e.2 r0 hgt hr0 (hkey.trans hek)
  by_cases hne : l = []
  · subst hne
    refine ⟨[], ?_, rfl, fun i r hr => ?_⟩
    · simp only [List.foldlM_nil, pure, Except.pure, Except.ok.injEq] at hst
      subst hst
      unfold GetNucPowerDealList
      simp only [scanLoop_scanned_ok rows [] _ _ hs, hc, he]
      rfl
    · simp at hr
  · refine ⟨heap', ?_, hlen'.trans hlen, hfinal⟩
    unfold GetNucPowerDealList
    simp only [scanLoop_scanned_ok rows l _ _ hs, hst, hc, he]
    have hpos : 0 < st.dealKeys.length := by
      rw [hk, List.length_map]
      exact List.length_pos.2 hne
    rw [if_pos hpos, hk, htm]
    exact hrun

/-- Witness of C30: of the three sample rows the first and the third have deal key 11; the
three headers come back in row order, the first without terms and the third with the two
terms fetched for key 11. -/
theorem C30_duplicate_deal_key_witness :
    ∃ headers, GetNucPowerDealList (Except.ok samplePowerRows3)
        (fun _ => Except.ok samplePowerTermRows3) (fun _ => Except.ok samplePowerIndexRows) =
          Except.ok headers ∧
      headers.map (fun h => (h.DealKey, h.UrTrader, h.Terms.map (fun t => t.VolSeq))) =
        [(11, "FIRST".toList, []), (12, "SROSS".toList, [0]), (11, "LATER".toList, [0, 1])] :=
  match C30_duplicate_deal_key_terms_go_to_last_header samplePowerRows3 samplePowerRowList
      (fun _ => Except.ok samplePowerTermRows3) (fun _ => Except.ok samplePowerIndexRows)
      _ rfl rfl rfl (by decide) rfl with
  | ⟨headers, h1, _, _⟩ => ⟨headers, h1, by
      have h2 : GetNucPowerDealList (Except.ok samplePowerRows3)
          (fun _ => Except.ok samplePowerTermRows3)
          (fun _ => Except.ok samplePowerIndexRows) = Except.ok _ := rfl
      rw [h2, Except.ok.injEq] at h1
      rw [← h1]
      decide⟩

/-! ## Independence of the iteration order of maps -/

/-- A loop commutes with a step that commutes with each of its iterations. -/
theorem foldlM_comm_step {σ α : Type} (f : σ → α → Except Fault σ) (g : σ → Except Fault σ) :
    ∀ (l : List α), (∀ a ∈ l, ∀ s, (f s a >>= g) = (g s >>= fun s' => f s' a)) →
      ∀ s, (l.foldlM f s >>= g) = (g s >>= fun s' => l.foldlM f s')
  | [], _, s => by
    simp only [List.foldlM_nil, pure_bind, bind_pure]
  | a :: l, hc, s => by
    simp only [List.foldlM_cons, bind_assoc]
    have ih := foldlM_comm_step f g l (fun x hx => hc x (List.mem_cons_of_mem _ hx))
    simp only [ih]
    rw [← bind_assoc, hc a (List.mem_cons_self _ _) s, bind_assoc]

/-- Two loops commute when each iteration of the one commutes with each iteration of the
other. -/
theorem foldlM_comm_foldlM {σ α β : Type} (f₁ : σ → α → Except Fault σ)
    (f₂ : σ → β → Except Fault σ) (l₁ : List α) (l₂ : List β)
    (hc : ∀ a ∈ l₁, ∀ b ∈ l₂, ∀ s,
      (f₁ s a >>= fun s' => f₂ s' b) = (f₂ s b >>= fun s' => f₁ s' a)) :
    ∀ s, (l₁.foldlM f₁ s >>= fun s' => l₂.foldlM f₂ s') =
      (l₂.foldlM f₂ s >>= fun s' => l₁.foldlM f₁ s') := by
  apply foldlM_comm_step f₁ (fun s => l₂.foldlM f₂ s) l₁
  intro a ha s
  exact (foldlM_comm_step f₂ (fun s => f₁ s a) l₂
    (fun b hb s => (hc a ha b hb s).symm) s).symm

/-- A step that always panics commutes with a step that fails by panic only. -/
theorem panic_comm {σ : Type} (f g : σ → Except Fault σ)
    (hf : ∀ s, f s = Except.error Fault.panic)
    (hg : ∀ s e, g s = Except.error e → e = Fault.panic) (s : σ) :
    (f s >>= g) = (g s >>= f) := by
  rw [hf s]
  cases h : g s with
  | error e =>
    rw [hg s e h]
    rfl
  | ok s' =>
    show Except.error Fault.panic = f s'
    rw [hf s']

/-- Assignments through two distinct pointers commute. -/
theorem update_comm (f₁ f₂ : List NucleusTradeHeaderModel → Except Fault (List NucleusTradeHeaderModel))
    (p₁ p₂ : Nat) (g₁ g₂ : NucleusTradeHeaderModel → NucleusTradeHeaderModel)
    (h₁ : ∀ heap, f₁ heap =
      (heap[p₁]?).elim (Except.error Fault.panic) (fun h => Except.ok (heap.set p₁ (g₁ h))))
    (h₂ : ∀ heap, f₂ heap =
      (heap[p₂]?).elim (Except.error Fault.panic) (fun h => Except.ok (heap.set p₂ (g₂ h))))
    (hne : p₁ ≠ p₂) (heap : List NucleusTradeHeaderModel) :
    (f₁ heap >>= f₂) = (f₂ heap >>= f₁) := by
  rw [h₁ heap, h₂ heap]
  cases e1 : heap[p₁]? with
  | none =>
    cases e2 : heap[p₂]? with
    | none => rfl
    | some b =>
      show Except.error Fault.panic = f₁ (heap.set p₂ (g₂ b))
      rw [h₁, List.getElem?_set_ne hne.symm, e1]
      rfl
  | some a =>
    cases e2 : heap[p₂]? with
    | none =>
      show f₂ (heap.set p₁ (g₁ a)) = Except.error Fault.panic
      rw [h₂, List.getElem?_set_ne hne, e2]
      rfl
    | some b =>
      show f₂ (heap.set p₁ (g₁ a)) = f₁ (heap.set p₂ (g₂ b))
      rw [h₁, h₂, List.getElem?_set_ne hne, List.getElem?_set_ne hne.symm, e1, e2]
      show Except.ok _ = Except.ok _
      rw [List.set_comm _ _ _ hne]

theorem setTermsAt_eq (p : Nat) (terms : List NucleusTradeTermModel)
    (heap : List NucleusTradeHeaderModel) :
    setTermsAt heap p terms =
      (heap[p]?).elim (Except.error Fault.panic)
        (fun h => Except.ok (heap.set p { h with Terms := terms })) := by
  unfold setTermsAt
  cases heap[p]? <;> rfl

theorem appendTermAt_eq (p : Nat) (term : NucleusTradeTermModel)
    (heap : List NucleusTradeHeaderModel) :
    appendTermAt heap p term =
      (heap[p]?).elim (Except.error Fault.panic)
        (fun h => Except.ok (heap.set p { h with Terms := h.Terms ++ [term] })) := by
  unfold appendTermAt
  cases heap[p]? <;> rfl

theorem appendTermAt_error_kind (p : Nat) (term : NucleusTradeTermModel)
    (heap : List NucleusTradeHeaderModel) (e : Fault)
    (h : appendTermAt heap p term = Except.error e) : e = Fault.panic := by
  unfold appendTermAt at h
  cases hp : heap[p]? with
  | none =>
    simp only [hp, Except.error.injEq] at h
    exact h.symm
  | some x => simp [hp] at h

theorem powerSwapSpliceTerm_error_kind (st : FetchState) (k : Int)
    (heap : List NucleusTradeHeaderModel) (t : NucleusTradeTermModel) (e : Fault)
    (h : powerSwapSpliceTerm st k heap t = Except.error e) : e = Fault.panic := by
  unfold powerSwapSpliceTerm at h
  split at h
  · simp only [Except.error.injEq] at h
    exact h.symm
  · split at h
    · simp only [Except.error.injEq] at h
      exact h.symm
    · exact appendTermAt_error_kind _ _ _ _ h

/-- Registering a header under its deal key keeps the pointers of the header map named by
their keys. -/
theorem pointersNameKeys_register (st st' : FetchState) (hd : NucleusTradeHeaderModel)
    (h : PointersNameKeys st)
    (h1 : st'.headerModelsMap = mapSet st.headerModelsMap hd.DealKey st.headerModels.length)
    (h2 : st'.headerModels = st.headerModels ++ [hd]) : PointersNameKeys st' := by
  obtain ⟨hnd, hp⟩ := h
  unfold PointersNameKeys
  rw [h1, h2]
  refine ⟨mapSet_nodup _ _ _ hnd, ?_⟩
  intro e he
  rcases mem_mapSet _ _ _ e hnd he with he | ⟨he, _⟩
  · subst he
    refine ⟨hd, ?_, rfl⟩
    simp
  · obtain ⟨x, hx, hk⟩ := hp e he
    refine ⟨x, ?_, hk⟩
    have hlt : e.2 < st.headerModels.length := by
      by_contra hc
      rw [List.getElem?_eq_none (Nat.le_of_not_lt hc)] at hx
      exact Option.noConfusion hx
    rw [List.getElem?_append_left hlt]
    exact hx

/-- Appending a header without registering it keeps the pointers of the header map named
by their keys. -/
theorem pointersNameKeys_append (st st' : FetchState) (hd : NucleusTradeHeaderModel)
    (h : PointersNameKeys st) (h1 : st'.headerModelsMap = st.headerModelsMap)
    (h2 : st'.headerModels = st.headerModels ++ [hd]) : PointersNameKeys st' := by
  obtain ⟨hnd, hp⟩ := h
  unfold PointersNameKeys
  rw [h1, h2]
  refine ⟨hnd, ?_⟩
  intro e he
  obtain ⟨x, hx, hk⟩ := hp e he
  refine ⟨x, ?_, hk⟩
  have hlt : e.2 < st.headerModels.length := by
    by_contra hc
    rw [List.getElem?_eq_none (Nat.le_of_not_lt hc)] at hx
    exact Option.noConfusion hx
  rw [List.getElem?_append_left hlt]
  exact hx

theorem pointersNameKeys_init : PointersNameKeys FetchState.init :=
  ⟨List.nodup_nil, fun _ he => absurd he (List.not_mem_nil _)⟩

/-- Two entries of a header map whose pointers are named by their keys have distinct
pointers when they have distinct keys. -/
theorem pointersNameKeys_inj {st : FetchState} (h : PointersNameKeys st)
    {x y : Int × Nat} (hx : x ∈ st.headerModelsMap) (hy : y ∈ st.headerModelsMap)
    (hne : x.1 ≠ y.1) : x.2 ≠ y.2 := by
  intro heq
  obtain ⟨a, ha, hka⟩ := h.2 x hx
  obtain ⟨b, hb, hkb⟩ := h.2 y hy
  rw [heq, hb, Option.some.injEq] at ha
  subst ha
  exact hne (hka.symm.trans hkb)

theorem powerRowLoop_pointersNameKeys (rows : Rows PowerRow) (st : FetchState)
    (h : scanLoop rows FetchState.init powerRowStep = Except.ok st) : PointersNameKeys st := by
  refine scanLoop_invariant rows powerRowStep PointersNameKeys ?_ _ st pointersNameKeys_init h
  intro s r s' hs hr
  unfold powerRowStep at hr
  cases hh : powerHeaderOfRow r with
  | error e => simp [hh] at hr
  | ok hdr =>
    simp only [hh, Except.ok.injEq] at hr
    subst hr
    exact pointersNameKeys_register s _ hdr hs rfl rfl

theorem powerSwapRowLoop_pointersNameKeys (rows : Rows PowerSwapRow) (st : FetchState)
    (h : scanLoop rows FetchState.init powerSwapRowStep = Except.ok st) :
    PointersNameKeys st := by
  refine scanLoop_invariant rows powerSwapRowStep PointersNameKeys ?_ _ st
    pointersNameKeys_init h
  intro s r s' hs hr
  unfold powerSwapRowStep at hr
  cases hh : powerSwapHeaderOfRow r with
  | error e => simp [hh] at hr
  | ok hdr =>
    simp only [hh] at hr
    split at hr
    · simp only [Except.ok.injEq] at hr
      subst hr
      exact pointersNameKeys_append s _ _ hs rfl rfl
    · simp only [Except.ok.injEq] at hr
      subst hr
      exact pointersNameKeys_register s _ hdr hs rfl rfl

theorem getNucPowerTradeIndexModel_nodup
    (indexQuery : GoMap Int → Except Error (Rows PowerIndexRow)) (formulaMap : GoMap Int)
    (im : GoMap (List NucleusTradeIndexModel))
    (h : getNucPowerTradeIndexModel indexQuery formulaMap = Except.ok im) :
    (im.map Prod.fst).Nodup := by
  unfold getNucPowerTradeIndexModel at h
  split at h
  · simp only [Except.ok.injEq] at h
    subst h
    exact List.nodup_nil
  · split at h
    · exact Except.noConfusion h
    · rename_i rows _
      split at h
      · exact Except.noConfusion h
      · rename_i ins hsc
        have hn : (ins.map Prod.fst).Nodup := by
          refine scanLoop_invariant rows _ (fun m => (m.map Prod.fst).Nodup) ?_ _ ins
            List.nodup_nil hsc
          intro s r s' hs hr
          simp only [Except.ok.injEq] at hr
          subst hr
          exact mapSet_nodup _ _ _ hs
        split at h
        · simp only [Except.ok.injEq] at h
          subst h
          exact List.nodup_nil
        · split at h
          · exact Except.noConfusion h
          · simp only [Except.ok.injEq] at h
            subst h
            exact hn

theorem getNucPowerSwapDealTermModel_nodup
    (termQuery : List Int → Except Error (Rows PowerSwapTermRow)) (dealKeys : List Int)
    (tm : GoMap (List NucleusTradeTermModel))
    (h : getNucPowerSwapDealTermModel termQuery dealKeys = Except.ok tm) :
    (tm.map Prod.fst).Nodup := by
  unfold getNucPowerSwapDealTermModel at h
  split at h
  · simp only [Except.ok.injEq] at h
    subst h
    exact List.nodup_nil
  · split at h
    · exact Except.noConfusion h
    · rename_i rows _
      split at h
      · exact Except.noConfusion h
      · rename_i ins hsc
        have hn : (ins.map Prod.fst).Nodup := by
          refine scanLoop_invariant rows _ (fun m => (m.map Prod.fst).Nodup) ?_ _ ins
            List.nodup_nil hsc
          intro s r s' hs hr
          simp only [Except.ok.injEq] at hr
          subst hr
          exact mapSet_nodup _ _ _ hs
        split at h
        · simp only [Except.ok.injEq] at h
          subst h
          exact List.nodup_nil
        · split at h
          · exact Except.noConfusion h
          · simp only [Except.ok.injEq] at h
            subst h
            exact hn

/-- The term fetcher of the power deals returns the same error, or maps with the same
terms under every key, whatever the order in which the index map is visited. -/
theorem getNucPowerDealTradeTermModelIn_agree
    (indexOrder : GoMap (List NucleusTradeIndexModel) → GoMap (List NucleusTradeIndexModel))
    (ho : IterationOrder indexOrder)
    (termQuery : List Int → Except Error (Rows PowerTermRow))
    (indexQuery : GoMap Int → Except Error (Rows PowerIndexRow)) (dealKeys : List Int) :
    (∃ e, getNucPowerDealTradeTermModelIn indexOrder termQuery indexQuery dealKeys =
        Except.error e ∧
      getNucPowerDealTradeTermModel termQuery indexQuery dealKeys = Except.error e) ∨
    (∃ m m', getNucPowerDealTradeTermModelIn indexOrder termQuery indexQuery dealKeys =
        Except.ok m ∧
      getNucPowerDealTradeTermModel termQuery indexQuery dealKeys = Except.ok m' ∧
      ∀ k, mapGet m k = mapGet m' k) := by
  unfold getNucPowerDealTradeTermModelIn getNucPowerDealTradeTermModel
  by_cases hlen : dealKeys.length = 0
  · simp only [if_pos hlen]
    exact Or.inr ⟨[], [], rfl, rfl, fun _ => rfl⟩
  · simp only [if_neg hlen]
    cases hq : termQuery dealKeys with
    | error err => exact Or.inl ⟨_, rfl, rfl⟩
    | ok rows =>
      simp only []
      cases hsc : scanLoop rows (([], []) : GoMap (List NucleusTradeTermModel) × GoMap Int)
          (fun st r => Except.ok (powerTermStep st r)) with
      | error e => exact Or.inl ⟨_, rfl, rfl⟩
      | ok st =>
        simp only []
        cases hc : rows.closeErr with
        | some c => exact Or.inr ⟨[], [], rfl, rfl, fun _ => rfl⟩
        | none =>
          simp only []
          cases he : rows.err with
          | some err => exact Or.inl ⟨_, rfl, rfl⟩
          | none =>
            simp only []
            cases hi : getNucPowerTradeIndexModel indexQuery st.2 with
            | error e => exact Or.inl ⟨_, rfl, rfl⟩
            | ok im =>
              refine Or.inr ⟨_, _, rfl, rfl, ?_⟩
              intro k
              have hn := getNucPowerTradeIndexModel_nodup indexQuery st.2 im hi
              have hn' : ((indexOrder im).map Prod.fst).Nodup :=
                (((ho im).map Prod.fst).nodup_iff).2 hn
              rw [powerAttachIndexes_get _ _ _ hn', powerAttachIndexes_get _ _ _ hn,
                mapGet_perm (ho im) hn' k]

theorem powerAttachTerms_congr (tm tm' : GoMap (List NucleusTradeTermModel))
    (h : ∀ k, mapGet tm k = mapGet tm' k) (entries : GoMap Nat)
    (heap : List NucleusTradeHeaderModel) :
    powerAttachTerms tm entries heap = powerAttachTerms tm' entries heap := by
  unfold powerAttachTerms
  have : (fun (heap : List NucleusTradeHeaderModel) (entry : Int × Nat) =>
      setTermsAt heap entry.2 ((mapGet tm entry.1).getD [])) =
      (fun heap entry => setTermsAt heap entry.2 ((mapGet tm' entry.1).getD [])) := by
    funext heap entry
    rw [h entry.1]
  rw [this]

/-- The loop over the header map gives the same headers in every order of the map. -/
theorem powerAttachTerms_perm (st : FetchState) (hp : PointersNameKeys st)
    (order : GoMap Nat → GoMap Nat) (ho : IterationOrder order)
    (tm : GoMap (List NucleusTradeTermModel)) (heap : List NucleusTradeHeaderModel) :
    powerAttachTerms tm (order st.headerModelsMap) heap =
      powerAttachTerms tm st.headerModelsMap heap := by
  unfold powerAttachTerms
  symm
  apply foldlM_perm _ (ho st.headerModelsMap).symm
  intro x hx y hy s
  by_cases hxy : x.1 = y.1
  · have h1 := mapGet_of_mem _ x.1 x.2 hp.1 hx
    have h2 := mapGet_of_mem _ y.1 y.2 hp.1 hy
    rw [hxy, h2, Option.some.injEq] at h1
    have : x = y := Prod.ext hxy h1.symm
    rw [this]
  · exact update_comm
      (fun heap => setTermsAt heap x.2 ((mapGet tm x.1).getD []))
      (fun heap => setTermsAt heap y.2 ((mapGet tm y.1).getD [])) x.2 y.2 _ _
      (setTermsAt_eq _ _) (setTermsAt_eq _ _) (pointersNameKeys_inj hp hx hy hxy) s

/-- One step of the power-swap splice either panics on every heap or assigns through the
pointer that the header map holds for the key. -/
theorem powerSwapSpliceTerm_cases (st : FetchState) (k : Int) (t : NucleusTradeTermModel) :
    (∀ heap, powerSwapSpliceTerm st k heap t = Except.error Fault.panic) ∨
    ∃ (p : Nat) (g : NucleusTradeHeaderModel → NucleusTradeHeaderModel),
      mapGet st.headerModelsMap k = some p ∧
      ∀ heap, powerSwapSpliceTerm st k heap t =
        (heap[p]?).elim (Except.error Fault.panic) (fun h => Except.ok (heap.set p (g h))) := by
  cases hi : mapGet st.initialTermModelsMap k with
  | none =>
    left
    intro heap
    unfold powerSwapSpliceTerm
    rw [hi]
  | some initialTerm =>
    cases hm : mapGet st.headerModelsMap k with
    | none =>
      left
      intro heap
      unfold powerSwapSpliceTerm
      rw [hi]
      simp only [hm]
    | some p =>
      right
      refine ⟨p, fun h => { h with Terms := h.Terms ++
        [{ t with
           Pool1 := initialTerm.Pool1, Product1 := initialTerm.Product1,
           Indexes1 := initialTerm.Indexes1, Indexes2 := initialTerm.Indexes2,
           HolidaySchedule := initialTerm.HolidaySchedule }] }, rfl, ?_⟩
      intro heap
      unfold powerSwapSpliceTerm
      rw [hi]
      simp only [hm]
      exact appendTermAt_eq _ _ _

theorem powerSwapSpliceTerm_comm (st : FetchState) (hp : PointersNameKeys st) (k₁ k₂ : Int)
    (hne : k₁ ≠ k₂) (t₁ t₂ : NucleusTradeTermModel) (heap : List NucleusTradeHeaderModel) :
    (powerSwapSpliceTerm st k₁ heap t₁ >>= fun s' => powerSwapSpliceTerm st k₂ s' t₂) =
      (powerSwapSpliceTerm st k₂ heap t₂ >>= fun s' => powerSwapSpliceTerm st k₁ s' t₁) := by
  rcases powerSwapSpliceTerm_cases st k₁ t₁ with h1 | ⟨p₁, g₁, hm₁, h1⟩
  · exact panic_comm (fun s => powerSwapSpliceTerm st k₁ s t₁)
      (fun s => powerSwapSpliceTerm st k₂ s t₂) h1
      (fun s e he => powerSwapSpliceTerm_error_kind st k₂ s t₂ e he) heap
  · rcases powerSwapSpliceTerm_cases st k₂ t₂ with h2 | ⟨p₂, g₂, hm₂, h2⟩
    · exact (panic_comm (fun s => powerSwapSpliceTerm st k₂ s t₂)
        (fun s => powerSwapSpliceTerm st k₁ s t₁) h2
        (fun s e he => powerSwapSpliceTerm_error_kind st k₁ s t₁ e he) heap).symm
    · exact update_comm (fun s => powerSwapSpliceTerm st k₁ s t₁)
        (fun s => powerSwapSpliceTerm st k₂ s t₂) p₁ p₂ g₁ g₂ h1 h2
        (pointersNameKeys_inj hp (mapGet_mem _ _ _ hm₁) (mapGet_mem _ _ _ hm₂) hne) heap

/-- The power-swap splice gives the same headers in every order of the term map. -/
theorem powerSwapSplice_perm (st : FetchState) (hp : PointersNameKeys st)
    (order : GoMap (List NucleusTradeTermModel) → GoMap (List NucleusTradeTermModel))
    (ho : IterationOrder order) (tm : GoMap (List NucleusTradeTermModel))
    (hn : (tm.map Prod.fst).Nodup) (heap : List NucleusTradeHeaderModel) :
    powerSwapSplice st (order tm) heap = powerSwapSplice st tm heap := by
  unfold powerSwapSplice
  symm
  apply foldlM_perm _ (ho tm).symm
  intro x hx y hy s
  by_cases hxy : x.1 = y.1
  · have h1 := mapGet_of_mem _ x.1 x.2 hn hx
    have h2 := mapGet_of_mem _ y.1 y.2 hn hy
    rw [hxy, h2, Option.some.injEq] at h1
    have : x = y := Prod.ext hxy h1.symm
    rw [this]
  · exact foldlM_comm_foldlM (powerSwapSpliceTerm st x.1) (powerSwapSpliceTerm st y.1) x.2 y.2
      (fun a _ b _ s => powerSwapSpliceTerm_comm st hp x.1 y.1 hxy a b s) s

/-- C29: fetch results do not depend on the iteration order of maps. For every order in
which the header map, the index map and the term map are visited (each a permutation of
the entries of the map), `GetNucPowerDealList` and `GetNucPowerSwapDealList` return, for
the same answers of the ledger store, the same outcome as when the maps are visited in
insertion order: the same header list with the same terms and indexes in the same order,
or the same error. -/
theorem C29_fetch_results_independent_of_map_order
    (headerOrder : GoMap Nat → GoMap Nat)
    (indexOrder : GoMap (List NucleusTradeIndexModel) → GoMap (List NucleusTradeIndexModel))
    (termOrder : GoMap (List NucleusTradeTermModel) → GoMap (List NucleusTradeTermModel))
    (hh : IterationOrder headerOrder) (hi : IterationOrder indexOrder)
    (ht : IterationOrder termOrder) :
    (∀ (primary : Except Error (Rows PowerRow))
        (termQuery : List Int → Except Error (Rows PowerTermRow))
        (indexQuery : GoMap Int → Except Error (Rows PowerIndexRow)),
        GetNucPowerDealListIn headerOrder indexOrder primary termQuery indexQuery =
          GetNucPowerDealList primary termQuery indexQuery) ∧
    (∀ (primary : Except Error (Rows PowerSwapRow))
        (termQuery : List Int → Except Error (Rows PowerSwapTermRow)),
        GetNucPowerSwapDealListIn termOrder primary termQuery =
          GetNucPowerSwapDealList primary termQuery) := by
  constructor
  · intro primary termQuery indexQuery
    unfold GetNucPowerDealListIn GetNucPowerDealList
    cases primary with
    | error err => rfl
    | ok rows =>
      simp only []
      cases hsc : scanLoop rows FetchState.init powerRowStep with
      | error e => rfl
      | ok st =>
        simp only []
        cases hc : rows.closeErr with
        | some c => rfl
        | none =>
          simp only []
          cases he : rows.err with
          | some err => rfl
          | none =>
            simp only []
            by_cases hpos : 0 < st.dealKeys.length
            · simp only [if_pos hpos]
              have hp := powerRowLoop_pointersNameKeys rows st hsc
              rcases getNucPowerDealTradeTermModelIn_agree indexOrder hi termQuery indexQuery
                st.dealKeys with ⟨e, h1, h2⟩ | ⟨m, m', h1, h2, h3⟩
              · rw [h1, h2]
              · rw [h1, h2]
                simp only []
                rw [powerAttachTerms_perm st hp headerOrder hh]
                exact powerAttachTerms_congr m m' h3 _ _
            · simp only [if_neg hpos]
  · intro primary termQuery
    unfold GetNucPowerSwapDealListIn GetNucPowerSwapDealList
    cases primary with
    | error err => rfl
    | ok rows =>
      simp only []
      cases hsc : scanLoop rows FetchState.init powerSwapRowStep with
      | error e => rfl
      | ok st =>
        simp only []
        cases hc : rows.closeErr with
        | some c => rfl
        | none =>
          simp only []
          cases he : rows.err with
          | some err => rfl
          | none =>
            simp only []
            by_cases hpos : 0 < st.dealKeys.length
            · simp only [if_pos hpos]
              have hp := powerSwapRowLoop_pointersNameKeys rows st hsc
              cases htm : getNucPowerSwapDealTermModel termQuery st.dealKeys with
              | error e => rfl
              | ok tm =>
                simp only []
                exact powerSwapSplice_perm st hp termOrder ht tm
                  (getNucPowerSwapDealTermModel_nodup termQuery st.dealKeys tm htm) _
            · simp only [if_neg hpos]

/-- Witness of C29: visiting every map in reverse order gives the same headers for the
sample power-deal rows, whose header map, term map and index map have two entries each,
and for the two non-standard sample power-swap rows. -/
theorem C29_reverse_order_witness :
    IterationOrder (List.reverse : GoMap Nat → GoMap Nat) ∧
    GetNucPowerDealListIn List.reverse List.reverse (Except.ok samplePowerRows3)
        (fun _ => Except.ok samplePowerTermRows3) (fun _ => Except.ok samplePowerIndexRows) =
      GetNucPowerDealList (Except.ok samplePowerRows3)
        (fun _ => Except.ok samplePowerTermRows3) (fun _ => Except.ok samplePowerIndexRows) ∧
    GetNucPowerSwapDealListIn List.reverse (Except.ok samplePowerSwapRows2)
        (fun _ => Except.ok samplePowerSwapTermRows2) =
      GetNucPowerSwapDealList (Except.ok samplePowerSwapRows2)
        (fun _ => Except.ok samplePowerSwapTermRows2) :=
  ⟨fun m => List.reverse_perm m,
    (C29_fetch_results_independent_of_map_order List.reverse List.reverse List.reverse
      (fun m => List.reverse_perm m) (fun m => List.reverse_perm m)
      (fun m => List.reverse_perm m)).1 _ _ _,
    (C29_fetch_results_independent_of_map_order List.reverse List.reverse List.reverse
      (fun m => List.reverse_perm m) (fun m => List.reverse_perm m)
      (fun m => List.reverse_perm m)).2 _ _⟩

/-! ## The capacity index splice on a missing header or an empty term list -/

theorem mapSet_ne_nil {V : Type} (m : GoMap V) (k : Int) (v : V) : mapSet m k v ≠ [] := by
  cases m with
  | nil => simp [mapSet]
  | cons a m =>
    obtain ⟨k', v'⟩ := a
    simp only [mapSet]
    split <;> simp

theorem foldl_capacityIndexStep_ne_nil :
    ∀ (il : List CapacityIndexRow) (m : GoMap (List NucleusTradeIndexModel)),
      (m ≠ [] ∨ il ≠ []) → il.foldl capacityIndexStep m ≠ []
  | [], m, h => by
    rcases h with h | h
    · exact h
    · exact absurd rfl h
  | x :: il, m, _ => by
    rw [List.foldl_cons]
    exact foldl_capacityIndexStep_ne_nil il _ (Or.inl (mapSet_ne_nil _ _ _))

/-- The state of the row loop of `GetNucCapacityDealList`: every pointer of the header map
points to a header without terms, and a row with a formula leaves a formula key. -/
theorem capacityRowLoop_unspliced :
    ∀ (l : List CapacityRow) (st0 st : FetchState),
      l.foldlM capacityRowStep st0 = Except.ok st →
      (∀ e ∈ st0.headerModelsMap, ∃ h, st0.headerModels[e.2]? = some h ∧ h.Terms = []) →
      (∀ e ∈ st.headerModelsMap, ∃ h, st.headerModels[e.2]? = some h ∧ h.Terms = []) ∧
        ((st0.formulaDealKeys ≠ [] ∨ ∃ r ∈ l, r.energyFormula.isSome = true) →
          st.formulaDealKeys ≠ [])
  | [], st0, st, h, h0 => by
    simp only [List.foldlM_nil, pure, Except.pure, Except.ok.injEq] at h
    subst h
    refine ⟨h0, ?_⟩
    rintro (h | ⟨r, hr, _⟩)
    · exact h
    · exact absurd hr (List.not_mem_nil _)
  | r :: l, st0, st, h, h0 => by
    simp only [List.foldlM_cons, bind, Except.bind] at h
    cases hs : capacityRowStep st0 r with
    | error e => simp [hs] at h
    | ok st1 =>
      simp only [hs] at h
      have hold : ∀ (hd : NucleusTradeHeaderModel), ∀ e ∈ st0.headerModelsMap,
          ∃ h, (st0.headerModels ++ [hd])[e.2]? = some h ∧ h.Terms = [] := by
        intro hd e he
        obtain ⟨x, hx, ht⟩ := h0 e he
        have hlt : e.2 < st0.headerModels.length := by
          by_contra hc
          rw [List.getElem?_eq_none (Nat.le_of_not_lt hc)] at hx
          exact Option.noConfusion hx
        exact ⟨x, by rw [List.getElem?_append_left hlt]; exact hx, ht⟩
      have hstep : (∀ e ∈ st1.headerModelsMap,
            ∃ h, st1.headerModels[e.2]? = some h ∧ h.Terms = []) ∧
          ((st0.formulaDealKeys ≠ [] ∨ r.energyFormula.isSome = true) →
            st1.formulaDealKeys ≠ []) := by
        unfold capacityRowStep at hs
        cases hh : capacityHeaderOfRow r with
        | error e => simp [hh] at hs
        | ok hdr =>
          have hterms : hdr.Terms = [] := (capacityHeaderOfRow_terms hh).1
          have hkeys : (st0.formulaDealKeys ≠ [] ∨ r.energyFormula.isSome = true) →
              (if r.energyFormula.isSome = true then st0.formulaDealKeys ++ [hdr.DealKey]
                else st0.formulaDealKeys) ≠ [] := by
            intro hk
            by_cases hf : r.energyFormula.isSome = true
            · rw [if_pos hf]
              simp
            · rw [if_neg hf]
              rcases hk with hk | hk
              · exact hk
              · exact absurd hk hf
          simp only [hh] at hs
          split at hs
          · simp only [Except.ok.injEq] at hs
            subst hs
            exact ⟨hold _, hkeys⟩
          · simp only [Except.ok.injEq] at hs
            subst hs
            refine ⟨?_, hkeys⟩
            exact mapSet_forall
              (fun p => ∃ h : NucleusTradeHeaderModel,
                (st0.headerModels ++ [hdr])[p]? = some h ∧ h.Terms = [])
              st0.headerModelsMap hdr.DealKey st0.headerModels.length (hold hdr)
              ⟨hdr, by simp, hterms⟩
      obtain ⟨h1, h2⟩ := capacityRowLoop_unspliced l st1 st h hstep.1
      refine ⟨h1, ?_⟩
      rintro (hk | ⟨x, hx, hf⟩)
      · exact h2 (Or.inl (hstep.2 (Or.inl hk)))
      · rcases List.mem_cons.1 hx with hx | hx
        · subst hx
          exact h2 (Or.inl (hstep.2 (Or.inr hf)))
        · exact h2 (Or.inr ⟨x, hx, hf⟩)

theorem capacityRowLoop_ok :
    ∀ (l : List CapacityRow), (∀ r ∈ l, ∃ h, capacityHeaderOfRow r = Except.ok h) →
      ∀ st0, ∃ st, l.foldlM capacityRowStep st0 = Except.ok st
  | [], _, st0 => ⟨st0, rfl⟩
  | r :: l, h, st0 => by
    obtain ⟨hdr, hh⟩ := h r (List.mem_cons_self _ _)
    have : ∃ st1, capacityRowStep st0 r = Except.ok st1 := by
      unfold capacityRowStep
      simp only [hh]
      split
      · exact ⟨_, rfl⟩
      · exact ⟨_, rfl⟩
    obtain ⟨st1, hs⟩ := this
    obtain ⟨st, hst⟩ := capacityRowLoop_ok l (fun x hx => h x (List.mem_cons_of_mem _ hx)) st1
    refine ⟨st, ?_⟩
    simp only [List.foldlM_cons, bind, Except.bind, hs]
    exact hst

/-- The index assignment panics when the header of the key is missing or has no term. -/
theorem capacitySpliceIndex_panics (st : FetchState) (heap : List NucleusTradeHeaderModel)
    (entry : Int × List NucleusTradeIndexModel)
    (h : ∀ e ∈ st.headerModelsMap, ∃ hd, heap[e.2]? = some hd ∧ hd.Terms = []) :
    capacitySpliceIndex st heap entry = Except.error Fault.panic := by
  unfold capacitySpliceIndex
  cases hm : mapGet st.headerModelsMap entry.1 with
  | none => rfl
  | some p =>
    obtain ⟨hd, h1, h2⟩ := h (entry.1, p) (mapGet_mem _ _ _ hm)
    simp only [h1, h2]

/-- The term fetcher of the capacity deals returns the empty map when the term query
yields no row. -/
theorem getNucCapacityDealTermModel_of_no_rows
    (termQuery : List Int → Except Error (Rows CapacityTermRow)) (dealKeys : List Int)
    (h : ∀ keys, ∃ rows, termQuery keys = Except.ok rows ∧ rows.scanned = [] ∧
      rows.err = none) :
    getNucCapacityDealTermModel termQuery dealKeys = Except.ok [] := by
  unfold getNucCapacityDealTermModel
  split
  · rfl
  · obtain ⟨rows, hq, hs, he⟩ := h dealKeys
    have hsc : scanLoop rows ([] : GoMap (List NucleusTradeTermModel))
        (fun termModelMap r => Except.ok (capacityTermStep termModelMap r)) = Except.ok [] := by
      unfold scanLoop
      rw [hs]
      rfl
    simp only [hq, hsc, he]
    cases rows.closeErr <;> rfl

/-- C28: the capacity index splice does access a missing header or an empty term list.
When every primary row is mapped, some row carries a formula, the term query yields no
row and the index query yields at least one row, `GetNucCapacityDealList` panics: the key
of an index entry is either the key of standard rows only, which have no entry in the
header table, or the key of a non-standard row, whose header has no term. -/
theorem C28_capacity_index_splice_panics (rows : Rows CapacityRow) (l : List CapacityRow)
    (termQuery : List Int → Except Error (Rows CapacityTermRow))
    (indexQuery : List Int → Except Error (Rows CapacityIndexRow))
    (indexRows : Rows CapacityIndexRow) (il : List CapacityIndexRow)
    (hs : rows.scanned = l.map Except.ok) (hc : rows.closeErr = none) (he : rows.err = none)
    (hall : ∀ r ∈ l, ∃ h, capacityHeaderOfRow r = Except.ok h)
    (hform : ∃ r ∈ l, r.energyFormula.isSome = true)
    (hterm : ∀ keys, ∃ termRows, termQuery keys = Except.ok termRows ∧
      termRows.scanned = [] ∧ termRows.err = none)
    (hiq : ∀ keys, indexQuery keys = Except.ok indexRows)
    (his : indexRows.scanned = il.map Except.ok) (hic : indexRows.closeErr = none)
    (hie : indexRows.err = none) (hil : il ≠ []) :
    GetNucCapacityDealList (Except.ok rows) termQuery indexQuery =
      Except.error Fault.panic := by
  obtain ⟨st, hst⟩ := capacityRowLoop_ok l hall FetchState.init
  obtain ⟨hp, hk⟩ := capacityRowLoop_unspliced l FetchState.init st hst
    (fun e he => absurd he (List.not_mem_nil _))
  have hkeys : 0 < st.formulaDealKeys.length := List.length_pos.2 (hk (Or.inr hform))
  have hlen : ¬ st.formulaDealKeys.length = 0 := Nat.ne_of_gt hkeys
  have hmap : il.foldl capacityIndexStep [] ≠ [] :=
    foldl_capacityIndexStep_ne_nil il [] (Or.inr hil)
  have hindex : getNucCapacityDealIndexModel indexQuery st.formulaDealKeys =
      Except.ok (il.foldl capacityIndexStep []) := by
    unfold getNucCapacityDealIndexModel
    simp only [if_neg hlen, hiq, scanLoop_ok indexRows il _ _ his, hic, hie]
  have hsplice : (il.foldl capacityIndexStep []).foldlM (capacitySpliceIndex st)
      st.headerModels = Except.error Fault.panic := by
    cases hm : il.foldl capacityIndexStep [] with
    | nil => exact absurd hm hmap
    | cons e es =>
      rw [List.foldlM_cons, capacitySpliceIndex_panics st st.headerModels e hp]
      rfl
  unfold GetNucCapacityDealList
  simp only [scanLoop_scanned_ok rows l _ _ hs, hst, hc, he,
    getNucCapacityDealTermModel_of_no_rows termQuery st.dealKeys hterm, if_pos hkeys, hindex]
  by_cases hd : 0 < st.dealKeys.length
  · simp only [if_pos hd]
    exact hsplice
  · simp only [if_neg hd]
    exact hsplice

/-- Witness of C28: one standard capacity row with a formula and one index row for its
key, within the keys requested from the index lookup, and one non-standard capacity row
with a formula, no term row and two index rows for its key; both fetches panic. -/
theorem C28_capacity_index_splice_witness :
    (∀ x ∈ sampleCapacityStandardIndexList,
        x.dealKey = sampleCapacityStandardFormulaRow.DealKey) ∧
      GetNucCapacityDealList (Except.ok sampleCapacityStandardFormulaRows)
        (fun _ => Except.ok sampleNoCapacityTermRows)
        (fun _ => Except.ok sampleCapacityStandardIndexRows) = Except.error Fault.panic ∧
      GetNucCapacityDealList (Except.ok sampleCapacityFormulaRows)
        (fun _ => Except.ok sampleNoCapacityTermRows)
        (fun _ => Except.ok sampleCapacityIndexRows) = Except.error Fault.panic :=
  ⟨by decide,
    C28_capacity_index_splice_panics sampleCapacityStandardFormulaRows
      [sampleCapacityStandardFormulaRow] (fun _ => Except.ok sampleNoCapacityTermRows)
      (fun _ => Except.ok sampleCapacityStandardIndexRows) sampleCapacityStandardIndexRows
      sampleCapacityStandardIndexList rfl rfl rfl (by decide) (by decide)
      (fun _ => ⟨sampleNoCapacityTermRows, rfl, rfl, rfl⟩) (fun _ => rfl) rfl rfl rfl
      (by decide),
    C28_capacity_index_splice_panics sampleCapacityFormulaRows
      [sampleCapacityFormulaRow] (fun _ => Except.ok sampleNoCapacityTermRows)
      (fun _ => Except.ok sampleCapacityIndexRows) sampleCapacityIndexRows
      [{ dealKey := 5002, Publication := "ER AS RRS".toList,
         PubIndex := "DA_RRS".toList, Frequency := "HOURLY".toList },
       { dealKey := 5002, Publication := "ER AS REG".toList,
         PubIndex := "DA_REGUP".toList, Frequency := "HOURLY".toList }]
      rfl rfl rfl (by decide) (by decide)
      (fun _ => ⟨sampleNoCapacityTermRows, rfl, rfl, rfl⟩) (fun _ => rfl) rfl rfl rfl
      (by decide)⟩

/-! ## The emission-option splice -/

theorem setPriceAt_ok {objects : List NucleusTradeTermModel} {p : Nat}
    {t : NucleusTradeTermModel} (hp : objects[p]? = some t) (fixedPrice volume : Float64) :
    setPriceAt fixedPrice volume objects p =
      Except.ok (objects.set p { t with FixedPrice := fixedPrice, Volume := volume }) := by
  unfold setPriceAt
  rw [hp]

/-- The loop that writes a price and a volume through a list of valid pointers: the
objects at the pointers carry the price and the volume, the others are unchanged. -/
theorem foldlM_setPriceAt (fixedPrice volume : Float64) :
    ∀ (ps : List Nat) (objects : List NucleusTradeTermModel),
      (∀ p ∈ ps, p < objects.length) →
      ∃ objects', ps.foldlM (setPriceAt fixedPrice volume) objects = Except.ok objects' ∧
        objects'.length = objects.length ∧
        (∀ p ∈ ps, objects'[p]? =
          (objects[p]?).map (fun t => { t with FixedPrice := fixedPrice, Volume := volume })) ∧
        (∀ p, p ∉ ps → objects'[p]? = objects[p]?)
  | [], objects, _ =>
    ⟨objects, rfl, rfl, fun p hp => absurd hp (List.not_mem_nil _), fun _ _ => rfl⟩
  | q :: ps, objects, hv => by
    have hlt : q < objects.length := hv q (List.mem_cons_self _ _)
    have hget : objects[q]? = some objects[q] := List.getElem?_eq_getElem hlt
    obtain ⟨objects', hrun, hlen, hin, hout⟩ :=
      foldlM_setPriceAt fixedPrice volume ps
        (objects.set q { objects[q] with FixedPrice := fixedPrice, Volume := volume })
        (fun x hx => by
          rw [List.length_set]
          exact hv x (List.mem_cons_of_mem _ hx))
    have hq : (objects.set q
        { objects[q] with FixedPrice := fixedPrice, Volume := volume })[q]? =
        (objects[q]?).map
          (fun t => { t with FixedPrice := fixedPrice, Volume := volume }) := by
      rw [List.getElem?_set_self hlt, hget]
      rfl
    refine ⟨objects', ?_, ?_, ?_, ?_⟩
    · rw [List.foldlM_cons, setPriceAt_ok hget]
      exact hrun
    · rw [hlen, List.length_set]
    · intro p hp
      by_cases hps : p ∈ ps
      · rw [hin p hps]
        by_cases hpq : p = q
        · subst hpq
          rw [hq, hget]
          rfl
        · rw [List.getElem?_set_ne (fun h => hpq h.symm)]
      · rw [hout p hps]
        rcases List.mem_cons.1 hp with hp | hp
        · subst hp
          exact hq
        · exact absurd hp hps
    · intro p hp
      simp only [List.mem_cons, not_or] at hp
      rw [hout p hp.2, List.getElem?_set_ne (fun h => hp.1 h.symm)]

theorem emissionOptionTermStep_get (store : TermStore) (tr : EmissionOptionTermRow) (k : Int) :
    (mapGet (emissionOptionTermStep store tr).termModelMap k).getD [] =
      (mapGet store.termModelMap k).getD [] ++
        (if tr.emissionKey = k then [store.objects.length] else []) := by
  show (mapGet (mapAppend store.termModelMap tr.emissionKey store.objects.length) k).getD [] = _
  by_cases hk : tr.emissionKey = k
  · subst hk
    rw [mapGet_mapAppend_self, if_pos rfl]
    rfl
  · rw [mapGet_mapAppend_of_ne _ _ (fun h => hk h.symm), if_neg hk, List.append_nil]

/-- The term store after the row loop of `getNucEmissionOptionDealTermList`: the objects
are the terms of the rows, every pointer under a key points to a row of that key, and the
pointers under a key lead, in order, to the terms of the rows of that key. -/
theorem emissionOptionTermLoop_store (tl : List EmissionOptionTermRow) :
    (tl.foldl emissionOptionTermStep { objects := [], termModelMap := [] }).objects =
        tl.map emissionOptionFetchedTermOfRow ∧
      (∀ (k : Int) (p : Nat),
        p ∈ (mapGet (tl.foldl emissionOptionTermStep
            { objects := [], termModelMap := [] }).termModelMap k).getD [] →
          ∃ tr, tl[p]? = some tr ∧ tr.emissionKey = k) ∧
      (∀ k : Int,
        ((mapGet (tl.foldl emissionOptionTermStep
            { objects := [], termModelMap := [] }).termModelMap k).getD []).map
            (fun p => (tl.map emissionOptionFetchedTermOfRow).getD p
              NucleusTradeTermModel.zero) =
          (tl.filter (fun tr => decide (tr.emissionKey = k))).map
            emissionOptionFetchedTermOfRow) := by
  induction tl using List.reverseRecOn with
  | nil =>
    refine ⟨rfl, ?_, ?_⟩
    · intro k p hp
      simp [mapGet] at hp
    · intro k
      simp [mapGet]
  | append_singleton tl tr ih =>
    rw [List.foldl_append, List.foldl_cons, List.foldl_nil]
    generalize tl.foldl emissionOptionTermStep { objects := [], termModelMap := [] } = store
      at ih
    obtain ⟨h1, h2, h3⟩ := ih
    have hlen : store.objects.length = tl.length := by
      rw [h1, List.length_map]
    have hvalid : ∀ (k : Int) (p : Nat),
        p ∈ (mapGet store.termModelMap k).getD [] → p < tl.length := by
      intro k p hp
      obtain ⟨x, hx, _⟩ := h2 k p hp
      by_contra hc
      rw [List.getElem?_eq_none (Nat.le_of_not_lt hc)] at hx
      exact Option.noConfusion hx
    refine ⟨?_, ?_, ?_⟩
    · show store.objects ++ [emissionOptionFetchedTermOfRow tr] = _
      rw [h1, List.map_append, List.map_cons, List.map_nil]
    · intro k p hp
      rw [emissionOptionTermStep_get, List.mem_append, hlen] at hp
      rcases hp with hp | hp
      · obtain ⟨x, hx, hkx⟩ := h2 k p hp
        refine ⟨x, ?_, hkx⟩
        rw [List.getElem?_append_left (hvalid k p hp)]
        exact hx
      · by_cases hk : tr.emissionKey = k
        · rw [if_pos hk, List.mem_singleton] at hp
          subst hp
          refine ⟨tr, ?_, hk⟩
          rw [List.getElem?_append_right (Nat.le_refl _), Nat.sub_self]
          rfl
        · rw [if_neg hk] at hp
          exact absurd hp (List.not_mem_nil _)
    · intro k
      rw [emissionOptionTermStep_get, hlen]
      simp only [List.map_append, List.filter_append]
      rw [← h3 k]
      congr 1
      · apply List.map_congr_left
        intro p hp
        have hlt := hvalid k p hp
        rw [List.getD_eq_getElem?_getD, List.getD_eq_getElem?_getD,
          List.getElem?_append_left (by rw [List.length_map]; exact hlt)]
      · by_cases hk : tr.emissionKey = k
        · simp [hk, List.getD_eq_getElem?_getD]
        · simp [hk]

theorem emissionOptionHeaderOfRow_terms {r : EmissionOptionRow} {h : NucleusTradeHeaderModel}
    (hr : emissionOptionHeaderOfRow r = Except.ok h) :
    h.Terms = [emissionOptionTermOfRow r] := by
  unfold emissionOptionHeaderOfRow at hr
  cases he : executionTimeOf r.executionDate r.executionTime Time.zero with
  | error e => simp [he] at hr
  | ok t =>
    simp only [he, Except.ok.injEq] at hr
    subst hr
    rfl

/-- The row loop of `GetNucEmissionOptionDealList` on rows that are all mapped: one
header per row and the emission keys of the rows, in row order. -/
theorem emissionOptionRowLoop :
    ∀ (l : List EmissionOptionRow),
      (∀ r ∈ l, ∃ h, emissionOptionHeaderOfRow r = Except.ok h) →
      ∀ st0 : List NucleusTradeHeaderModel × List Int,
        ∃ hs, l.foldlM emissionOptionRowStep st0 =
            Except.ok (st0.1 ++ hs, st0.2 ++ l.map (fun r => r.emissionKey)) ∧
          List.Forall₂ (fun r h => emissionOptionHeaderOfRow r = Except.ok h) l hs
  | [], _, st0 => ⟨[], by simp [pure, Except.pure], List.Forall₂.nil⟩
  | r :: l, hall, st0 => by
    obtain ⟨hdr, hh⟩ := hall r (List.mem_cons_self _ _)
    obtain ⟨hs, hrun, hf⟩ := emissionOptionRowLoop l
      (fun x hx => hall x (List.mem_cons_of_mem _ hx)) (st0.1 ++ [hdr], st0.2 ++ [r.emissionKey])
    refine ⟨hdr :: hs, ?_, List.Forall₂.cons hh hf⟩
    have hstep : emissionOptionRowStep st0 r =
        Except.ok (st0.1 ++ [hdr], st0.2 ++ [r.emissionKey]) := by
      unfold emissionOptionRowStep
      rw [hh]
    rw [List.foldlM_cons, hstep]
    show l.foldlM emissionOptionRowStep (st0.1 ++ [hdr], st0.2 ++ [r.emissionKey]) = _
    rw [hrun]
    simp

theorem lastRowWithEmissionKey_append_self (l : List EmissionOptionRow)
    (r : EmissionOptionRow) :
    lastRowWithEmissionKey (l ++ [r]) r.emissionKey = some r := by
  unfold lastRowWithEmissionKey
  rw [List.filter_append]
  simp

theorem lastRowWithEmissionKey_append_of_ne (l : List EmissionOptionRow)
    (r : EmissionOptionRow) (k : Int) (h : r.emissionKey ≠ k) :
    lastRowWithEmissionKey (l ++ [r]) k = lastRowWithEmissionKey l k := by
  unfold lastRowWithEmissionKey
  rw [List.filter_append]
  simp [h]

theorem lastRowWithEmissionKey_of_mem (l : List EmissionOptionRow) (r : EmissionOptionRow)
    (h : r ∈ l) :
    ∃ r' ∈ l, r'.emissionKey = r.emissionKey ∧
      lastRowWithEmissionKey l r.emissionKey = some r' := by
  unfold lastRowWithEmissionKey
  have hmem : r ∈ l.filter (fun x => decide (x.emissionKey = r.emissionKey)) := by
    rw [List.mem_filter]
    exact ⟨h, by simp⟩
  cases hl : (l.filter (fun x => decide (x.emissionKey = r.emissionKey))).getLast? with
  | none =>
    rw [List.getLast?_eq_none_iff] at hl
    rw [hl] at hmem
    exact absurd hmem (List.not_mem_nil _)
  | some r' =>
    have h' := List.mem_of_getLast?_eq_some hl
    rw [List.mem_filter] at h'
    exact ⟨r', h'.1, by simpa using h'.2, rfl⟩

theorem withPriceOf_set (x : Option EmissionOptionRow) (r : EmissionOptionRow)
    (t : NucleusTradeTermModel) :
    { withPriceOf x t with FixedPrice := r.FixedPrice, Volume := r.Volume } =
      withPriceOf (some r) t := by
  cases x <;> rfl

/-- The splice loop of `GetNucEmissionOptionDealList` over the headers of the rows `l₂`,
after the headers of the rows `l₁`: each header keeps the pointers of its emission key,
and every term object under a key carries the price and the volume of the last row with
that key. -/
theorem emissionOptionSpliceLoop (termModelsMap : GoMap (List Nat))
    (objects0 : List NucleusTradeTermModel)
    (hvalid : ∀ (k : Int) (p : Nat), p ∈ (mapGet termModelsMap k).getD [] →
      p < objects0.length)
    (hdisj : ∀ (k k' : Int) (p : Nat), p ∈ (mapGet termModelsMap k).getD [] →
      p ∈ (mapGet termModelsMap k').getD [] → k = k')
    (l₂ : List EmissionOptionRow) (hs : List NucleusTradeHeaderModel)
    (hf : List.Forall₂ (fun r h => emissionOptionHeaderOfRow r = Except.ok h) l₂ hs) :
    ∀ (l₁ : List EmissionOptionRow) (objects : List NucleusTradeTermModel)
      (done : List (NucleusTradeHeaderModel × List Nat)),
      objects.length = objects0.length →
      (∀ (k : Int) (p : Nat), p ∈ (mapGet termModelsMap k).getD [] →
        objects[p]? = (objects0[p]?).map (withPriceOf (lastRowWithEmissionKey l₁ k))) →
      ∃ objects', hs.foldlM (emissionOptionSpliceStep termModelsMap) (objects, done) =
          Except.ok (objects', done ++
            List.zipWith (fun r h => (h, (mapGet termModelsMap r.emissionKey).getD [])) l₂ hs) ∧
        objects'.length = objects0.length ∧
        ∀ (k : Int) (p : Nat), p ∈ (mapGet termModelsMap k).getD [] →
          objects'[p]? =
            (objects0[p]?).map (withPriceOf (lastRowWithEmissionKey (l₁ ++ l₂) k)) := by
  induction hf with
  | nil =>
    intro l₁ objects done hlen hinv
    refine ⟨objects, ?_, hlen, ?_⟩
    · simp [pure, Except.pure]
    · rw [List.append_nil]
      exact hinv
  | @cons r h l₂ hs hr _ ih =>
    intro l₁ objects done hlen hinv
    have hterms := emissionOptionHeaderOfRow_terms hr
    obtain ⟨objects1, hrun, hlen1, hin, hout⟩ :=
      foldlM_setPriceAt r.FixedPrice r.Volume ((mapGet termModelsMap r.emissionKey).getD [])
        objects (fun p hp => by rw [hlen]; exact hvalid _ p hp)
    have hstep : emissionOptionSpliceStep termModelsMap (objects, done) h =
        Except.ok (objects1, done ++ [(h, (mapGet termModelsMap r.emissionKey).getD [])]) := by
      unfold emissionOptionSpliceStep
      rw [hterms]
      show (match ((mapGet termModelsMap r.emissionKey).getD []).foldlM
          (setPriceAt r.FixedPrice r.Volume) objects with
        | Except.error e => Except.error e
        | Except.ok objects' =>
          Except.ok (objects', done ++ [(h, (mapGet termModelsMap r.emissionKey).getD [])])) = _
      rw [hrun]
    obtain ⟨objects', hrun', hlen', hinv'⟩ := ih (l₁ ++ [r]) objects1
      (done ++ [(h, (mapGet termModelsMap r.emissionKey).getD [])]) (hlen1.trans hlen)
      (by
        intro k p hp
        by_cases hk : r.emissionKey = k
        · subst hk
          rw [hin p hp, hinv _ p hp, lastRowWithEmissionKey_append_self, Option.map_map]
          congr 1
          funext t
          exact withPriceOf_set _ r t
        · have hnot : p ∉ (mapGet termModelsMap r.emissionKey).getD [] :=
            fun hc => hk (hdisj _ _ p hc hp)
          rw [hout p hnot, hinv k p hp, lastRowWithEmissionKey_append_of_ne l₁ r k hk])
    refine ⟨objects', ?_, hlen', ?_⟩
    · rw [List.foldlM_cons, hstep]
      show hs.foldlM (emissionOptionSpliceStep termModelsMap)
        (objects1, done ++ [(h, (mapGet termModelsMap r.emissionKey).getD [])]) = _
      rw [hrun']
      simp
    · intro k p hp
      rw [hinv' k p hp, List.append_assoc]
      rfl

/-- The headers that the caller reads after the splice, row by row. -/
theorem resolveTerms_zipWith (objects : List NucleusTradeTermModel)
    (pointers : Int → List Nat) (P : EmissionOptionRow → Prop) (l : List EmissionOptionRow)
    (hs : List NucleusTradeHeaderModel)
    (hf : List.Forall₂ (fun r h => emissionOptionHeaderOfRow r = Except.ok h) l hs)
    (hP : ∀ r ∈ l, P r) :
    List.Forall₂
      (fun r h => P r ∧ ∃ h0, emissionOptionHeaderOfRow r = Except.ok h0 ∧
        h = { h0 with
              Terms := (pointers r.emissionKey).map
                (fun p => objects.getD p NucleusTradeTermModel.zero) })
      l (resolveTerms objects (List.zipWith (fun r h => (h, pointers r.emissionKey)) l hs)) := by
  revert hP
  induction hf with
  | nil => exact fun _ => List.Forall₂.nil
  | @cons r h l hs hr _ ih =>
    intro hP
    exact List.Forall₂.cons ⟨hP r (List.mem_cons_self _ _), h, hr, rfl⟩
      (ih (fun x hx => hP x (List.mem_cons_of_mem _ hx)))

/-- C26: emission-option correlation. For every non-empty list of primary rows that are
all mapped and every list of term rows, the fetch returns one header per row, in row
order; the term list of a header consists of the term rows of the header's emission key,
in row order, without the placeholder term, and each term carries the strike price and
the volume of the last primary row with that emission key. The term objects of a key are
shared by the headers of that key, so a header carries the price and volume of its own
row only when no later row has its emission key. -/
theorem C26_emission_option_terms_carry_last_price (rows : Rows EmissionOptionRow)
    (l : List EmissionOptionRow)
    (termQuery : List Int → Except Error (Rows EmissionOptionTermRow))
    (termRows : Rows EmissionOptionTermRow) (tl : List EmissionOptionTermRow)
    (hs : rows.scanned = l.map Except.ok) (hc : rows.closeErr = none) (he : rows.err = none)
    (hall : ∀ r ∈ l, ∃ h, emissionOptionHeaderOfRow r = Except.ok h) (hne : l ≠ [])
    (hq : termQuery (l.map (fun r => r.emissionKey)) = Except.ok termRows)
    (hts : termRows.scanned = tl.map Except.ok) (htc : termRows.closeErr = none)
    (hte : termRows.err = none) :
    ∃ headers, GetNucEmissionOptionDealList (Except.ok rows) termQuery = Except.ok headers ∧
      List.Forall₂
        (fun r h => ∃ h0 r', emissionOptionHeaderOfRow r = Except.ok h0 ∧
          r' ∈ l ∧ r'.emissionKey = r.emissionKey ∧
          lastRowWithEmissionKey l r.emissionKey = some r' ∧
          h = { h0 with
                Terms := (tl.filter (fun tr => decide (tr.emissionKey = r.emissionKey))).map
                  (fun tr =>
                    { emissionOptionFetchedTermOfRow tr with
                      FixedPrice := r'.FixedPrice, Volume := r'.Volume }) })
        l headers := by
  obtain ⟨hdrs, hloop, hf⟩ := emissionOptionRowLoop l hall ([], [])
  simp only [List.nil_append] at hloop
  obtain ⟨h1, h2, h3⟩ := emissionOptionTermLoop_store tl
  generalize hstore : tl.foldl emissionOptionTermStep { objects := [], termModelMap := [] } =
    store at h1 h2 h3
  have hvalid : ∀ (k : Int) (p : Nat), p ∈ (mapGet store.termModelMap k).getD [] →
      p < store.objects.length := by
    intro k p hp
    obtain ⟨x, hx, _⟩ := h2 k p hp
    rw [h1, List.length_map]
    by_contra hcon
    rw [List.getElem?_eq_none (Nat.le_of_not_lt hcon)] at hx
    exact Option.noConfusion hx
  have hdisj : ∀ (k k' : Int) (p : Nat), p ∈ (mapGet store.termModelMap k).getD [] →
      p ∈ (mapGet store.termModelMap k').getD [] → k = k' := by
    intro k k' p hp hp'
    obtain ⟨x, hx, hkx⟩ := h2 k p hp
    obtain ⟨y, hy, hky⟩ := h2 k' p hp'
    rw [hx, Option.some.injEq] at hy
    subst hy
    exact hkx.symm.trans hky
  obtain ⟨objects', hrun, hlen', hinv⟩ :=
    emissionOptionSpliceLoop store.termModelMap store.objects hvalid hdisj l hdrs hf []
      store.objects [] rfl
      (by
        intro k p hp
        have hlt := hvalid k p hp
        rw [List.getElem?_eq_getElem hlt]
        rfl)
  simp only [List.nil_append] at hrun hinv
  have hklen : ¬ (l.map (fun r => r.emissionKey)).length = 0 := by
    rw [List.length_map]
    exact fun h0 => hne (List.length_eq_zero.1 h0)
  have hkpos : 0 < (l.map (fun r => r.emissionKey)).length := Nat.pos_of_ne_zero hklen
  have hfetch : getNucEmissionOptionDealTermList termQuery (l.map (fun r => r.emissionKey)) =
      Except.ok store := by
    unfold getNucEmissionOptionDealTermList
    simp only [if_neg hklen, hq, scanLoop_ok termRows tl _ _ hts, htc, hte, hstore]
  refine ⟨resolveTerms objects'
    (List.zipWith (fun r h => (h, (mapGet store.termModelMap r.emissionKey).getD [])) l hdrs),
    ?_, ?_⟩
  · unfold GetNucEmissionOptionDealList
    simp only [scanLoop_scanned_ok rows l _ _ hs, hloop, hc, he, if_pos hkpos, hfetch, hrun]
  · have hres := resolveTerms_zipWith objects'
      (fun k => (mapGet store.termModelMap k).getD []) (fun r => r ∈ l) l hdrs hf
      (fun r hr => hr)
    refine List.Forall₂.imp ?_ hres
    · rintro r h ⟨hr, h0, hh0, hh⟩
      obtain ⟨r', hr'l, hr'k, hlast⟩ := lastRowWithEmissionKey_of_mem l r hr
      refine ⟨h0, r', hh0, hr'l, hr'k, hlast, ?_⟩
      rw [hh]
      have hrhs : (tl.filter (fun tr => decide (tr.emissionKey = r.emissionKey))).map
          (fun tr =>
            { emissionOptionFetchedTermOfRow tr with
              FixedPrice := r'.FixedPrice, Volume := r'.Volume }) =
          ((tl.filter (fun tr => decide (tr.emissionKey = r.emissionKey))).map
            emissionOptionFetchedTermOfRow).map (withPriceOf (some r')) := by
        rw [List.map_map]
        rfl
      rw [hrhs, ← h3, List.map_map]
      congr 1
      apply List.map_congr_left
      intro p hp
      have hlt' : p < (tl.map emissionOptionFetchedTermOfRow).length := by
        rw [← h1]
        exact hvalid _ p hp
      rw [List.getD_eq_getElem?_getD, hinv _ p hp, hlast, h1, List.getElem?_eq_getElem hlt']
      simp only [Function.comp, List.getD_eq_getElem?_getD, List.getElem?_eq_getElem hlt',
        Option.getD_some, Option.map_some']

/-- Witness of C26: two option rows on the emission deal 31321, with strike prices 7 and 8
and volumes -250 and 700, and one term row of that deal. Both returned headers have the
one fetched term, and the term of the first header carries the strike price 8 and the
volume 700 of the second row. -/
theorem C26_shared_emission_key_witness :
    ∃ headers, GetNucEmissionOptionDealList (Except.ok sampleEmissionOptionRows)
        (fun _ => Except.ok sampleEmissionOptionTermRows) = Except.ok headers ∧
      headers.map
          (fun h => (h.DealKey, h.Terms.map (fun t => (t.VolSeq, t.FixedPrice, t.Volume)))) =
        [(12706, [(1, 8, 700)]), (12711, [(1, 8, 700)])] :=
  match C26_emission_option_terms_carry_last_price sampleEmissionOptionRows
      sampleEmissionOptionRowList (fun _ => Except.ok sampleEmissionOptionTermRows)
      sampleEmissionOptionTermRows sampleEmissionOptionTermList rfl rfl rfl (by decide)
      (by decide) rfl rfl rfl rfl with
  | ⟨headers, h1, _⟩ => ⟨headers, h1, by
      have h2 : GetNucEmissionOptionDealList (Except.ok sampleEmissionOptionRows)
          (fun _ => Except.ok sampleEmissionOptionTermRows) = Except.ok _ := rfl
      rw [h2, Except.ok.injEq] at h1
      rw [← h1]
      decide⟩

/-! ## Failure of the driver to close a cursor -/

theorem Rows.closeErr_eq {α : Type} (rows : Rows α) : rows.closeErr = none :=
  rfl

theorem Rows.err_of_closeFailure {α : Type} (rows : Rows α) (c : Error)
    (h : rows.closeFailure = some c) : ∃ e, rows.err = some e := by
  unfold Rows.err
  cases rows.lastErr with
  | some e => exact ⟨e, rfl⟩
  | none => exact ⟨c, h⟩

theorem Rows.err_of_lastErr_none {α : Type} (rows : Rows α) (c : Error)
    (hl : rows.lastErr = none) (h : rows.closeFailure = some c) : rows.err = some c := by
  unfold Rows.err
  rw [hl]
  exact h

theorem headerStep_error_kind {α σ : Type}
    (headerOfRow : α → Except Fault NucleusTradeHeaderModel)
    (next : σ → NucleusTradeHeaderModel → σ)
    (hk : ∀ r e, headerOfRow r = Except.error e → ∃ err, e = Fault.error err)
    (s : σ) (a : α) (e : Fault)
    (h : (match headerOfRow a with
      | Except.error e => Except.error e
      | Except.ok headerModel => Except.ok (next s headerModel)) = Except.error e) :
    ∃ err, e = Fault.error err := by
  cases hh : headerOfRow a with
  | error e' =>
    simp only [hh, Except.error.injEq] at h
    rw [← h]
    exact hk a e' hh
  | ok hd => simp [hh] at h

theorem powerOptionsHeaderOfRow_error_kind (r : PowerOptionsRow) (e : Fault)
    (h : powerOptionsHeaderOfRow r = Except.error e) : ∃ err, e = Fault.error err := by
  unfold powerOptionsHeaderOfRow at h
  split at h
  · rename_i e' he'
    simp only [Except.error.injEq] at h
    rw [← h]
    exact executionTimeOf_error_kind he'
  · exact Except.noConfusion h

theorem spreadOptionsHeaderOfRow_error_kind (r : SpreadOptionsRow) (e : Fault)
    (h : spreadOptionsHeaderOfRow r = Except.error e) : ∃ err, e = Fault.error err := by
  unfold spreadOptionsHeaderOfRow at h
  split at h
  · rename_i e' he'
    simp only [Except.error.injEq] at h
    rw [← h]
    exact executionTimeOf_error_kind he'
  · exact Except.noConfusion h

theorem heatRateSwapsHeaderOfRow_error_kind (r : HeatRateSwapsRow) (e : Fault)
    (h : heatRateSwapsHeaderOfRow r = Except.error e) : ∃ err, e = Fault.error err := by
  unfold heatRateSwapsHeaderOfRow at h
  split at h
  · rename_i e' he'
    simp only [Except.error.injEq] at h
    rw [← h]
    exact executionTimeOf_error_kind he'
  · exact Except.noConfusion h

theorem tccftrsHeaderOfRow_error_kind (r : TCCFTRSRow) (e : Fault)
    (h : tccftrsHeaderOfRow r = Except.error e) : ∃ err, e = Fault.error err := by
  unfold tccftrsHeaderOfRow at h
  exact Except.noConfusion h

theorem emissionHeaderOfRow_error_kind (r : EmissionRow) (e : Fault)
    (h : emissionHeaderOfRow r = Except.error e) : ∃ err, e = Fault.error err := by
  unfold emissionHeaderOfRow at h
  split at h
  · rename_i e' he'
    simp only [Except.error.injEq] at h
    rw [← h]
    exact executionTimeOf_error_kind he'
  · exact Except.noConfusion h

theorem emissionOptionHeaderOfRow_error_kind (r : EmissionOptionRow) (e : Fault)
    (h : emissionOptionHeaderOfRow r = Except.error e) : ∃ err, e = Fault.error err := by
  unfold emissionOptionHeaderOfRow at h
  split at h
  · rename_i e' he'
    simp only [Except.error.injEq] at h
    rw [← h]
    exact executionTimeOf_error_kind he'
  · exact Except.noConfusion h

theorem pureStep_error_kind {α σ : Type} (f : σ → α → σ) (s : σ) (a : α) (e : Fault)
    (h : (Except.ok (f s a) : Except Fault σ) = Except.error e) :
    ∃ err, e = Fault.error err :=
  Except.noConfusion h

theorem collectHeaders_returnsError {α : Type} (rows : Rows α)
    (headerOfRow : α → Except Fault NucleusTradeHeaderModel) (c : Error)
    (hk : ∀ r e, headerOfRow r = Except.error e → ∃ err, e = Fault.error err)
    (hc : rows.closeFailure = some c) :
    ReturnsError (collectHeaders (Except.ok rows) headerOfRow) := by
  obtain ⟨e, he⟩ := Rows.err_of_closeFailure rows c hc
  generalize hR : collectHeaders (Except.ok rows) headerOfRow = R
  unfold collectHeaders at hR
  simp only [] at hR
  split at hR
  · rename_i f hsc
    obtain ⟨err, herr⟩ := scanLoop_error_kind rows _ _
      (fun s a e h => headerStep_error_kind headerOfRow (fun s hd => s ++ [hd]) hk s a e h)
      f hsc
    rw [← hR, herr]
    exact ⟨err, rfl⟩
  · simp only [Rows.closeErr_eq, he] at hR
    rw [← hR]
    exact ⟨e, rfl⟩

theorem emissionOptionRowStep_error_kind (s : List NucleusTradeHeaderModel × List Int)
    (r : EmissionOptionRow) (e : Fault)
    (h : emissionOptionRowStep s r = Except.error e) : ∃ err, e = Fault.error err := by
  unfold emissionOptionRowStep at h
  split at h
  · rename_i e' he'
    simp only [Except.error.injEq] at h
    rw [← h]
    exact emissionOptionHeaderOfRow_error_kind r e' he'
  · exact Except.noConfusion h

/-- C18: a failure to close the row cursor is fatal to the fetch. After the loop
`for rows.Next()` the explicit `rows.Close()` returns nil, because the last `Next` has
closed the cursor, and the error with which the driver answered is reported by
`rows.Err()`, whose check returns it. For the power-deal fetcher and its term and index
sub-fetchers, when the rows are read and mapped and the driver fails to close the cursor,
the call returns exactly that error; a failure to close the term cursor makes the
power-deal fetch return it as well. Each of the twelve family fetchers returns an error
and no header whenever the driver fails to close the primary cursor, whatever the rows
are, and each of the nine term and index sub-fetchers returns an error and no map whenever
the driver fails to close its cursor. -/
theorem C18_close_failure_is_returned :
    (∀ (rows : Rows PowerRow) (l : List PowerRow)
        (termQuery : List Int → Except Error (Rows PowerTermRow))
        (indexQuery : GoMap Int → Except Error (Rows PowerIndexRow)) (c : Error),
        rows.scanned = l.map Except.ok → (∀ x ∈ l, ∃ h, powerHeaderOfRow x = Except.ok h) →
        rows.lastErr = none → rows.closeFailure = some c →
        GetNucPowerDealList (Except.ok rows) termQuery indexQuery =
          Except.error (Fault.error c)) ∧
    (∀ (termQuery : List Int → Except Error (Rows PowerTermRow))
        (indexQuery : GoMap Int → Except Error (Rows PowerIndexRow)) (dealKeys : List Int)
        (rows : Rows PowerTermRow) (tl : List PowerTermRow) (c : Error),
        dealKeys ≠ [] → termQuery dealKeys = Except.ok rows →
        rows.scanned = tl.map Except.ok → rows.lastErr = none → rows.closeFailure = some c →
        getNucPowerDealTradeTermModel termQuery indexQuery dealKeys =
          Except.error (Fault.error c)) ∧
    (∀ (indexQuery : GoMap Int → Except Error (Rows PowerIndexRow)) (formulaMap : GoMap Int)
        (rows : Rows PowerIndexRow) (il : List PowerIndexRow) (c : Error),
        formulaMap ≠ [] → indexQuery formulaMap = Except.ok rows →
        rows.scanned = il.map Except.ok → rows.lastErr = none → rows.closeFailure = some c →
        getNucPowerTradeIndexModel indexQuery formulaMap = Except.error (Fault.error c)) ∧
    (∀ (rows : Rows PowerRow) (termQuery : List Int → Except Error (Rows PowerTermRow))
        (indexQuery : GoMap Int → Except Error (Rows PowerIndexRow))
        (l : List PowerRow) (termRows : Rows PowerTermRow) (tl : List PowerTermRow)
        (c : Error),
        rows.scanned = l.map Except.ok → l ≠ [] →
        (∀ x ∈ l, ∃ h, powerHeaderOfRow x = Except.ok h) →
        rows.closeErr = none → rows.err = none →
        termQuery (l.map (fun r => r.DealKey)) = Except.ok termRows →
        termRows.scanned = tl.map Except.ok → termRows.lastErr = none →
        termRows.closeFailure = some c →
        GetNucPowerDealList (Except.ok rows) termQuery indexQuery =
          Except.error (Fault.error c)) ∧
    (∀ (rows : Rows PowerRow)
        (termQuery : List Int → Except Error (Rows PowerTermRow))
        (indexQuery : GoMap Int → Except Error (Rows PowerIndexRow)) (c : Error),
        rows.closeFailure = some c →
        ReturnsError (GetNucPowerDealList (Except.ok rows) termQuery indexQuery)) ∧
    (∀ (rows : Rows PowerSwapRow)
        (termQuery : List Int → Except Error (Rows PowerSwapTermRow)) (c : Error),
        rows.closeFailure = some c →
        ReturnsError (GetNucPowerSwapDealList (Except.ok rows) termQuery)) ∧
    (∀ (rows : Rows PowerOptionsRow) (c : Error),
        rows.closeFailure = some c →
        ReturnsError (GetNucPowerOptionsDealList (Except.ok rows))) ∧
    (∀ (rows : Rows CapacityRow)
        (termQuery : List Int → Except Error (Rows CapacityTermRow))
        (indexQuery : List Int → Except Error (Rows CapacityIndexRow)) (c : Error),
        rows.closeFailure = some c →
        ReturnsError (GetNucCapacityDealList (Except.ok rows) termQuery indexQuery)) ∧
    (∀ (rows : Rows PTPRow) (c : Error),
        rows.closeFailure = some c →
        ReturnsError (GetNucPTPDealList (Except.ok rows))) ∧
    (∀ (rows : Rows EmissionRow)
        (termQuery : List Int → Except Error (Rows EmissionTermRow)) (c : Error),
        rows.closeFailure = some c →
        ReturnsError (GetNucEmissionDealList (Except.ok rows) termQuery)) ∧
    (∀ (rows : Rows EmissionOptionRow)
        (termQuery : List Int → Except Error (Rows EmissionOptionTermRow)) (c : Error),
        rows.closeFailure = some c →
        ReturnsError (GetNucEmissionOptionDealList (Except.ok rows) termQuery)) ∧
    (∀ (rows : Rows SpreadOptionsRow) (c : Error),
        rows.closeFailure = some c →
        ReturnsError (GetNucSpreadOptionsDealList (Except.ok rows))) ∧
    (∀ (rows : Rows HeatRateSwapsRow) (c : Error),
        rows.closeFailure = some c →
        ReturnsError (GetNucHeatRateSwapsDealList (Except.ok rows))) ∧
    (∀ (rows : Rows TCCFTRSRow) (c : Error),
        rows.closeFailure = some c →
        ReturnsError (GetNucTCCFTRSDealList (Except.ok rows))) ∧
    (∀ (rows : Rows TransmissionRow)
        (termQuery : List Int → Except Error (Rows TransmissionTermRow)) (c : Error),
        rows.closeFailure = some c →
        ReturnsError (GetNucTransmissionDealList (Except.ok rows) termQuery)) ∧
    (∀ (rows : Rows MiscChargeRow)
        (termQuery : List Int → Except Error (Rows MiscChargeTermRow)) (c : Error),
        rows.closeFailure = some c →
        ReturnsError (GetNucMiscChargeDealList (Except.ok rows) termQuery)) ∧
    (∀ (termQuery : List Int → Except Error (Rows PowerTermRow))
        (indexQuery : GoMap Int → Except Error (Rows PowerIndexRow)) (dealKeys : List Int)
        (rows : Rows PowerTermRow) (c : Error),
        dealKeys ≠ [] → termQuery dealKeys = Except.ok rows → rows.closeFailure = some c →
        ∃ e, getNucPowerDealTradeTermModel termQuery indexQuery dealKeys =
          Except.error (Fault.error e)) ∧
    (∀ (indexQuery : GoMap Int → Except Error (Rows PowerIndexRow)) (formulaMap : GoMap Int)
        (rows : Rows PowerIndexRow) (c : Error),
        formulaMap ≠ [] → indexQuery formulaMap = Except.ok rows → rows.closeFailure = some c →
        ∃ e, getNucPowerTradeIndexModel indexQuery formulaMap = Except.error (Fault.error e)) ∧
    (∀ (query : List Int → Except Error (Rows PowerSwapTermRow)) (dealKeys : List Int)
        (rows : Rows PowerSwapTermRow) (c : Error),
        dealKeys ≠ [] → query dealKeys = Except.ok rows → rows.closeFailure = some c →
        ∃ e, getNucPowerSwapDealTermModel query dealKeys = Except.error (Fault.error e)) ∧
    (∀ (query : List Int → Except Error (Rows CapacityTermRow)) (dealKeys : List Int)
        (rows : Rows CapacityTermRow) (c : Error),
        dealKeys ≠ [] → query dealKeys = Except.ok rows → rows.closeFailure = some c →
        ∃ e, getNucCapacityDealTermModel query dealKeys = Except.error (Fault.error e)) ∧
    (∀ (query : List Int → Except Error (Rows CapacityIndexRow)) (dealKeys : List Int)
        (rows : Rows CapacityIndexRow) (c : Error),
        dealKeys ≠ [] → query dealKeys = Except.ok rows → rows.closeFailure = some c →
        ∃ e, getNucCapacityDealIndexModel query dealKeys = Except.error (Fault.error e)) ∧
    (∀ (query : List Int → Except Error (Rows EmissionTermRow)) (dealKeys : List Int)
        (rows : Rows EmissionTermRow) (c : Error),
        dealKeys ≠ [] → query dealKeys = Except.ok rows → rows.closeFailure = some c →
        ∃ e, getNucEmissionDealListTermModel query dealKeys = Except.error (Fault.error e)) ∧
    (∀ (query : List Int → Except Error (Rows EmissionOptionTermRow)) (dealKeys : List Int)
        (rows : Rows EmissionOptionTermRow) (c : Error),
        dealKeys ≠ [] → query dealKeys = Except.ok rows → rows.closeFailure = some c →
        ∃ e, getNucEmissionOptionDealTermList query dealKeys = Except.error (Fault.error e)) ∧
    (∀ (query : List Int → Except Error (Rows TransmissionTermRow)) (dealKeys : List Int)
        (rows : Rows TransmissionTermRow) (c : Error),
        dealKeys ≠ [] → query dealKeys = Except.ok rows → rows.closeFailure = some c →
        ∃ e, getNucTransmissionDealTermModel query dealKeys = Except.error (Fault.error e)) ∧
    (∀ (query : List Int → Except Error (Rows MiscChargeTermRow)) (dealKeys : List Int)
        (rows : Rows MiscChargeTermRow) (c : Error),
        dealKeys ≠ [] → query dealKeys = Except.ok rows → rows.closeFailure = some c →
        ∃ e, getNucMiscChargeDealTermList query dealKeys = Except.error (Fault.error e)) := by
  refine ⟨?_, ?_, ?_, ?_, ?_, ?_, ?_, ?_, ?_, ?_, ?_, ?_, ?_, ?_, ?_, ?_, ?_, ?_, ?_, ?_, ?_, ?_,
    ?_, ?_, ?_⟩
  · intro rows l termQuery indexQuery c hs hall hl hc
    obtain ⟨st, hst⟩ := powerRowLoop_ok l hall FetchState.init
    unfold GetNucPowerDealList
    simp only [scanLoop_scanned_ok rows l _ _ hs, hst, Rows.closeErr_eq,
      Rows.err_of_lastErr_none rows c hl hc]
  · intro termQuery indexQuery dealKeys rows tl c hne hq hs hl hc
    have hlen : ¬ dealKeys.length = 0 := fun h0 => hne (List.length_eq_zero.1 h0)
    unfold getNucPowerDealTradeTermModel
    simp only [if_neg hlen, hq, scanLoop_ok rows tl _ _ hs, Rows.closeErr_eq,
      Rows.err_of_lastErr_none rows c hl hc]
  · intro indexQuery formulaMap rows il c hne hq hs hl hc
    have hlen : ¬ formulaMap.length = 0 := fun h0 => hne (List.length_eq_zero.1 h0)
    unfold getNucPowerTradeIndexModel
    simp only [if_neg hlen, hq, scanLoop_ok rows il _ _ hs, Rows.closeErr_eq,
      Rows.err_of_lastErr_none rows c hl hc]
  · intro rows termQuery indexQuery l termRows tl c hs hne hall hc he hq hts htl htc
    obtain ⟨st, hst⟩ := GetNucPowerDealList_of_primary_ok rows l termQuery indexQuery hs hne
      hall hc he
    have hlen : ¬ (l.map (fun r => r.DealKey)).length = 0 := by
      rw [List.length_map]
      exact Nat.pos_iff_ne_zero.1 (List.length_pos.2 hne)
    have hterm : getNucPowerDealTradeTermModel termQuery indexQuery
        (l.map (fun r => r.DealKey)) = Except.error (Fault.error c) := by
      unfold getNucPowerDealTradeTermModel
      simp only [if_neg hlen, hq, scanLoop_ok termRows tl _ _ hts, Rows.closeErr_eq,
        Rows.err_of_lastErr_none termRows c htl htc]
    rw [hst, hterm]
  · intro rows termQuery indexQuery c hc
    obtain ⟨e, he⟩ := Rows.err_of_closeFailure rows c hc
    generalize hR : GetNucPowerDealList (Except.ok rows) termQuery indexQuery = R
    unfold GetNucPowerDealList at hR
    simp only [] at hR
    split at hR
    · rename_i f hsc
      obtain ⟨err, herr⟩ := scanLoop_error_kind rows _ _
        powerRowStep_error_kind f hsc
      rw [← hR, herr]
      exact ⟨err, rfl⟩
    · simp only [Rows.closeErr_eq, he] at hR
      rw [← hR]
      exact ⟨e, rfl⟩
  · intro rows termQuery c hc
    obtain ⟨e, he⟩ := Rows.err_of_closeFailure rows c hc
    generalize hR : GetNucPowerSwapDealList (Except.ok rows) termQuery = R
    unfold GetNucPowerSwapDealList at hR
    simp only [] at hR
    split at hR
    · rename_i f hsc
      obtain ⟨err, herr⟩ := scanLoop_error_kind rows _ _
        powerSwapRowStep_error_kind f hsc
      rw [← hR, herr]
      exact ⟨err, rfl⟩
    · simp only [Rows.closeErr_eq, he] at hR
      rw [← hR]
      exact ⟨e, rfl⟩
  · intro rows c hc
    exact collectHeaders_returnsError rows powerOptionsHeaderOfRow c
      powerOptionsHeaderOfRow_error_kind hc
  · intro rows termQuery indexQuery c hc
    obtain ⟨e, he⟩ := Rows.err_of_closeFailure rows c hc
    generalize hR : GetNucCapacityDealList (Except.ok rows) termQuery indexQuery = R
    unfold GetNucCapacityDealList at hR
    simp only [] at hR
    split at hR
    · rename_i f hsc
      obtain ⟨err, herr⟩ := scanLoop_error_kind rows _ _
        capacityRowStep_error_kind f hsc
      rw [← hR, herr]
      exact ⟨err, rfl⟩
    · simp only [Rows.closeErr_eq, he] at hR
      rw [← hR]
      exact ⟨e, rfl⟩
  · intro rows c hc
    obtain ⟨e, he⟩ := Rows.err_of_closeFailure rows c hc
    generalize hR : GetNucPTPDealList (Except.ok rows) = R
    unfold GetNucPTPDealList at hR
    simp only [] at hR
    split at hR
    · rename_i f hsc
      obtain ⟨err, herr⟩ := scanLoop_error_kind rows _ _
        (fun _ _ _ h => Except.noConfusion h) f hsc
      rw [← hR, herr]
      exact ⟨err, rfl⟩
    · simp only [Rows.closeErr_eq, he] at hR
      rw [← hR]
      exact ⟨e, rfl⟩
  · intro rows termQuery c hc
    obtain ⟨e, he⟩ := Rows.err_of_closeFailure rows c hc
    generalize hR : GetNucEmissionDealList (Except.ok rows) termQuery = R
    unfold GetNucEmissionDealList at hR
    simp only [] at hR
    split at hR
    · rename_i f hsc
      obtain ⟨err, herr⟩ := scanLoop_error_kind rows _ _
        (fun s a e h => headerStep_error_kind emissionHeaderOfRow registerHeader
        emissionHeaderOfRow_error_kind s a e h) f hsc
      rw [← hR, herr]
      exact ⟨err, rfl⟩
    · simp only [Rows.closeErr_eq, he] at hR
      rw [← hR]
      exact ⟨e, rfl⟩
  · intro rows termQuery c hc
    obtain ⟨e, he⟩ := Rows.err_of_closeFailure rows c hc
    generalize hR : GetNucEmissionOptionDealList (Except.ok rows) termQuery = R
    unfold GetNucEmissionOptionDealList at hR
    simp only [] at hR
    split at hR
    · rename_i f hsc
      obtain ⟨err, herr⟩ := scanLoop_error_kind rows _ _
        emissionOptionRowStep_error_kind f hsc
      rw [← hR, herr]
      exact ⟨err, rfl⟩
    · simp only [Rows.closeErr_eq, he] at hR
      rw [← hR]
      exact ⟨e, rfl⟩
  · intro rows c hc
    exact collectHeaders_returnsError rows spreadOptionsHeaderOfRow c
      spreadOptionsHeaderOfRow_error_kind hc
  · intro rows c hc
    exact collectHeaders_returnsError rows heatRateSwapsHeaderOfRow c
      heatRateSwapsHeaderOfRow_error_kind hc
  · intro rows c hc
    exact collectHeaders_returnsError rows tccftrsHeaderOfRow c
      tccftrsHeaderOfRow_error_kind hc
  · intro rows termQuery c hc
    obtain ⟨e, he⟩ := Rows.err_of_closeFailure rows c hc
    generalize hR : GetNucTransmissionDealList (Except.ok rows) termQuery = R
    unfold GetNucTransmissionDealList at hR
    simp only [] at hR
    split at hR
    · rename_i f hsc
      obtain ⟨err, herr⟩ := scanLoop_error_kind rows _ _
        (fun s a e h => headerStep_error_kind transmissionHeaderOfRow registerHeader
        transmissionHeaderOfRow_error_kind s a e h) f hsc
      rw [← hR, herr]
      exact ⟨err, rfl⟩
    · simp only [Rows.closeErr_eq, he] at hR
      rw [← hR]
      exact ⟨e, rfl⟩
  · intro rows termQuery c hc
    obtain ⟨e, he⟩ := Rows.err_of_closeFailure rows c hc
    generalize hR : GetNucMiscChargeDealList (Except.ok rows) termQuery = R
    unfold GetNucMiscChargeDealList at hR
    simp only [] at hR
    split at hR
    · rename_i f hsc
      obtain ⟨err, herr⟩ := scanLoop_error_kind rows _ _
        (fun _ _ _ h => Except.noConfusion h) f hsc
      rw [← hR, herr]
      exact ⟨err, rfl⟩
    · simp only [Rows.closeErr_eq, he] at hR
      rw [← hR]
      exact ⟨e, rfl⟩
  · intro termQuery indexQuery dealKeys rows c hne hq hc
    obtain ⟨e, he⟩ := Rows.err_of_closeFailure rows c hc
    have hlen : ¬ dealKeys.length = 0 := fun h0 => hne (List.length_eq_zero.1 h0)
    generalize hR : getNucPowerDealTradeTermModel termQuery indexQuery dealKeys = R
    unfold getNucPowerDealTradeTermModel at hR
    simp only [if_neg hlen, hq] at hR
    split at hR
    · rename_i f hsc
      obtain ⟨err, herr⟩ := scanLoop_error_kind rows _ _
        (fun _ _ _ h => Except.noConfusion h) f hsc
      rw [← hR, herr]
      exact ⟨err, rfl⟩
    · simp only [Rows.closeErr_eq, he] at hR
      rw [← hR]
      exact ⟨e, rfl⟩
  · intro indexQuery formulaMap rows c hne hq hc
    obtain ⟨e, he⟩ := Rows.err_of_closeFailure rows c hc
    have hlen : ¬ formulaMap.length = 0 := fun h0 => hne (List.length_eq_zero.1 h0)
    generalize hR : getNucPowerTradeIndexModel indexQuery formulaMap = R
    unfold getNucPowerTradeIndexModel at hR
    simp only [if_neg hlen, hq] at hR
    split at hR
    · rename_i f hsc
      obtain ⟨err, herr⟩ := scanLoop_error_kind rows _ _
        (fun _ _ _ h => Except.noConfusion h) f hsc
      rw [← hR, herr]
      exact ⟨err, rfl⟩
    · simp only [Rows.closeErr_eq, he] at hR
      rw [← hR]
      exact ⟨e, rfl⟩
  · intro query dealKeys rows c hne hq hc
    obtain ⟨e, he⟩ := Rows.err_of_closeFailure rows c hc
    have hlen : ¬ dealKeys.length = 0 := fun h0 => hne (List.length_eq_zero.1 h0)
    generalize hR : getNucPowerSwapDealTermModel query dealKeys = R
    unfold getNucPowerSwapDealTermModel at hR
    simp only [if_neg hlen, hq] at hR
    split at hR
    · rename_i f hsc
      obtain ⟨err, herr⟩ := scanLoop_error_kind rows _ _
        (fun _ _ _ h => Except.noConfusion h) f hsc
      rw [← hR, herr]
      exact ⟨err, rfl⟩
    · simp only [Rows.closeErr_eq, he] at hR
      rw [← hR]
      exact ⟨e, rfl⟩
  · intro query dealKeys rows c hne hq hc
    obtain ⟨e, he⟩ := Rows.err_of_closeFailure rows c hc
    have hlen : ¬ dealKeys.length = 0 := fun h0 => hne (List.length_eq_zero.1 h0)
    generalize hR : getNucCapacityDealTermModel query dealKeys = R
    unfold getNucCapacityDealTermModel at hR
    simp only [if_neg hlen, hq] at hR
    split at hR
    · rename_i f hsc
      obtain ⟨err, herr⟩ := scanLoop_error_kind rows _ _
        (fun _ _ _ h => Except.noConfusion h) f hsc
      rw [← hR, herr]
      exact ⟨err, rfl⟩
    · simp only [Rows.closeErr_eq, he] at hR
      rw [← hR]
      exact ⟨e, rfl⟩
  · intro query dealKeys rows c hne hq hc
    obtain ⟨e, he⟩ := Rows.err_of_closeFailure rows c hc
    have hlen : ¬ dealKeys.length = 0 := fun h0 => hne (List.length_eq_zero.1 h0)
    generalize hR : getNucCapacityDealIndexModel query dealKeys = R
    unfold getNucCapacityDealIndexModel at hR
    simp only [if_neg hlen, hq] at hR
    split at hR
    · rename_i f hsc
      obtain ⟨err, herr⟩ := scanLoop_error_kind rows _ _
        (fun _ _ _ h => Except.noConfusion h) f hsc
      rw [← hR, herr]
      exact ⟨err, rfl⟩
    · simp only [Rows.closeErr_eq, he] at hR
      rw [← hR]
      exact ⟨e, rfl⟩
  · intro query dealKeys rows c hne hq hc
    obtain ⟨e, he⟩ := Rows.err_of_closeFailure rows c hc
    have hlen : ¬ dealKeys.length = 0 := fun h0 => hne (List.length_eq_zero.1 h0)
    generalize hR : getNucEmissionDealListTermModel query dealKeys = R
    unfold getNucEmissionDealListTermModel at hR
    simp only [if_neg hlen, hq] at hR
    split at hR
    · rename_i f hsc
      obtain ⟨err, herr⟩ := scanLoop_error_kind rows _ _
        (fun _ _ _ h => Except.noConfusion h) f hsc
      rw [← hR, herr]
      exact ⟨err, rfl⟩
    · simp only [Rows.closeErr_eq, he] at hR
      rw [← hR]
      exact ⟨e, rfl⟩
  · intro query dealKeys rows c hne hq hc
    obtain ⟨e, he⟩ := Rows.err_of_closeFailure rows c hc
    have hlen : ¬ dealKeys.length = 0 := fun h0 => hne (List.length_eq_zero.1 h0)
    generalize hR : getNucEmissionOptionDealTermList query dealKeys = R
    unfold getNucEmissionOptionDealTermList at hR
    simp only [if_neg hlen, hq] at hR
    split at hR
    · rename_i f hsc
      obtain ⟨err, herr⟩ := scanLoop_error_kind rows _ _
        (fun _ _ _ h => Except.noConfusion h) f hsc
      rw [← hR, herr]
      exact ⟨err, rfl⟩
    · simp only [Rows.closeErr_eq, he] at hR
      rw [← hR]
      exact ⟨e, rfl⟩
  · intro query dealKeys rows c hne hq hc
    obtain ⟨e, he⟩ := Rows.err_of_closeFailure rows c hc
    have hlen : ¬ dealKeys.length = 0 := fun h0 => hne (List.length_eq_zero.1 h0)
    generalize hR : getNucTransmissionDealTermModel query dealKeys = R
    unfold getNucTransmissionDealTermModel at hR
    simp only [if_neg hlen, hq] at hR
    split at hR
    · rename_i f hsc
      obtain ⟨err, herr⟩ := scanLoop_error_kind rows _ _
        (fun _ _ _ h => Except.noConfusion h) f hsc
      rw [← hR, herr]
      exact ⟨err, rfl⟩
    · simp only [Rows.closeErr_eq, he] at hR
      rw [← hR]
      exact ⟨e, rfl⟩
  · intro query dealKeys rows c hne hq hc
    obtain ⟨e, he⟩ := Rows.err_of_closeFailure rows c hc
    have hlen : ¬ dealKeys.length = 0 := fun h0 => hne (List.length_eq_zero.1 h0)
    generalize hR : getNucMiscChargeDealTermList query dealKeys = R
    unfold getNucMiscChargeDealTermList at hR
    simp only [if_neg hlen, hq] at hR
    split at hR
    · rename_i f hsc
      obtain ⟨err, herr⟩ := scanLoop_error_kind rows _ _
        (fun _ _ _ h => Except.noConfusion h) f hsc
      rw [← hR, herr]
      exact ⟨err, rfl⟩
    · simp only [Rows.closeErr_eq, he] at hR
      rw [← hR]
      exact ⟨e, rfl⟩

/-- Witness of C18: one power-deal row is read and mapped, the driver fails to close the
cursor, and the fetch returns that error. -/
theorem C18_close_failure_witness :
    GetNucPowerDealList (Except.ok samplePowerRowsCloseError)
        (fun _ => Except.ok samplePowerTermRows) (fun _ => Except.error sampleQueryError) =
      Except.error (Fault.error sampleCloseError) :=
  C18_close_failure_is_returned.1 samplePowerRowsCloseError [samplePowerRow]
    (fun _ => Except.ok samplePowerTermRows) (fun _ => Except.error sampleQueryError)
    sampleCloseError rfl (by decide) rfl rfl

/-! ## Splices that run to their end -/

theorem mem_mapSet_or {V : Type} : ∀ (m : GoMap V) (k : Int) (v : V) (e : Int × V),
    e ∈ mapSet m k v → e = (k, v) ∨ e ∈ m
  | [], k, v, e, h => by
    simp only [mapSet, List.mem_singleton] at h
    exact Or.inl h
  | (k', v') :: m, k, v, e, h => by
    by_cases hk : k' = k
    · simp only [mapSet, hk, if_true, List.mem_cons] at h
      rcases h with h | h
      · exact Or.inl h
      · exact Or.inr (List.mem_cons_of_mem _ h)
    · simp only [mapSet, hk, if_false, List.mem_cons] at h
      rcases h with h | h
      · exact Or.inr (by rw [h]; exact List.mem_cons_self _ _)
      · rcases mem_mapSet_or m k v e h with h | h
        · exact Or.inl h
        · exact Or.inr (List.mem_cons_of_mem _ h)

/-- Every entry of a map filled by `m[k] = append(m[k], v)` over rows has a non-empty list
and the key of one of the rows. -/
theorem foldl_mapAppend_entry {α V : Type} (key : α → Int) (mk : GoMap (List V) → α → V) :
    ∀ (l : List α) (acc : GoMap (List V)) (e : Int × List V),
      e ∈ l.foldl (fun m r => mapAppend m (key r) (mk m r)) acc →
      e ∈ acc ∨ (e.2 ≠ [] ∧ ∃ r ∈ l, key r = e.1)
  | [], _, _, h => Or.inl h
  | r :: l, acc, e, h => by
    rw [List.foldl_cons] at h
    rcases foldl_mapAppend_entry key mk l _ e h with h | ⟨h1, x, hx, hk⟩
    · unfold mapAppend at h
      rcases mem_mapSet_or _ _ _ e h with h | h
      · right
        rw [h]
        exact ⟨by simp, r, List.mem_cons_self _ _, rfl⟩
      · exact Or.inl h
    · exact Or.inr ⟨h1, x, List.mem_cons_of_mem _ hx, hk⟩

theorem foldl_mapAppendWith_nodup {α V : Type} (key : α → Int)
    (mk : GoMap (List V) → α → V) :
    ∀ (l : List α) (acc : GoMap (List V)), (acc.map Prod.fst).Nodup →
      ((l.foldl (fun m r => mapAppend m (key r) (mk m r)) acc).map Prod.fst).Nodup
  | [], _, h => h
  | r :: l, acc, h => by
    rw [List.foldl_cons]
    exact foldl_mapAppendWith_nodup key mk l _ (mapSet_nodup _ _ _ h)

theorem pointersNameKeys_valid {st : FetchState} (h : PointersNameKeys st) (k : Int) (p : Nat)
    (hp : mapGet st.headerModelsMap k = some p) :
    ∃ hd, st.headerModels[p]? = some hd ∧ hd.DealKey = k ∧ p < st.headerModels.length := by
  obtain ⟨hd, h1, h2⟩ := h.2 (k, p) (mapGet_mem _ _ _ hp)
  refine ⟨hd, h1, h2, ?_⟩
  by_contra hc
  rw [List.getElem?_eq_none (Nat.le_of_not_lt hc)] at h1
  exact Option.noConfusion h1

theorem pointersNameKeys_mapGet_inj {st : FetchState} (h : PointersNameKeys st) (k k' : Int)
    (p : Nat) (hp : mapGet st.headerModelsMap k = some p)
    (hp' : mapGet st.headerModelsMap k' = some p) : k = k' := by
  obtain ⟨hd, h1, h2, _⟩ := pointersNameKeys_valid h k p hp
  obtain ⟨hd', h1', h2', _⟩ := pointersNameKeys_valid h k' p hp'
  rw [h1, Option.some.injEq] at h1'
  subst h1'
  exact h2.symm.trans h2'

/-- The loop that replaces the term list of the header of each key runs to its end when
every key of the term map has a header. -/
theorem replaceTerms_ok (headerModelsMap : GoMap Nat) :
    ∀ (entries : GoMap (List NucleusTradeTermModel)) (heap : List NucleusTradeHeaderModel),
      (∀ e ∈ entries, ∃ p, mapGet headerModelsMap e.1 = some p ∧ p < heap.length) →
      ∃ heap', entries.foldlM (replaceTermsOfKey headerModelsMap) heap = Except.ok heap' ∧
        heap'.map eraseTerms = heap.map eraseTerms
  | [], heap, _ => ⟨heap, rfl, rfl⟩
  | e :: es, heap, h => by
    obtain ⟨p, hp, hlt⟩ := h e (List.mem_cons_self _ _)
    have hstep : replaceTermsOfKey headerModelsMap heap e =
        Except.ok (heap.set p { heap[p] with Terms := e.2 }) := by
      unfold replaceTermsOfKey
      rw [hp]
      exact setTermsAt_ok (List.getElem?_eq_getElem hlt) e.2
    have herase := @setTermsAt_eraseTerms heap _ p e.2
      (setTermsAt_ok (List.getElem?_eq_getElem hlt) e.2)
    obtain ⟨heap', hrun, hmap⟩ := replaceTerms_ok headerModelsMap es
      (heap.set p { heap[p] with Terms := e.2 })
      (fun x hx => by
        obtain ⟨q, hq, hql⟩ := h x (List.mem_cons_of_mem _ hx)
        exact ⟨q, hq, by rw [List.length_set]; exact hql⟩)
    refine ⟨heap', ?_, hmap.trans herase⟩
    rw [List.foldlM_cons, hstep]
    exact hrun

theorem appendTermAt_ok {heap : List NucleusTradeHeaderModel} {p : Nat}
    {h : NucleusTradeHeaderModel} (hp : heap[p]? = some h) (term : NucleusTradeTermModel) :
    appendTermAt heap p term =
      Except.ok (heap.set p { h with Terms := h.Terms ++ [term] }) := by
  unfold appendTermAt
  rw [hp]

/-- The loop that appends terms through one valid pointer runs to its end: the header at
the pointer has a term when a term is appended, and no header loses its terms. -/
theorem foldlM_appendTermAt (p : Nat) (fill : NucleusTradeTermModel → NucleusTradeTermModel) :
    ∀ (terms : List NucleusTradeTermModel) (heap : List NucleusTradeHeaderModel),
      p < heap.length →
      ∃ heap', terms.foldlM (fun hp t => appendTermAt hp p (fill t)) heap = Except.ok heap' ∧
        heap'.length = heap.length ∧
        (∀ (q : Nat) (hd : NucleusTradeHeaderModel), heap[q]? = some hd → hd.Terms ≠ [] →
          ∃ hd', heap'[q]? = some hd' ∧ hd'.Terms ≠ []) ∧
        (terms ≠ [] → ∃ hd', heap'[p]? = some hd' ∧ hd'.Terms ≠ [])
  | [], heap, _ =>
    ⟨heap, rfl, rfl, fun q hd hq hne => ⟨hd, hq, hne⟩, fun h => absurd rfl h⟩
  | t :: ts, heap, hlt => by
    have hget : heap[p]? = some heap[p] := List.getElem?_eq_getElem hlt
    obtain ⟨heap', hrun, hlen, hmono, _⟩ := foldlM_appendTermAt p fill ts
      (heap.set p { heap[p] with Terms := heap[p].Terms ++ [fill t] })
      (by rw [List.length_set]; exact hlt)
    have hat : ∃ hd', heap'[p]? = some hd' ∧ hd'.Terms ≠ [] :=
      hmono p _ (List.getElem?_set_self hlt) (by simp)
    refine ⟨heap', ?_, ?_, ?_, fun _ => hat⟩
    · rw [List.foldlM_cons, appendTermAt_ok hget]
      exact hrun
    · rw [hlen, List.length_set]
    · intro q hd hq hne
      by_cases hqp : q = p
      · subst hqp
        exact hat
      · apply hmono q hd _ hne
        rw [List.getElem?_set_ne (fun h => hqp h.symm)]
        exact hq

/-! ## Fetchers that register every header under its deal key -/

theorem registerFold_state : ∀ (hs : List NucleusTradeHeaderModel) (st0 : FetchState),
    PointersNameKeys st0 →
    (hs.foldl registerHeader st0).headerModels = st0.headerModels ++ hs ∧
    (hs.foldl registerHeader st0).dealKeys = st0.dealKeys ++ hs.map (fun h => h.DealKey) ∧
    PointersNameKeys (hs.foldl registerHeader st0) ∧
    (∀ k, (∃ p, mapGet st0.headerModelsMap k = some p) →
      ∃ p, mapGet (hs.foldl registerHeader st0).headerModelsMap k = some p) ∧
    ∀ h ∈ hs, ∃ p, mapGet (hs.foldl registerHeader st0).headerModelsMap h.DealKey = some p
  | [], st0, h0 =>
    ⟨by simp, by simp, h0, fun _ hk => hk, fun h hh => absurd hh (List.not_mem_nil _)⟩
  | h :: hs, st0, h0 => by
    have h1 : PointersNameKeys (registerHeader st0 h) :=
      pointersNameKeys_register st0 _ h h0 rfl rfl
    obtain ⟨a, b, c, d, e⟩ := registerFold_state hs (registerHeader st0 h) h1
    have hreg : ∀ k, (∃ p, mapGet st0.headerModelsMap k = some p) →
        ∃ p, mapGet (registerHeader st0 h).headerModelsMap k = some p := by
      intro k hk
      show ∃ p, mapGet (mapSet st0.headerModelsMap h.DealKey st0.headerModels.length) k = some p
      by_cases hkk : k = h.DealKey
      · rw [hkk]
        exact ⟨_, mapGet_mapSet_self _ _ _⟩
      · rw [mapGet_mapSet_of_ne _ _ hkk]
        exact hk
    refine ⟨?_, ?_, c, fun k hk => d k (hreg k hk), ?_⟩
    · rw [List.foldl_cons, a]
      simp [registerHeader]
    · rw [List.foldl_cons, b]
      simp [registerHeader]
    · intro x hx
      rcases List.mem_cons.1 hx with hx | hx
      · subst hx
        exact d _ ⟨_, mapGet_mapSet_self _ _ _⟩
      · exact e x hx

/-- The row loop of a fetcher that registers every header, on rows that are all mapped:
the header list holds the headers of the rows in row order, the key list their deal keys,
and every deal key has a valid pointer to a header. -/
theorem registerLoop {α : Type} (hdr : α → Except Fault NucleusTradeHeaderModel)
    (key : α → Int)
    (hterms : ∀ r h, hdr r = Except.ok h → h.Terms = [] ∧ h.DealKey = key r)
    (l : List α) (hall : ∀ r ∈ l, ∃ h, hdr r = Except.ok h)
    (step : FetchState → α → Except Fault FetchState)
    (hstep : ∀ st r h, hdr r = Except.ok h → step st r = Except.ok (registerHeader st h)) :
    ∃ st, l.foldlM step FetchState.init = Except.ok st ∧
      st.dealKeys = l.map key ∧ PointersNameKeys st ∧
      List.Forall₂ (fun r h => hdr r = Except.ok h) l (st.headerModels.map eraseTerms) ∧
      ∀ r ∈ l, ∃ p, mapGet st.headerModelsMap (key r) = some p ∧ p < st.headerModels.length := by
  obtain ⟨hdrs, hf⟩ := forall₂_of_all_ok hdr l hall
  have hrun : ∀ (l : List α) (hs : List NucleusTradeHeaderModel),
      List.Forall₂ (fun r h => hdr r = Except.ok h) l hs →
      ∀ st0, l.foldlM step st0 = Except.ok (hs.foldl registerHeader st0) := by
    intro l hs hf
    induction hf with
    | nil => intro st0; rfl
    | cons hh _ ih =>
      intro st0
      rw [List.foldlM_cons, hstep st0 _ _ hh]
      exact ih _
  have hfacts : ∀ (l : List α) (hs : List NucleusTradeHeaderModel),
      List.Forall₂ (fun r h => hdr r = Except.ok h) l hs →
      hs.map (fun h => h.DealKey) = l.map key ∧ hs.map eraseTerms = hs ∧
        ∀ r ∈ l, ∃ h ∈ hs, h.DealKey = key r := by
    intro l hs hf
    induction hf with
    | nil => exact ⟨rfl, rfl, fun r hr => absurd hr (List.not_mem_nil _)⟩
    | cons hh _ ih =>
      obtain ⟨i1, i2, i3⟩ := ih
      obtain ⟨t1, t2⟩ := hterms _ _ hh
      refine ⟨?_, ?_, ?_⟩
      · rw [List.map_cons, List.map_cons, i1, t2]
      · rw [List.map_cons, i2, eraseTerms_of_empty _ t1]
      · intro r hr
        rcases List.mem_cons.1 hr with hr | hr
        · subst hr
          exact ⟨_, List.mem_cons_self _ _, t2⟩
        · obtain ⟨h, hh1, hh2⟩ := i3 r hr
          exact ⟨h, List.mem_cons_of_mem _ hh1, hh2⟩
  obtain ⟨f1, f2, f3⟩ := hfacts l hdrs hf
  obtain ⟨a, b, c, _, e⟩ := registerFold_state hdrs FetchState.init pointersNameKeys_init
  refine ⟨_, hrun l hdrs hf FetchState.init, ?_, c, ?_, ?_⟩
  · rw [b, f1]
    rfl
  · rw [a]
    simp only [FetchState.init, List.nil_append]
    rw [f2]
    exact hf
  · intro r hr
    obtain ⟨h, hh1, hh2⟩ := f3 r hr
    obtain ⟨p, hp⟩ := e h hh1
    rw [hh2] at hp
    obtain ⟨_, _, _, hlt⟩ := pointersNameKeys_valid c _ p hp
    exact ⟨p, hp, hlt⟩

/-- The loop of `GetNucPowerDealList` over the header map runs to its end when every
pointer of the map is valid, and changes term lists only. -/
theorem powerAttachTerms_ok (termModelsMap : GoMap (List NucleusTradeTermModel)) :
    ∀ (entries : GoMap Nat) (heap : List NucleusTradeHeaderModel),
      (∀ e ∈ entries, e.2 < heap.length) →
      ∃ heap', powerAttachTerms termModelsMap entries heap = Except.ok heap' ∧
        heap'.map eraseTerms = heap.map eraseTerms
  | [], heap, _ => ⟨heap, rfl, rfl⟩
  | e :: es, heap, h => by
    have hlt := h e (List.mem_cons_self _ _)
    have hstep := @setTermsAt_ok heap e.2 _ (List.getElem?_eq_getElem hlt)
      ((mapGet termModelsMap e.1).getD [])
    obtain ⟨heap', hrun, hmap⟩ := powerAttachTerms_ok termModelsMap es _
      (fun x hx => by rw [List.length_set]; exact h x (List.mem_cons_of_mem _ hx))
    refine ⟨heap', ?_, hmap.trans (setTermsAt_eraseTerms hstep)⟩
    unfold powerAttachTerms
    rw [List.foldlM_cons, hstep]
    exact hrun

theorem mem_headerModelsMap_valid {st : FetchState} (h : PointersNameKeys st) :
    ∀ e ∈ st.headerModelsMap, e.2 < st.headerModels.length := by
  intro e he
  obtain ⟨hd, h1, _⟩ := h.2 e he
  by_contra hc
  rw [List.getElem?_eq_none (Nat.le_of_not_lt hc)] at h1
  exact Option.noConfusion h1

theorem transmissionHeaderOfRow_terms {r : TransmissionRow} {h : NucleusTradeHeaderModel}
    (hr : transmissionHeaderOfRow r = Except.ok h) : h.Terms = [] ∧ h.DealKey = r.DealKey := by
  unfold transmissionHeaderOfRow at hr
  simp only [] at hr
  split at hr
  · exact Except.noConfusion hr
  · simp only [Except.ok.injEq] at hr
    subst hr
    exact ⟨rfl, rfl⟩

theorem emissionHeaderOfRow_terms {r : EmissionRow} {h : NucleusTradeHeaderModel}
    (hr : emissionHeaderOfRow r = Except.ok h) : h.Terms = [] ∧ h.DealKey = r.DealKey := by
  unfold emissionHeaderOfRow at hr
  split at hr
  · exact Except.noConfusion hr
  · simp only [Except.ok.injEq] at hr
    subst hr
    exact ⟨rfl, rfl⟩

/-- The keys of a term map filled from term rows whose deal keys are deal keys of primary
rows have valid pointers in a header map that has one for every primary row. -/
theorem termMap_entries_valid {α β : Type} (key : α → Int) (tkey : β → Int)
    (mk : GoMap (List NucleusTradeTermModel) → β → NucleusTradeTermModel)
    (l : List α) (tl : List β) (hm : GoMap Nat) (n : Nat)
    (hkeys : ∀ t ∈ tl, ∃ r ∈ l, key r = tkey t)
    (hptr : ∀ r ∈ l, ∃ p, mapGet hm (key r) = some p ∧ p < n) :
    ∀ e ∈ tl.foldl (fun m t => mapAppend m (tkey t) (mk m t)) [],
      ∃ p, mapGet hm e.1 = some p ∧ p < n := by
  intro e he
  rcases foldl_mapAppend_entry tkey mk tl [] e he with h | ⟨_, t, ht, hk⟩
  · exact absurd h (List.not_mem_nil _)
  · obtain ⟨r, hr, hrk⟩ := hkeys t ht
    rw [← hk, ← hrk]
    exact hptr r hr

/-- The power-deal fetcher returns the headers of its rows, in row order, when the rows
are mapped, the cursors report no error and the store answers the term and index
queries. -/
theorem GetNucPowerDealList_returns (rows : Rows PowerRow) (l : List PowerRow)
    (termQuery : List Int → Except Error (Rows PowerTermRow))
    (indexQuery : GoMap Int → Except Error (Rows PowerIndexRow))
    (termRows : Rows PowerTermRow) (tl : List PowerTermRow)
    (indexRows : Rows PowerIndexRow) (il : List PowerIndexRow)
    (hs : rows.scanned = l.map Except.ok) (he : rows.err = none)
    (hall : ∀ r ∈ l, ∃ h, powerHeaderOfRow r = Except.ok h)
    (hq : termQuery (l.map (fun r => r.DealKey)) = Except.ok termRows)
    (hts : termRows.scanned = tl.map Except.ok) (hte : termRows.err = none)
    (hiq : indexQuery (powerFormulaMap tl) = Except.ok indexRows)
    (his : indexRows.scanned = il.map Except.ok) (hie : indexRows.err = none) :
    ∃ headers, GetNucPowerDealList (Except.ok rows) termQuery indexQuery = Except.ok headers ∧
      List.Forall₂ (fun r h => powerHeaderOfRow r = Except.ok h) l
        (headers.map eraseTerms) := by
  obtain ⟨st, hloop, hkeys, hpnk, hf, _⟩ := registerLoop powerHeaderOfRow (fun r => r.DealKey)
    (fun r h hh => powerHeaderOfRow_terms hh) l hall powerRowStep
    (fun st r h hh => by unfold powerRowStep; rw [hh]; rfl)
  unfold GetNucPowerDealList
  simp only [scanLoop_scanned_ok rows l _ _ hs, hloop, Rows.closeErr_eq, he]
  by_cases hk : 0 < st.dealKeys.length
  · have hne : l.map (fun r => r.DealKey) ≠ [] := by
      rw [← hkeys]
      exact fun h0 => by rw [h0] at hk; exact Nat.lt_irrefl 0 hk
    have hindex : ∃ im, getNucPowerTradeIndexModel indexQuery (powerFormulaMap tl) =
        Except.ok im := by
      by_cases hfm : powerFormulaMap tl = []
      · refine ⟨[], ?_⟩
        unfold getNucPowerTradeIndexModel
        rw [hfm]
        rfl
      · exact ⟨_, getNucPowerTradeIndexModel_of_rows indexQuery _ indexRows il hfm hiq his
          rfl hie⟩
    obtain ⟨im, him⟩ := hindex
    have hfetch := getNucPowerDealTradeTermModel_of_rows termQuery indexQuery _ termRows tl
      hne hq hts rfl hte
    rw [him] at hfetch
    obtain ⟨heap', hrun, hmap⟩ := powerAttachTerms_ok (powerAttachIndexes (powerTermMap tl) im)
      st.headerModelsMap st.headerModels (mem_headerModelsMap_valid hpnk)
    refine ⟨heap', ?_, by rw [hmap]; exact hf⟩
    rw [if_pos hk, hkeys, hfetch]
    exact hrun
  · exact ⟨st.headerModels, by rw [if_neg hk], hf⟩

/-- The transmission fetcher returns the headers of its rows, in row order, when the rows
are mapped, the cursors report no error and the term rows are rows of the deals that were
asked for. -/
theorem GetNucTransmissionDealList_returns (rows : Rows TransmissionRow)
    (l : List TransmissionRow)
    (termQuery : List Int → Except Error (Rows TransmissionTermRow))
    (termRows : Rows TransmissionTermRow) (tl : List TransmissionTermRow)
    (hs : rows.scanned = l.map Except.ok) (he : rows.err = none)
    (hall : ∀ r ∈ l, ∃ h, transmissionHeaderOfRow r = Except.ok h)
    (hq : termQuery (l.map (fun r => r.DealKey)) = Except.ok termRows)
    (hts : termRows.scanned = tl.map Except.ok) (hte : termRows.err = none)
    (htk : ∀ t ∈ tl, ∃ r ∈ l, r.DealKey = t.dealKey) :
    ∃ headers, GetNucTransmissionDealList (Except.ok rows) termQuery = Except.ok headers ∧
      List.Forall₂ (fun r h => transmissionHeaderOfRow r = Except.ok h) l
        (headers.map eraseTerms) := by
  obtain ⟨st, hloop, hkeys, hpnk, hf, hptr⟩ := registerLoop transmissionHeaderOfRow
    (fun r => r.DealKey) (fun r h hh => transmissionHeaderOfRow_terms hh) l hall
    (fun st r =>
      match transmissionHeaderOfRow r with
      | Except.error e => Except.error e
      | Except.ok headerModel => Except.ok (registerHeader st headerModel))
    (fun st r h hh => by simp only [hh])
  generalize hR : GetNucTransmissionDealList (Except.ok rows) termQuery = R
  unfold GetNucTransmissionDealList at hR
  simp only [scanLoop_scanned_ok rows l _ _ hs] at hR
  split at hR
  · rename_i f hsc
    exact Except.noConfusion (hsc.symm.trans hloop)
  rename_i st' hsc
  have hst : st' = st := Except.ok.inj (hsc.symm.trans hloop)
  rw [hst] at hR
  simp only [Rows.closeErr_eq, he] at hR
  by_cases hk : 0 < st.dealKeys.length
  · have hne : ¬ (l.map (fun r => r.DealKey)).length = 0 := by
      rw [← hkeys]
      exact Nat.pos_iff_ne_zero.1 hk
    have hfetch : getNucTransmissionDealTermModel termQuery (l.map (fun r => r.DealKey)) =
        Except.ok (tl.foldl
          (fun m t => mapAppend m t.dealKey (transmissionTermOfRow t)) []) := by
      unfold getNucTransmissionDealTermModel
      simp only [if_neg hne, hq, scanLoop_ok termRows tl _ _ hts, Rows.closeErr_eq, hte]
    obtain ⟨heap', hrun, hmap⟩ := replaceTerms_ok st.headerModelsMap _ st.headerModels
      (termMap_entries_valid (fun r : TransmissionRow => r.DealKey) (fun t => t.dealKey)
        (fun _ t => transmissionTermOfRow t) l tl st.headerModelsMap st.headerModels.length
        htk hptr)
    refine ⟨heap', ?_, by rw [hmap]; exact hf⟩
    rw [← hR, if_pos hk, hkeys, hfetch]
    exact hrun
  · refine ⟨st.headerModels, ?_, hf⟩
    rw [← hR, if_neg hk]

/-- The emission fetcher returns the headers of its rows, in row order, when the rows are
mapped, the cursors report no error and the term rows are rows of the deals that were
asked for. -/
theorem GetNucEmissionDealList_returns (rows : Rows EmissionRow) (l : List EmissionRow)
    (termQuery : List Int → Except Error (Rows EmissionTermRow))
    (termRows : Rows EmissionTermRow) (tl : List EmissionTermRow)
    (hs : rows.scanned = l.map Except.ok) (he : rows.err = none)
    (hall : ∀ r ∈ l, ∃ h, emissionHeaderOfRow r = Except.ok h)
    (hq : termQuery (l.map (fun r => r.DealKey)) = Except.ok termRows)
    (hts : termRows.scanned = tl.map Except.ok) (hte : termRows.err = none)
    (htk : ∀ t ∈ tl, ∃ r ∈ l, r.DealKey = t.dealKey) :
    ∃ headers, GetNucEmissionDealList (Except.ok rows) termQuery = Except.ok headers ∧
      List.Forall₂ (fun r h => emissionHeaderOfRow r = Except.ok h) l
        (headers.map eraseTerms) := by
  obtain ⟨st, hloop, hkeys, hpnk, hf, hptr⟩ := registerLoop emissionHeaderOfRow
    (fun r => r.DealKey) (fun r h hh => emissionHeaderOfRow_terms hh) l hall
    (fun st r =>
      match emissionHeaderOfRow r with
      | Except.error e => Except.error e
      | Except.ok headerModel => Except.ok (registerHeader st headerModel))
    (fun st r h hh => by simp only [hh])
  generalize hR : GetNucEmissionDealList (Except.ok rows) termQuery = R
  unfold GetNucEmissionDealList at hR
  simp only [scanLoop_scanned_ok rows l _ _ hs] at hR
  split at hR
  · rename_i f hsc
    exact Except.noConfusion (hsc.symm.trans hloop)
  rename_i st' hsc
  have hst : st' = st := Except.ok.inj (hsc.symm.trans hloop)
  rw [hst] at hR
  simp only [Rows.closeErr_eq, he] at hR
  by_cases hk : 0 < st.dealKeys.length
  · have hne : ¬ (l.map (fun r => r.DealKey)).length = 0 := by
      rw [← hkeys]
      exact Nat.pos_iff_ne_zero.1 hk
    have hfetch : getNucEmissionDealListTermModel termQuery (l.map (fun r => r.DealKey)) =
        Except.ok (tl.foldl emissionTermStep []) := by
      unfold getNucEmissionDealListTermModel
      simp only [if_neg hne, hq, scanLoop_ok termRows tl _ _ hts, Rows.closeErr_eq, hte]
    obtain ⟨heap', hrun, hmap⟩ := replaceTerms_ok st.headerModelsMap _ st.headerModels
      (termMap_entries_valid (fun r : EmissionRow => r.DealKey) (fun t => t.dealKey)
        (fun _ t => emissionTermOfRow t) l tl st.headerModelsMap st.headerModels.length
        htk hptr)
    refine ⟨heap', ?_, by rw [hmap]; exact hf⟩
    rw [← hR, if_pos hk, hkeys, hfetch]
    exact hrun
  · refine ⟨st.headerModels, ?_, hf⟩
    rw [← hR, if_neg hk]

/-- The misc-charge fetcher returns the headers of its rows, in row order, when the
cursors report no error and the term rows are rows of the deals that were asked for. -/
theorem GetNucMiscChargeDealList_returns (rows : Rows MiscChargeRow) (l : List MiscChargeRow)
    (termQuery : List Int → Except Error (Rows MiscChargeTermRow))
    (termRows : Rows MiscChargeTermRow) (tl : List MiscChargeTermRow)
    (hs : rows.scanned = l.map Except.ok) (he : rows.err = none)
    (hq : termQuery (l.map (fun r => r.DealKey)) = Except.ok termRows)
    (hts : termRows.scanned = tl.map Except.ok) (hte : termRows.err = none)
    (htk : ∀ t ∈ tl, ∃ r ∈ l, r.DealKey = t.dealKey) :
    ∃ headers, GetNucMiscChargeDealList (Except.ok rows) termQuery = Except.ok headers ∧
      List.Forall₂ (fun r h => miscChargeHeaderOfRow r = h) l (headers.map eraseTerms) := by
  obtain ⟨st, hloop, hkeys, hpnk, hf, hptr⟩ := registerLoop
    (fun r => (Except.ok (miscChargeHeaderOfRow r) : Except Fault NucleusTradeHeaderModel))
    (fun r => r.DealKey)
    (fun r h hh => by
      simp only [Except.ok.injEq] at hh
      subst hh
      exact ⟨rfl, rfl⟩) l (fun r _ => ⟨_, rfl⟩)
    (fun st r => Except.ok (miscChargeRowStep st r))
    (fun st r h hh => by
      simp only [Except.ok.injEq] at hh
      subst hh
      rfl)
  have hf' : List.Forall₂ (fun r h => miscChargeHeaderOfRow r = h) l
      (st.headerModels.map eraseTerms) :=
    List.Forall₂.imp (fun r h hh => by simpa using hh) hf
  generalize hR : GetNucMiscChargeDealList (Except.ok rows) termQuery = R
  unfold GetNucMiscChargeDealList at hR
  simp only [scanLoop_scanned_ok rows l _ _ hs] at hR
  split at hR
  · rename_i f hsc
    exact Except.noConfusion (hsc.symm.trans hloop)
  rename_i st' hsc
  have hst : st' = st := Except.ok.inj (hsc.symm.trans hloop)
  rw [hst] at hR
  simp only [Rows.closeErr_eq, he] at hR
  by_cases hk : 0 < st.dealKeys.length
  · have hne : ¬ (l.map (fun r => r.DealKey)).length = 0 := by
      rw [← hkeys]
      exact Nat.pos_iff_ne_zero.1 hk
    have hfetch : getNucMiscChargeDealTermList termQuery (l.map (fun r => r.DealKey)) =
        Except.ok (tl.foldl
          (fun m t => mapAppend m t.dealKey (miscChargeTermOfRow t)) []) := by
      unfold getNucMiscChargeDealTermList
      simp only [if_neg hne, hq, scanLoop_ok termRows tl _ _ hts, Rows.closeErr_eq, hte]
      rfl
    obtain ⟨heap', hrun, hmap⟩ := replaceTerms_ok st.headerModelsMap _ st.headerModels
      (termMap_entries_valid (fun r : MiscChargeRow => r.DealKey) (fun t => t.dealKey)
        (fun _ t => miscChargeTermOfRow t) l tl st.headerModelsMap st.headerModels.length
        htk hptr)
    refine ⟨heap', ?_, by rw [hmap]; exact hf'⟩
    rw [← hR, if_pos hk, hkeys, hfetch]
    exact hrun
  · refine ⟨st.headerModels, ?_, hf'⟩
    rw [← hR, if_neg hk]

/-! ## Fetchers that register the headers of non-standard rows -/

/-- The row loop of a fetcher that registers the headers of flagged rows, on rows that
are all mapped: it runs to its end, the key list holds the deal keys of the flagged rows
in row order, and the key of every flagged row is registered. -/
theorem flaggedLoop {α : Type} (step : FetchState → α → Except Fault FetchState)
    (key : α → Int) (flag : α → Bool) (good : α → Prop)
    (hstep : ∀ st r, good r → ∃ st', step st r = Except.ok st' ∧
      st'.dealKeys = st.dealKeys ++ (if flag r = true then [key r] else []) ∧
      (PointersNameKeys st → PointersNameKeys st') ∧
      (∀ k, Registered st k → Registered st' k) ∧
      (flag r = true → Registered st' (key r))) :
    ∀ (l : List α), (∀ r ∈ l, good r) → ∀ st0, PointersNameKeys st0 →
      ∃ st, l.foldlM step st0 = Except.ok st ∧
        st.dealKeys = st0.dealKeys ++ (l.filter flag).map key ∧
        PointersNameKeys st ∧
        (∀ k, Registered st0 k → Registered st k) ∧
        ∀ r ∈ l, flag r = true → Registered st (key r)
  | [], _, st0, h0 =>
    ⟨st0, rfl, by simp, h0, fun _ hk => hk, fun r hr => absurd hr (List.not_mem_nil _)⟩
  | r :: l, hall, st0, h0 => by
    obtain ⟨st1, hs, hk1, hp1, hr1, hn1⟩ := hstep st0 r (hall r (List.mem_cons_self _ _))
    obtain ⟨st, hrun, hk, hp, hr, hn⟩ := flaggedLoop step key flag good hstep l
      (fun x hx => hall x (List.mem_cons_of_mem _ hx)) st1 (hp1 h0)
    refine ⟨st, ?_, ?_, hp, fun k hk0 => hr k (hr1 k hk0), ?_⟩
    · rw [List.foldlM_cons, hs]
      exact hrun
    · rw [hk, hk1]
      by_cases hf : flag r = true
      · simp [hf, List.filter_cons]
      · simp [hf, List.filter_cons]
    · intro x hx hfx
      rcases List.mem_cons.1 hx with hx | hx
      · subst hx
        exact hr _ (hn1 hfx)
      · exact hn x hx hfx

theorem registered_mapSet (st st' : FetchState) (k0 : Int) (p0 : Nat)
    (t0 : NucleusTradeTermModel)
    (h1 : st'.headerModelsMap = mapSet st.headerModelsMap k0 p0)
    (h2 : st'.initialTermModelsMap = mapSet st.initialTermModelsMap k0 t0) :
    (∀ k, Registered st k → Registered st' k) ∧ Registered st' k0 := by
  unfold Registered
  rw [h1, h2]
  refine ⟨?_, ⟨_, mapGet_mapSet_self _ _ _⟩, ⟨_, mapGet_mapSet_self _ _ _⟩⟩
  intro k hk
  by_cases hkk : k = k0
  · rw [hkk]
    exact ⟨⟨_, mapGet_mapSet_self _ _ _⟩, ⟨_, mapGet_mapSet_self _ _ _⟩⟩
  · rw [mapGet_mapSet_of_ne _ _ hkk, mapGet_mapSet_of_ne _ _ hkk]
    exact hk

theorem registered_of_eq (st st' : FetchState)
    (h1 : st'.headerModelsMap = st.headerModelsMap)
    (h2 : st'.initialTermModelsMap = st.initialTermModelsMap) :
    ∀ k, Registered st k → Registered st' k := by
  intro k hk
  unfold Registered
  rw [h1, h2]
  exact hk

theorem powerSwapRowStep_state (st : FetchState) (r : PowerSwapRow)
    (hh : ∃ h, powerSwapHeaderOfRow r = Except.ok h) :
    ∃ st', powerSwapRowStep st r = Except.ok st' ∧
      st'.dealKeys = st.dealKeys ++
        (if decide (r.nonstdFlag ≠ ['N']) = true then [r.DealKey] else []) ∧
      (PointersNameKeys st → PointersNameKeys st') ∧
      (∀ k, Registered st k → Registered st' k) ∧
      (decide (r.nonstdFlag ≠ ['N']) = true → Registered st' r.DealKey) := by
  obtain ⟨hdr, hh⟩ := hh
  obtain ⟨_, hkey⟩ := powerSwapHeaderOfRow_terms hh
  unfold powerSwapRowStep
  rw [hh]
  by_cases hflag : r.nonstdFlag = ['N']
  · simp only [hflag, if_true]
    refine ⟨_, rfl, by simp, fun hp => pointersNameKeys_append st _ _ hp rfl rfl,
      registered_of_eq st _ rfl rfl, fun h => by simp at h⟩
  · simp only [hflag, if_false]
    refine ⟨_, rfl, by simp [hflag, hkey],
      fun hp => pointersNameKeys_register st _ hdr hp rfl rfl, ?_, ?_⟩
    · exact (registered_mapSet st _ hdr.DealKey _ (powerSwapTermOfRow r) rfl rfl).1
    · intro _
      rw [← hkey]
      exact (registered_mapSet st _ hdr.DealKey _ (powerSwapTermOfRow r) rfl rfl).2

/-- The splice loop of the power-swap and capacity fetchers runs to its end when every
key of the term map has a valid pointer through which its terms are appended: no header
loses its terms, and the header of a key with a term has a term afterwards. -/
theorem spliceLoop_ok
    (spliceTerm : Int → List NucleusTradeHeaderModel → NucleusTradeTermModel →
      Except Fault (List NucleusTradeHeaderModel)) (ptr : Int → Nat) :
    ∀ (entries : GoMap (List NucleusTradeTermModel)) (heap : List NucleusTradeHeaderModel),
      (∀ e ∈ entries, ptr e.1 < heap.length ∧
        ∃ fill : NucleusTradeTermModel → NucleusTradeTermModel,
          ∀ hp t, spliceTerm e.1 hp t = appendTermAt hp (ptr e.1) (fill t)) →
      ∃ heap', entries.foldlM (fun heap entry => entry.2.foldlM (spliceTerm entry.1) heap)
          heap = Except.ok heap' ∧
        heap'.length = heap.length ∧
        (∀ (q : Nat) (hd : NucleusTradeHeaderModel), heap[q]? = some hd → hd.Terms ≠ [] →
          ∃ hd', heap'[q]? = some hd' ∧ hd'.Terms ≠ []) ∧
        ∀ e ∈ entries, e.2 ≠ [] → ∃ hd', heap'[ptr e.1]? = some hd' ∧ hd'.Terms ≠ []
  | [], heap, _ =>
    ⟨heap, rfl, rfl, fun q hd hq hne => ⟨hd, hq, hne⟩,
      fun e he => absurd he (List.not_mem_nil _)⟩
  | e :: es, heap, h => by
    obtain ⟨hlt, fill, hfill⟩ := h e (List.mem_cons_self _ _)
    have hfun : spliceTerm e.1 = fun hp t => appendTermAt hp (ptr e.1) (fill t) :=
      funext fun hp => funext fun t => hfill hp t
    obtain ⟨heap1, hrun1, hlen1, hmono1, hat1⟩ := foldlM_appendTermAt (ptr e.1) fill e.2 heap hlt
    obtain ⟨heap', hrun, hlen, hmono, hat⟩ := spliceLoop_ok spliceTerm ptr es heap1
      (fun x hx => by
        obtain ⟨a, b⟩ := h x (List.mem_cons_of_mem _ hx)
        exact ⟨by rw [hlen1]; exact a, b⟩)
    refine ⟨heap', ?_, by rw [hlen, hlen1], ?_, ?_⟩
    · rw [List.foldlM_cons, hfun, hrun1]
      exact hrun
    · intro q hd hq hne
      obtain ⟨hd1, hq1, hne1⟩ := hmono1 q hd hq hne
      exact hmono q hd1 hq1 hne1
    · intro x hx hne
      rcases List.mem_cons.1 hx with hx | hx
      · subst hx
        obtain ⟨hd1, hq1, hne1⟩ := hat1 hne
        exact hmono _ hd1 hq1 hne1
      · exact hat x hx hne

theorem powerSwapSpliceTerm_of_registered (st : FetchState) (k : Int) (p : Nat)
    (hp : mapGet st.headerModelsMap k = some p)
    (ht : ∃ t, mapGet st.initialTermModelsMap k = some t) :
    ∃ fill : NucleusTradeTermModel → NucleusTradeTermModel,
      ∀ heap t, powerSwapSpliceTerm st k heap t = appendTermAt heap p (fill t) := by
  obtain ⟨t0, ht0⟩ := ht
  refine ⟨fun termModel =>
    { termModel with
      Pool1 := t0.Pool1, Product1 := t0.Product1,
      Indexes1 := t0.Indexes1, Indexes2 := t0.Indexes2,
      HolidaySchedule := t0.HolidaySchedule }, ?_⟩
  intro heap t
  unfold powerSwapSpliceTerm
  rw [ht0, hp]

theorem capacitySpliceTerm_of_registered (st : FetchState) (k : Int) (p : Nat)
    (hp : mapGet st.headerModelsMap k = some p)
    (ht : ∃ t, mapGet st.initialTermModelsMap k = some t) :
    ∃ fill : NucleusTradeTermModel → NucleusTradeTermModel,
      ∀ heap t, capacitySpliceTerm st k heap t = appendTermAt heap p (fill t) := by
  obtain ⟨t0, ht0⟩ := ht
  refine ⟨fun termModel =>
    { termModel with
      PriceType := t0.PriceType, Pool1 := t0.Pool1,
      Product1 := t0.Product1, PointCode1 := t0.PointCode1,
      HolidaySchedule := t0.HolidaySchedule }, ?_⟩
  intro heap t
  unfold capacitySpliceTerm
  rw [ht0, hp]

/-- The keys of a term map filled from term rows whose deal keys are keys of flagged
primary rows are registered when the keys of the flagged rows are. -/
theorem termMap_entries_registered {α β : Type} (key : α → Int) (flag : α → Bool)
    (tkey : β → Int) (mk : GoMap (List NucleusTradeTermModel) → β → NucleusTradeTermModel)
    (l : List α) (tl : List β) (st : FetchState)
    (hkeys : ∀ t ∈ tl, ∃ r ∈ l, flag r = true ∧ key r = tkey t)
    (hreg : ∀ r ∈ l, flag r = true → Registered st (key r)) :
    ∀ e ∈ tl.foldl (fun m t => mapAppend m (tkey t) (mk m t)) [], Registered st e.1 := by
  intro e he
  rcases foldl_mapAppend_entry tkey mk tl [] e he with h | ⟨_, t, ht, hk⟩
  · exact absurd h (List.not_mem_nil _)
  · obtain ⟨r, hr, hfr, hrk⟩ := hkeys t ht
    rw [← hk, ← hrk]
    exact hreg r hr hfr

theorem splice_hypothesis (st : FetchState) (hpnk : PointersNameKeys st)
    (spliceTerm : Int → List NucleusTradeHeaderModel → NucleusTradeTermModel →
      Except Fault (List NucleusTradeHeaderModel))
    (hsp : ∀ k p, mapGet st.headerModelsMap k = some p →
      (∃ t, mapGet st.initialTermModelsMap k = some t) →
      ∃ fill : NucleusTradeTermModel → NucleusTradeTermModel,
        ∀ heap t, spliceTerm k heap t = appendTermAt heap p (fill t))
    (entries : GoMap (List NucleusTradeTermModel))
    (hreg : ∀ e ∈ entries, Registered st e.1) :
    ∀ e ∈ entries, (mapGet st.headerModelsMap e.1).getD 0 < st.headerModels.length ∧
      ∃ fill : NucleusTradeTermModel → NucleusTradeTermModel,
        ∀ hp t, spliceTerm e.1 hp t =
          appendTermAt hp ((mapGet st.headerModelsMap e.1).getD 0) (fill t) := by
  intro e he
  obtain ⟨⟨p, hp⟩, ht⟩ := hreg e he
  obtain ⟨_, _, _, hlt⟩ := pointersNameKeys_valid hpnk e.1 p hp
  rw [hp]
  exact ⟨hlt, hsp e.1 p hp ht⟩

/-- The power-swap fetcher returns the headers of its rows, in row order, when the rows
are mapped, the cursors report no error and the term rows are rows of the non-standard
deals, for which the terms were asked. -/
theorem GetNucPowerSwapDealList_returns (rows : Rows PowerSwapRow) (l : List PowerSwapRow)
    (termQuery : List Int → Except Error (Rows PowerSwapTermRow))
    (termRows : Rows PowerSwapTermRow) (tl : List PowerSwapTermRow)
    (hs : rows.scanned = l.map Except.ok) (he : rows.err = none)
    (hall : ∀ r ∈ l, ∃ h, powerSwapHeaderOfRow r = Except.ok h)
    (hq : termQuery ((l.filter (fun r => decide (r.nonstdFlag ≠ ['N']))).map
      (fun r => r.DealKey)) = Except.ok termRows)
    (hts : termRows.scanned = tl.map Except.ok) (hte : termRows.err = none)
    (htk : ∀ t ∈ tl, ∃ r ∈ l, r.nonstdFlag ≠ ['N'] ∧ r.DealKey = t.dealKey) :
    ∃ headers, GetNucPowerSwapDealList (Except.ok rows) termQuery = Except.ok headers ∧
      List.Forall₂ (fun r h => powerSwapHeaderOfRow r = Except.ok h) l
        (headers.map eraseTerms) := by
  obtain ⟨st, hloop, hkeys, hpnk, _, hreg⟩ := flaggedLoop powerSwapRowStep
    (fun r => r.DealKey) (fun r => decide (r.nonstdFlag ≠ ['N']))
    (fun r => ∃ h, powerSwapHeaderOfRow r = Except.ok h)
    (fun st r hr => powerSwapRowStep_state st r hr) l hall FetchState.init
    pointersNameKeys_init
  simp only [FetchState.init, List.nil_append] at hkeys
  have hret : ∃ headers,
      GetNucPowerSwapDealList (Except.ok rows) termQuery = Except.ok headers := by
    unfold GetNucPowerSwapDealList
    simp only [scanLoop_scanned_ok rows l _ _ hs, hloop, Rows.closeErr_eq, he]
    by_cases hk : 0 < st.dealKeys.length
    · have hne : ¬ st.dealKeys.length = 0 := Nat.pos_iff_ne_zero.1 hk
      have hfetch : getNucPowerSwapDealTermModel termQuery st.dealKeys =
          Except.ok (tl.foldl
            (fun m t => mapAppend m t.dealKey (powerSwapFetchedTermOfRow t)) []) := by
        unfold getNucPowerSwapDealTermModel
        rw [if_neg hne, hkeys]
        simp only [hq, scanLoop_ok termRows tl _ _ hts, Rows.closeErr_eq, hte]
        rfl
      have hent := termMap_entries_registered (fun r : PowerSwapRow => r.DealKey)
        (fun r => decide (r.nonstdFlag ≠ ['N'])) (fun t : PowerSwapTermRow => t.dealKey)
        (fun _ t => powerSwapFetchedTermOfRow t) l tl st
        (fun t ht => by
          obtain ⟨r, hr, hf, hk⟩ := htk t ht
          exact ⟨r, hr, by simpa using hf, hk⟩) hreg
      obtain ⟨heap', hrun, _⟩ := spliceLoop_ok (powerSwapSpliceTerm st)
        (fun k => (mapGet st.headerModelsMap k).getD 0) _ st.headerModels
        (splice_hypothesis st hpnk (powerSwapSpliceTerm st)
          (powerSwapSpliceTerm_of_registered st) _ hent)
      refine ⟨heap', ?_⟩
      rw [if_pos hk, hfetch]
      exact hrun
    · exact ⟨st.headerModels, by rw [if_neg hk]⟩
  obtain ⟨headers, hh⟩ := hret
  exact ⟨headers, hh, GetNucPowerSwapDealList_headers rows l termQuery headers hs rfl hh⟩

/-! ## The capacity fetcher runs to its end -/

theorem rowLoop_keys {α σ : Type} (step : σ → α → Except Fault σ) (proj : σ → List Int)
    (flag : α → Bool) (key : α → Int)
    (hstep : ∀ st r st', step st r = Except.ok st' →
      proj st' = proj st ++ (if flag r = true then [key r] else [])) :
    ∀ (l : List α) (st0 st : σ), l.foldlM step st0 = Except.ok st →
      proj st = proj st0 ++ (l.filter flag).map key
  | [], st0, st, h => by
    simp only [List.foldlM_nil, pure, Except.pure, Except.ok.injEq] at h
    subst h
    simp
  | r :: l, st0, st, h => by
    simp only [List.foldlM_cons, bind, Except.bind] at h
    cases hs : step st0 r with
    | error e => simp [hs] at h
    | ok st1 =>
      simp only [hs] at h
      rw [rowLoop_keys step proj flag key hstep l st1 st h, hstep st0 r st1 hs]
      by_cases hf : flag r = true
      · simp [hf, List.filter_cons]
      · simp [hf, List.filter_cons]

/-- Every row of a fold of `m[k] = append(m[k], v)` leaves a non-empty list under its
key. -/
theorem foldl_mapAppend_get_ne_nil {α V : Type} (key : α → Int)
    (mk : GoMap (List V) → α → V) :
    ∀ (l : List α) (acc : GoMap (List V)),
      (∀ k, (mapGet acc k).getD [] ≠ [] →
        (mapGet (l.foldl (fun m r => mapAppend m (key r) (mk m r)) acc) k).getD [] ≠ []) ∧
      ∀ r ∈ l,
        (mapGet (l.foldl (fun m r => mapAppend m (key r) (mk m r)) acc) (key r)).getD [] ≠ []
  | [], _ => ⟨fun _ h => h, fun r hr => absurd hr (List.not_mem_nil _)⟩
  | a :: l, acc => by
    obtain ⟨ih1, ih2⟩ := foldl_mapAppend_get_ne_nil key mk l (mapAppend acc (key a) (mk acc a))
    have hstep : ∀ k, (mapGet acc k).getD [] ≠ [] →
        (mapGet (mapAppend acc (key a) (mk acc a)) k).getD [] ≠ [] := by
      intro k hk
      by_cases hkk : k = key a
      · rw [hkk, mapGet_mapAppend_self]
        simp
      · rw [mapGet_mapAppend_of_ne _ _ hkk]
        exact hk
    refine ⟨fun k hk => ih1 k (hstep k hk), ?_⟩
    intro r hr
    rcases List.mem_cons.1 hr with hr | hr
    · subst hr
      apply ih1
      rw [mapGet_mapAppend_self]
      simp
    · exact ih2 r hr

theorem mem_of_getD_ne_nil {V : Type} (m : GoMap (List V)) (k : Int)
    (h : (mapGet m k).getD [] ≠ []) : ∃ v, mapGet m k = some v ∧ v ≠ [] ∧ (k, v) ∈ m := by
  cases hg : mapGet m k with
  | none =>
    rw [hg] at h
    exact absurd rfl h
  | some v =>
    rw [hg] at h
    exact ⟨v, rfl, h, mapGet_mem m k v hg⟩

theorem foldl_capacityIndexStep_get (k : Int) :
    ∀ (l : List CapacityIndexRow) (acc : GoMap (List NucleusTradeIndexModel)),
      (mapGet (l.foldl capacityIndexStep acc) k).getD [] =
        (mapGet acc k).getD [] ++
          capacityIndexesFrom ((mapGet acc k).getD []).length
            (l.filter (fun r => decide (r.dealKey = k)))
  | [], acc => by simp [capacityIndexesFrom]
  | r :: l, acc => by
    rw [List.foldl_cons, foldl_capacityIndexStep_get k l]
    by_cases h : r.dealKey = k
    · subst h
      simp only [capacityIndexStep, mapGet_mapAppend_self, Option.getD_some, List.filter_cons,
        decide_True, if_true, capacityIndexesFrom, List.length_append, List.length_singleton,
        List.append_assoc, List.singleton_append]
    · have hk : k ≠ r.dealKey := fun e => h e.symm
      simp only [capacityIndexStep, mapGet_mapAppend_of_ne _ _ hk, List.filter_cons, h,
        decide_False]
      rfl

theorem capacityRowStep_state (st : FetchState) (r : CapacityRow)
    (hh : ∃ h, capacityHeaderOfRow r = Except.ok h) :
    ∃ st', capacityRowStep st r = Except.ok st' ∧
      st'.dealKeys = st.dealKeys ++
        (if decide (r.nonstdFlag ≠ ['N']) = true then [r.DealKey] else []) ∧
      (PointersNameKeys st → PointersNameKeys st') ∧
      (∀ k, Registered st k → Registered st' k) ∧
      (decide (r.nonstdFlag ≠ ['N']) = true → Registered st' r.DealKey) := by
  obtain ⟨hdr, hh⟩ := hh
  obtain ⟨_, hkey⟩ := capacityHeaderOfRow_terms hh
  unfold capacityRowStep
  rw [hh]
  by_cases hflag : r.nonstdFlag = ['N']
  · simp only [hflag, if_true]
    refine ⟨_, rfl, by simp, fun hp => pointersNameKeys_append st _ _ hp rfl rfl,
      registered_of_eq st _ rfl rfl, fun h => by simp at h⟩
  · simp only [hflag, if_false]
    refine ⟨_, rfl, by simp [hflag, hkey],
      fun hp => pointersNameKeys_register st _ hdr hp rfl rfl, ?_, ?_⟩
    · exact (registered_mapSet st _ hdr.DealKey _ (capacityTermOfRow r) rfl rfl).1
    · intro _
      rw [← hkey]
      exact (registered_mapSet st _ hdr.DealKey _ (capacityTermOfRow r) rfl rfl).2

theorem capacityRowStep_formulaDealKeys (st : FetchState) (r : CapacityRow) (st' : FetchState)
    (h : capacityRowStep st r = Except.ok st') :
    st'.formulaDealKeys = st.formulaDealKeys ++
      (if r.energyFormula.isSome = true then [r.DealKey] else []) := by
  unfold capacityRowStep at h
  cases hh : capacityHeaderOfRow r with
  | error e => simp [hh] at h
  | ok hdr =>
    obtain ⟨_, hkey⟩ := capacityHeaderOfRow_terms hh
    simp only [hh] at h
    by_cases hflag : r.nonstdFlag = ['N']
    · simp only [hflag, if_true, Except.ok.injEq] at h
      subst h
      by_cases hf : r.energyFormula.isSome = true
      · simp [hf, hkey]
      · simp [hf]
    · simp only [hflag, if_false, Except.ok.injEq] at h
      subst h
      by_cases hf : r.energyFormula.isSome = true
      · simp [hf, hkey]
      · simp [hf]

/-- The index splice of the capacity fetcher runs to its end when every key of the index
map has a header with a term: the first term of that header then carries the indexes of
the key, and the headers of other pointers are left as they were. -/
theorem capacityIndexLoop (st : FetchState)
    (hinj : ∀ (k k' : Int) (p : Nat), mapGet st.headerModelsMap k = some p →
      mapGet st.headerModelsMap k' = some p → k = k') :
    ∀ (entries : GoMap (List NucleusTradeIndexModel)) (heap : List NucleusTradeHeaderModel),
      (entries.map Prod.fst).Nodup →
      (∀ e ∈ entries, ∃ p hd, mapGet st.headerModelsMap e.1 = some p ∧
        heap[p]? = some hd ∧ hd.Terms ≠ []) →
      ∃ heap', entries.foldlM (capacitySpliceIndex st) heap = Except.ok heap' ∧
        (∀ e ∈ entries, ∃ p hd t ts, mapGet st.headerModelsMap e.1 = some p ∧
          heap'[p]? = some hd ∧ hd.Terms = t :: ts ∧ t.Indexes1 = e.2) ∧
        ∀ q, (∀ e ∈ entries, mapGet st.headerModelsMap e.1 ≠ some q) → heap'[q]? = heap[q]?
  | [], heap, _, _ =>
    ⟨heap, rfl, fun e he => absurd he (List.not_mem_nil _), fun _ _ => rfl⟩
  | e :: es, heap, hnd, h => by
    simp only [List.map_cons, List.nodup_cons] at hnd
    obtain ⟨p, hd, hp, hg, hne⟩ := h e (List.mem_cons_self _ _)
    obtain ⟨t, ts, hterms⟩ := List.exists_cons_of_ne_nil hne
    have hlt : p < heap.length := by
      by_contra hc
      rw [List.getElem?_eq_none (Nat.le_of_not_lt hc)] at hg
      exact Option.noConfusion hg
    have hstep : capacitySpliceIndex st heap e =
        Except.ok (heap.set p { hd with Terms := { t with Indexes1 := e.2 } :: ts }) := by
      unfold capacitySpliceIndex
      simp only [hp, hg, hterms]
    obtain ⟨heap', hrun, heff, hframe⟩ := capacityIndexLoop st hinj es
      (heap.set p { hd with Terms := { t with Indexes1 := e.2 } :: ts }) hnd.2
      (fun x hx => by
        obtain ⟨q, hdq, hq, hgq, hneq⟩ := h x (List.mem_cons_of_mem _ hx)
        by_cases hqp : q = p
        · rw [hqp] at hq
          exact ⟨p, _, hq, List.getElem?_set_self hlt, by simp⟩
        · exact ⟨q, hdq, hq, by
            rw [List.getElem?_set_ne (fun hh => hqp hh.symm)]
            exact hgq, hneq⟩)
    refine ⟨heap', ?_, ?_, ?_⟩
    · rw [List.foldlM_cons, hstep]
      exact hrun
    · intro x hx
      rcases List.mem_cons.1 hx with hx | hx
      · subst hx
        refine ⟨p, { hd with Terms := { t with Indexes1 := x.2 } :: ts },
          { t with Indexes1 := x.2 }, ts, hp, ?_, rfl, rfl⟩
        rw [hframe p ?_, List.getElem?_set_self hlt]
        intro e' he' hpe
        apply hnd.1
        rw [hinj _ _ p hp hpe]
        exact List.mem_map_of_mem Prod.fst he'
      · exact heff x hx
    · intro q hq
      have hpq : p ≠ q := by
        intro hpq
        apply hq e (List.mem_cons_self _ _)
        rw [hp, hpq]
      rw [hframe q (fun e' he' => hq e' (List.mem_cons_of_mem _ he')),
        List.getElem?_set_ne hpq]

/-- The capacity fetcher returns the headers of its rows, in row order, when the rows are
mapped, the cursors report no error, the term rows are rows of the non-standard deals,
and every deal with an index row has a formula, is non-standard and has a term row. The
first term of the header of such a deal then carries the indexes of all index rows of the
deal, in row order. -/
theorem GetNucCapacityDealList_returns (rows : Rows CapacityRow) (l : List CapacityRow)
    (termQuery : List Int → Except Error (Rows CapacityTermRow))
    (indexQuery : List Int → Except Error (Rows CapacityIndexRow))
    (termRows : Rows CapacityTermRow) (tl : List CapacityTermRow)
    (indexRows : Rows CapacityIndexRow) (il : List CapacityIndexRow)
    (hs : rows.scanned = l.map Except.ok) (he : rows.err = none)
    (hall : ∀ r ∈ l, ∃ h, capacityHeaderOfRow r = Except.ok h)
    (hq : termQuery ((l.filter (fun r => decide (r.nonstdFlag ≠ ['N']))).map
      (fun r => r.DealKey)) = Except.ok termRows)
    (hts : termRows.scanned = tl.map Except.ok) (hte : termRows.err = none)
    (hiq : indexQuery ((l.filter (fun r => r.energyFormula.isSome)).map
      (fun r => r.DealKey)) = Except.ok indexRows)
    (his : indexRows.scanned = il.map Except.ok) (hie : indexRows.err = none)
    (htk : ∀ t ∈ tl, ∃ r ∈ l, r.nonstdFlag ≠ ['N'] ∧ r.DealKey = t.dealKey)
    (hik : ∀ x ∈ il, (∃ r ∈ l, r.energyFormula.isSome = true ∧ r.DealKey = x.dealKey) ∧
      (∃ r ∈ l, r.nonstdFlag ≠ ['N'] ∧ r.DealKey = x.dealKey) ∧
      ∃ t ∈ tl, t.dealKey = x.dealKey) :
    ∃ headers, GetNucCapacityDealList (Except.ok rows) termQuery indexQuery =
        Except.ok headers ∧
      List.Forall₂ (fun r h => capacityHeaderOfRow r = Except.ok h) l
        (headers.map eraseTerms) ∧
      ∀ x ∈ il, ∃ hd t ts, hd ∈ headers ∧ hd.DealKey = x.dealKey ∧ hd.Terms = t :: ts ∧
        t.Indexes1 =
          capacityIndexesFrom 0 (il.filter (fun y => decide (y.dealKey = x.dealKey))) := by
  obtain ⟨st, hloop, hkeys, hpnk, _, hreg⟩ := flaggedLoop capacityRowStep
    (fun r => r.DealKey) (fun r => decide (r.nonstdFlag ≠ ['N']))
    (fun r => ∃ h, capacityHeaderOfRow r = Except.ok h)
    (fun st r hr => capacityRowStep_state st r hr) l hall FetchState.init
    pointersNameKeys_init
  have hfkeys := rowLoop_keys capacityRowStep (fun st => st.formulaDealKeys)
    (fun r => r.energyFormula.isSome) (fun r => r.DealKey)
    capacityRowStep_formulaDealKeys l FetchState.init st hloop
  simp only [FetchState.init, List.nil_append] at hkeys hfkeys
  -- the term splice
  have hterm : ∃ heap1,
      (if 0 < st.dealKeys.length then
        match getNucCapacityDealTermModel termQuery st.dealKeys with
        | Except.error e => Except.error e
        | Except.ok termModelsMap => capacitySplice st termModelsMap st.headerModels
      else Except.ok st.headerModels) = Except.ok heap1 ∧
      ∀ x ∈ il, ∃ p hd, mapGet st.headerModelsMap x.dealKey = some p ∧
        heap1[p]? = some hd ∧ hd.Terms ≠ [] := by
    by_cases hk : 0 < st.dealKeys.length
    · have hne : ¬ st.dealKeys.length = 0 := Nat.pos_iff_ne_zero.1 hk
      have hfetch : getNucCapacityDealTermModel termQuery st.dealKeys =
          Except.ok (tl.foldl capacityTermStep []) := by
        unfold getNucCapacityDealTermModel
        rw [if_neg hne, hkeys]
        simp only [hq, scanLoop_ok termRows tl _ _ hts, Rows.closeErr_eq, hte]
      have hfold : tl.foldl capacityTermStep [] =
          tl.foldl (fun m t => mapAppend m t.dealKey
            { NucleusTradeTermModel.zero with
              BegDate := t.BegDate, EndDate := t.EndDate,
              VolSeq := ((mapGet m t.dealKey).getD []).length }) [] := rfl
      have hent := termMap_entries_registered (fun r : CapacityRow => r.DealKey)
        (fun r => decide (r.nonstdFlag ≠ ['N'])) (fun t : CapacityTermRow => t.dealKey)
        (fun m t =>
          { NucleusTradeTermModel.zero with
            BegDate := t.BegDate, EndDate := t.EndDate,
            VolSeq := ((mapGet m t.dealKey).getD []).length }) l tl st
        (fun t ht => by
          obtain ⟨r, hr, hf, hk⟩ := htk t ht
          exact ⟨r, hr, by simpa using hf, hk⟩) hreg
      rw [← hfold] at hent
      obtain ⟨heap1, hrun, _, _, hat⟩ := spliceLoop_ok (capacitySpliceTerm st)
        (fun k => (mapGet st.headerModelsMap k).getD 0) _ st.headerModels
        (splice_hypothesis st hpnk (capacitySpliceTerm st)
          (capacitySpliceTerm_of_registered st) _ hent)
      refine ⟨heap1, ?_, ?_⟩
      · rw [if_pos hk, hfetch]
        exact hrun
      · intro x hx
        obtain ⟨_, ⟨r, hr, hflag, hrk⟩, t, ht, htk'⟩ := hik x hx
        obtain ⟨⟨p, hp⟩, _⟩ := hreg r hr (by simpa using hflag)
        have hget := (foldl_mapAppend_get_ne_nil (fun t : CapacityTermRow => t.dealKey)
          (fun m t =>
            { NucleusTradeTermModel.zero with
              BegDate := t.BegDate, EndDate := t.EndDate,
              VolSeq := ((mapGet m t.dealKey).getD []).length }) tl []).2 t ht
        rw [← hfold] at hget
        obtain ⟨v, _, hv, hmem⟩ := mem_of_getD_ne_nil _ _ hget
        obtain ⟨hd, hhd, hne'⟩ := hat _ hmem hv
        simp only [htk', ← hrk, hp, Option.getD_some] at hhd
        rw [← hrk]
        exact ⟨p, hd, hp, hhd, hne'⟩
    · refine ⟨st.headerModels, by rw [if_neg hk], ?_⟩
      intro x hx
      obtain ⟨_, ⟨r, hr, hflag, _⟩, _⟩ := hik x hx
      exfalso
      apply hk
      rw [hkeys, List.length_map]
      exact List.length_pos_of_mem
        (List.mem_filter.2 ⟨hr, by simpa using hflag⟩)
  obtain ⟨heap1, hrun1, hne1⟩ := hterm
  -- the index splice
  have hindex : ∃ headers,
      (if 0 < st.formulaDealKeys.length then
        match getNucCapacityDealIndexModel indexQuery st.formulaDealKeys with
        | Except.error e => Except.error e
        | Except.ok indexModelsMap => indexModelsMap.foldlM (capacitySpliceIndex st) heap1
      else Except.ok heap1) = Except.ok headers ∧
      ∀ x ∈ il, ∃ p hd t ts, mapGet st.headerModelsMap x.dealKey = some p ∧
        headers[p]? = some hd ∧ hd.Terms = t :: ts ∧
        t.Indexes1 =
          capacityIndexesFrom 0 (il.filter (fun y => decide (y.dealKey = x.dealKey))) := by
    by_cases hf : 0 < st.formulaDealKeys.length
    · have hne : ¬ st.formulaDealKeys.length = 0 := Nat.pos_iff_ne_zero.1 hf
      have hfetch : getNucCapacityDealIndexModel indexQuery st.formulaDealKeys =
          Except.ok (il.foldl capacityIndexStep []) := by
        unfold getNucCapacityDealIndexModel
        rw [if_neg hne, hfkeys]
        simp only [hiq, scanLoop_ok indexRows il _ _ his, Rows.closeErr_eq, hie]
      have hfold : il.foldl capacityIndexStep [] =
          il.foldl (fun m x => mapAppend m x.dealKey
            { Publication := x.Publication, PubIndex := x.PubIndex, Frequency := x.Frequency,
              VolSeq := ((mapGet m x.dealKey).getD []).length }) [] := rfl
      have hnd : ((il.foldl capacityIndexStep []).map Prod.fst).Nodup := by
        rw [hfold]
        exact foldl_mapAppendWith_nodup _ _ il [] List.nodup_nil
      have hent : ∀ e ∈ il.foldl capacityIndexStep [], ∃ x ∈ il, x.dealKey = e.1 := by
        intro e he
        rw [hfold] at he
        rcases foldl_mapAppend_entry (fun x : CapacityIndexRow => x.dealKey) _ il [] e he
          with h | ⟨_, hx⟩
        · exact absurd h (List.not_mem_nil _)
        · exact hx
      obtain ⟨headers, hrun, heff, _⟩ := capacityIndexLoop st
        (fun k k' p hk hk' => pointersNameKeys_mapGet_inj hpnk k k' p hk hk')
        (il.foldl capacityIndexStep []) heap1 hnd
        (fun e he => by
          obtain ⟨x, hx, hxk⟩ := hent e he
          rw [← hxk]
          exact hne1 x hx)
      refine ⟨headers, ?_, ?_⟩
      · rw [if_pos hf, hfetch]
        exact hrun
      · intro x hx
        have hget := (foldl_mapAppend_get_ne_nil (fun x : CapacityIndexRow => x.dealKey)
          (fun m x =>
            ({ Publication := x.Publication, PubIndex := x.PubIndex,
               Frequency := x.Frequency,
               VolSeq := ((mapGet m x.dealKey).getD []).length } : NucleusTradeIndexModel))
          il []).2 x hx
        rw [← hfold] at hget
        obtain ⟨v, hv, _, hmem⟩ := mem_of_getD_ne_nil _ _ hget
        obtain ⟨p, hd, t, ts, hp, hg, hterms, hidx⟩ := heff _ hmem
        refine ⟨p, hd, t, ts, hp, hg, hterms, ?_⟩
        have hval := foldl_capacityIndexStep_get x.dealKey il []
        rw [hv] at hval
        simp only [Option.getD_some, mapGet, Option.getD_none, List.nil_append,
          List.length_nil] at hval
        rw [hidx]
        exact hval
    · refine ⟨heap1, by rw [if_neg hf], ?_⟩
      intro x hx
      obtain ⟨⟨r, hr, hform, _⟩, _⟩ := hik x hx
      exfalso
      apply hf
      rw [hfkeys, List.length_map]
      exact List.length_pos_of_mem (List.mem_filter.2 ⟨hr, hform⟩)
  obtain ⟨headers, hrun2, heff⟩ := hindex
  have hret : GetNucCapacityDealList (Except.ok rows) termQuery indexQuery =
      Except.ok headers := by
    unfold GetNucCapacityDealList
    simp only [scanLoop_scanned_ok rows l _ _ hs, hloop, Rows.closeErr_eq, he]
    split
    · rename_i f hsc
      exact Except.noConfusion (hsc.symm.trans hrun1)
    · rename_i heap hsc
      have hheap : heap = heap1 := Except.ok.inj (hsc.symm.trans hrun1)
      rw [hheap]
      exact hrun2
  have hfor := GetNucCapacityDealList_headers rows l termQuery indexQuery headers hs rfl hret
  refine ⟨headers, hret, hfor, ?_⟩
  intro x hx
  obtain ⟨p, hd, t, ts, hp, hg, hterms, hidx⟩ := heff x hx
  refine ⟨hd, t, ts, List.getElem?_mem hg, ?_, hterms, hidx⟩
  obtain ⟨hd0, hg0, hk0, _⟩ := pointersNameKeys_valid hpnk _ p hp
  have hmap : headers.map eraseTerms = st.headerModels.map eraseTerms := by
    obtain ⟨hs', hm', _⟩ := rowLoop_headers capacityRowStep capacityHeaderOfRow
      capacityRowStep_headers l FetchState.init st hloop
    have h1 : heap1.map eraseTerms = st.headerModels.map eraseTerms := by
      by_cases hk : 0 < st.dealKeys.length
      · rw [if_pos hk] at hrun1
        cases hq' : getNucCapacityDealTermModel termQuery st.dealKeys with
        | error e =>
          rw [hq'] at hrun1
          exact Except.noConfusion hrun1
        | ok tm =>
          rw [hq'] at hrun1
          exact capacitySplice_eraseTerms st tm _ _ hrun1
      · rw [if_neg hk, Except.ok.injEq] at hrun1
        rw [hrun1]
    by_cases hf : 0 < st.formulaDealKeys.length
    · rw [if_pos hf] at hrun2
      cases hq' : getNucCapacityDealIndexModel indexQuery st.formulaDealKeys with
      | error e =>
        rw [hq'] at hrun2
        exact Except.noConfusion hrun2
      | ok im =>
        rw [hq'] at hrun2
        have := foldlM_invariant _
          (fun hp => hp.map eraseTerms = st.headerModels.map eraseTerms) im
          (fun s a s' _ hP hstep =>
            (capacitySpliceIndex_eraseTerms st s s' a hstep).trans hP)
          heap1 headers h1 hrun2
        exact this
    · rw [if_neg hf, Except.ok.injEq] at hrun2
      rw [← hrun2]
      exact h1
  have h2 : (headers.map eraseTerms)[p]? = (st.headerModels.map eraseTerms)[p]? := by
    rw [hmap]
  rw [List.getElem?_map, List.getElem?_map, hg, hg0] at h2
  simp only [Option.map_some', Option.some.injEq] at h2
  have h3 : (eraseTerms hd).DealKey = (eraseTerms hd0).DealKey := by rw [h2]
  exact h3.trans hk0

/-! ## Single-query fetchers and emission options run to their end -/

/-- The point-to-point fetcher returns the headers of its rows, in row order, when the
cursor reports no error. -/
theorem GetNucPTPDealList_returns (rows : Rows PTPRow) (l : List PTPRow)
    (hs : rows.scanned = l.map Except.ok) (he : rows.err = none) :
    GetNucPTPDealList (Except.ok rows) = Except.ok (l.map ptpHeaderOfRow) := by
  unfold GetNucPTPDealList
  simp only [scanLoop_ok rows l _ _ hs, Rows.closeErr_eq, he,
    foldl_collect ptpHeaderOfRow l [], List.nil_append]

/-- The emission-option fetcher returns one header per row, in row order and with the
header fields of the row, when the rows are mapped, the cursors report no error and the
store answers the term query. -/
theorem GetNucEmissionOptionDealList_returns (rows : Rows EmissionOptionRow)
    (l : List EmissionOptionRow)
    (termQuery : List Int → Except Error (Rows EmissionOptionTermRow))
    (termRows : Rows EmissionOptionTermRow) (tl : List EmissionOptionTermRow)
    (hs : rows.scanned = l.map Except.ok) (he : rows.err = none)
    (hall : ∀ r ∈ l, ∃ h, emissionOptionHeaderOfRow r = Except.ok h)
    (hq : termQuery (l.map (fun r => r.emissionKey)) = Except.ok termRows)
    (hts : termRows.scanned = tl.map Except.ok) (hte : termRows.err = none) :
    ∃ headers, GetNucEmissionOptionDealList (Except.ok rows) termQuery = Except.ok headers ∧
      List.Forall₂
        (fun r h => ∃ h0, emissionOptionHeaderOfRow r = Except.ok h0 ∧
          eraseTerms h = eraseTerms h0) l headers := by
  by_cases hne : l = []
  · subst hne
    refine ⟨[], ?_, List.Forall₂.nil⟩
    unfold GetNucEmissionOptionDealList
    simp only [scanLoop_scanned_ok rows [] _ _ hs, List.foldlM_nil, pure, Except.pure,
      Rows.closeErr_eq, he]
    rfl
  obtain ⟨hdrs, hloop, hf⟩ := emissionOptionRowLoop l hall ([], [])
  simp only [List.nil_append] at hloop
  obtain ⟨h1, h2, _⟩ := emissionOptionTermLoop_store tl
  generalize hstore : tl.foldl emissionOptionTermStep { objects := [], termModelMap := [] } =
    store at h1 h2
  have hvalid : ∀ (k : Int) (p : Nat), p ∈ (mapGet store.termModelMap k).getD [] →
      p < store.objects.length := by
    intro k p hp
    obtain ⟨x, hx, _⟩ := h2 k p hp
    rw [h1, List.length_map]
    by_contra hcon
    rw [List.getElem?_eq_none (Nat.le_of_not_lt hcon)] at hx
    exact Option.noConfusion hx
  have hdisj : ∀ (k k' : Int) (p : Nat), p ∈ (mapGet store.termModelMap k).getD [] →
      p ∈ (mapGet store.termModelMap k').getD [] → k = k' := by
    intro k k' p hp hp'
    obtain ⟨x, hx, hkx⟩ := h2 k p hp
    obtain ⟨y, hy, hky⟩ := h2 k' p hp'
    rw [hx, Option.some.injEq] at hy
    subst hy
    exact hkx.symm.trans hky
  obtain ⟨objects', hrun, _, _⟩ :=
    emissionOptionSpliceLoop store.termModelMap store.objects hvalid hdisj l hdrs hf []
      store.objects [] rfl
      (by
        intro k p hp
        have hlt := hvalid k p hp
        rw [List.getElem?_eq_getElem hlt]
        rfl)
  simp only [List.nil_append] at hrun
  have hklen : ¬ (l.map (fun r => r.emissionKey)).length = 0 := by
    rw [List.length_map]
    exact fun h0 => hne (List.length_eq_zero.1 h0)
  have hkpos : 0 < (l.map (fun r => r.emissionKey)).length := Nat.pos_of_ne_zero hklen
  have hfetch : getNucEmissionOptionDealTermList termQuery (l.map (fun r => r.emissionKey)) =
      Except.ok store := by
    unfold getNucEmissionOptionDealTermList
    simp only [if_neg hklen, hq, scanLoop_ok termRows tl _ _ hts, Rows.closeErr_eq, hte,
      hstore]
  refine ⟨resolveTerms objects'
    (List.zipWith (fun r h => (h, (mapGet store.termModelMap r.emissionKey).getD [])) l hdrs),
    ?_, ?_⟩
  · unfold GetNucEmissionOptionDealList
    simp only [scanLoop_scanned_ok rows l _ _ hs, hloop, Rows.closeErr_eq, he, if_pos hkpos,
      hfetch, hrun]
  · have hres := resolveTerms_zipWith objects'
      (fun k => (mapGet store.termModelMap k).getD []) (fun _ => True) l hdrs hf
      (fun _ _ => trivial)
    refine List.Forall₂.imp ?_ hres
    rintro r h ⟨_, h0, hh0, hh⟩
    refine ⟨h0, hh0, ?_⟩
    rw [hh]
    rfl

/-! ## Fetch output in the order of the primary rows -/

theorem followsRows_of_forall₂ {α : Type} (key : α → Int)
    (fields : α → NucleusTradeHeaderModel → Prop) (l : List α)
    (result : Except Fault (List NucleusTradeHeaderModel))
    (headers : List NucleusTradeHeaderModel) (hres : result = Except.ok headers)
    (hf : List.Forall₂ (fun r hd => hd.DealKey = key r ∧ fields r hd) l headers) :
    FollowsRows key fields l result := by
  obtain ⟨hlen, hall⟩ := forall₂_getElem? _ l headers hf
  refine ⟨headers, hres, hlen, fun i r hi => ?_⟩
  obtain ⟨hd, h1, h2, h3⟩ := hall i r hi
  exact ⟨hd, h1, h2, h3⟩

/-- From the headers read without terms to a result in row order. -/
theorem followsRows_of_erased {α : Type} (key : α → Int)
    (hdr : α → Except Fault NucleusTradeHeaderModel)
    (hkey : ∀ r h, hdr r = Except.ok h → h.DealKey = key r) (l : List α)
    (result : Except Fault (List NucleusTradeHeaderModel))
    (h : ∃ headers, result = Except.ok headers ∧
      List.Forall₂ (fun r h => hdr r = Except.ok h) l (headers.map eraseTerms)) :
    FollowsRows key (fun r hd => hdr r = Except.ok (eraseTerms hd)) l result := by
  obtain ⟨headers, hres, hf⟩ := h
  refine followsRows_of_forall₂ key _ l result headers hres ?_
  rw [List.forall₂_map_right_iff] at hf
  exact List.Forall₂.imp (fun r hd hh => ⟨hkey r (eraseTerms hd) hh, hh⟩) hf

theorem followsRows_of_collect {α : Type} (key : α → Int)
    (hdr : α → Except Fault NucleusTradeHeaderModel)
    (hkey : ∀ r h, hdr r = Except.ok h → h.DealKey = key r) (rows : Rows α) (l : List α)
    (hs : rows.scanned = l.map Except.ok) (he : rows.err = none)
    (hall : ∀ r ∈ l, ∃ h, hdr r = Except.ok h) :
    FollowsRows key (fun r hd => hdr r = Except.ok hd) l
      (collectHeaders (Except.ok rows) hdr) := by
  obtain ⟨headers, hres, hf⟩ := collectHeaders_returns rows l hdr hs rfl he hall
  exact followsRows_of_forall₂ key _ l _ headers hres
    (List.Forall₂.imp (fun r hd hh => ⟨hkey r _ hh, hh⟩) hf)

theorem powerOptionsHeaderOfRow_dealKey (r : PowerOptionsRow) (h : NucleusTradeHeaderModel)
    (hr : powerOptionsHeaderOfRow r = Except.ok h) : h.DealKey = r.DealKey := by
  unfold powerOptionsHeaderOfRow at hr
  split at hr
  · exact Except.noConfusion hr
  · simp only [Except.ok.injEq] at hr
    subst hr
    rfl

theorem spreadOptionsHeaderOfRow_dealKey (r : SpreadOptionsRow) (h : NucleusTradeHeaderModel)
    (hr : spreadOptionsHeaderOfRow r = Except.ok h) : h.DealKey = r.DealKey := by
  unfold spreadOptionsHeaderOfRow at hr
  split at hr
  · exact Except.noConfusion hr
  · simp only [Except.ok.injEq] at hr
    subst hr
    rfl

theorem heatRateSwapsHeaderOfRow_dealKey (r : HeatRateSwapsRow) (h : NucleusTradeHeaderModel)
    (hr : heatRateSwapsHeaderOfRow r = Except.ok h) : h.DealKey = r.DealKey := by
  unfold heatRateSwapsHeaderOfRow at hr
  split at hr
  · exact Except.noConfusion hr
  · simp only [Except.ok.injEq] at hr
    subst hr
    rfl

theorem tccftrsHeaderOfRow_dealKey (r : TCCFTRSRow) (h : NucleusTradeHeaderModel)
    (hr : tccftrsHeaderOfRow r = Except.ok h) : h.DealKey = r.DealKey := by
  unfold tccftrsHeaderOfRow at hr
  simp only [Except.ok.injEq] at hr
  subst hr
  rfl

theorem tccftrsHeaderOfRow_total (r : TCCFTRSRow) : ∃ h, tccftrsHeaderOfRow r = Except.ok h := by
  unfold tccftrsHeaderOfRow
  exact ⟨_, rfl⟩

theorem emissionOptionHeaderOfRow_dealKey (r : EmissionOptionRow)
    (h : NucleusTradeHeaderModel) (hr : emissionOptionHeaderOfRow r = Except.ok h) :
    h.DealKey = r.DealKey := by
  unfold emissionOptionHeaderOfRow at hr
  split at hr
  · exact Except.noConfusion hr
  · simp only [Except.ok.injEq] at hr
    subst hr
    rfl

/-- C16, as the code has it: fetch output follows primary-query row order whenever the
fetch runs to its end, which the capacity fetcher does not do on every list of rows that
map without error. For each of the twelve family fetchers and every list of n primary
rows that are read from the cursor and map without error, when the cursors report no
error, the store answers the term and index queries for the keys that the fetcher asks
for, and the term rows are rows of the deals that were asked for, the call returns a
header list of length n whose i-th header has the deal key and the header fields mapped
from the i-th row (for the fetchers that attach fetched terms: all fields apart from the
term list). For the capacity fetcher this holds when, in addition, every deal with an
index row has a formula, is non-standard and has a term row. On the standard capacity
row 5003 with a formula and one index row, which maps without error, the capacity
fetcher panics and returns no header list. -/
theorem C16_fetch_output_follows_row_order :
    (∀ (rows : Rows PowerRow) (l : List PowerRow)
        (termQuery : List Int → Except Error (Rows PowerTermRow))
        (indexQuery : GoMap Int → Except Error (Rows PowerIndexRow))
        (termRows : Rows PowerTermRow) (tl : List PowerTermRow)
        (indexRows : Rows PowerIndexRow) (il : List PowerIndexRow),
        rows.scanned = l.map Except.ok → rows.err = none →
        (∀ r ∈ l, ∃ h, powerHeaderOfRow r = Except.ok h) →
        termQuery (l.map (fun r => r.DealKey)) = Except.ok termRows →
        termRows.scanned = tl.map Except.ok → termRows.err = none →
        indexQuery (powerFormulaMap tl) = Except.ok indexRows →
        indexRows.scanned = il.map Except.ok → indexRows.err = none →
        FollowsRows (fun r => r.DealKey)
          (fun r hd => powerHeaderOfRow r = Except.ok (eraseTerms hd)) l
          (GetNucPowerDealList (Except.ok rows) termQuery indexQuery)) ∧
    (∀ (rows : Rows PowerSwapRow) (l : List PowerSwapRow)
        (termQuery : List Int → Except Error (Rows PowerSwapTermRow))
        (termRows : Rows PowerSwapTermRow) (tl : List PowerSwapTermRow),
        rows.scanned = l.map Except.ok → rows.err = none →
        (∀ r ∈ l, ∃ h, powerSwapHeaderOfRow r = Except.ok h) →
        termQuery ((l.filter (fun r => decide (r.nonstdFlag ≠ ['N']))).map
          (fun r => r.DealKey)) = Except.ok termRows →
        termRows.scanned = tl.map Except.ok → termRows.err = none →
        (∀ t ∈ tl, ∃ r ∈ l, r.nonstdFlag ≠ ['N'] ∧ r.DealKey = t.dealKey) →
        FollowsRows (fun r => r.DealKey)
          (fun r hd => powerSwapHeaderOfRow r = Except.ok (eraseTerms hd)) l
          (GetNucPowerSwapDealList (Except.ok rows) termQuery)) ∧
    (∀ (rows : Rows CapacityRow) (l : List CapacityRow)
        (termQuery : List Int → Except Error (Rows CapacityTermRow))
        (indexQuery : List Int → Except Error (Rows CapacityIndexRow))
        (termRows : Rows CapacityTermRow) (tl : List CapacityTermRow)
        (indexRows : Rows CapacityIndexRow) (il : List CapacityIndexRow),
        rows.scanned = l.map Except.ok → rows.err = none →
        (∀ r ∈ l, ∃ h, capacityHeaderOfRow r = Except.ok h) →
        termQuery ((l.filter (fun r => decide (r.nonstdFlag ≠ ['N']))).map
          (fun r => r.DealKey)) = Except.ok termRows →
        termRows.scanned = tl.map Except.ok → termRows.err = none →
        indexQuery ((l.filter (fun r => r.energyFormula.isSome)).map
          (fun r => r.DealKey)) = Except.ok indexRows →
        indexRows.scanned = il.map Except.ok → indexRows.err = none →
        (∀ t ∈ tl, ∃ r ∈ l, r.nonstdFlag ≠ ['N'] ∧ r.DealKey = t.dealKey) →
        (∀ x ∈ il, (∃ r ∈ l, r.energyFormula.isSome = true ∧ r.DealKey = x.dealKey) ∧
          (∃ r ∈ l, r.nonstdFlag ≠ ['N'] ∧ r.DealKey = x.dealKey) ∧
          ∃ t ∈ tl, t.dealKey = x.dealKey) →
        FollowsRows (fun r => r.DealKey)
          (fun r hd => capacityHeaderOfRow r = Except.ok (eraseTerms hd)) l
          (GetNucCapacityDealList (Except.ok rows) termQuery indexQuery)) ∧
    (∀ (rows : Rows PTPRow) (l : List PTPRow),
        rows.scanned = l.map Except.ok → rows.err = none →
        FollowsRows (fun r => r.DealKey) (fun r hd => hd = ptpHeaderOfRow r) l
          (GetNucPTPDealList (Except.ok rows))) ∧
    (∀ (rows : Rows MiscChargeRow) (l : List MiscChargeRow)
        (termQuery : List Int → Except Error (Rows MiscChargeTermRow))
        (termRows : Rows MiscChargeTermRow) (tl : List MiscChargeTermRow),
        rows.scanned = l.map Except.ok → rows.err = none →
        termQuery (l.map (fun r => r.DealKey)) = Except.ok termRows →
        termRows.scanned = tl.map Except.ok → termRows.err = none →
        (∀ t ∈ tl, ∃ r ∈ l, r.DealKey = t.dealKey) →
        FollowsRows (fun r => r.DealKey)
          (fun r hd => eraseTerms hd = miscChargeHeaderOfRow r) l
          (GetNucMiscChargeDealList (Except.ok rows) termQuery)) ∧
    (∀ (rows : Rows PowerOptionsRow) (l : List PowerOptionsRow),
        rows.scanned = l.map Except.ok → rows.err = none →
        (∀ r ∈ l, ∃ h, powerOptionsHeaderOfRow r = Except.ok h) →
        FollowsRows (fun r => r.DealKey)
          (fun r hd => powerOptionsHeaderOfRow r = Except.ok hd) l
          (GetNucPowerOptionsDealList (Except.ok rows))) ∧
    (∀ (rows : Rows SpreadOptionsRow) (l : List SpreadOptionsRow),
        rows.scanned = l.map Except.ok → rows.err = none →
        (∀ r ∈ l, ∃ h, spreadOptionsHeaderOfRow r = Except.ok h) →
        FollowsRows (fun r => r.DealKey)
          (fun r hd => spreadOptionsHeaderOfRow r = Except.ok hd) l
          (GetNucSpreadOptionsDealList (Except.ok rows))) ∧
    (∀ (rows : Rows HeatRateSwapsRow) (l : List HeatRateSwapsRow),
        rows.scanned = l.map Except.ok → rows.err = none →
        (∀ r ∈ l, ∃ h, heatRateSwapsHeaderOfRow r = Except.ok h) →
        FollowsRows (fun r => r.DealKey)
          (fun r hd => heatRateSwapsHeaderOfRow r = Except.ok hd) l
          (GetNucHeatRateSwapsDealList (Except.ok rows))) ∧
    (∀ (rows : Rows TCCFTRSRow) (l : List TCCFTRSRow),
        rows.scanned = l.map Except.ok → rows.err = none →
        FollowsRows (fun r => r.DealKey)
          (fun r hd => tccftrsHeaderOfRow r = Except.ok hd) l
          (GetNucTCCFTRSDealList (Except.ok rows))) ∧
    (∀ (rows : Rows TransmissionRow) (l : List TransmissionRow)
        (termQuery : List Int → Except Error (Rows TransmissionTermRow))
        (termRows : Rows TransmissionTermRow) (tl : List TransmissionTermRow),
        rows.scanned = l.map Except.ok → rows.err = none →
        (∀ r ∈ l, ∃ h, transmissionHeaderOfRow r = Except.ok h) →
        termQuery (l.map (fun r => r.DealKey)) = Except.ok termRows →
        termRows.scanned = tl.map Except.ok → termRows.err = none →
        (∀ t ∈ tl, ∃ r ∈ l, r.DealKey = t.dealKey) →
        FollowsRows (fun r => r.DealKey)
          (fun r hd => transmissionHeaderOfRow r = Except.ok (eraseTerms hd)) l
          (GetNucTransmissionDealList (Except.ok rows) termQuery)) ∧
    (∀ (rows : Rows EmissionRow) (l : List EmissionRow)
        (termQuery : List Int → Except Error (Rows EmissionTermRow))
        (termRows : Rows EmissionTermRow) (tl : List EmissionTermRow),
        rows.scanned = l.map Except.ok → rows.err = none →
        (∀ r ∈ l, ∃ h, emissionHeaderOfRow r = Except.ok h) →
        termQuery (l.map (fun r => r.DealKey)) = Except.ok termRows →
        termRows.scanned = tl.map Except.ok → termRows.err = none →
        (∀ t ∈ tl, ∃ r ∈ l, r.DealKey = t.dealKey) →
        FollowsRows (fun r => r.DealKey)
          (fun r hd => emissionHeaderOfRow r = Except.ok (eraseTerms hd)) l
          (GetNucEmissionDealList (Except.ok rows) termQuery)) ∧
    (∀ (rows : Rows EmissionOptionRow) (l : List EmissionOptionRow)
        (termQuery : List Int → Except Error (Rows EmissionOptionTermRow))
        (termRows : Rows EmissionOptionTermRow) (tl : List EmissionOptionTermRow),
        rows.scanned = l.map Except.ok → rows.err = none →
        (∀ r ∈ l, ∃ h, emissionOptionHeaderOfRow r = Except.ok h) →
        termQuery (l.map (fun r => r.emissionKey)) = Except.ok termRows →
        termRows.scanned = tl.map Except.ok → termRows.err = none →
        FollowsRows (fun r => r.DealKey)
          (fun r hd => ∃ h0, emissionOptionHeaderOfRow r = Except.ok h0 ∧
            eraseTerms hd = eraseTerms h0) l
          (GetNucEmissionOptionDealList (Except.ok rows) termQuery)) ∧
    ((∃ h, capacityHeaderOfRow sampleCapacityStandardFormulaRow = Except.ok h) ∧
      GetNucCapacityDealList (Except.ok sampleCapacityStandardFormulaRows)
          (fun _ => Except.ok sampleNoCapacityTermRows)
          (fun _ => Except.ok sampleCapacityStandardIndexRows) =
        Except.error Fault.panic) := by
  refine ⟨?_, ?_, ?_, ?_, ?_, ?_, ?_, ?_, ?_, ?_, ?_, ?_, ?_⟩
  · intro rows l termQuery indexQuery termRows tl indexRows il hs he hall hq hts hte hiq
      his hie
    exact followsRows_of_erased _ powerHeaderOfRow
      (fun r h hh => (powerHeaderOfRow_terms hh).2) l _
      (GetNucPowerDealList_returns rows l termQuery indexQuery termRows tl indexRows il
        hs he hall hq hts hte hiq his hie)
  · intro rows l termQuery termRows tl hs he hall hq hts hte htk
    exact followsRows_of_erased _ powerSwapHeaderOfRow
      (fun r h hh => (powerSwapHeaderOfRow_terms hh).2) l _
      (GetNucPowerSwapDealList_returns rows l termQuery termRows tl hs he hall hq hts hte
        htk)
  · intro rows l termQuery indexQuery termRows tl indexRows il hs he hall hq hts hte hiq
      his hie htk hik
    obtain ⟨headers, hres, hf, _⟩ := GetNucCapacityDealList_returns rows l termQuery
      indexQuery termRows tl indexRows il hs he hall hq hts hte hiq his hie htk hik
    exact followsRows_of_erased _ capacityHeaderOfRow
      (fun r h hh => (capacityHeaderOfRow_terms hh).2) l _ ⟨headers, hres, hf⟩
  · intro rows l hs he
    refine followsRows_of_forall₂ _ _ l _ _ (GetNucPTPDealList_returns rows l hs he) ?_
    rw [List.forall₂_map_right_iff]
    exact List.forall₂_same.2 (fun r _ => ⟨rfl, rfl⟩)
  · intro rows l termQuery termRows tl hs he hq hts hte htk
    obtain ⟨headers, hres, hf⟩ := GetNucMiscChargeDealList_returns rows l termQuery
      termRows tl hs he hq hts hte htk
    refine followsRows_of_forall₂ _ _ l _ headers hres ?_
    rw [List.forall₂_map_right_iff] at hf
    refine List.Forall₂.imp ?_ hf
    intro r hd hh
    refine ⟨?_, hh.symm⟩
    have h1 : (eraseTerms hd).DealKey = (miscChargeHeaderOfRow r).DealKey := by rw [hh]
    exact h1
  · intro rows l hs he hall
    exact followsRows_of_collect _ powerOptionsHeaderOfRow powerOptionsHeaderOfRow_dealKey
      rows l hs he hall
  · intro rows l hs he hall
    exact followsRows_of_collect _ spreadOptionsHeaderOfRow spreadOptionsHeaderOfRow_dealKey
      rows l hs he hall
  · intro rows l hs he hall
    exact followsRows_of_collect _ heatRateSwapsHeaderOfRow heatRateSwapsHeaderOfRow_dealKey
      rows l hs he hall
  · intro rows l hs he
    exact followsRows_of_collect _ tccftrsHeaderOfRow tccftrsHeaderOfRow_dealKey
      rows l hs he (fun r _ => tccftrsHeaderOfRow_total r)
  · intro rows l termQuery termRows tl hs he hall hq hts hte htk
    exact followsRows_of_erased _ transmissionHeaderOfRow
      (fun r h hh => (transmissionHeaderOfRow_terms hh).2) l _
      (GetNucTransmissionDealList_returns rows l termQuery termRows tl hs he hall hq hts
        hte htk)
  · intro rows l termQuery termRows tl hs he hall hq hts hte htk
    exact followsRows_of_erased _ emissionHeaderOfRow
      (fun r h hh => (emissionHeaderOfRow_terms hh).2) l _
      (GetNucEmissionDealList_returns rows l termQuery termRows tl hs he hall hq hts hte
        htk)
  · intro rows l termQuery termRows tl hs he hall hq hts hte
    obtain ⟨headers, hres, hf⟩ := GetNucEmissionOptionDealList_returns rows l termQuery
      termRows tl hs he hall hq hts hte
    refine followsRows_of_forall₂ _ _ l _ headers hres (List.Forall₂.imp ?_ hf)
    rintro r hd ⟨h0, hh0, hh⟩
    refine ⟨?_, h0, hh0, hh⟩
    have h1 : (eraseTerms hd).DealKey = (eraseTerms h0).DealKey := by rw [hh]
    exact h1.trans (emissionOptionHeaderOfRow_dealKey r h0 hh0)
  · exact ⟨⟨_, rfl⟩, by decide⟩

/-- Witness of C16: each of the twelve family fetchers on sample rows. The power-deal
fetcher on three rows of which two share a deal key, with three term rows and five index
rows; the power-swap fetcher on a non-standard and a standard row; the capacity fetcher
on a non-standard row with a formula, one term row and two index rows, followed by a
standard row; the other fetchers on one or two rows each, those with a term query on
term rows of their deals. Every result follows its rows. -/
theorem C16_fetch_output_witness :
    FollowsRows (fun r => r.DealKey)
        (fun r hd => powerHeaderOfRow r = Except.ok (eraseTerms hd)) samplePowerRowList
        (GetNucPowerDealList (Except.ok samplePowerRows3)
          (fun _ => Except.ok samplePowerTermRows3)
          (fun _ => Except.ok samplePowerIndexRows)) ∧
    FollowsRows (fun r => r.DealKey)
        (fun r hd => powerSwapHeaderOfRow r = Except.ok (eraseTerms hd))
        samplePowerSwapRowList
        (GetNucPowerSwapDealList (Except.ok samplePowerSwapRows)
          (fun _ => Except.ok samplePowerSwapTermRows)) ∧
    FollowsRows (fun r => r.DealKey)
        (fun r hd => capacityHeaderOfRow r = Except.ok (eraseTerms hd)) sampleCapacityRowList
        (GetNucCapacityDealList (Except.ok sampleCapacityRows2)
          (fun _ => Except.ok sampleCapacityFormulaTermRows)
          (fun _ => Except.ok sampleCapacityIndexRows)) ∧
    FollowsRows (fun r => r.DealKey) (fun r hd => hd = ptpHeaderOfRow r) [samplePTPRow]
        (GetNucPTPDealList (Except.ok samplePTPRows)) ∧
    FollowsRows (fun r => r.DealKey) (fun r hd => eraseTerms hd = miscChargeHeaderOfRow r)
        [sampleMiscChargeRow]
        (GetNucMiscChargeDealList (Except.ok sampleMiscChargeRows)
          (fun _ => Except.ok sampleMiscChargeTermRows)) ∧
    FollowsRows (fun r => r.DealKey) (fun r hd => powerOptionsHeaderOfRow r = Except.ok hd)
        samplePowerOptionsRowList
        (GetNucPowerOptionsDealList (Except.ok samplePowerOptionsRows)) ∧
    FollowsRows (fun r => r.DealKey) (fun r hd => spreadOptionsHeaderOfRow r = Except.ok hd)
        sampleSpreadOptionsRowList
        (GetNucSpreadOptionsDealList (Except.ok sampleSpreadOptionsRows)) ∧
    FollowsRows (fun r => r.DealKey) (fun r hd => heatRateSwapsHeaderOfRow r = Except.ok hd)
        [sampleHeatRateSwapsRow]
        (GetNucHeatRateSwapsDealList (Except.ok sampleHeatRateSwapsRows)) ∧
    FollowsRows (fun r => r.DealKey) (fun r hd => tccftrsHeaderOfRow r = Except.ok hd)
        sampleTCCFTRSRowList (GetNucTCCFTRSDealList (Except.ok sampleTCCFTRSRows)) ∧
    FollowsRows (fun r => r.DealKey)
        (fun r hd => transmissionHeaderOfRow r = Except.ok (eraseTerms hd))
        sampleTransmissionDatedRowList
        (GetNucTransmissionDealList (Except.ok sampleTransmissionDatedRows)
          (fun _ => Except.ok sampleTransmissionTermRows)) ∧
    FollowsRows (fun r => r.DealKey)
        (fun r hd => emissionHeaderOfRow r = Except.ok (eraseTerms hd)) sampleEmissionRowList
        (GetNucEmissionDealList (Except.ok sampleEmissionRows)
          (fun _ => Except.ok sampleEmissionTermRows)) ∧
    FollowsRows (fun r => r.DealKey)
        (fun r hd => ∃ h0, emissionOptionHeaderOfRow r = Except.ok h0 ∧
          eraseTerms hd = eraseTerms h0) sampleEmissionOptionRowList
        (GetNucEmissionOptionDealList (Except.ok sampleEmissionOptionRows)
          (fun _ => Except.ok sampleEmissionOptionTermRows)) :=
  ⟨C16_fetch_output_follows_row_order.1 samplePowerRows3 samplePowerRowList
      (fun _ => Except.ok samplePowerTermRows3) (fun _ => Except.ok samplePowerIndexRows)
      samplePowerTermRows3 samplePowerTermList samplePowerIndexRows samplePowerIndexList
      rfl rfl (by decide) rfl rfl rfl rfl rfl rfl,
    C16_fetch_output_follows_row_order.2.1 samplePowerSwapRows samplePowerSwapRowList
      (fun _ => Except.ok samplePowerSwapTermRows) samplePowerSwapTermRows
      samplePowerSwapTermList rfl rfl (by decide) rfl rfl rfl (by decide),
    C16_fetch_output_follows_row_order.2.2.1 sampleCapacityRows2 sampleCapacityRowList
      (fun _ => Except.ok sampleCapacityFormulaTermRows)
      (fun _ => Except.ok sampleCapacityIndexRows) sampleCapacityFormulaTermRows
      sampleCapacityFormulaTermList sampleCapacityIndexRows sampleCapacityIndexList
      rfl rfl (by decide) rfl rfl rfl rfl rfl rfl (by decide) (by decide),
    C16_fetch_output_follows_row_order.2.2.2.1 samplePTPRows [samplePTPRow] rfl rfl,
    C16_fetch_output_follows_row_order.2.2.2.2.1 sampleMiscChargeRows [sampleMiscChargeRow]
      (fun _ => Except.ok sampleMiscChargeTermRows) sampleMiscChargeTermRows
      sampleMiscChargeTermList rfl rfl rfl rfl rfl (by decide),
    C16_fetch_output_follows_row_order.2.2.2.2.2.1 samplePowerOptionsRows
      samplePowerOptionsRowList rfl rfl (by decide),
    C16_fetch_output_follows_row_order.2.2.2.2.2.2.1 sampleSpreadOptionsRows
      sampleSpreadOptionsRowList rfl rfl (by decide),
    C16_fetch_output_follows_row_order.2.2.2.2.2.2.2.1 sampleHeatRateSwapsRows
      [sampleHeatRateSwapsRow] rfl rfl (by decide),
    C16_fetch_output_follows_row_order.2.2.2.2.2.2.2.2.1 sampleTCCFTRSRows
      sampleTCCFTRSRowList rfl rfl,
    C16_fetch_output_follows_row_order.2.2.2.2.2.2.2.2.2.1 sampleTransmissionDatedRows
      sampleTransmissionDatedRowList (fun _ => Except.ok sampleTransmissionTermRows)
      sampleTransmissionTermRows sampleTransmissionTermList rfl rfl (by decide) rfl rfl rfl
      (by decide),
    C16_fetch_output_follows_row_order.2.2.2.2.2.2.2.2.2.2.1 sampleEmissionRows
      sampleEmissionRowList (fun _ => Except.ok sampleEmissionTermRows)
      sampleEmissionTermRows sampleEmissionTermList rfl rfl (by decide) rfl rfl rfl
      (by decide),
    C16_fetch_output_follows_row_order.2.2.2.2.2.2.2.2.2.2.2.1 sampleEmissionOptionRows
      sampleEmissionOptionRowList (fun _ => Except.ok sampleEmissionOptionTermRows)
      sampleEmissionOptionTermRows sampleEmissionOptionTermList rfl rfl (by decide) rfl rfl
      rfl⟩

/-! ## Capacity indexes: the claim -/

theorem capacityIndexesFrom_getElem? :
    ∀ (il : List CapacityIndexRow) (n j : Nat) (r : CapacityIndexRow), il[j]? = some r →
      (capacityIndexesFrom n il)[j]? =
        some { Publication := r.Publication, PubIndex := r.PubIndex,
               Frequency := r.Frequency, VolSeq := ((n + j : Nat) : Int) }
  | [], _, _, _, h => by simp at h
  | a :: il, n, 0, r, h => by
    simp only [List.getElem?_cons_zero, Option.some.injEq] at h
    subst h
    simp [capacityIndexesFrom]
  | a :: il, n, j + 1, r, h => by
    simp only [List.getElem?_cons_succ] at h
    simp only [capacityIndexesFrom, List.getElem?_cons_succ]
    rw [capacityIndexesFrom_getElem? il (n + 1) j r h]
    have : n + 1 + j = n + (j + 1) := by omega
    rw [this]

theorem capacityIndexesFrom_length :
    ∀ (il : List CapacityIndexRow) (n : Nat), (capacityIndexesFrom n il).length = il.length
  | [], _ => rfl
  | a :: il, n => by
    simp [capacityIndexesFrom, capacityIndexesFrom_length il (n + 1)]

/-- C20, as the code has it: capacity indexes are attached by deal key, all on the first
term of the header of their deal, and numbered by their own position. First, in every
header that `GetNucCapacityDealList` returns, the first term has volume sequence 0, an
index is attached to the first term only, and the index at position j of its list has
volume sequence j, so an index has the volume sequence of its term exactly when it is
the first of the list. Second, when the primary rows map without error, the cursors
report no error, the store answers the term and index queries for the keys asked for,
the term rows are rows of non-standard deals, and every deal with an index row has a
formula, is non-standard and has a term row, the fetch returns, and for every index row
the result holds a header of its deal whose first term has volume sequence 0 and carries
exactly the indexes built from all index rows of that deal. Third, the indexes built
from the index rows of a deal stand in row order: the one at position j has the
publication, index name and frequency of the j-th row and the volume sequence j. -/
theorem C20_capacity_indexes_sit_on_first_term :
    (∀ (primary : Except Error (Rows CapacityRow))
        (termQuery : List Int → Except Error (Rows CapacityTermRow))
        (indexQuery : List Int → Except Error (Rows CapacityIndexRow))
        (headers : List NucleusTradeHeaderModel),
        GetNucCapacityDealList primary termQuery indexQuery = Except.ok headers →
        ∀ hd ∈ headers, ∀ (i : Nat) (t : NucleusTradeTermModel), hd.Terms[i]? = some t →
          (i = 0 → t.VolSeq = 0) ∧
          ∀ (j : Nat) (x : NucleusTradeIndexModel), t.Indexes1[j]? = some x →
            i = 0 ∧ x.VolSeq = (j : Int) ∧ (x.VolSeq = t.VolSeq ↔ j = 0)) ∧
    (∀ (rows : Rows CapacityRow) (l : List CapacityRow)
        (termQuery : List Int → Except Error (Rows CapacityTermRow))
        (indexQuery : List Int → Except Error (Rows CapacityIndexRow))
        (termRows : Rows CapacityTermRow) (tl : List CapacityTermRow)
        (indexRows : Rows CapacityIndexRow) (il : List CapacityIndexRow),
        rows.scanned = l.map Except.ok → rows.err = none →
        (∀ r ∈ l, ∃ h, capacityHeaderOfRow r = Except.ok h) →
        termQuery ((l.filter (fun r => decide (r.nonstdFlag ≠ ['N']))).map
          (fun r => r.DealKey)) = Except.ok termRows →
        termRows.scanned = tl.map Except.ok → termRows.err = none →
        indexQuery ((l.filter (fun r => r.energyFormula.isSome)).map
          (fun r => r.DealKey)) = Except.ok indexRows →
        indexRows.scanned = il.map Except.ok → indexRows.err = none →
        (∀ t ∈ tl, ∃ r ∈ l, r.nonstdFlag ≠ ['N'] ∧ r.DealKey = t.dealKey) →
        (∀ x ∈ il, (∃ r ∈ l, r.energyFormula.isSome = true ∧ r.DealKey = x.dealKey) ∧
          (∃ r ∈ l, r.nonstdFlag ≠ ['N'] ∧ r.DealKey = x.dealKey) ∧
          ∃ t ∈ tl, t.dealKey = x.dealKey) →
        ∃ headers, GetNucCapacityDealList (Except.ok rows) termQuery indexQuery =
            Except.ok headers ∧
          ∀ x ∈ il, ∃ hd t ts, hd ∈ headers ∧ hd.DealKey = x.dealKey ∧
            hd.Terms = t :: ts ∧ t.VolSeq = 0 ∧
            t.Indexes1 =
              capacityIndexesFrom 0
                (il.filter (fun y => decide (y.dealKey = x.dealKey)))) ∧
    (∀ (il : List CapacityIndexRow),
        (capacityIndexesFrom 0 il).length = il.length ∧
        ∀ (j : Nat) (r : CapacityIndexRow), il[j]? = some r →
          (capacityIndexesFrom 0 il)[j]? =
            some { Publication := r.Publication, PubIndex := r.PubIndex,
                   Frequency := r.Frequency, VolSeq := (j : Int) }) := by
  refine ⟨?_, ?_, ?_⟩
  · intro primary termQuery indexQuery headers h hd hmem i t ht
    have hshape := GetNucCapacityDealList_shape primary termQuery indexQuery headers h hd hmem
    cases hterms : hd.Terms with
    | nil =>
      rw [hterms] at ht
      simp at ht
    | cons t0 ts =>
      rw [hterms] at ht hshape
      cases i with
      | zero =>
        simp only [List.getElem?_cons_zero, Option.some.injEq] at ht
        subst ht
        obtain ⟨hv, hnum⟩ := hshape.1 t0 rfl
        refine ⟨fun _ => hv, ?_⟩
        intro j x hx
        have hxj := hnum j x hx
        refine ⟨rfl, hxj, ?_⟩
        rw [hxj, hv]
        exact Int.natCast_eq_zero
      | succ n =>
        simp only [List.getElem?_cons_succ] at ht
        have hnil := hshape.2 t (List.getElem?_mem ht)
        refine ⟨fun h0 => absurd h0 (Nat.succ_ne_zero n), ?_⟩
        intro j x hx
        rw [hnil] at hx
        simp at hx
  · intro rows l termQuery indexQuery termRows tl indexRows il hs he hall hq hts hte hiq
      his hie htk hik
    obtain ⟨headers, hres, _, heff⟩ := GetNucCapacityDealList_returns rows l termQuery
      indexQuery termRows tl indexRows il hs he hall hq hts hte hiq his hie htk hik
    refine ⟨headers, hres, ?_⟩
    intro x hx
    obtain ⟨hd, t, ts, hmem, hkey, hterms, hidx⟩ := heff x hx
    have hshape := GetNucCapacityDealList_shape _ termQuery indexQuery headers hres hd hmem
    rw [hterms] at hshape
    exact ⟨hd, t, ts, hmem, hkey, hterms, (hshape.1 t rfl).1, hidx⟩
  · intro il
    refine ⟨capacityIndexesFrom_length il 0, ?_⟩
    intro j r hj
    rw [capacityIndexesFrom_getElem? il 0 j r hj, Nat.zero_add]

/-- Witness of C20: the fetch of a non-standard capacity row with a formula, one term row
and two index rows, followed by a standard row without formula. It returns two headers,
the first with one term of volume sequence 0 that carries the indexes numbered 0 and 1,
the second with one term without index; the three parts of the statement hold of it. -/
theorem C20_capacity_indexes_witness :
    (headersOf (GetNucCapacityDealList (Except.ok sampleCapacityRows2)
        (fun _ => Except.ok sampleCapacityFormulaTermRows)
        (fun _ => Except.ok sampleCapacityIndexRows))).map
      (fun hd =>
        (hd.DealKey, hd.Terms.map (fun t => (t.VolSeq, t.Indexes1.map (fun x => x.VolSeq))))) =
      [(5002, [(0, [0, 1])]), (5004, [(0, [])])] ∧
    (∀ hd ∈ headersOf (GetNucCapacityDealList (Except.ok sampleCapacityRows2)
        (fun _ => Except.ok sampleCapacityFormulaTermRows)
        (fun _ => Except.ok sampleCapacityIndexRows)),
      ∀ (i : Nat) (t : NucleusTradeTermModel), hd.Terms[i]? = some t →
        (i = 0 → t.VolSeq = 0) ∧
        ∀ (j : Nat) (x : NucleusTradeIndexModel), t.Indexes1[j]? = some x →
          i = 0 ∧ x.VolSeq = (j : Int) ∧ (x.VolSeq = t.VolSeq ↔ j = 0)) ∧
    (∃ headers, GetNucCapacityDealList (Except.ok sampleCapacityRows2)
        (fun _ => Except.ok sampleCapacityFormulaTermRows)
        (fun _ => Except.ok sampleCapacityIndexRows) = Except.ok headers ∧
      ∀ x ∈ sampleCapacityIndexList, ∃ hd t ts, hd ∈ headers ∧ hd.DealKey = x.dealKey ∧
        hd.Terms = t :: ts ∧ t.VolSeq = 0 ∧
        t.Indexes1 =
          capacityIndexesFrom 0
            (sampleCapacityIndexList.filter (fun y => decide (y.dealKey = x.dealKey)))) :=
  ⟨by decide,
    C20_capacity_indexes_sit_on_first_term.1 (Except.ok sampleCapacityRows2)
      (fun _ => Except.ok sampleCapacityFormulaTermRows)
      (fun _ => Except.ok sampleCapacityIndexRows)
      (headersOf (GetNucCapacityDealList (Except.ok sampleCapacityRows2)
        (fun _ => Except.ok sampleCapacityFormulaTermRows)
        (fun _ => Except.ok sampleCapacityIndexRows))) rfl,
    C20_capacity_indexes_sit_on_first_term.2.1 sampleCapacityRows2 sampleCapacityRowList
      (fun _ => Except.ok sampleCapacityFormulaTermRows)
      (fun _ => Except.ok sampleCapacityIndexRows) sampleCapacityFormulaTermRows
      sampleCapacityFormulaTermList sampleCapacityIndexRows sampleCapacityIndexList
      rfl rfl (by decide) rfl rfl rfl rfl rfl rfl (by decide) (by decide)⟩

/-- Counterexample to C20: a non-standard capacity deal with a formula, one term row and
two index rows. The fetch returns one header with one term of volume sequence 0, and the
second index attached to that term has volume sequence 1. -/
theorem C20_counterexample :
    ∃ hd ∈ headersOf (GetNucCapacityDealList (Except.ok sampleCapacityFormulaRows)
        (fun _ => Except.ok sampleCapacityFormulaTermRows)
        (fun _ => Except.ok sampleCapacityIndexRows)),
      ∃ t ∈ hd.Terms, ∃ x ∈ t.Indexes1, x.VolSeq ≠ t.VolSeq := by
  decide

end Nucleus
